import Mathlib

/-!
# Perpendicular Laplacian inversion, PETSc back end (`petsc_laplace.cxx`)

A shallow embedding of the index mapping, the field/vector marshalling and the
matrix assembly of `LaplacePetsc`, together with the properties proved about them.

Conventions of the embedding:
* C++ `int` values are `Int`; no arithmetic here comes near the machine range.
* `BoutReal` / `PetscScalar` values are rationals: arithmetic is exact.
* A `for (int x = lo; x < hi; x++)` loop is a left fold over `intRange lo hi`.
* PETSc vectors are functions from the global index to the value, and
  `VecSetValues(.., INSERT_VALUES)` is a point update.
* A PETSc matrix is the log of its `MatSetValues(.., INSERT_VALUES)` calls, newest
  first; the stored value of a position is the newest logged value for it.
* A thrown `BoutException` is `Except.error` carrying the message.
-/

namespace LaplacePetsc

/-! ## Data model -/

/-- The part of the mesh object that `petsc_laplace.cxx` reads. -/
structure Mesh where
  xstart : Int
  xend : Int
  ngx : Int
  ngz : Int
  firstX : Bool
  lastX : Bool
  dx : Int → Int → ℚ
  dz : ℚ
  g11 : Int → Int → ℚ
  g33 : Int → Int → ℚ
  g13 : Int → Int → ℚ
  G1 : Int → Int → ℚ
  G3 : Int → Int → ℚ
  ShiftXderivs : Bool
  IncIntShear : Bool
  IntShiftTorsion : Int → Int → ℚ

/-- A `FieldPerp`: `f x z` is `f[x][z]`. -/
abbrev FieldPerp := Int → Int → ℚ

/-- A `Field3D` coefficient: `c x y z` is `c[x][y][z]`. -/
abbrev Field3D := Int → Int → Int → ℚ

/-- A PETSc vector, indexed by the global row. -/
abbrev Vec := Int → ℚ

/-- A PETSc matrix as the log of inserted `(row, column, value)` triples, newest first. -/
abbrev Mat := List (Int × Int × ℚ)

/-- The values of the boundary-flag bits, declared in a header outside this file. -/
structure FlagBits where
  INVERT_AC_GRAD : Nat
  INVERT_SET : Nat
  INVERT_RHS : Nat

/-- The members of a `LaplacePetsc` object that the assembly and the marshalling read. -/
structure Solver where
  mesh : Mesh
  bits : FlagBits
  Istart : Int
  Iend : Int
  fourth_order : Bool
  inner_boundary_flags : Nat
  outer_boundary_flags : Nat
  all_terms : Bool
  nonuniform : Bool
  A : Field3D
  C1 : Field3D
  C2 : Field3D
  D : Field3D
  Ex : Field3D
  Ez : Field3D
  issetD : Bool
  issetC : Bool
  issetE : Bool

/-- The member `meshz`, set by the constructor to `mesh->ngz-1`. -/
def Solver.meshz (s : Solver) : Int := s.mesh.ngz - 1

/-- The local size `localN` computed by the constructor. -/
def localN (m : Mesh) : Int :=
  let n0 := (m.xend - m.xstart + 1) * (m.ngz - 1)
  let n1 := if m.firstX then n0 + m.xstart * (m.ngz - 1) else n0
  if m.lastX then n1 + m.xstart * (m.ngz - 1) else n1

/-! ## Loops -/

/-- The values taken by `x` in `for (int x = lo; x < hi; x++)`. -/
def intRange (lo hi : Int) : List Int :=
  (List.range (hi - lo).toNat).map (fun (k : Nat) => lo + (k : Int))

/-- The loop `for (int x = lo; x < hi; x++) body`, threading the state. -/
def forLoop {σ : Type} (lo hi : Int) (body : Int → σ → σ) (st : σ) : σ :=
  (intRange lo hi).foldl (fun acc x => body x acc) st

/-- The loop `for (int x = lo; x < hi; x++) body` where the body may throw. -/
def forLoopM {σ : Type} (lo hi : Int) (body : Int → σ → Except String σ) (st : σ) :
    Except String σ :=
  (intRange lo hi).foldlM (fun acc x => body x acc) st

/-! ## Vectors, fields and the matrix log -/

/-- The call `VecSetValues(v, 1, &i, &val, INSERT_VALUES)`. -/
def VecSetValues (v : Vec) (i : Int) (val : ℚ) : Vec :=
  fun j => if j = i then val else v j

/-- The assignment `f[x][z] = val`. -/
def FieldPerp.set (f : FieldPerp) (x z : Int) (val : ℚ) : FieldPerp :=
  fun a b => if a = x ∧ b = z then val else f a b

/-- The call `MatSetValues(MatA, 1, &i, 1, &index, &ele, INSERT_VALUES)`. -/
def MatSetValues (M : Mat) (i index : Int) (ele : ℚ) : Mat :=
  (i, index, ele) :: M

/-- The stored value at `(i, j)`: the newest logged insertion, if there is one. -/
def Mat.get (M : Mat) (i j : Int) : Option ℚ :=
  (M.find? (fun e => decide (e.1 = i ∧ e.2.1 = j))).map (fun e => e.2.2)

/-- The columns of row `i` that hold a stored value, without repetition. -/
def Mat.rowCols (M : Mat) (i : Int) : List Int :=
  ((M.filter (fun e => decide (e.1 = i))).map (fun e => e.2.1)).dedup

/-- Row `i` of the stored matrix applied to the vector `v`. -/
def Mat.mulVecRow (M : Mat) (i : Int) (v : Vec) : ℚ :=
  ((M.rowCols i).map (fun j => (M.get i j).getD 0 * v j)).sum

/-! ## Field/vector marshalling -/

/-- The three loop nests of `fieldToVec`, with the statement executed per cell left
open: `body i x z` stands for the loop body before its `i++`. -/
def fieldToVecLoops {σ : Type} (s : Solver) (body : Int → Int → Int → σ → σ)
    (st0 : Int × σ) : Int × σ :=
  let step := fun (x z : Int) (st : Int × σ) => (st.1 + 1, body st.1 x z st.2)
  let st1 :=
    if s.mesh.firstX then
      forLoop 0 s.mesh.xstart (fun x st => forLoop 0 (s.mesh.ngz - 1) (step x) st) st0
    else st0
  let st2 :=
    forLoop s.mesh.xstart (s.mesh.xend + 1)
      (fun x st => forLoop 0 (s.mesh.ngz - 1) (step x) st) st1
  if s.mesh.lastX then
    forLoop (s.mesh.xend + 1) s.mesh.ngx
      (fun x st => forLoop 0 (s.mesh.ngz - 1) (step x) st) st2
  else st2

/-- Modelled from the spec: the macro `ASSERT1` of `bout/assert.hxx`, which is not part
of this file; a failed assertion aborts with an exception. -/
def ASSERT1 (cond : Bool) : Except String Unit :=
  if cond then .ok () else .error "Assertion failed"

/-- The method `fieldToVec(f, bs)`: copy `f` into the vector, row by row. -/
def fieldToVec (s : Solver) (f : FieldPerp) (bs : Vec) : Except String Vec :=
  let st := fieldToVecLoops s (fun i x z v => VecSetValues v i (f x z)) (s.Istart, bs)
  match ASSERT1 (decide (st.1 = s.Iend)) with
  | .ok _ => .ok st.2
  | .error e => .error e

/-- The three loop nests of `vecToField`, with the statement executed per cell left
open. -/
def vecToFieldLoops {σ : Type} (s : Solver) (body : Int → Int → Int → σ → σ)
    (st0 : Int × σ) : Int × σ :=
  let step := fun (x z : Int) (st : Int × σ) => (st.1 + 1, body st.1 x z st.2)
  let st1 :=
    if s.mesh.firstX then
      forLoop 0 s.mesh.xstart (fun x st => forLoop 0 (s.mesh.ngz - 1) (step x) st) st0
    else st0
  let st2 :=
    forLoop s.mesh.xstart (s.mesh.xend + 1)
      (fun x st => forLoop 0 (s.mesh.ngz - 1) (step x) st) st1
  if s.mesh.lastX then
    forLoop (s.mesh.xend + 1) s.mesh.ngx
      (fun x st => forLoop 0 (s.mesh.ngz - 1) (step x) st) st2
  else st2

/-- The method `vecToField(xs, f)`. The argument `f` is the content of the field after
`f.allocate()`, which the loops overwrite cell by cell. -/
def vecToField (s : Solver) (xs : Vec) (f : FieldPerp) : Except String FieldPerp :=
  let st := vecToFieldLoops s (fun i x z g => FieldPerp.set g x z (xs i)) (s.Istart, f)
  match ASSERT1 (decide (st.1 = s.Iend)) with
  | .ok _ => .ok st.2
  | .error e => .error e

/-! ## Index mapping and coefficients -/

/-- The global x index `row_new` that `Element` computes for the cell column `x + xshift`;
`xoffset` is `Istart / meshz`. -/
def Element.row_new (s : Solver) (x xshift : Int) : Int :=
  let xoffset := Int.tdiv s.Istart s.meshz
  let row_new := x + xshift
  if !s.mesh.firstX then row_new + (xoffset - s.mesh.xstart) else row_new

/-- The z index `col_new` that `Element` computes for `z + zshift`. -/
def Element.col_new (s : Solver) (z zshift : Int) : Int :=
  let col_new := z + zshift
  if col_new < 0 then col_new + s.meshz
  else if col_new > s.meshz - 1 then col_new - s.meshz
  else col_new

/-- The method `Element(i, x, z, xshift, zshift, ele, MatA)`: insert `ele` in row `i` at
the column of the cell `(x + xshift, z + zshift)`. -/
def Element (s : Solver) (i x z xshift zshift : Int) (ele : ℚ) (MatA : Mat) :
    Except String Mat :=
  if Int.tmod s.Istart s.meshz ≠ 0 then
    .error "Petsc index sanity check 3 failed"
  else
    let index := (Element.row_new s x xshift * s.meshz) + Element.col_new s z zshift
    .ok (MatSetValues MatA i index ele)

/-- The method `Coeffs(x, y, z, coef1, .., coef5)`; the five results are returned as a
tuple. -/
def Coeffs (s : Solver) (x y z : Int) : ℚ × ℚ × ℚ × ℚ × ℚ :=
  let m := s.mesh
  let coef1 := m.g11 x y
  let coef2 := m.g33 x y
  let coef3 := 2 * m.g13 x y
  let coef4 : ℚ := if s.all_terms then m.G1 x y else 0
  let coef5 : ℚ := if s.all_terms then m.G3 x y else 0
  let coef4 :=
    if s.nonuniform ∧ x ≠ 0 ∧ x ≠ m.ngx - 1 then
      coef4 - (1 / 2) * ((m.dx (x + 1) y - m.dx (x - 1) y) / (m.dx x y) ^ 2) * coef1
    else coef4
  let coef2 :=
    if m.ShiftXderivs ∧ m.IncIntShear then
      coef2 + m.g11 x y * m.IntShiftTorsion x y * m.IntShiftTorsion x y
    else coef2
  let coef3 := if m.ShiftXderivs ∧ m.IncIntShear then 0 else coef3
  let coef1 := if s.issetD then coef1 * s.D x y z else coef1
  let coef2 := if s.issetD then coef2 * s.D x y z else coef2
  let coef3 := if s.issetD then coef3 * s.D x y z else coef3
  let coef4 := if s.issetD then coef4 * s.D x y z else coef4
  let coef5 := if s.issetD then coef5 * s.D x y z else coef5
  let zp := if z + 1 > s.meshz - 1 then z + 1 - s.meshz else z + 1
  let zm := if z - 1 < 0 then z - 1 + s.meshz else z - 1
  let zpp := if z + 2 > s.meshz - 1 then z + 2 - s.meshz else z + 2
  let zmm := if z - 2 < 0 then z - 2 + s.meshz else z - 2
  let ddx_C : ℚ :=
    if s.fourth_order then
      (-s.C2 (x + 2) y z + 8 * s.C2 (x + 1) y z - 8 * s.C2 (x - 1) y z + s.C2 (x - 2) y z)
        / (12 * m.dx x y * s.C1 x y z)
    else (s.C2 (x + 1) y z - s.C2 (x - 1) y z) / (2 * m.dx x y * s.C1 x y z)
  let ddz_C : ℚ :=
    if s.fourth_order then
      (-s.C2 x y zpp + 8 * s.C2 x y zp - 8 * s.C2 x y zm + s.C2 x y zmm)
        / (12 * m.dz * s.C1 x y z)
    else (s.C2 x y zp - s.C2 x y zm) / (2 * m.dz * s.C1 x y z)
  let applyC : Bool := s.issetC && decide (x > 1 ∧ x < m.ngx - 2)
  let coef4 := if applyC then coef4 + (m.g11 x y * ddx_C + m.g13 x y * ddz_C) else coef4
  let coef5 := if applyC then coef5 + (m.g13 x y * ddx_C + m.g33 x y * ddz_C) else coef5
  let coef4 := if s.issetE then coef4 + s.Ex x y z else coef4
  let coef5 := if s.issetE then coef5 + s.Ez x y z else coef5
  (coef1, coef2, coef3, coef4, coef5)

/-! ## Stencil tables

Each table lists, in the order of the source, the `(xshift, zshift, val)` arguments of
the `Element` calls made for one row. -/

/-- The `Element` calls of an interior row, from the coefficients and the spacings. -/
def interiorStencil (fourth_order : Bool) (A0 A1 A2 A3 A4 A5 dx dz : ℚ) :
    List (Int × Int × ℚ) :=
  let dx2 := dx ^ 2
  let dz2 := dz ^ 2
  let dxdz := dx * dz
  if fourth_order then
    [ (0, 0, A0 - (5 / 2) * ((A1 / dx2) + (A2 / dz2))),
      (-2, -2, A3 / (144 * dxdz)),
      (-2, -1, -1 * A3 / (18 * dxdz)),
      (-2, 0, (1 / 12) * ((-1 * A1 / dx2) + (A4 / dx))),
      (-2, 1, A3 / (18 * dxdz)),
      (-2, 2, -1 * A3 / (144 * dxdz)),
      (-1, -2, -1 * A3 / (18 * dxdz)),
      (-1, -1, 4 * A3 / (9 * dxdz)),
      (-1, 0, (4 * A1 / (3 * dx2)) - (2 * A4 / (3 * dx))),
      (-1, 1, -4 * A3 / (9 * dxdz)),
      (-1, 2, A3 / (18 * dxdz)),
      (0, -2, (1 / 12) * ((-1 * A2 / dz2) + (A5 / dz))),
      (0, -1, (4 * A2 / (3 * dz2)) - (2 * A5 / (3 * dz))),
      (0, 1, (4 * A2 / (3 * dz2)) + (2 * A5 / (3 * dz))),
      (0, 2, (-1 / 12) * ((A2 / dz2) + (A5 / dz))),
      (1, -2, A3 / (18 * dxdz)),
      (1, -1, -4 * A3 / (9 * dxdz)),
      (1, 0, (4 * A1 / (3 * dx2)) + (2 * A4 / (3 * dx))),
      (1, 1, 4 * A3 / (9 * dxdz)),
      (1, 2, -1 * A3 / (18 * dxdz)),
      (2, -2, -1 * A3 / (144 * dxdz)),
      (2, -1, A3 / (18 * dxdz)),
      (2, 0, (-1 / 12) * ((A1 / dx2) + (A4 / dx))),
      (2, 1, -1 * A3 / (18 * dxdz)),
      (2, 2, A3 / (144 * dxdz)) ]
  else
    [ (0, 0, A0 - 2 * ((A1 / dx2) + (A2 / dz2))),
      (-1, -1, A3 / (4 * dxdz)),
      (-1, 0, (A1 / dx2) - A4 / (2 * dx)),
      (-1, 1, -1 * A3 / (4 * dxdz)),
      (0, -1, (A2 / dz2) - (A5 / (2 * dz))),
      (0, 1, (A2 / dz2) + (A5 / (2 * dz))),
      (1, -1, -1 * A3 / (4 * dxdz)),
      (1, 0, (A1 / dx2) + (A4 / (2 * dx))),
      (1, 1, A3 / (4 * dxdz)) ]

/-- The `Element` calls of a row of the inner x boundary; `grad` is the test
`inner_boundary_flags & INVERT_AC_GRAD`. -/
def innerBoundaryStencil (grad fourth_order : Bool) (dx : ℚ) : List (Int × Int × ℚ) :=
  if grad then
    if fourth_order then
      [ (0, 0, -25 / (12 * dx)),
        (1, 0, 4 / dx),
        (2, 0, -3 / dx),
        (3, 0, 4 / (3 * dx)),
        (4, 0, -1 / (4 * dx)) ]
    else
      [ (0, 0, -3 / (2 * dx)),
        (1, 0, 2 / dx),
        (2, 0, -1 / (2 * dx)) ]
  else
    [ (0, 0, 1), (1, 0, 0), (2, 0, 0), (3, 0, 0), (4, 0, 0) ]

/-- The `Element` calls of a row of the outer x boundary; `grad` is the test
`outer_boundary_flags & INVERT_AC_GRAD`. The diagonal is set to 1 first in every case. -/
def outerBoundaryStencil (grad fourth_order : Bool) (dx : ℚ) : List (Int × Int × ℚ) :=
  (0, 0, 1) ::
    (if grad then
      if fourth_order then
        [ (0, 0, 25 / (12 * dx)),
          (-1, 0, -4 / dx),
          (-2, 0, 3 / dx),
          (-3, 0, -4 / (3 * dx)),
          (-4, 0, 1 / (4 * dx)) ]
      else
        [ (0, 0, 3 / (2 * dx)),
          (-1, 0, -2 / dx),
          (-2, 0, 1 / (2 * dx)) ]
    else
      [ (-1, 0, 0), (-2, 0, 0), (-3, 0, 0), (-4, 0, 0) ])

/-! ## Assembly of the linear system in `solve` -/

/-- The PETSc members written by the assembly: the matrix and the two vectors. -/
structure AsmState where
  MatA : Mat
  bs : Vec
  xs : Vec

/-- The test `flags & bit` of the source, as a boolean. -/
def flagSet (flags bit : Nat) : Bool := (flags &&& bit) != 0

/-- The `Element` calls of one row, made in the order of the table. -/
def emitRow (s : Solver) (i x z : Int) (tbl : List (Int × Int × ℚ)) (MatA : Mat) :
    Except String Mat :=
  tbl.foldlM (fun M e => Element s i x z e.1 e.2.1 e.2.2 M) MatA

/-- The value placed in the right-hand side for a boundary row. -/
def boundaryRhs (s : Solver) (flags : Nat) (b x0 : FieldPerp) (x z : Int) : ℚ :=
  if flagSet flags s.bits.INVERT_RHS then b x z
  else if flagSet flags s.bits.INVERT_SET then x0 x z
  else 0

/-- The body of the inner boundary loop of `solve`, before its `i++`. -/
def innerBoundaryRow (s : Solver) (y : Int) (b x0 : FieldPerp) (i x z : Int)
    (st : AsmState) : Except String AsmState :=
  match emitRow s i x z
      (innerBoundaryStencil (flagSet s.inner_boundary_flags s.bits.INVERT_AC_GRAD)
        s.fourth_order (s.mesh.dx x y)) st.MatA with
  | .error e => .error e
  | .ok M =>
    .ok { MatA := M
          bs := VecSetValues st.bs i (boundaryRhs s s.inner_boundary_flags b x0 x z)
          xs := VecSetValues st.xs i (x0 x z) }

/-- The body of the main-domain loop of `solve`, before its `i++`. -/
def interiorRow (s : Solver) (y : Int) (b x0 : FieldPerp) (i x z : Int)
    (st : AsmState) : Except String AsmState :=
  let A0 := s.A x y z
  let c := Coeffs s x y z
  match emitRow s i x z
      (interiorStencil s.fourth_order A0 c.1 c.2.1 c.2.2.1 c.2.2.2.1 c.2.2.2.2
        (s.mesh.dx x y) s.mesh.dz) st.MatA with
  | .error e => .error e
  | .ok M =>
    .ok { MatA := M
          bs := VecSetValues st.bs i (b x z)
          xs := VecSetValues st.xs i (x0 x z) }

/-- The body of the outer boundary loop of `solve`, before its `i++`. -/
def outerBoundaryRow (s : Solver) (y : Int) (b x0 : FieldPerp) (i x z : Int)
    (st : AsmState) : Except String AsmState :=
  match emitRow s i x z
      (outerBoundaryStencil (flagSet s.outer_boundary_flags s.bits.INVERT_AC_GRAD)
        s.fourth_order (s.mesh.dx x y)) st.MatA with
  | .error e => .error e
  | .ok M =>
    .ok { MatA := M
          bs := VecSetValues st.bs i (boundaryRhs s s.outer_boundary_flags b x0 x z)
          xs := VecSetValues st.xs i (x0 x z) }

/-- The three loop nests of the assembly in `solve`, with the three row bodies left
open; each body may throw. -/
def assemblyLoops {σ : Type} (s : Solver)
    (inner interior outer : Int → Int → Int → σ → Except String σ)
    (st0 : Int × σ) : Except String (Int × σ) :=
  let step := fun (body : Int → Int → Int → σ → Except String σ) (x z : Int)
      (st : Int × σ) =>
    match body st.1 x z st.2 with
    | .error e => (.error e : Except String (Int × σ))
    | .ok t => .ok (st.1 + 1, t)
  let r1 :=
    if s.mesh.firstX then
      forLoopM 0 s.mesh.xstart
        (fun x st => forLoopM 0 (s.mesh.ngz - 1) (step inner x) st) st0
    else .ok st0
  match r1 with
  | .error e => .error e
  | .ok st1 =>
    match forLoopM s.mesh.xstart (s.mesh.xend + 1)
        (fun x st => forLoopM 0 (s.mesh.ngz - 1) (step interior x) st) st1 with
    | .error e => .error e
    | .ok st2 =>
      if s.mesh.lastX then
        forLoopM (s.mesh.xend + 1) s.mesh.ngx
          (fun x st => forLoopM 0 (s.mesh.ngz - 1) (step outer x) st) st2
      else .ok st2

/-- The assembly part of `solve(b, x0)` for the plane `y`, up to and including the index
check; `st0` holds the matrix and the vectors as the previous call left them. -/
def solveAssemble (s : Solver) (y : Int) (b x0 : FieldPerp) (st0 : AsmState) :
    Except String AsmState :=
  match assemblyLoops s (innerBoundaryRow s y b x0) (interiorRow s y b x0)
      (outerBoundaryRow s y b x0) (s.Istart, st0) with
  | .error e => .error e
  | .ok r =>
    if r.1 ≠ s.Iend then .error "Petsc index sanity check failed" else .ok r.2

/-- The three loop nests of the solution extraction in `solve`, with the statement
executed per cell left open. -/
def extractLoops {σ : Type} (s : Solver) (body : Int → Int → Int → σ → σ)
    (st0 : Int × σ) : Int × σ :=
  let step := fun (x z : Int) (st : Int × σ) => (st.1 + 1, body st.1 x z st.2)
  let st1 :=
    if s.mesh.firstX then
      forLoop 0 s.mesh.xstart (fun x st => forLoop 0 (s.mesh.ngz - 1) (step x) st) st0
    else st0
  let st2 :=
    forLoop s.mesh.xstart (s.mesh.xend + 1)
      (fun x st => forLoop 0 (s.mesh.ngz - 1) (step x) st) st1
  if s.mesh.lastX then
    forLoop (s.mesh.xend + 1) s.mesh.ngx
      (fun x st => forLoop 0 (s.mesh.ngz - 1) (step x) st) st2
  else st2

/-- The extraction part of `solve`: copy the solution vector `xs` into the field `sol`
(set to zero at entry), then check the index. -/
def solveExtract (s : Solver) (xs : Vec) : Except String FieldPerp :=
  let st := extractLoops s (fun i x z g => FieldPerp.set g x z (xs i))
    (s.Istart, fun _ _ => 0)
  if st.1 ≠ s.Iend then .error "Petsc index sanity check 2 failed" else .ok st.2

/-! ## Traces of the four row traversals

Running a traversal with a body that records `(i, x, z)` gives the sequence of cells it
visits together with the row index each cell gets. -/

/-- The recording body. -/
def record (i x z : Int) (t : List (Int × Int × Int)) : List (Int × Int × Int) :=
  t ++ [(i, x, z)]

/-- The rows visited by the assembly of `solve`. -/
def assemblyTrace (s : Solver) : Except String (List (Int × Int × Int)) :=
  match assemblyLoops s (fun i x z t => .ok (record i x z t))
      (fun i x z t => .ok (record i x z t)) (fun i x z t => .ok (record i x z t))
      (s.Istart, []) with
  | .error e => .error e
  | .ok r => .ok r.2

/-- The rows visited by the extraction of `solve`. -/
def extractTrace (s : Solver) : List (Int × Int × Int) :=
  (extractLoops s record (s.Istart, [])).2

/-- The rows visited by `fieldToVec`. -/
def fieldToVecTrace (s : Solver) : List (Int × Int × Int) :=
  (fieldToVecLoops s record (s.Istart, [])).2

/-- The rows visited by `vecToField`. -/
def vecToFieldTrace (s : Solver) : List (Int × Int × Int) :=
  (vecToFieldLoops s record (s.Istart, [])).2

/-! ## Row sequences, example configurations and proof-side definitions -/

/-- The rows of one loop nest over `lo ≤ x < hi`, `0 ≤ z < mz`, when the running index
enters the nest as `i0`. -/
def blockRows (i0 lo hi mz : Int) : List (Int × Int × Int) :=
  (intRange lo hi).flatMap (fun x => (intRange 0 mz).map (fun z => (i0 + (x - lo) * mz + z, x, z)))

/-- The cells of one loop nest over `lo ≤ x < hi`, `0 ≤ z < mz`, in loop order. -/
def cellBlock (lo hi mz : Int) : List (Int × Int) :=
  (intRange lo hi).flatMap (fun x => (intRange 0 mz).map (fun z => (x, z)))

/-- The first local x whose rows this partition owns: 0 on the first x-partition (which
owns the inner boundary rows) and `xstart` on the others. -/
def xbase (s : Solver) : Int := if s.mesh.firstX then 0 else s.mesh.xstart

/-- The cells of the local grid in row order: inner boundary (first partition only),
main domain, outer boundary (last partition only). -/
def cellSequence (s : Solver) : List (Int × Int) :=
  (if s.mesh.firstX then cellBlock 0 s.mesh.xstart s.meshz else [])
    ++ cellBlock s.mesh.xstart (s.mesh.xend + 1) s.meshz
    ++ (if s.mesh.lastX then cellBlock (s.mesh.xend + 1) s.mesh.ngx s.meshz else [])

/-- The cells in row order, each with the row index `Istart + (x - xbase)*meshz + z`. -/
def rowSequence (s : Solver) : List (Int × Int × Int) :=
  (cellSequence s).map (fun c => (s.Istart + (c.1 - xbase s) * s.meshz + c.2, c.1, c.2))

/-- The running index on entry to the main-domain loop nest. -/
def indexAfterInner (s : Solver) : Int :=
  if s.mesh.firstX then s.Istart + (s.mesh.xstart.toNat : Int) * (s.meshz.toNat : Int)
  else s.Istart

/-- The running index on exit from the main-domain loop nest. -/
def indexAfterInterior (s : Solver) : Int :=
  indexAfterInner s + ((s.mesh.xend + 1 - s.mesh.xstart).toNat : Int) * (s.meshz.toNat : Int)

/-- The running index after the last loop nest. -/
def indexAtEnd (s : Solver) : Int :=
  if s.mesh.lastX then
    indexAfterInterior s + ((s.mesh.ngx - (s.mesh.xend + 1)).toNat : Int) * (s.meshz.toNat : Int)
  else indexAfterInterior s

/-- The rows of the inner boundary nest, with the running index. -/
def innerRows (s : Solver) : List (Int × Int × Int) :=
  if s.mesh.firstX then blockRows s.Istart 0 s.mesh.xstart s.meshz else []

/-- The rows of the main-domain nest, with the running index. -/
def interiorRows (s : Solver) : List (Int × Int × Int) :=
  blockRows (indexAfterInner s) s.mesh.xstart (s.mesh.xend + 1) s.meshz

/-- The rows of the outer boundary nest, with the running index. -/
def outerRows (s : Solver) : List (Int × Int × Int) :=
  if s.mesh.lastX then blockRows (indexAfterInterior s) (s.mesh.xend + 1) s.mesh.ngx s.meshz
  else []

/-- A row body applied to an entry of a row list. -/
def applyRow {σ : Type} (body : Int → Int → Int → σ → σ) (a : σ) (r : Int × Int × Int) : σ :=
  body r.1 r.2.1 r.2.2 a

/-- A throwing row body applied to an entry of a row list. -/
def applyRowM {σ : Type} (body : Int → Int → Int → σ → Except String σ) (a : σ)
    (r : Int × Int × Int) : Except String σ :=
  body r.1 r.2.1 r.2.2 a

/-- A throwing row body acting on a state that may already hold an exception. -/
def liftRow {σ : Type} (body : Int → Int → Int → σ → Except String σ) :
    Int → Int → Int → Except String σ → Except String σ :=
  fun i x z acc =>
    match acc with
    | .error e => .error e
    | .ok t => body i x z t

/-- Move the running index inside the exception layer. -/
def proj {σ : Type} (st : Int × Except String σ) : Except String (Int × σ) :=
  match st.2 with
  | .error e => .error e
  | .ok t => .ok (st.1, t)

/-- A mesh of the given shape with unit spacings and the identity metric. -/
def Mesh.flat (xstart xend ngx ngz : Int) (firstX lastX : Bool) : Mesh where
  xstart := xstart
  xend := xend
  ngx := ngx
  ngz := ngz
  firstX := firstX
  lastX := lastX
  dx := fun _ _ => 1
  dz := 1
  g11 := fun _ _ => 1
  g33 := fun _ _ => 1
  g13 := fun _ _ => 0
  G1 := fun _ _ => 0
  G3 := fun _ _ => 0
  ShiftXderivs := false
  IncIntShear := false
  IntShiftTorsion := fun _ _ => 0

/-- Three distinct single bits for the boundary flags, used in the examples. -/
def FlagBits.standard : FlagBits where
  INVERT_AC_GRAD := 2
  INVERT_SET := 16
  INVERT_RHS := 32

/-- A solver on the mesh `m` with ownership range `[Istart, Iend)`, no coefficient field
set, `A = 0`, and the given order and boundary flags. -/
def Solver.plain (m : Mesh) (Istart Iend : Int) (fourth_order : Bool)
    (inner_boundary_flags outer_boundary_flags : Nat) : Solver where
  mesh := m
  bits := FlagBits.standard
  Istart := Istart
  Iend := Iend
  fourth_order := fourth_order
  inner_boundary_flags := inner_boundary_flags
  outer_boundary_flags := outer_boundary_flags
  all_terms := false
  nonuniform := false
  A := fun _ _ _ => 0
  C1 := fun _ _ _ => 1
  C2 := fun _ _ _ => 1
  D := fun _ _ _ => 1
  Ex := fun _ _ _ => 0
  Ez := fun _ _ _ => 0
  issetD := false
  issetC := false
  issetE := false

/-- An empty matrix and zero vectors. -/
def AsmState.empty : AsmState where
  MatA := []
  bs := fun _ => 0
  xs := fun _ => 0

/-- A middle x-partition: two interior columns, one guard column on each side, three z
points; it owns the rows 9..14, after a first partition owning 9 rows. -/
def middlePartition : Solver :=
  Solver.plain (Mesh.flat 1 2 4 4 false false) 9 15 false 16 16

/-- A single partition whose outer guard region (two columns) is wider than `xstart`
(one column); `Iend - Istart` is the constructor's `localN = 3`. -/
def wideOuterGuard : Solver :=
  Solver.plain (Mesh.flat 1 1 4 2 true true) 0 3 false 16 16

/-- A single partition with two interior columns, one guard column on each side and
three z points; it owns the rows 0..11. -/
def singlePartition : Solver :=
  Solver.plain (Mesh.flat 1 2 4 4 true true) 0 12 false 16 16

/-- A single partition with one z point (`ngz = 2`, so `meshz = 1`) in fourth-order
mode. -/
def oneZPoint : Solver :=
  Solver.plain (Mesh.flat 2 3 6 2 true true) 0 6 true 16 16

/-- The last x-partition of a decomposed grid, after a first partition owning 9 rows. -/
def lastPartition : Solver :=
  Solver.plain (Mesh.flat 1 2 4 4 false true) 9 18 false 16 16

/-- The polynomial `sum over i, j ≤ n of c i j * x^i * z^j`. -/
def polyEval (n : Nat) (c : Nat → Nat → ℚ) (x z : ℚ) : ℚ :=
  ∑ i ∈ Finset.range (n + 1), ∑ j ∈ Finset.range (n + 1), c i j * x ^ i * z ^ j

/-- The partial derivative in x of `polyEval n c`. -/
def polyEvalDx (n : Nat) (c : Nat → Nat → ℚ) (x z : ℚ) : ℚ :=
  ∑ i ∈ Finset.range (n + 1), ∑ j ∈ Finset.range (n + 1),
    c i j * ((i : ℚ) * x ^ (i - 1)) * z ^ j

/-- The partial derivative in z of `polyEval n c`. -/
def polyEvalDz (n : Nat) (c : Nat → Nat → ℚ) (x z : ℚ) : ℚ :=
  ∑ i ∈ Finset.range (n + 1), ∑ j ∈ Finset.range (n + 1),
    c i j * x ^ i * ((j : ℚ) * z ^ (j - 1))

/-- The second partial derivative in x of `polyEval n c`. -/
def polyEvalDxx (n : Nat) (c : Nat → Nat → ℚ) (x z : ℚ) : ℚ :=
  ∑ i ∈ Finset.range (n + 1), ∑ j ∈ Finset.range (n + 1),
    c i j * ((i : ℚ) * ((i : ℚ) - 1) * x ^ (i - 2)) * z ^ j

/-- The second partial derivative in z of `polyEval n c`. -/
def polyEvalDzz (n : Nat) (c : Nat → Nat → ℚ) (x z : ℚ) : ℚ :=
  ∑ i ∈ Finset.range (n + 1), ∑ j ∈ Finset.range (n + 1),
    c i j * x ^ i * ((j : ℚ) * ((j : ℚ) - 1) * z ^ (j - 2))

/-- The mixed partial derivative of `polyEval n c`. -/
def polyEvalDxz (n : Nat) (c : Nat → Nat → ℚ) (x z : ℚ) : ℚ :=
  ∑ i ∈ Finset.range (n + 1), ∑ j ∈ Finset.range (n + 1),
    c i j * ((i : ℚ) * x ^ (i - 1)) * ((j : ℚ) * z ^ (j - 1))

/-- A stencil table applied to the samples of `p` on the uniform grid through `(x, z)`
with spacings `dx`, `dz`: the sum of `val * p (x + xshift*dx, z + zshift*dz)`. -/
def stencilApply (tbl : List (Int × Int × ℚ)) (p : ℚ → ℚ → ℚ) (x z dx dz : ℚ) : ℚ :=
  (tbl.map (fun e => e.2.2 * p (x + (e.1 : ℚ) * dx) (z + (e.2.1 : ℚ) * dz))).sum

/-- The second-order centred first difference of the monomial `x^i`. -/
def d1Second (x dx : ℚ) (i : Nat) : ℚ :=
  ((x + dx) ^ i - (x - dx) ^ i) / (2 * dx)

/-- The second-order centred second difference of the monomial `x^i`. -/
def d2Second (x dx : ℚ) (i : Nat) : ℚ :=
  ((x + dx) ^ i - 2 * x ^ i + (x - dx) ^ i) / dx ^ 2

/-- The fourth-order centred first difference of the monomial `x^i`. -/
def d1Fourth (x dx : ℚ) (i : Nat) : ℚ :=
  ((x - 2 * dx) ^ i - 8 * (x - dx) ^ i + 8 * (x + dx) ^ i - (x + 2 * dx) ^ i) / (12 * dx)

/-- The fourth-order centred second difference of the monomial `x^i`. -/
def d2Fourth (x dx : ℚ) (i : Nat) : ℚ :=
  (-(x - 2 * dx) ^ i + 16 * (x - dx) ^ i - 30 * x ^ i + 16 * (x + dx) ^ i
    - (x + 2 * dx) ^ i) / (12 * dx ^ 2)

/-- The log entries that the `Element` calls of a table add for the row `i` of the cell
`(x, z)`, newest first. -/
def emitted (s : Solver) (i x z : Int) (tbl : List (Int × Int × ℚ)) : Mat :=
  (tbl.map (fun e =>
    (i, Element.row_new s x e.1 * s.meshz + Element.col_new s z e.2.1, e.2.2))).reverse

/-- A row body that cannot throw: it logs the entries `E i x z` and sets the two vector
entries of row `i`. -/
def pureRow (E : Int → Int → Int → Mat) (β γ : Int → Int → ℚ) (i x z : Int)
    (st : AsmState) : AsmState where
  MatA := E i x z ++ st.MatA
  bs := VecSetValues st.bs i (β x z)
  xs := VecSetValues st.xs i (γ x z)

/-- The entries of row `i` in the log. -/
def Mat.row (M : Mat) (i : Int) : Mat := M.filter (fun e => decide (e.1 = i))

/-- A single partition with one interior column and one z point, second order, with
the boundary value fixed on both sides. -/
def thinPartition : Solver :=
  Solver.plain (Mesh.flat 1 1 3 2 true true) 0 3 false 16 16

/-- A single partition with one interior column and two z points, second order, with
the boundary value fixed on both sides. -/
def twoZPoints : Solver :=
  Solver.plain (Mesh.flat 1 1 3 3 true true) 0 6 false 16 16

/-! ## Exceptions, options and the PETSc type names -/

/-- The two kinds of exception thrown by this file. -/
inductive BoutError where
  | BoutException (msg : String)
  | BoutIterationFail (msg : String)
  deriving DecidableEq

/-- The Krylov type constants of the PETSc library that the constructor names. -/
inductive KSPType where
  | KSPRICHARDSON | KSPCHEBYSHEV | KSPCG | KSPCGNE | KSPNASH | KSPSTCG | KSPGLTR
  | KSPGMRES | KSPFGMRES | KSPLGMRES | KSPDGMRES | KSPPGMRES | KSPTCQMR | KSPBCGS
  | KSPIBCGS | KSPFBCGS | KSPBCGSL | KSPCGS | KSPTFQMR | KSPCR | KSPLSQR | KSPBICG
  | KSPPREONLY | KSPQCG | KSPMINRES | KSPSYMMLQ | KSPLCD | KSPPYTHON | KSPGCR
  | KSPSPECEST
  deriving DecidableEq

/-- The preconditioner type constants of the PETSc library that the constructor names. -/
inductive PCType where
  | PCNONE | PCSHELL | PCJACOBI | PCSOR | PCLU | PCBJACOBI | PCMG | PCEISENSTAT | PCILU
  | PCICC | PCASM | PCGASM | PCKSP | PCCOMPOSITE | PCREDUNDANT | PCSPAI | PCNN
  | PCCHOLESKY | PCPBJACOBI | PCMAT | PCHYPRE | PCPARMS | PCFIELDSPLIT | PCTFS | PCML
  | PCGALERKIN | PCEXOTIC | PCHMPI | PCSUPPORTGRAPH | PCASA | PCCP | PCBFBT | PCLSC
  | PCPYTHON | PCPFMG | PCSYSPFMG | PCREDISTRIBUTE | PCSVD | PCGAMG | PCSACUSP
  | PCSACUSPPOLY | PCBICGSTABCUSP | PCAINVCUSP | PCBDDC
  deriving DecidableEq

/-- A `char*` that holds a PETSc type name: either a string constant of the library
itself, or a buffer obtained from `new char[40]` (numbered in order of allocation) into
which `strcpy` copied the characters of a constant. -/
inductive TypeStr (α : Type) where
  | constant (c : α)
  | buffer (n : Nat) (copied : α)

/-- The characters a `char*` points to, which is what the PETSc library reads. -/
def TypeStr.chars {α : Type} : TypeStr α → α
  | .constant c => c
  | .buffer _ c => c

/-- The comparison `p == q` of two `char*`: it compares the addresses, not the
characters. A buffer from `new` is at the address of no constant. -/
def TypeStr.ptrEq {α : Type} [DecidableEq α] : TypeStr α → TypeStr α → Bool
  | .constant c, .constant d => decide (c = d)
  | .buffer n _, .buffer m _ => decide (n = m)
  | .constant _, .buffer _ _ => false
  | .buffer _ _, .constant _ => false

/-- Which of the optional type constants the PETSc library at hand defines (the
`#ifdef KSPCHEBYSHEV`, `KSPPGMRES`, `KSPFBCGS` and `PCBDDC` of the constructor). -/
structure PetscLib where
  hasKSPCHEBYSHEV : Bool
  hasKSPPGMRES : Bool
  hasKSPFBCGS : Bool
  hasPCBDDC : Bool

/-- The values of the global-flag bits, declared in a header outside this file. -/
structure GlobalBits where
  INVERT_START_NEW : Nat
  INVERT_4TH_ORDER : Nat

/-- The options section read by the constructor; `none` is an option that is not set,
for which `opts->get` takes the default. -/
structure Options where
  fourth_order : Option Bool
  ksptype : Option String
  pctype : Option String
  richardson_damping_factor : Option ℚ
  chebyshev_max : Option ℚ
  chebyshev_min : Option ℚ
  gmres_max_steps : Option Int
  rtol : Option ℚ
  atol : Option ℚ
  dtol : Option ℚ
  maxits : Option Int
  direct : Option Bool
  rightprec : Option Bool

/-- The nested solver used as preconditioner: its `solve(b)`. -/
abbrev InnerSolver := FieldPerp → Except BoutError FieldPerp

/-- The members set by the constructor that `solve` reads for the Krylov solve.
`rightprec` is `none` when the constructor did not read it; the two implemented-flag
masks are only set when CHECK is defined and are 0 here otherwise. -/
structure SolverConfig where
  implemented_flags : Nat
  implemented_boundary_flags : Nat
  ksptype : TypeStr KSPType
  pctype : TypeStr PCType
  richardson_damping_factor : ℚ
  chebyshev_max : ℚ
  chebyshev_min : ℚ
  gmres_max_steps : Int
  rtol : ℚ
  atol : ℚ
  dtol : ℚ
  maxits : Int
  direct : Bool
  rightprec : Option Bool
  pcsolve : Option InnerSolver

/-- The `if` / `else if` chain over the `ksptype` option, in the order of the source:
each entry is the name tested and the constant copied into `ksptype`. -/
def kspChain (lib : PetscLib) : List (String × KSPType) :=
  [("richardson", KSPType.KSPRICHARDSON)]
  ++ (if lib.hasKSPCHEBYSHEV then [("chebyshev", KSPType.KSPCHEBYSHEV)] else [])
  ++ [("cg", .KSPCG), ("cgne", .KSPCGNE), ("nash", .KSPNASH), ("stcg", .KSPSTCG),
      ("gltr", .KSPGLTR), ("gmres", .KSPGMRES), ("fgmres", .KSPFGMRES),
      ("lgmres", .KSPLGMRES), ("dgmres", .KSPDGMRES)]
  ++ (if lib.hasKSPPGMRES then [("pgmres", KSPType.KSPPGMRES)] else [])
  ++ [("tcqmr", .KSPTCQMR), ("bcgs", .KSPBCGS), ("ibcgs", .KSPIBCGS)]
  ++ (if lib.hasKSPFBCGS then [("fbcgs", KSPType.KSPFBCGS)] else [])
  ++ [("bcgsl", .KSPBCGSL), ("cgs", .KSPCGS), ("tfqmr", .KSPTFQMR), ("cr", .KSPCR),
      ("lsqr", .KSPLSQR), ("bicg", .KSPBICG), ("preonly", .KSPPREONLY),
      ("qcg", .KSPQCG), ("bicg", .KSPBICG), ("minres", .KSPMINRES),
      ("symmlq", .KSPSYMMLQ), ("lcd", .KSPLCD), ("python", .KSPPYTHON),
      ("gcr", .KSPGCR), ("specest", .KSPSPECEST)]

/-- The `if` / `else if` chain over the `pctype` option, in the order of the source. -/
def pcChain (lib : PetscLib) : List (String × PCType) :=
  [("none", PCType.PCNONE), ("user", .PCSHELL), ("jacobi", .PCJACOBI), ("sor", .PCSOR),
   ("lu", .PCLU), ("shell", .PCSHELL), ("bjacobi", .PCBJACOBI), ("mg", .PCMG),
   ("eisenstat", .PCEISENSTAT), ("ilu", .PCILU), ("icc", .PCICC), ("asm", .PCASM),
   ("gasm", .PCGASM), ("ksp", .PCKSP), ("composite", .PCCOMPOSITE),
   ("redundant", .PCREDUNDANT), ("spai", .PCSPAI), ("nn", .PCNN),
   ("cholesky", .PCCHOLESKY), ("pbjacobi", .PCPBJACOBI), ("mat", .PCMAT),
   ("hypre", .PCHYPRE), ("parms", .PCPARMS), ("fieldsplit", .PCFIELDSPLIT),
   ("tfs", .PCTFS), ("ml", .PCML), ("galerkin", .PCGALERKIN), ("exotic", .PCEXOTIC),
   ("hmpi", .PCHMPI), ("supportgraph", .PCSUPPORTGRAPH), ("asa", .PCASA), ("cp", .PCCP),
   ("bfbt", .PCBFBT), ("lsc", .PCLSC), ("python", .PCPYTHON), ("pfmg", .PCPFMG),
   ("syspfmg", .PCSYSPFMG), ("redistribute", .PCREDISTRIBUTE), ("svd", .PCSVD),
   ("gamg", .PCGAMG), ("sacusp", .PCSACUSP), ("sacusppoly", .PCSACUSPPOLY),
   ("bicgstabcusp", .PCBICGSTABCUSP), ("ainvcusp", .PCAINVCUSP)]
  ++ (if lib.hasPCBDDC then [("bddc", PCType.PCBDDC)] else [])

/-- The Krylov type selected for the option value `type`: the first entry of the chain
whose name equals it, or the exception of the final `else`. -/
def resolveKsp (lib : PetscLib) (type : String) : Except BoutError KSPType :=
  match (kspChain lib).lookup type with
  | some c => .ok c
  | none => .error (.BoutException ("Unknown Krylov solver type '" ++ type ++ "'"))

/-- The preconditioner type selected for the option value `pctypeoption`. -/
def resolvePc (lib : PetscLib) (pctypeoption : String) : Except BoutError PCType :=
  match (pcChain lib).lookup pctypeoption with
  | some c => .ok c
  | none =>
    .error (.BoutException ("Unknown KSP preconditioner type '" ++ pctypeoption ++ "'"))

/-- The message of the global-flag check. -/
def flagMessage : String :=
  "Attempted to set Laplacian inversion flag that is not implemented in petsc_laplace.cxx"

/-- The message of the two boundary-flag checks. -/
def boundaryFlagMessage : String :=
  "Attempted to set Laplacian inversion boundary flag that is not implemented in petsc_laplace.cxx"

/-- The expression `flags & ~mask` on non-negative `int`s. -/
def andNot (flags mask : Nat) : Nat := Nat.ldiff flags mask

/-- The expression `!mask` on an `int`: 1 if `mask` is 0 and 0 otherwise. -/
def logicalNot (mask : Nat) : Nat := if mask = 0 then 1 else 0

/-- The flag checks at the head of the constructor, made when CHECK is defined; the two
masks are the values the constructor has just given to `implemented_flags` and
`implemented_boundary_flags`. -/
def constructorChecks (CHECK : Bool) (implemented_flags implemented_boundary_flags : Nat)
    (global_flags inner_boundary_flags outer_boundary_flags : Nat) :
    Except BoutError Unit :=
  if CHECK && andNot global_flags implemented_flags != 0 then
    .error (.BoutException flagMessage)
  else if CHECK && andNot inner_boundary_flags implemented_boundary_flags != 0 then
    .error (.BoutException boundaryFlagMessage)
  else if CHECK && andNot outer_boundary_flags implemented_boundary_flags != 0 then
    .error (.BoutException boundaryFlagMessage)
  else .ok ()

/-- The solver settings part of the constructor `LaplacePetsc::LaplacePetsc(opt)`: the
flag checks made when CHECK is defined, the resolution of the `ksptype` and `pctype`
options, the remaining options, and the creation of the nested solver. The flags are
those the base class holds at construction; `create` is `Laplacian::create`. The
sizing of the vectors and of the matrix is not part of this definition. -/
def LaplacePetsc (CHECK : Bool) (lib : PetscLib) (gbits : GlobalBits) (bits : FlagBits)
    (create : String → InnerSolver)
    (global_flags inner_boundary_flags outer_boundary_flags : Nat) (opts : Options) :
    Except BoutError SolverConfig :=
  let implemented_flags := if CHECK then gbits.INVERT_START_NEW else 0
  let implemented_boundary_flags :=
    if CHECK then bits.INVERT_AC_GRAD + bits.INVERT_SET + bits.INVERT_RHS else 0
  match constructorChecks CHECK implemented_flags implemented_boundary_flags
      global_flags inner_boundary_flags outer_boundary_flags with
  | .error e => .error e
  | .ok _ =>
    match resolveKsp lib (opts.ksptype.getD "gmres") with
    | .error e => .error e
    | .ok kspConstant =>
      let ksptype : TypeStr KSPType := .buffer 0 kspConstant
      match resolvePc lib (opts.pctype.getD "none") with
      | .error e => .error e
      | .ok pcConstant =>
        let pctype : TypeStr PCType := .buffer 1 pcConstant
        let user := pctype.ptrEq (.constant PCType.PCSHELL)
        .ok { implemented_flags := implemented_flags
              implemented_boundary_flags := implemented_boundary_flags
              ksptype := ksptype
              pctype := pctype
              richardson_damping_factor := opts.richardson_damping_factor.getD 1
              chebyshev_max := opts.chebyshev_max.getD 100
              chebyshev_min := opts.chebyshev_min.getD (1 / 100)
              gmres_max_steps := opts.gmres_max_steps.getD 30
              rtol := opts.rtol.getD ((10 : ℚ) ^ (-5 : Int))
              atol := opts.atol.getD ((10 : ℚ) ^ (-50 : Int))
              dtol := opts.dtol.getD ((10 : ℚ) ^ (5 : Int))
              maxits := opts.maxits.getD (10 ^ 5)
              direct := opts.direct.getD false
              rightprec := if user then some (opts.rightprec.getD true) else none
              pcsolve := if user then some (create "precon") else none }

/-! ## The Krylov solve in `solve` -/

/-- The calls that `solve` makes on the solver context `ksp` and its preconditioner
context `pc` between the assembly and `KSPSolve`. -/
inductive PetscCall where
  | KSPSetOperators
  | KSPGetPC
  | PCSetType (t : PCType)
  | PCFactorSetMatSolverPackage (package : String)
  | KSPSetType (t : KSPType)
  | KSPRichardsonSetScale (scale : ℚ)
  | KSPChebyshevSetEigenvalues (emax emin : ℚ)
  | KSPGMRESSetRestart (restart : Int)
  | KSPSetTolerances (rtol atol dtol : ℚ) (maxits : Int)
  | KSPSetInitialGuessNonzero (flg : Bool)
  | PCShellSetApply
  | PCShellSetContext
  | KSPSetPCSide (right : Bool)
  | KSPSetFromOptions
  deriving DecidableEq

/-- The calls of the method-specific `if` / `else if` chain of `solve`. -/
def methodCalls (lib : PetscLib) (cfg : SolverConfig) : List PetscCall :=
  if cfg.ksptype.ptrEq (.constant KSPType.KSPRICHARDSON) then
    [.KSPRichardsonSetScale cfg.richardson_damping_factor]
  else if lib.hasKSPCHEBYSHEV && cfg.ksptype.ptrEq (.constant KSPType.KSPCHEBYSHEV) then
    [.KSPChebyshevSetEigenvalues cfg.chebyshev_max cfg.chebyshev_min]
  else if cfg.ksptype.ptrEq (.constant KSPType.KSPGMRES) then
    [.KSPGMRESSetRestart cfg.gmres_max_steps]
  else []

/-- The calls of the user-preconditioner block of `solve`. -/
def shellCalls (cfg : SolverConfig) : List PetscCall :=
  if cfg.pctype.ptrEq (.constant PCType.PCSHELL) then
    [.PCShellSetApply, .PCShellSetContext,
     .KSPSetPCSide (if cfg.rightprec = some true then true else false)]
  else []

/-- The configuration of the linear solver in `solve`, as the list of calls made. -/
def configureSolver (lib : PetscLib) (gbits : GlobalBits) (global_flags : Nat)
    (cfg : SolverConfig) : List PetscCall :=
  [PetscCall.KSPSetOperators]
  ++ (if cfg.direct then
        [.KSPGetPC, .PCSetType PCType.PCLU, .PCFactorSetMatSolverPackage "mumps"]
      else
        [.KSPSetType cfg.ksptype.chars]
        ++ methodCalls lib cfg
        ++ [.KSPSetTolerances cfg.rtol cfg.atol cfg.dtol cfg.maxits]
        ++ (if !(flagSet global_flags gbits.INVERT_START_NEW) then
              [.KSPSetInitialGuessNonzero true] else [])
        ++ [.KSPGetPC, .PCSetType cfg.pctype.chars]
        ++ shellCalls cfg
        ++ [.KSPSetFromOptions])

/-- The PETSc routine `KSPSolve` followed by `KSPGetConvergedReason`: from the calls
that configured the solver, the matrix, the right-hand side and the initial guess it
gives the solution vector and the reason code. -/
abbrev KrylovKernel := List PetscCall → Mat → Vec → Vec → Vec × Int

/-- The flag checks at the head of `solve`, made when CHECK is defined. -/
def solveChecks (CHECK : Bool) (s : Solver) (cfg : SolverConfig) (global_flags : Nat) :
    Except BoutError Unit :=
  if CHECK && (global_flags &&& logicalNot cfg.implemented_flags) != 0 then
    .error (.BoutException flagMessage)
  else if CHECK && andNot s.inner_boundary_flags cfg.implemented_boundary_flags != 0 then
    .error (.BoutException boundaryFlagMessage)
  else if CHECK && andNot s.outer_boundary_flags cfg.implemented_boundary_flags != 0 then
    .error (.BoutException boundaryFlagMessage)
  else .ok ()

/-- The method `solve(b, x0)` for the plane `y`. `global_flags` is the flag word the
base class holds at the call; `st0` holds the matrix and the vectors as the previous
call left them. -/
def solve (CHECK : Bool) (lib : PetscLib) (gbits : GlobalBits) (KSPSolve : KrylovKernel)
    (s : Solver) (cfg : SolverConfig) (global_flags : Nat) (y : Int) (b x0 : FieldPerp)
    (st0 : AsmState) : Except BoutError FieldPerp :=
  match solveChecks CHECK s cfg global_flags with
  | .error e => .error e
  | .ok _ =>
    match solveAssemble s y b x0 st0 with
    | .error e => .error (.BoutException e)
    | .ok st =>
      let r := KSPSolve (configureSolver lib gbits global_flags cfg) st.MatA st.bs st.xs
      if r.2 = -3 then
        .error (.BoutIterationFail "petsc_laplace: too many iterations")
      else if r.2 ≤ 0 then
        .error (.BoutException "petsc_laplace: inversion failed to converge.")
      else
        match solveExtract s r.1 with
        | .error e => .error (.BoutException e)
        | .ok sol => .ok sol

/-! ## Proof-side definitions for the assembled state -/

/-- The log entries of one inner boundary row. -/
def innerEmit (s : Solver) (y : Int) (i x z : Int) : Mat :=
  emitted s i x z
    (innerBoundaryStencil (flagSet s.inner_boundary_flags s.bits.INVERT_AC_GRAD)
      s.fourth_order (s.mesh.dx x y))

/-- The log entries of one main-domain row. -/
def interiorEmit (s : Solver) (y : Int) (i x z : Int) : Mat :=
  emitted s i x z
    (interiorStencil s.fourth_order (s.A x y z) (Coeffs s x y z).1
      (Coeffs s x y z).2.1 (Coeffs s x y z).2.2.1 (Coeffs s x y z).2.2.2.1
      (Coeffs s x y z).2.2.2.2 (s.mesh.dx x y) s.mesh.dz)

/-- The log entries of one outer boundary row. -/
def outerEmit (s : Solver) (y : Int) (i x z : Int) : Mat :=
  emitted s i x z
    (outerBoundaryStencil (flagSet s.outer_boundary_flags s.bits.INVERT_AC_GRAD)
      s.fourth_order (s.mesh.dx x y))

/-- The log entries of a list of rows, the entries of the last row first. -/
def rowsLog (E : Int → Int → Int → Mat) (L : List (Int × Int × Int)) : Mat :=
  L.reverse.flatMap (fun r => E r.1 r.2.1 r.2.2)

/-- Everything one assembly adds to the matrix log, newest first. -/
def assemblyLog (s : Solver) (y : Int) : Mat :=
  rowsLog (outerEmit s y) (outerRows s) ++ rowsLog (interiorEmit s y) (interiorRows s)
    ++ rowsLog (innerEmit s y) (innerRows s)

/-- The state after the three loop nests of the assembly, when `Element` does not
throw. -/
def assembled (s : Solver) (y : Int) (b x0 : FieldPerp) (st0 : AsmState) : AsmState :=
  (outerRows s).foldl
    (applyRow (pureRow (outerEmit s y) (boundaryRhs s s.outer_boundary_flags b x0) x0))
    ((interiorRows s).foldl (applyRow (pureRow (interiorEmit s y) b x0))
      ((innerRows s).foldl
        (applyRow (pureRow (innerEmit s y) (boundaryRhs s s.inner_boundary_flags b x0) x0))
        st0))

/-- The global flag bits used in the examples. -/
def GlobalBits.standard : GlobalBits where
  INVERT_START_NEW := 2
  INVERT_4TH_ORDER := 8

/-- A library that defines all the optional type constants. -/
def PetscLib.full : PetscLib where
  hasKSPCHEBYSHEV := true
  hasKSPPGMRES := true
  hasKSPFBCGS := true
  hasPCBDDC := true

/-- An options section in which nothing is set. -/
def Options.unset : Options where
  fourth_order := none
  ksptype := none
  pctype := none
  richardson_damping_factor := none
  chebyshev_max := none
  chebyshev_min := none
  gmres_max_steps := none
  rtol := none
  atol := none
  dtol := none
  maxits := none
  direct := none
  rightprec := none

/-- A nested solver that returns its input. -/
def identitySolver : String → InnerSolver := fun _ f => .ok f

/-- A Krylov kernel that reports convergence with the solution 5 in every entry. -/
def constantKernel : KrylovKernel := fun _ _ _ _ => (fun _ => 5, 2)

/-- The single partition of `singlePartition` with all boundary flags clear. -/
def noFlags : Solver :=
  Solver.plain (Mesh.flat 1 2 4 4 true true) 0 12 false 0 0

/-- The single partition of `singlePartition` with `INVERT_SET + INVERT_RHS` on both
boundaries. -/
def rhsFlags : Solver :=
  Solver.plain (Mesh.flat 1 2 4 4 true true) 0 12 false 48 48

/-- The solver `s` with its two boundary flag words replaced. -/
def Solver.withFlags (s : Solver) (inner outer : Nat) : Solver :=
  { s with inner_boundary_flags := inner, outer_boundary_flags := outer }

/-- A single partition in fourth-order mode whose two boundaries impose the gradient. -/
def gradientFlags : Solver :=
  Solver.plain (Mesh.flat 1 2 4 4 true true) 0 12 true 2 2

/-- The settings the constructor stores for an options section in which nothing is set,
with CHECK defined and the flag bits of the examples. -/
def defaultConfig : SolverConfig where
  implemented_flags := 2
  implemented_boundary_flags := 50
  ksptype := .buffer 0 KSPType.KSPGMRES
  pctype := .buffer 1 PCType.PCNONE
  richardson_damping_factor := 1
  chebyshev_max := 100
  chebyshev_min := 1 / 100
  gmres_max_steps := 30
  rtol := (10 : ℚ) ^ (-5 : Int)
  atol := (10 : ℚ) ^ (-50 : Int)
  dtol := (10 : ℚ) ^ (5 : Int)
  maxits := 10 ^ 5
  direct := false
  rightprec := none
  pcsolve := none

/-- The names of the Krylov table as the specification lists them, with the three names
that depend on the library. -/
def specKrylovNames (lib : PetscLib) : List String :=
  ["richardson", "cg", "cgne", "nash", "stcg", "gltr", "gmres", "fgmres", "lgmres",
   "dgmres", "tcqmr", "bcgs", "ibcgs", "bcgsl", "cgs", "tfqmr", "cr", "lsqr", "bicg",
   "preonly", "qcg", "minres", "symmlq", "lcd", "python", "gcr", "specest"]
  ++ (if lib.hasKSPCHEBYSHEV then ["chebyshev"] else [])
  ++ (if lib.hasKSPPGMRES then ["pgmres"] else [])
  ++ (if lib.hasKSPFBCGS then ["fbcgs"] else [])

/-- The names of the preconditioner table. -/
def pcNames (lib : PetscLib) : List String := (pcChain lib).map (fun e => e.1)

/-- An options section that only selects the user-supplied preconditioner. -/
def Options.userPrecon : Options :=
  { Options.unset with pctype := some "user" }

/-- An options section that only selects the Richardson method. -/
def Options.richardson : Options :=
  { Options.unset with ksptype := some "richardson" }

/-! ## The correction terms of `Coeffs` -/

/-- The variable `ddx_C` of `Coeffs`: the x-difference of `C2` divided by `C1`. -/
def Coeffs.ddx_C (s : Solver) (x y z : Int) : ℚ :=
  if s.fourth_order then
    (-s.C2 (x + 2) y z + 8 * s.C2 (x + 1) y z - 8 * s.C2 (x - 1) y z + s.C2 (x - 2) y z)
      / (12 * s.mesh.dx x y * s.C1 x y z)
  else (s.C2 (x + 1) y z - s.C2 (x - 1) y z) / (2 * s.mesh.dx x y * s.C1 x y z)

/-- The variable `ddz_C` of `Coeffs`: the z-difference of `C2` divided by `C1`, with the
z indices `zp`, `zm`, `zpp`, `zmm` wrapped once. -/
def Coeffs.ddz_C (s : Solver) (x y z : Int) : ℚ :=
  let zp := if z + 1 > s.meshz - 1 then z + 1 - s.meshz else z + 1
  let zm := if z - 1 < 0 then z - 1 + s.meshz else z - 1
  let zpp := if z + 2 > s.meshz - 1 then z + 2 - s.meshz else z + 2
  let zmm := if z - 2 < 0 then z - 2 + s.meshz else z - 2
  if s.fourth_order then
    (-s.C2 x y zpp + 8 * s.C2 x y zp - 8 * s.C2 x y zm + s.C2 x y zmm)
      / (12 * s.mesh.dz * s.C1 x y z)
  else (s.C2 x y zp - s.C2 x y zm) / (2 * s.mesh.dz * s.C1 x y z)

/-- What `Coeffs` adds to `coef4` after the scaling by `D`: the `C1`/`C2` term, where it
is applied, and `Ex`. -/
def Coeffs.extra4 (s : Solver) (x y z : Int) : ℚ :=
  (if s.issetC ∧ 2 ≤ x ∧ x ≤ s.mesh.ngx - 3 then
      s.mesh.g11 x y * Coeffs.ddx_C s x y z + s.mesh.g13 x y * Coeffs.ddz_C s x y z
    else 0)
  + (if s.issetE then s.Ex x y z else 0)

/-- What `Coeffs` adds to `coef5` after the scaling by `D`. -/
def Coeffs.extra5 (s : Solver) (x y z : Int) : ℚ :=
  (if s.issetC ∧ 2 ≤ x ∧ x ≤ s.mesh.ngx - 3 then
      s.mesh.g13 x y * Coeffs.ddx_C s x y z + s.mesh.g33 x y * Coeffs.ddz_C s x y z
    else 0)
  + (if s.issetE then s.Ez x y z else 0)

/-- The value of `coef2` before the scaling by `D`. -/
def Coeffs.base2 (s : Solver) (x y : Int) : ℚ :=
  if s.mesh.ShiftXderivs ∧ s.mesh.IncIntShear then
    s.mesh.g33 x y + s.mesh.g11 x y * s.mesh.IntShiftTorsion x y * s.mesh.IntShiftTorsion x y
  else s.mesh.g33 x y

/-- The value of `coef3` before the scaling by `D`. -/
def Coeffs.base3 (s : Solver) (x y : Int) : ℚ :=
  if s.mesh.ShiftXderivs ∧ s.mesh.IncIntShear then 0 else 2 * s.mesh.g13 x y

/-- The value of `coef4` before the scaling by `D`: the metric term, present when
`all_terms` is set, and the non-uniform grid correction. -/
def Coeffs.base4 (s : Solver) (x y : Int) : ℚ :=
  if s.nonuniform ∧ x ≠ 0 ∧ x ≠ s.mesh.ngx - 1 then
    (if s.all_terms then s.mesh.G1 x y else 0)
      - (1 / 2) * ((s.mesh.dx (x + 1) y - s.mesh.dx (x - 1) y) / (s.mesh.dx x y) ^ 2)
        * s.mesh.g11 x y
  else (if s.all_terms then s.mesh.G1 x y else 0)

/-- The value of `coef5` before the scaling by `D`. -/
def Coeffs.base5 (s : Solver) (x y : Int) : ℚ :=
  if s.all_terms then s.mesh.G3 x y else 0

/-- The non-uniform grid correction in the words of the specification (the legacy
formula): `-(1/2) * (dx[x+1][y] - dx[x-1][y]) / dx[x][y]^2 * g11[x][y]`. -/
def legacyCorrection (m : Mesh) (x y : Int) : ℚ :=
  -(1 / 2) * (m.dx (x + 1) y - m.dx (x - 1) y) / (m.dx x y) ^ 2 * m.g11 x y

/-- The alternative formula of the commented-out line marked "SHOULD BE THIS (?)". -/
def shouldBeCorrection (m : Mesh) (x y : Int) : ℚ :=
  m.g11 x y * (1 / 4) * ((1 / m.dx (x + 1) y) - (1 / m.dx (x - 1) y)) / m.dx x y

/-- The factor by which `Coeffs` scales the coefficients: `D[x][y][z]` when `D` is set. -/
def Coeffs.scale (s : Solver) (x y z : Int) : ℚ := if s.issetD then s.D x y z else 1

/-- A flat mesh whose grid spacing grows with `x`: `dx[x][y] = x + 1`. -/
def stretchedMesh : Mesh :=
  { Mesh.flat 1 2 4 4 true true with dx := fun x _ => (x : ℚ) + 1 }

/-- A single partition with `all_terms` off, `D = 2` set and `Ex = 1` set. -/
def withExD : Solver :=
  { Solver.plain (Mesh.flat 1 2 4 4 true true) 0 12 false 16 16 with
    issetD := true, D := fun _ _ _ => 2, issetE := true, Ex := fun _ _ _ => 1 }

/-- A single partition on six x points with `C1 = 1`, `C2[x] = x` set. -/
def withC : Solver :=
  { Solver.plain (Mesh.flat 1 4 6 4 true true) 0 18 false 16 16 with
    issetC := true, C2 := fun x _ _ => (x : ℚ) }

/-- A single partition on the stretched mesh with `nonuniform` set. -/
def nonuniformPartition : Solver :=
  { Solver.plain stretchedMesh 0 12 false 16 16 with nonuniform := true }

/-- A flat mesh with the off-diagonal metric component `g13 = 1/2`. -/
def shearedMesh : Mesh :=
  { Mesh.flat 2 5 8 6 true true with g13 := fun _ _ => 1 / 2 }

/-- A single partition in fourth-order mode on the sheared mesh (`xstart = 2`,
`xend = 5`, `ngx = 8`, `meshz = 5`); it owns the rows 0..39. -/
def shearedFourth : Solver :=
  Solver.plain shearedMesh 0 40 true 16 16

/-- The column `Element` writes for the offset `(t.1, t.2.1)` of a table entry. -/
def entryCol (s : Solver) (x z : Int) (t : Int × Int × ℚ) : Int :=
  Element.row_new s x t.1 * s.meshz + Element.col_new s z t.2.1

/-- The table of `Element` calls of the main-domain row of the cell `(x, z)`. -/
def interiorTable (s : Solver) (y x z : Int) : List (Int × Int × ℚ) :=
  interiorStencil s.fourth_order (s.A x y z) (Coeffs s x y z).1
    (Coeffs s x y z).2.1 (Coeffs s x y z).2.2.1 (Coeffs s x y z).2.2.2.1
    (Coeffs s x y z).2.2.2.2 (s.mesh.dx x y) s.mesh.dz

/-! ## The preconditioner and the global layout -/

/-- The method `precon(x, y)`: turn `x` into a field, apply the nested solver `pcsolve`,
and write the result into `y`; the pair returned is the new content of `y` and the
integer result. `f0` is the content of `xfield` after `allocate()`. -/
def precon (s : Solver) (pcsolve : InnerSolver) (x y : Vec) (f0 : FieldPerp) :
    Except BoutError (Vec × Int) :=
  match vecToField s x f0 with
  | .error e => .error (.BoutException e)
  | .ok xfield =>
    match pcsolve xfield with
    | .error e => .error e
    | .ok yfield =>
      match fieldToVec s yfield y with
      | .error e => .error (.BoutException e)
      | .ok ynew => .ok (ynew, 0)

/-- The member `size` set by the constructor: the sum over the x-partitions of their
`localN` (the `MPI_Allreduce` with `MPI_SUM`). -/
def globalSize (ms : List Mesh) : Int := (ms.map localN).sum

/-- The member `meshx` set by the constructor: `size / meshz`. -/
def meshx (size meshz : Int) : Int := Int.tdiv size meshz

/-- The start of the ownership range of the `k`-th x-partition when the local sizes are
laid out one after the other: the sum of the `localN` of the partitions before it. -/
def ownershipStart (ms : List Mesh) (k : Nat) : Int := ((ms.take k).map localN).sum

/-- Three x-partitions of a grid with two interior columns each, one guard column and
three z points. -/
def threePartitions : List Mesh :=
  [Mesh.flat 1 2 4 4 true false, Mesh.flat 1 2 4 4 false false, Mesh.flat 1 2 4 4 false true]

/-- The table of `Element` calls that the assembly uses for the row of the cell
`(x, z)`: an inner boundary row for `x < xstart`, an outer boundary row for `x > xend`,
a main-domain row otherwise. -/
def rowTable (s : Solver) (y x z : Int) : List (Int × Int × ℚ) :=
  if x < s.mesh.xstart then
    innerBoundaryStencil (flagSet s.inner_boundary_flags s.bits.INVERT_AC_GRAD)
      s.fourth_order (s.mesh.dx x y)
  else if x ≤ s.mesh.xend then interiorTable s y x z
  else
    outerBoundaryStencil (flagSet s.outer_boundary_flags s.bits.INVERT_AC_GRAD)
      s.fourth_order (s.mesh.dx x y)

/-- The middle one of three x-partitions with four interior columns each (one guard
column, three z points): the global grid has `meshx = 14` columns and `size = 42`. -/
def wideMiddle : Solver :=
  Solver.plain (Mesh.flat 1 4 6 4 false false) 15 27 false 16 16

/-! ## The preallocation of the constructor -/

/-- An array obtained from `PetscMalloc`: `none` is an entry that has never been assigned.
An assignment is recorded at whatever index it names, also one outside the allocation. -/
abbrev NnzArray := Int → Option Int

/-- The assignment `a[i] = v`. -/
def setEntry (a : NnzArray) (i v : Int) : NnzArray :=
  fun j => if j = i then some v else a j

/-- The two arrays `d_nnz` and `o_nnz` of the constructor. -/
structure Nnz where
  d_nnz : NnzArray
  o_nnz : NnzArray

/-- The two arrays right after `PetscMalloc`. -/
def Nnz.fresh : Nnz := ⟨fun _ => none, fun _ => none⟩

/-- The body of every preallocation loop, for the loop variable `i`:
`d_nnz[i]=dv; d_nnz[localN-1-i]=dv; o_nnz[i]=oLow; o_nnz[localN-1-i]=oHigh;`. -/
def nnzBody (localN dv oLow oHigh : Int) (i : Int) (p : Nnz) : Nnz where
  d_nnz := setEntry (setEntry p.d_nnz i dv) (localN - 1 - i) dv
  o_nnz := setEntry (setEntry p.o_nnz i oLow) (localN - 1 - i) oHigh

/-- The part of the constructor that fills `d_nnz` and `o_nnz` before the call of
`MatMPIAIJSetPreallocation` (or of `MatSeqAIJSetPreallocation`, which reads `d_nnz`
only): the four branches on `firstX()` and `lastX()` for the edge rows, then the loop
over the rows in between. -/
def preallocate (m : Mesh) (fourth_order : Bool) : Nnz :=
  let localN := localN m
  if fourth_order then
    let p :=
      if m.firstX && m.lastX then
        forLoop (m.ngz - 1) (2 * (m.ngz - 1)) (nnzBody localN 20 0 0)
          (forLoop 0 (m.ngz - 1) (nnzBody localN 15 0 0) Nnz.fresh)
      else if m.firstX then
        forLoop (m.ngz - 1) (2 * (m.ngz - 1)) (nnzBody localN 20 0 5)
          (forLoop 0 (m.ngz - 1) (nnzBody localN 15 0 10) Nnz.fresh)
      else if m.lastX then
        forLoop (m.ngz - 1) (2 * (m.ngz - 1)) (nnzBody localN 20 5 0)
          (forLoop 0 (m.ngz - 1) (nnzBody localN 15 10 0) Nnz.fresh)
      else
        forLoop (m.ngz - 1) (2 * (m.ngz - 1)) (nnzBody localN 20 5 5)
          (forLoop 0 (m.ngz - 1) (nnzBody localN 15 10 10) Nnz.fresh)
    forLoop (2 * (m.ngz - 1)) (localN - 2 * (m.ngz - 1)) (nnzBody localN 25 0 0) p
  else
    let p :=
      if m.firstX && m.lastX then
        forLoop 0 (m.ngz - 1) (nnzBody localN 6 0 0) Nnz.fresh
      else if m.firstX then
        forLoop 0 (m.ngz - 1) (nnzBody localN 6 0 3) Nnz.fresh
      else if m.lastX then
        forLoop 0 (m.ngz - 1) (nnzBody localN 6 3 0) Nnz.fresh
      else
        forLoop 0 (m.ngz - 1) (nnzBody localN 6 3 3) Nnz.fresh
    forLoop (m.ngz - 1) (localN - (m.ngz - 1)) (nnzBody localN 9 0 0) p

/-- The distinct columns of row `i` of the log that lie inside the ownership range
`[Istart, Iend)` (the diagonal block of the row). -/
def diagCols (s : Solver) (M : Mat) (i : Int) : List Int :=
  (M.rowCols i).filter (fun c => decide (s.Istart ≤ c ∧ c < s.Iend))

/-- The distinct columns of row `i` of the log that lie outside the ownership range
`[Istart, Iend)` (the off-diagonal block of the row). -/
def offDiagCols (s : Solver) (M : Mat) (i : Int) : List Int :=
  (M.rowCols i).filter (fun c => !decide (s.Istart ≤ c ∧ c < s.Iend))

/-- The last local x whose rows this partition owns: `ngx - 1` on the last x-partition
(which owns the outer boundary rows) and `xend` on the others. -/
def xtop (s : Solver) : Int := if s.mesh.lastX then s.mesh.ngx - 1 else s.mesh.xend

/-- The value the constructor leaves in `d_nnz` for a row whose cell has `g` owned
columns below it and `h` owned columns above it, on a partition wide enough for the
edge regions not to overlap. -/
def dValue (fourth_order : Bool) (g h : Int) : Int :=
  if fourth_order then
    if g = 0 ∨ h = 0 then 15 else if g = 1 ∨ h = 1 then 20 else 25
  else
    if g = 0 ∨ h = 0 then 6 else 9

/-- The value the constructor leaves in `o_nnz` for a row whose cell has `g` owned
columns below it and `h` owned columns above it, on a partition wide enough for the
edge regions not to overlap. -/
def oValue (fourth_order firstX lastX : Bool) (g h : Int) : Int :=
  if fourth_order then
    if g = 0 then (if firstX then 0 else 10)
    else if g = 1 then (if firstX then 0 else 5)
    else if h = 0 then (if lastX then 0 else 10)
    else if h = 1 then (if lastX then 0 else 5)
    else 0
  else
    if g = 0 then (if firstX then 0 else 3)
    else if h = 0 then (if lastX then 0 else 3)
    else 0

/-- The x-offsets of the entries of the main-domain table, in table order. -/
def interiorOffsets (fourth_order : Bool) : List Int :=
  if fourth_order then
    [0, -2, -2, -2, -2, -2, -1, -1, -1, -1, -1, 0, 0, 0, 0, 1, 1, 1, 1, 1, 2, 2, 2, 2, 2]
  else [0, -1, -1, -1, 0, 0, 1, 1, 1]

/-- The largest x-offset of a main-domain row: 2 in fourth-order mode, 1 otherwise. -/
def reach (fourth_order : Bool) : Int := if fourth_order then 2 else 1

/-- A middle x-partition with a single interior column (one guard column, three z
points), second order; it owns the rows 9..11. -/
def oneColumnMiddle : Solver :=
  Solver.plain (Mesh.flat 1 1 3 4 false false) 9 12 false 16 16

/-- A middle x-partition with a single interior column (two guard columns, five z
points), fourth order; it owns the rows 20..24. -/
def oneColumnFourth : Solver :=
  Solver.plain (Mesh.flat 2 2 5 6 false false) 20 25 true 16 16

/-! ## The matrix across calls of `solve` -/

/-- The matrix log a solver object holds when `solve` is entered: empty after the
constructor, then what the assembly of each earlier call added, the most recent call
first. A call is given by the members of the object at that call and its plane `y`. -/
def matrixHistory (calls : List (Solver × Int)) : Mat :=
  calls.foldr (fun c M => assemblyLog c.1 c.2 ++ M) []

/-- The vector `v` solves the assembled system exactly: every owned row of the stored
matrix applied to `v` gives the right-hand side entry of that row. -/
def solvesRows (s : Solver) (st : AsmState) (v : Vec) : Prop :=
  ∀ i, s.Istart ≤ i → i < s.Iend → st.MatA.mulVecRow i v = st.bs i

/-- A single partition with three interior columns, one guard column on each side and
three z points, second order, with the boundary value fixed on both sides; it owns the
rows 0..14, and every boundary row stays inside the five columns of the grid. -/
def fiveColumns : Solver :=
  Solver.plain (Mesh.flat 1 3 5 4 true true) 0 15 false 16 16

/-! ## Loop lemmas -/

theorem mem_intRange (lo hi x : Int) : x ∈ intRange lo hi ↔ lo ≤ x ∧ x < hi := by
  unfold intRange
  simp only [List.mem_map, List.mem_range]
  constructor
  · rintro ⟨k, hk, rfl⟩
    omega
  · rintro ⟨h1, h2⟩
    exact ⟨(x - lo).toNat, by omega, by omega⟩

theorem intRange_succ (lo hi : Int) (h : lo ≤ hi) :
    intRange lo (hi + 1) = intRange lo hi ++ [hi] := by
  unfold intRange
  have e : (hi + 1 - lo).toNat = (hi - lo).toNat + 1 := by omega
  rw [e, List.range_succ, List.map_append]
  simp only [List.map_cons, List.map_nil]
  congr 2
  omega

theorem intRange_empty (lo hi : Int) (h : hi ≤ lo) : intRange lo hi = [] := by
  unfold intRange
  have e : (hi - lo).toNat = 0 := by omega
  rw [e]; rfl

theorem forLoop_empty {σ : Type} (lo hi : Int) (body : Int → σ → σ) (st : σ) (h : hi ≤ lo) :
    forLoop lo hi body st = st := by
  simp [forLoop, intRange_empty lo hi h]

theorem forLoop_succ {σ : Type} (lo hi : Int) (body : Int → σ → σ) (st : σ) (h : lo ≤ hi) :
    forLoop lo (hi + 1) body st = body hi (forLoop lo hi body st) := by
  simp [forLoop, intRange_succ lo hi h, List.foldl_append]

/-- Induction over the upper bound of a loop. -/
theorem intRange_induction (lo : Int) (P : Int → Prop) (h0 : ∀ hi, hi ≤ lo → P hi)
    (hs : ∀ hi, lo ≤ hi → P hi → P (hi + 1)) : ∀ hi, P hi := by
  intro hi
  by_cases h : hi ≤ lo
  · exact h0 hi h
  · have key : ∀ n : Nat, P (lo + n) := by
      intro n
      induction n with
      | zero => exact h0 _ (by simp)
      | succ k ih =>
        have := hs (lo + k) (by omega) ih
        simpa [add_assoc] using this
    have := key (hi - lo).toNat
    have e : lo + ((hi - lo).toNat : Int) = hi := by omega
    rwa [e] at this

theorem forLoop_inner {σ : Type} (body : Int → Int → Int → σ → σ) (x mz i : Int) (t : σ) :
    forLoop 0 mz (fun z st => ((st : Int × σ).1 + 1, body st.1 x z st.2)) (i, t)
      = (i + (mz.toNat : Int),
         ((intRange 0 mz).map (fun z => (i + z, x, z))).foldl (applyRow body) t) := by
  induction mz using intRange_induction 0 with
  | h0 hi h =>
    rw [forLoop_empty _ _ _ _ h, intRange_empty _ _ h]
    have : hi.toNat = 0 := by omega
    simp [this]
  | hs hi h ih =>
    rw [forLoop_succ _ _ _ _ h, ih, intRange_succ _ _ h]
    have e : (hi.toNat : Int) = hi := by omega
    have e1 : ((hi + 1).toNat : Int) = hi + 1 := by omega
    simp only [List.map_append, List.foldl_append, List.map_cons, List.map_nil,
      List.foldl_cons, List.foldl_nil, e, e1, applyRow]
    congr 1
    omega

theorem blockRows_succ (i0 lo hi mz : Int) (h : lo ≤ hi) :
    blockRows i0 lo (hi + 1) mz
      = blockRows i0 lo hi mz ++ (intRange 0 mz).map (fun z => (i0 + (hi - lo) * mz + z, hi, z)) := by
  simp [blockRows, intRange_succ lo hi h]

theorem forLoop_nest {σ : Type} (body : Int → Int → Int → σ → σ) (lo hi mz i0 : Int) (t : σ) :
    forLoop lo hi (fun x st => forLoop 0 mz
        (fun z st => ((st : Int × σ).1 + 1, body st.1 x z st.2)) st) (i0, t)
      = (i0 + ((hi - lo).toNat : Int) * (mz.toNat : Int),
         (blockRows i0 lo hi mz).foldl (applyRow body) t) := by
  induction hi using intRange_induction lo with
  | h0 hi h =>
    rw [forLoop_empty _ _ _ _ h]
    have : (hi - lo).toNat = 0 := by omega
    simp [this, blockRows, intRange_empty _ _ h]
  | hs hi h ih =>
    rw [forLoop_succ _ _ _ _ h, ih, forLoop_inner, blockRows_succ _ _ _ _ h, List.foldl_append]
    have e1 : ((hi + 1 - lo).toNat : Int) = ((hi - lo).toNat : Int) + 1 := by omega
    rw [e1]
    by_cases hm : 0 < mz
    · have e2 : (mz.toNat : Int) = mz := by omega
      have e3 : ((hi - lo).toNat : Int) = hi - lo := by omega
      rw [e2, e3]
      congr 1
      · ring
    · have e2 : intRange 0 mz = [] := intRange_empty _ _ (by omega)
      have e3 : mz.toNat = 0 := by omega
      simp [e2, e3]

theorem fieldToVecLoops_eq {σ : Type} (s : Solver) (body : Int → Int → Int → σ → σ) (t : σ) :
    fieldToVecLoops s body (s.Istart, t)
      = (indexAtEnd s,
         (outerRows s).foldl (applyRow body)
           ((interiorRows s).foldl (applyRow body)
             ((innerRows s).foldl (applyRow body) t))) := by
  cases hf : s.mesh.firstX <;> cases hl : s.mesh.lastX <;>
    simp only [fieldToVecLoops, indexAtEnd, indexAfterInterior, indexAfterInner, innerRows,
      interiorRows, outerRows, hf, hl, forLoop_nest, Solver.meshz, if_true, if_false,
      List.foldl_nil, Bool.false_eq_true, sub_zero]

theorem vecToFieldLoops_eq {σ : Type} (s : Solver) (body : Int → Int → Int → σ → σ) (t : σ) :
    vecToFieldLoops s body (s.Istart, t)
      = (indexAtEnd s,
         (outerRows s).foldl (applyRow body)
           ((interiorRows s).foldl (applyRow body)
             ((innerRows s).foldl (applyRow body) t))) :=
  fieldToVecLoops_eq s body t

theorem extractLoops_eq {σ : Type} (s : Solver) (body : Int → Int → Int → σ → σ) (t : σ) :
    extractLoops s body (s.Istart, t)
      = (indexAtEnd s,
         (outerRows s).foldl (applyRow body)
           ((interiorRows s).foldl (applyRow body)
             ((innerRows s).foldl (applyRow body) t))) :=
  fieldToVecLoops_eq s body t

theorem blockRows_of_nonpos (i0 lo hi mz : Int) (h : mz ≤ 0) : blockRows i0 lo hi mz = [] := by
  simp [blockRows, intRange_empty 0 mz h]

theorem cellBlock_of_nonpos (lo hi mz : Int) (h : mz ≤ 0) : cellBlock lo hi mz = [] := by
  simp [cellBlock, intRange_empty 0 mz h]

theorem blockRows_eq_map (i0 lo hi mz I xb : Int) (h : i0 = I + (lo - xb) * mz) :
    blockRows i0 lo hi mz
      = (cellBlock lo hi mz).map (fun p => (I + (p.1 - xb) * mz + p.2, p.1, p.2)) := by
  unfold blockRows cellBlock
  rw [List.map_flatMap]
  congr 1
  funext x
  rw [List.map_map]
  congr 1
  funext z
  simp only [Function.comp, h]
  congr 1
  ring

theorem rows_eq_rowSequence (s : Solver) (h0 : 0 ≤ s.mesh.xstart)
    (h1 : s.mesh.xstart ≤ s.mesh.xend + 1) :
    innerRows s ++ interiorRows s ++ outerRows s = rowSequence s := by
  by_cases hm : s.meshz ≤ 0
  · simp [innerRows, interiorRows, outerRows, rowSequence, cellSequence,
      blockRows_of_nonpos _ _ _ _ hm, cellBlock_of_nonpos _ _ _ hm]
  · have em : (s.meshz.toNat : Int) = s.meshz := by omega
    have ex : (s.mesh.xstart.toNat : Int) = s.mesh.xstart := by omega
    have ei : ((s.mesh.xend + 1 - s.mesh.xstart).toNat : Int)
        = s.mesh.xend + 1 - s.mesh.xstart := by omega
    unfold rowSequence cellSequence innerRows interiorRows outerRows
    rw [List.map_append, List.map_append]
    congr 1
    · congr 1
      · cases hf : s.mesh.firstX
        · simp
        · simp only [if_true]
          exact blockRows_eq_map _ _ _ _ _ _ (by simp [xbase, hf])
      · apply blockRows_eq_map
        cases hf : s.mesh.firstX
        · simp [indexAfterInner, xbase, hf]
        · simp only [indexAfterInner, xbase, hf, if_true, em, ex, sub_zero]
    · cases hl : s.mesh.lastX
      · simp
      · simp only [if_true]
        apply blockRows_eq_map
        cases hf : s.mesh.firstX
        · simp only [indexAfterInterior, indexAfterInner, xbase, hf, if_false, em, ei,
            Bool.false_eq_true]
        · simp only [indexAfterInterior, indexAfterInner, xbase, hf, if_true, em, ex, ei]
          ring

theorem indexAtEnd_eq (s : Solver) (h0 : 0 ≤ s.mesh.xstart)
    (h1 : s.mesh.xstart ≤ s.mesh.xend + 1) (hz : 1 ≤ s.mesh.ngz)
    (hx : s.mesh.lastX = true → s.mesh.ngx = s.mesh.xend + s.mesh.xstart + 1) :
    indexAtEnd s = s.Istart + localN s.mesh := by
  have em : (s.meshz.toNat : Int) = s.mesh.ngz - 1 := by unfold Solver.meshz; omega
  have ex : (s.mesh.xstart.toNat : Int) = s.mesh.xstart := by omega
  have ei : ((s.mesh.xend + 1 - s.mesh.xstart).toNat : Int)
      = s.mesh.xend + 1 - s.mesh.xstart := by omega
  unfold indexAtEnd indexAfterInterior indexAfterInner localN
  cases hl : s.mesh.lastX
  · cases hf : s.mesh.firstX
    · simp only [if_false, em, ei, Bool.false_eq_true]; ring
    · simp only [if_true, if_false, em, ex, ei, Bool.false_eq_true]; ring
  · have eo : ((s.mesh.ngx - (s.mesh.xend + 1)).toNat : Int) = s.mesh.xstart := by
      have := hx hl
      omega
    cases hf : s.mesh.firstX
    · simp only [if_true, if_false, em, ei, eo, Bool.false_eq_true]; ring
    · simp only [if_true, em, ex, ei, eo]; ring

theorem foldl_record (L t : List (Int × Int × Int)) :
    L.foldl (applyRow record) t = t ++ L := by
  induction L generalizing t with
  | nil => simp
  | cons a L ih => simp [List.foldl_cons, ih, applyRow, record]

theorem fieldToVecTrace_eq (s : Solver) :
    fieldToVecTrace s = innerRows s ++ interiorRows s ++ outerRows s := by
  simp [fieldToVecTrace, fieldToVecLoops_eq, foldl_record]

theorem vecToFieldTrace_eq (s : Solver) :
    vecToFieldTrace s = innerRows s ++ interiorRows s ++ outerRows s := by
  simp [vecToFieldTrace, vecToFieldLoops_eq, foldl_record]

theorem extractTrace_eq (s : Solver) :
    extractTrace s = innerRows s ++ interiorRows s ++ outerRows s := by
  simp [extractTrace, extractLoops_eq, foldl_record]

theorem foldlM_proj {σ : Type} (f : Int → Int × σ → Except String (Int × σ))
    (g : Int → Int × Except String σ → Int × Except String σ)
    (h : ∀ x u, proj (g x u) = match proj u with
      | .error e => .error e
      | .ok v => f x v) (L : List Int) :
    ∀ u, proj (L.foldl (fun acc x => g x acc) u) = match proj u with
      | .error e => .error e
      | .ok v => L.foldlM (fun acc x => f x acc) v := by
  induction L with
  | nil =>
    intro u
    cases hu : proj u <;> simp [hu, pure, Except.pure]
  | cons a L ih =>
    intro u
    rw [List.foldl_cons, ih (g a u), h a u]
    cases hu : proj u with
    | error e => rfl
    | ok v =>
      simp only [List.foldlM_cons, bind, Except.bind]
      cases f a v <;> rfl

theorem forLoopM_proj {σ : Type} (lo hi : Int) (f : Int → Int × σ → Except String (Int × σ))
    (g : Int → Int × Except String σ → Int × Except String σ)
    (h : ∀ x u, proj (g x u) = match proj u with
      | .error e => .error e
      | .ok v => f x v) (u : Int × Except String σ) :
    proj (forLoop lo hi g u) = match proj u with
      | .error e => .error e
      | .ok v => forLoopM lo hi f v :=
  foldlM_proj f g h (intRange lo hi) u

theorem foldl_liftRow {σ : Type} (body : Int → Int → Int → σ → Except String σ)
    (L : List (Int × Int × Int)) :
    ∀ acc : Except String σ, L.foldl (applyRow (liftRow body)) acc = match acc with
      | .error e => .error e
      | .ok t => L.foldlM (applyRowM body) t := by
  induction L with
  | nil =>
    intro acc
    cases acc <;> simp [pure, Except.pure]
  | cons a L ih =>
    intro acc
    rw [List.foldl_cons, ih]
    cases acc with
    | error e => rfl
    | ok t =>
      simp only [List.foldlM_cons, bind, Except.bind, applyRow, liftRow, applyRowM]
      cases body a.1 a.2.1 a.2.2 t <;> rfl

theorem forLoopM_nest {σ : Type} (body : Int → Int → Int → σ → Except String σ)
    (lo hi mz i0 : Int) (t : σ) :
    forLoopM lo hi (fun x st => forLoopM 0 mz
        (fun z (st : Int × σ) =>
          match body st.1 x z st.2 with
          | .error e => (.error e : Except String (Int × σ))
          | .ok t => .ok (st.1 + 1, t)) st) (i0, t)
      = match (blockRows i0 lo hi mz).foldlM (applyRowM body) t with
        | .error e => .error e
        | .ok t1 => .ok (i0 + ((hi - lo).toNat : Int) * (mz.toNat : Int), t1) := by
  have hin : ∀ x (u : Int × Except String σ),
      proj (forLoop 0 mz (fun z st => (st.1 + 1, liftRow body st.1 x z st.2)) u)
        = match proj u with
          | .error e => .error e
          | .ok v => forLoopM 0 mz (fun z (st : Int × σ) =>
              match body st.1 x z st.2 with
              | .error e => (.error e : Except String (Int × σ))
              | .ok t => .ok (st.1 + 1, t)) v := by
    intro x u
    apply forLoopM_proj
    intro z w
    obtain ⟨i, acc⟩ := w
    cases acc with
    | error e => rfl
    | ok t2 =>
      simp only [proj, liftRow]
  have hout := forLoopM_proj lo hi _ _ hin (i0, .ok t)
  simp only [proj] at hout
  rw [← hout, forLoop_nest, foldl_liftRow]

theorem forLoopM_nest_pair {σ : Type} (body : Int → Int → Int → σ → Except String σ)
    (lo hi mz : Int) (st : Int × σ) :
    forLoopM lo hi (fun x st => forLoopM 0 mz
        (fun z (st : Int × σ) =>
          match body st.1 x z st.2 with
          | .error e => (.error e : Except String (Int × σ))
          | .ok t => .ok (st.1 + 1, t)) st) st
      = match (blockRows st.1 lo hi mz).foldlM (applyRowM body) st.2 with
        | .error e => .error e
        | .ok t1 => .ok (st.1 + ((hi - lo).toNat : Int) * (mz.toNat : Int), t1) :=
  forLoopM_nest body lo hi mz st.1 st.2

theorem assemblyLoops_eq {σ : Type} (s : Solver)
    (inner interior outer : Int → Int → Int → σ → Except String σ) (t : σ) :
    assemblyLoops s inner interior outer (s.Istart, t)
      = match (innerRows s).foldlM (applyRowM inner) t with
        | .error e => .error e
        | .ok t1 =>
          match (interiorRows s).foldlM (applyRowM interior) t1 with
          | .error e => .error e
          | .ok t2 =>
            match (outerRows s).foldlM (applyRowM outer) t2 with
            | .error e => .error e
            | .ok t3 => .ok (indexAtEnd s, t3) := by
  cases hf : s.mesh.firstX <;> cases hl : s.mesh.lastX <;>
    simp only [assemblyLoops, indexAtEnd, indexAfterInterior, indexAfterInner, innerRows,
      interiorRows, outerRows, hf, hl, forLoopM_nest_pair, Solver.meshz, if_true, if_false,
      List.foldlM_nil, Bool.false_eq_true, sub_zero, pure, Except.pure]
  · cases List.foldlM (applyRowM interior) t
      (blockRows s.Istart s.mesh.xstart (s.mesh.xend + 1) (s.mesh.ngz - 1)) <;> rfl
  · cases List.foldlM (applyRowM interior) t
      (blockRows s.Istart s.mesh.xstart (s.mesh.xend + 1) (s.mesh.ngz - 1)) <;> rfl
  · cases List.foldlM (applyRowM inner) t
      (blockRows s.Istart 0 s.mesh.xstart (s.mesh.ngz - 1)) with
    | error e => rfl
    | ok t1 =>
      simp only []
      cases List.foldlM (applyRowM interior) t1
        (blockRows (s.Istart + ↑s.mesh.xstart.toNat * ↑(s.mesh.ngz - 1).toNat) s.mesh.xstart
          (s.mesh.xend + 1) (s.mesh.ngz - 1)) <;> rfl
  · cases List.foldlM (applyRowM inner) t
      (blockRows s.Istart 0 s.mesh.xstart (s.mesh.ngz - 1)) with
    | error e => rfl
    | ok t1 =>
      simp only []
      cases List.foldlM (applyRowM interior) t1
        (blockRows (s.Istart + ↑s.mesh.xstart.toNat * ↑(s.mesh.ngz - 1).toNat) s.mesh.xstart
          (s.mesh.xend + 1) (s.mesh.ngz - 1)) <;> rfl

theorem mem_cellBlock (lo hi mz x z : Int) :
    (x, z) ∈ cellBlock lo hi mz ↔ (lo ≤ x ∧ x < hi) ∧ (0 ≤ z ∧ z < mz) := by
  simp only [cellBlock, List.mem_flatMap, List.mem_map, mem_intRange, Prod.mk.injEq]
  constructor
  · rintro ⟨a, ha, b, hb, rfl, rfl⟩
    exact ⟨ha, hb⟩
  · rintro ⟨hx, hz⟩
    exact ⟨x, hx, z, hz, rfl, rfl⟩

theorem mem_cellSequence (s : Solver) (h0 : 0 ≤ s.mesh.xstart)
    (h1 : s.mesh.xstart ≤ s.mesh.xend + 1)
    (hx : s.mesh.lastX = true → s.mesh.xend + 1 ≤ s.mesh.ngx) (x z : Int) :
    (x, z) ∈ cellSequence s ↔
      (xbase s ≤ x ∧ x < (if s.mesh.lastX then s.mesh.ngx else s.mesh.xend + 1))
        ∧ (0 ≤ z ∧ z < s.mesh.ngz - 1) := by
  unfold cellSequence xbase
  cases hf : s.mesh.firstX <;> cases hl : s.mesh.lastX <;>
    simp only [List.mem_append, mem_cellBlock, if_true, if_false, Bool.false_eq_true,
      List.not_mem_nil, or_false, false_or, Solver.meshz]
  · have := hx hl
    constructor
    · rintro (h | h) <;> exact ⟨by omega, h.2⟩
    · rintro ⟨h, hz⟩
      by_cases hc : x < s.mesh.xend + 1
      · exact Or.inl ⟨by omega, hz⟩
      · exact Or.inr ⟨by omega, hz⟩
  · constructor
    · rintro (h | h) <;> exact ⟨by omega, h.2⟩
    · rintro ⟨h, hz⟩
      by_cases hc : x < s.mesh.xstart
      · exact Or.inl ⟨by omega, hz⟩
      · exact Or.inr ⟨by omega, hz⟩
  · have := hx hl
    constructor
    · rintro ((h | h) | h) <;> exact ⟨by omega, h.2⟩
    · rintro ⟨h, hz⟩
      by_cases hc : x < s.mesh.xstart
      · exact Or.inl (Or.inl ⟨by omega, hz⟩)
      · by_cases hc2 : x < s.mesh.xend + 1
        · exact Or.inl (Or.inr ⟨by omega, hz⟩)
        · exact Or.inr ⟨by omega, hz⟩

theorem intRange_append (a b c : Int) (hab : a ≤ b) (hbc : b ≤ c) :
    intRange a b ++ intRange b c = intRange a c := by
  induction c using intRange_induction b with
  | h0 hi h =>
    have : hi = b := by omega
    subst this
    simp [intRange_empty hi hi (le_refl _)]
  | hs hi h ih =>
    rw [intRange_succ b hi h, intRange_succ a hi (by omega), ← List.append_assoc, ih h]

theorem map_add_intRange (i mz : Int) :
    (intRange 0 mz).map (fun z => i + z) = intRange i (i + (mz.toNat : Int)) := by
  unfold intRange
  have e : (i + (mz.toNat : Int) - i).toNat = (mz - 0).toNat := by omega
  rw [e, List.map_map]
  apply List.map_congr_left
  intro k _
  simp

theorem blockRows_index (i0 lo hi mz : Int) :
    (blockRows i0 lo hi mz).map (fun r => r.1)
      = intRange i0 (i0 + ((hi - lo).toNat : Int) * (mz.toNat : Int)) := by
  induction hi using intRange_induction lo with
  | h0 hi h =>
    have : (hi - lo).toNat = 0 := by omega
    simp [this, blockRows, intRange_empty lo hi h, intRange_empty i0 i0 (le_refl _)]
  | hs hi h ih =>
    rw [blockRows_succ _ _ _ _ h, List.map_append, ih, List.map_map]
    by_cases hm : 0 < mz
    · have e2 : (mz.toNat : Int) = mz := by omega
      have e3 : ((hi - lo).toNat : Int) = hi - lo := by omega
      have e1 : ((hi + 1 - lo).toNat : Int) = hi - lo + 1 := by omega
      have hnn : 0 ≤ (hi - lo) * mz := mul_nonneg (by omega) (by omega)
      have := map_add_intRange (i0 + (hi - lo) * mz) mz
      simp only [Function.comp_def]
      rw [e1, e3, this, e2, intRange_append _ _ _ (by omega) (by omega)]
      congr 1
      ring
    · have e2 : intRange 0 mz = [] := intRange_empty _ _ (by omega)
      have e3 : mz.toNat = 0 := by omega
      simp [e2, e3]

theorem rows_index (s : Solver) :
    (innerRows s ++ interiorRows s ++ outerRows s).map (fun r => r.1)
      = intRange s.Istart (indexAtEnd s) := by
  have hnn : ∀ a b : Nat, (0 : Int) ≤ (a : Int) * (b : Int) := fun a b =>
    mul_nonneg (Int.ofNat_nonneg a) (Int.ofNat_nonneg b)
  have hA := hnn s.mesh.xstart.toNat s.meshz.toNat
  have hB := hnn (s.mesh.xend + 1 - s.mesh.xstart).toNat s.meshz.toNat
  have hC := hnn (s.mesh.ngx - (s.mesh.xend + 1)).toNat s.meshz.toNat
  cases hf : s.mesh.firstX <;> cases hl : s.mesh.lastX <;>
    simp only [innerRows, interiorRows, outerRows, indexAtEnd, indexAfterInterior,
      indexAfterInner, hf, hl, if_true, if_false, Bool.false_eq_true, List.map_append,
      blockRows_index, List.map_nil, List.append_nil, List.nil_append, sub_zero]
  · rw [intRange_append _ _ _ (by omega) (by omega)]
  · rw [intRange_append _ _ _ (by omega) (by omega)]
  · rw [intRange_append _ _ _ (by omega) (by omega), intRange_append _ _ _ (by omega) (by omega)]

theorem nodup_intRange (lo hi : Int) : (intRange lo hi).Nodup := by
  unfold intRange
  apply List.Nodup.map
  · intro a b h
    simpa using h
  · exact List.nodup_range _

/-! ## Marshalling round trip -/

theorem foldl_vecSet_other (F : Int → Int → ℚ) (L : List (Int × Int × Int)) :
    ∀ (v : Vec) (i : Int), i ∉ L.map (fun r => r.1) →
      (L.foldl (applyRow (fun i x z v => VecSetValues v i (F x z))) v) i = v i := by
  induction L with
  | nil => intro v i _; rfl
  | cons a L ih =>
    intro v i hi
    simp only [List.map_cons, List.mem_cons, not_or] at hi
    rw [List.foldl_cons, ih _ _ hi.2]
    simp [applyRow, VecSetValues, hi.1]

theorem foldl_vecSet_get (F : Int → Int → ℚ) (L : List (Int × Int × Int)) :
    ∀ (v : Vec), (L.map (fun r => r.1)).Nodup → ∀ r ∈ L,
      (L.foldl (applyRow (fun i x z v => VecSetValues v i (F x z))) v) r.1
        = F r.2.1 r.2.2 := by
  induction L with
  | nil => intro v _ r hr; simp at hr
  | cons a L ih =>
    intro v hnd r hr
    simp only [List.map_cons, List.nodup_cons] at hnd
    rw [List.foldl_cons]
    rcases List.mem_cons.mp hr with h | h
    · subst h
      rw [foldl_vecSet_other F L _ _ hnd.1]
      simp [applyRow, VecSetValues]
    · exact ih _ hnd.2 r h

theorem foldl_fieldSet (val : Int → ℚ) (F : Int → Int → ℚ) (L : List (Int × Int × Int)) :
    ∀ (g : FieldPerp), (∀ r ∈ L, val r.1 = F r.2.1 r.2.2) → ∀ x z,
      (L.foldl (applyRow (fun i x z g => FieldPerp.set g x z (val i))) g) x z
        = if (x, z) ∈ L.map (fun r => (r.2.1, r.2.2)) then F x z else g x z := by
  induction L with
  | nil => intro g _ x z; simp
  | cons a L ih =>
    intro g hval x z
    rw [List.foldl_cons, ih _ (fun r hr => hval r (List.mem_cons_of_mem _ hr))]
    by_cases hm : (x, z) ∈ L.map (fun r => (r.2.1, r.2.2))
    · simp [hm]
    · simp only [hm, if_false, List.map_cons, List.mem_cons, or_false, applyRow,
        FieldPerp.set, Prod.mk.injEq]
      by_cases hc : x = a.2.1 ∧ z = a.2.2
      · rw [if_pos hc, if_pos hc, hval a (List.mem_cons_self _ _), hc.1, hc.2]
      · rw [if_neg hc, if_neg hc]

/-- C1 (as amended): on a well-formed mesh whose ownership range has the constructor's
size, `fieldToVec` followed by `vecToField` returns a field equal to `f` at every cell
the traversal visits: all z in `[0, ngz-1)` and all x from 0 (first x-partition) or
`xstart` (otherwise) up to `ngx-1` (last x-partition) or `xend` (otherwise); every other
cell keeps the content the field had when it was allocated. -/
theorem vecToField_fieldToVec (s : Solver) (f f0 : FieldPerp) (bs0 : Vec)
    (h0 : 0 ≤ s.mesh.xstart) (h1 : s.mesh.xstart ≤ s.mesh.xend + 1)
    (hz : 1 ≤ s.mesh.ngz)
    (hx : s.mesh.lastX = true → s.mesh.ngx = s.mesh.xend + s.mesh.xstart + 1)
    (hN : s.Iend - s.Istart = localN s.mesh) :
    ∃ v g, fieldToVec s f bs0 = .ok v ∧ vecToField s v f0 = .ok g ∧
      ∀ x z, g x z =
        if (xbase s ≤ x ∧ x < (if s.mesh.lastX then s.mesh.ngx else s.mesh.xend + 1))
            ∧ (0 ≤ z ∧ z < s.mesh.ngz - 1)
        then f x z else f0 x z := by
  have hend : indexAtEnd s = s.Iend := by rw [indexAtEnd_eq s h0 h1 hz hx]; omega
  have hfv : ∀ v0, fieldToVec s f v0
      = .ok ((innerRows s ++ interiorRows s ++ outerRows s).foldl
          (applyRow (fun i x z v => VecSetValues v i (f x z))) v0) := by
    intro v0
    simp [fieldToVec, fieldToVecLoops_eq, hend, ASSERT1, List.foldl_append]
  have hvf : ∀ v g0, vecToField s v g0
      = .ok ((innerRows s ++ interiorRows s ++ outerRows s).foldl
          (applyRow (fun i x z g => FieldPerp.set g x z (v i))) g0) := by
    intro v g0
    simp [vecToField, vecToFieldLoops_eq, hend, ASSERT1, List.foldl_append]
  refine ⟨_, _, hfv bs0, hvf _ f0, ?_⟩
  intro x z
  have hnd : ((innerRows s ++ interiorRows s ++ outerRows s).map (fun r => r.1)).Nodup := by
    rw [rows_index]; exact nodup_intRange _ _
  rw [foldl_fieldSet _ f _ _ (foldl_vecSet_get f _ bs0 hnd) x z]
  have hcells : (innerRows s ++ interiorRows s ++ outerRows s).map (fun r => (r.2.1, r.2.2))
      = cellSequence s := by
    rw [rows_eq_rowSequence s h0 h1, rowSequence, List.map_map]
    simp [Function.comp_def]
  rw [hcells]
  have hmem := mem_cellSequence s h0 h1 (fun hl => by have := hx hl; omega) x z
  by_cases hc : (x, z) ∈ cellSequence s
  · rw [if_pos hc, if_pos (hmem.mp hc)]
  · rw [if_neg hc, if_neg (fun h => hc (hmem.mpr h))]

/-- Witness for C1 on a single partition with 12 owned rows. -/
theorem vecToField_fieldToVec_witness :
    (0 ≤ singlePartition.mesh.xstart ∧
      singlePartition.mesh.xstart ≤ singlePartition.mesh.xend + 1 ∧
      1 ≤ singlePartition.mesh.ngz ∧
      (singlePartition.mesh.lastX = true → singlePartition.mesh.ngx
        = singlePartition.mesh.xend + singlePartition.mesh.xstart + 1) ∧
      singlePartition.Iend - singlePartition.Istart = localN singlePartition.mesh) ∧
    ∃ v g, fieldToVec singlePartition (fun x z => x + z) (fun _ => 0) = .ok v ∧
      vecToField singlePartition v (fun _ _ => 0) = .ok g ∧
      ∀ x z, g x z =
        if (xbase singlePartition ≤ x ∧ x < (if singlePartition.mesh.lastX
              then singlePartition.mesh.ngx else singlePartition.mesh.xend + 1))
            ∧ (0 ≤ z ∧ z < singlePartition.mesh.ngz - 1)
        then (fun x z => (x : ℚ) + z) x z else (fun _ _ => 0) x z :=
  ⟨⟨by decide, by decide, by decide, by decide, by decide⟩,
    vecToField_fieldToVec singlePartition (fun x z => x + z) (fun _ _ => 0) (fun _ => 0)
      (by decide) (by decide) (by decide) (by decide) (by decide)⟩

/-- C1 as stated fails: on a middle x-partition the guard cell `(0, 0)` of the local grid
is not copied, so the round trip returns the allocated content 0 where `f` holds 1. -/
theorem roundtrip_loses_guard_cell :
    ∃ v g, fieldToVec middlePartition (fun _ _ => 1) (fun _ => 0) = .ok v ∧
      vecToField middlePartition v (fun _ _ => 0) = .ok g ∧
      (0 ≤ (0 : Int) ∧ (0 : Int) < middlePartition.mesh.ngx) ∧
      g 0 0 = 0 ∧ g 0 0 ≠ (fun _ _ => 1 : FieldPerp) 0 0 := by
  refine ⟨_, _, rfl, rfl, by decide, ?_, ?_⟩
  · decide
  · decide

/-! ## Row coverage and the agreement of the four traversals -/

theorem foldlM_record (L : List (Int × Int × Int)) :
    ∀ t : List (Int × Int × Int),
      L.foldlM (applyRowM (fun i x z t => (.ok (record i x z t) : Except String _))) t
        = .ok (t ++ L) := by
  induction L with
  | nil => intro t; simp [pure, Except.pure]
  | cons a L ih =>
    intro t
    simp only [List.foldlM_cons, applyRowM, bind, Except.bind]
    have := ih (record a.1 a.2.1 a.2.2 t)
    simp only [applyRowM] at this
    rw [this]
    simp [record]

theorem assemblyLoops_record (s : Solver) :
    assemblyLoops s (fun i x z t => .ok (record i x z t))
        (fun i x z t => .ok (record i x z t)) (fun i x z t => .ok (record i x z t))
        (s.Istart, [])
      = .ok (indexAtEnd s, innerRows s ++ interiorRows s ++ outerRows s) := by
  rw [assemblyLoops_eq]
  simp [foldlM_record]

theorem Element_error (s : Solver) (i x z a b : Int) (e : ℚ) (M : Mat) (msg : String)
    (h : Element s i x z a b e M = .error msg) :
    msg = "Petsc index sanity check 3 failed" := by
  unfold Element at h
  split at h
  · exact (Except.error.inj h).symm
  · cases h

theorem foldlM_error {α σ : Type} (P : String → Prop) (f : σ → α → Except String σ)
    (hf : ∀ t a msg, f t a = .error msg → P msg) (L : List α) :
    ∀ t msg, L.foldlM f t = .error msg → P msg := by
  induction L with
  | nil => intro t msg h; cases h
  | cons a L ih =>
    intro t msg h
    simp only [List.foldlM_cons, bind, Except.bind] at h
    cases hfa : f t a with
    | error m =>
      rw [hfa] at h
      have hm : m = msg := Except.error.inj h
      subst hm
      exact hf t a m hfa
    | ok t1 =>
      rw [hfa] at h
      exact ih t1 msg h

theorem emitRow_error (s : Solver) (i x z : Int) (tbl : List (Int × Int × ℚ)) (M : Mat)
    (msg : String) (h : emitRow s i x z tbl M = .error msg) :
    msg = "Petsc index sanity check 3 failed" :=
  foldlM_error (fun m => m = "Petsc index sanity check 3 failed") _
    (fun t a m hm => Element_error s i x z a.1 a.2.1 a.2.2 t m hm) tbl M msg h

theorem innerBoundaryRow_error (s : Solver) (y : Int) (b x0 : FieldPerp) (i x z : Int)
    (st : AsmState) (msg : String) (h : innerBoundaryRow s y b x0 i x z st = .error msg) :
    msg = "Petsc index sanity check 3 failed" := by
  unfold innerBoundaryRow at h
  split at h
  · next e he => rw [← Except.error.inj h]; exact emitRow_error _ _ _ _ _ _ _ he
  · cases h

theorem interiorRow_error (s : Solver) (y : Int) (b x0 : FieldPerp) (i x z : Int)
    (st : AsmState) (msg : String) (h : interiorRow s y b x0 i x z st = .error msg) :
    msg = "Petsc index sanity check 3 failed" := by
  unfold interiorRow at h
  simp only [] at h
  split at h
  · next e he => rw [← Except.error.inj h]; exact emitRow_error _ _ _ _ _ _ _ he
  · cases h

theorem outerBoundaryRow_error (s : Solver) (y : Int) (b x0 : FieldPerp) (i x z : Int)
    (st : AsmState) (msg : String) (h : outerBoundaryRow s y b x0 i x z st = .error msg) :
    msg = "Petsc index sanity check 3 failed" := by
  unfold outerBoundaryRow at h
  split at h
  · next e he => rw [← Except.error.inj h]; exact emitRow_error _ _ _ _ _ _ _ he
  · cases h

theorem solveAssemble_not_index_error (s : Solver) (y : Int) (b x0 : FieldPerp)
    (st0 : AsmState) (hend : indexAtEnd s = s.Iend) :
    solveAssemble s y b x0 st0 ≠ .error "Petsc index sanity check failed" := by
  intro h
  have key : ∀ msg : String, msg = "Petsc index sanity check 3 failed" →
      msg ≠ "Petsc index sanity check failed" := by
    intro msg hm; subst hm; decide
  unfold solveAssemble at h
  rw [assemblyLoops_eq] at h
  cases h1 : (innerRows s).foldlM (applyRowM (innerBoundaryRow s y b x0)) st0 with
  | error m =>
    rw [h1] at h
    have := foldlM_error (fun m => m = "Petsc index sanity check 3 failed") _
      (fun t a m hm => innerBoundaryRow_error s y b x0 a.1 a.2.1 a.2.2 t m hm) _ _ _ h1
    exact key m this (Except.error.inj h)
  | ok t1 =>
    rw [h1] at h
    simp only [] at h
    cases h2 : (interiorRows s).foldlM (applyRowM (interiorRow s y b x0)) t1 with
    | error m =>
      rw [h2] at h
      have := foldlM_error (fun m => m = "Petsc index sanity check 3 failed") _
        (fun t a m hm => interiorRow_error s y b x0 a.1 a.2.1 a.2.2 t m hm) _ _ _ h2
      exact key m this (Except.error.inj h)
    | ok t2 =>
      rw [h2] at h
      simp only [] at h
      cases h3 : (outerRows s).foldlM (applyRowM (outerBoundaryRow s y b x0)) t2 with
      | error m =>
        rw [h3] at h
        have := foldlM_error (fun m => m = "Petsc index sanity check 3 failed") _
          (fun t a m hm => outerBoundaryRow_error s y b x0 a.1 a.2.1 a.2.2 t m hm) _ _ _ h3
        exact key m this (Except.error.inj h)
      | ok t3 =>
        rw [h3] at h
        simp [hend] at h

/-- C2 (as amended): on a mesh with `0 ≤ xstart ≤ xend + 1`, `ngz ≥ 1` and, on the last
x-partition, `ngx = xend + xstart + 1` (outer guard region as wide as `xstart`), with
`Iend - Istart = localN` as computed by the constructor, and for every partition kind,
the assembly loops of `solve` give the row indices `Istart, Istart+1, .., Iend-1` to
the visited cells, one each and in this order, they finish with the running index equal
to `Iend`, and `solve` does not raise 'Petsc index sanity check failed'. -/
theorem assembly_rows_cover_ownership (s : Solver) (y : Int) (b x0 : FieldPerp)
    (st0 : AsmState)
    (h0 : 0 ≤ s.mesh.xstart) (h1 : s.mesh.xstart ≤ s.mesh.xend + 1)
    (hz : 1 ≤ s.mesh.ngz)
    (hx : s.mesh.lastX = true → s.mesh.ngx = s.mesh.xend + s.mesh.xstart + 1)
    (hN : s.Iend - s.Istart = localN s.mesh) :
    (∃ rows, assemblyLoops s (fun i x z t => .ok (record i x z t))
          (fun i x z t => .ok (record i x z t)) (fun i x z t => .ok (record i x z t))
          (s.Istart, []) = .ok (s.Iend, rows)
        ∧ rows.map (fun r => r.1) = intRange s.Istart s.Iend)
      ∧ solveAssemble s y b x0 st0 ≠ .error "Petsc index sanity check failed" := by
  have hend : indexAtEnd s = s.Iend := by rw [indexAtEnd_eq s h0 h1 hz hx]; omega
  refine ⟨⟨innerRows s ++ interiorRows s ++ outerRows s, ?_, ?_⟩,
    solveAssemble_not_index_error s y b x0 st0 hend⟩
  · rw [assemblyLoops_record, hend]
  · rw [rows_index, hend]

/-- Witness for C2 on a single partition with 12 owned rows. -/
theorem assembly_rows_cover_ownership_witness :
    (0 ≤ singlePartition.mesh.xstart ∧
      singlePartition.mesh.xstart ≤ singlePartition.mesh.xend + 1 ∧
      1 ≤ singlePartition.mesh.ngz ∧
      (singlePartition.mesh.lastX = true → singlePartition.mesh.ngx
        = singlePartition.mesh.xend + singlePartition.mesh.xstart + 1) ∧
      singlePartition.Iend - singlePartition.Istart = localN singlePartition.mesh) ∧
    ((∃ rows, assemblyLoops singlePartition (fun i x z t => .ok (record i x z t))
          (fun i x z t => .ok (record i x z t)) (fun i x z t => .ok (record i x z t))
          (singlePartition.Istart, []) = .ok (singlePartition.Iend, rows)
        ∧ rows.map (fun r => r.1) = intRange singlePartition.Istart singlePartition.Iend)
      ∧ solveAssemble singlePartition 0 (fun _ _ => 0) (fun _ _ => 1) AsmState.empty
          ≠ .error "Petsc index sanity check failed") :=
  ⟨⟨by decide, by decide, by decide, by decide, by decide⟩,
    assembly_rows_cover_ownership singlePartition 0 (fun _ _ => 0) (fun _ _ => 1)
      AsmState.empty (by decide) (by decide) (by decide) (by decide) (by decide)⟩

/-- C2 as stated fails: it quantifies over any `ngx`, but the constructor sizes the outer
boundary with `xstart` while the loops visit `ngx - xend - 1` columns. With `xstart = 1`,
`xend = 1`, `ngx = 4`, `ngz = 2` on a single partition, `Iend - Istart = localN = 3`,
the loops visit 4 rows and `solve` raises the index sanity exception. -/
theorem assembly_index_check_fails_on_wide_outer_guard :
    wideOuterGuard.Iend - wideOuterGuard.Istart = localN wideOuterGuard.mesh ∧
      solveAssemble wideOuterGuard 0 (fun _ _ => 0) (fun _ _ => 1) AsmState.empty
        = .error "Petsc index sanity check failed" :=
  ⟨by decide, rfl⟩

/-- C4: on a mesh with `0 ≤ xstart ≤ xend + 1`, the assembly of `solve`, the extraction
of `solve`, `fieldToVec` and `vecToField` visit the same sequence of cells, and each
gives the cell `(x, z)` the row index `Istart + (x - xbase)*meshz + z`, where `xbase` is
0 on the first x-partition and `xstart` otherwise. -/
theorem traversals_share_row_sequence (s : Solver)
    (h0 : 0 ≤ s.mesh.xstart) (h1 : s.mesh.xstart ≤ s.mesh.xend + 1) :
    assemblyTrace s = .ok ((cellSequence s).map
        (fun c => (s.Istart + (c.1 - xbase s) * s.meshz + c.2, c.1, c.2)))
      ∧ extractTrace s = (cellSequence s).map
        (fun c => (s.Istart + (c.1 - xbase s) * s.meshz + c.2, c.1, c.2))
      ∧ fieldToVecTrace s = (cellSequence s).map
        (fun c => (s.Istart + (c.1 - xbase s) * s.meshz + c.2, c.1, c.2))
      ∧ vecToFieldTrace s = (cellSequence s).map
        (fun c => (s.Istart + (c.1 - xbase s) * s.meshz + c.2, c.1, c.2)) := by
  have h := rows_eq_rowSequence s h0 h1
  unfold rowSequence at h
  refine ⟨?_, ?_, ?_, ?_⟩
  · rw [assemblyTrace, assemblyLoops_record, h]
  · rw [extractTrace_eq, h]
  · rw [fieldToVecTrace_eq, h]
  · rw [vecToFieldTrace_eq, h]

/-- Witness for C4 on a middle x-partition. -/
theorem traversals_share_row_sequence_witness :
    (0 ≤ middlePartition.mesh.xstart ∧
      middlePartition.mesh.xstart ≤ middlePartition.mesh.xend + 1) ∧
    (assemblyTrace middlePartition = .ok ((cellSequence middlePartition).map
        (fun c => (middlePartition.Istart + (c.1 - xbase middlePartition)
          * middlePartition.meshz + c.2, c.1, c.2)))
      ∧ extractTrace middlePartition = (cellSequence middlePartition).map
        (fun c => (middlePartition.Istart + (c.1 - xbase middlePartition)
          * middlePartition.meshz + c.2, c.1, c.2))
      ∧ fieldToVecTrace middlePartition = (cellSequence middlePartition).map
        (fun c => (middlePartition.Istart + (c.1 - xbase middlePartition)
          * middlePartition.meshz + c.2, c.1, c.2))
      ∧ vecToFieldTrace middlePartition = (cellSequence middlePartition).map
        (fun c => (middlePartition.Istart + (c.1 - xbase middlePartition)
          * middlePartition.meshz + c.2, c.1, c.2))) :=
  ⟨⟨by decide, by decide⟩,
    traversals_share_row_sequence middlePartition (by decide) (by decide)⟩

/-! ## The index mapper `Element` -/

theorem Element_ok (s : Solver) (i x z a b : Int) (e : ℚ) (M : Mat)
    (hI : Int.tmod s.Istart s.meshz = 0) :
    Element s i x z a b e M
      = .ok (MatSetValues M i (Element.row_new s x a * s.meshz + Element.col_new s z b) e) := by
  simp [Element, hI]

theorem col_new_of_inside (s : Solver) (z : Int) (h0 : 0 ≤ z) (h1 : z < s.meshz) :
    Element.col_new s z 0 = z := by
  unfold Element.col_new
  simp only [add_zero]
  rw [if_neg (by omega), if_neg (by omega)]

theorem mem_cellSequence_z (s : Solver) (x z : Int) (h : (x, z) ∈ cellSequence s) :
    0 ≤ z ∧ z < s.meshz := by
  unfold cellSequence at h
  simp only [List.mem_append] at h
  rcases h with (h | h) | h
  · split at h
    · exact ((mem_cellBlock _ _ _ _ _).mp h).2
    · simp at h
  · exact ((mem_cellBlock _ _ _ _ _).mp h).2
  · split at h
    · exact ((mem_cellBlock _ _ _ _ _).mp h).2
    · simp at h

theorem tdiv_mul_of_tmod (a m : Int) (h : Int.tmod a m = 0) : Int.tdiv a m * m = a := by
  have := Int.tmod_add_tdiv a m
  rw [h, zero_add, mul_comm] at this
  exact this

/-- C3: on a mesh with `0 ≤ xstart ≤ xend + 1`, with `Istart = 0` on the first
x-partition and `Istart` a multiple of `meshz` on the others, for every row `i` that the
assembly of `solve` assigns to a cell `(x, z)`, the call `Element(i, x, z, 0, 0, ele)`
succeeds and inserts `ele` at column `i` of row `i`. -/
theorem Element_zero_offset_is_diagonal (s : Solver)
    (h0 : 0 ≤ s.mesh.xstart) (h1 : s.mesh.xstart ≤ s.mesh.xend + 1)
    (hfirst : s.mesh.firstX = true → s.Istart = 0)
    (hrest : s.mesh.firstX = false → s.meshz ∣ s.Istart) :
    ∃ rows, assemblyTrace s = .ok rows ∧
      ∀ r ∈ rows, ∀ (ele : ℚ) (M : Mat),
        Element s r.1 r.2.1 r.2.2 0 0 ele M = .ok (MatSetValues M r.1 r.1 ele) := by
  refine ⟨rowSequence s, ?_, ?_⟩
  · rw [assemblyTrace, assemblyLoops_record, rows_eq_rowSequence s h0 h1]
  intro r hr ele M
  obtain ⟨c, hc, rfl⟩ := List.mem_map.mp hr
  obtain ⟨x, z⟩ := c
  have hz := mem_cellSequence_z s x z hc
  have hI : Int.tmod s.Istart s.meshz = 0 := by
    cases hf : s.mesh.firstX
    · obtain ⟨k, hk⟩ := hrest hf
      rw [hk, Int.mul_tmod_right]
    · rw [hfirst hf]; simp
  rw [Element_ok s _ _ _ _ _ _ _ hI]
  simp only [col_new_of_inside s z hz.1 hz.2]
  congr 2
  unfold Element.row_new xbase
  cases hf : s.mesh.firstX
  · simp only [Bool.not_false, if_true, Bool.false_eq_true, if_false, add_zero]
    have := tdiv_mul_of_tmod _ _ hI
    linear_combination this
  · simp only [Bool.not_true, Bool.false_eq_true, if_false, if_true, add_zero, hfirst hf]
    ring

/-- Witness for C3 on the last x-partition of a decomposed grid (`Istart = 9`,
`meshz = 3`). -/
theorem Element_zero_offset_is_diagonal_witness :
    (0 ≤ lastPartition.mesh.xstart ∧
      lastPartition.mesh.xstart ≤ lastPartition.mesh.xend + 1 ∧
      (lastPartition.mesh.firstX = true → lastPartition.Istart = 0) ∧
      (lastPartition.mesh.firstX = false → lastPartition.meshz ∣ lastPartition.Istart)) ∧
    ∃ rows, assemblyTrace lastPartition = .ok rows ∧
      ∀ r ∈ rows, ∀ (ele : ℚ) (M : Mat),
        Element lastPartition r.1 r.2.1 r.2.2 0 0 ele M
          = .ok (MatSetValues M r.1 r.1 ele) :=
  ⟨⟨by decide, by decide, by decide, by decide⟩,
    Element_zero_offset_is_diagonal lastPartition (by decide) (by decide) (by decide)
      (by decide)⟩

/-- C5 (as amended): for every `meshz ≥ 1`, every `z` in `[0, meshz)` and every z-offset
with `|zshift| ≤ meshz` (all stencil offsets `-2..2` when `meshz ≥ 2`, and `-1..1` when
`meshz = 1`), the `col_new` of `Element` lies in `[0, meshz)` and equals
`(z + zshift) mod meshz`, and the column written is
`row_new*meshz + ((z + zshift) mod meshz)`. -/
theorem Element_col_new_wraps (s : Solver) (i x z xshift zshift : Int) (ele : ℚ)
    (M : Mat) (hm : 1 ≤ s.meshz) (hz0 : 0 ≤ z) (hz1 : z < s.meshz)
    (hlo : -s.meshz ≤ zshift) (hhi : zshift ≤ s.meshz)
    (hI : Int.tmod s.Istart s.meshz = 0) :
    (0 ≤ Element.col_new s z zshift ∧ Element.col_new s z zshift < s.meshz)
      ∧ Element.col_new s z zshift = (z + zshift) % s.meshz
      ∧ Element s i x z xshift zshift ele M
          = .ok (MatSetValues M i
              (Element.row_new s x xshift * s.meshz + (z + zshift) % s.meshz) ele) := by
  have hcol : Element.col_new s z zshift = (z + zshift) % s.meshz := by
    unfold Element.col_new
    simp only []
    by_cases hneg : z + zshift < 0
    · rw [if_pos hneg, ← Int.add_emod_self, Int.emod_eq_of_lt (by omega) (by omega)]
    · rw [if_neg hneg]
      by_cases hbig : z + zshift > s.meshz - 1
      · have e : (z + zshift) % s.meshz = (z + zshift - s.meshz) % s.meshz := by
          conv_lhs => rw [show z + zshift = (z + zshift - s.meshz) + s.meshz by ring]
          exact Int.add_emod_self
        rw [if_pos hbig, e, Int.emod_eq_of_lt (by omega) (by omega)]
      · rw [if_neg hbig, Int.emod_eq_of_lt (by omega) (by omega)]
  refine ⟨?_, hcol, ?_⟩
  · rw [hcol]
    exact ⟨Int.emod_nonneg _ (by omega), Int.emod_lt_of_pos _ (by omega)⟩
  · rw [Element_ok s _ _ _ _ _ _ _ hI, hcol]

/-- Witness for C5: `meshz = 3`, `z = 2`, `zshift = 2`. -/
theorem Element_col_new_wraps_witness :
    (1 ≤ singlePartition.meshz ∧ (0 : Int) ≤ 2 ∧ 2 < singlePartition.meshz ∧
      -singlePartition.meshz ≤ 2 ∧ 2 ≤ singlePartition.meshz ∧
      Int.tmod singlePartition.Istart singlePartition.meshz = 0) ∧
    ((0 ≤ Element.col_new singlePartition 2 2
        ∧ Element.col_new singlePartition 2 2 < singlePartition.meshz)
      ∧ Element.col_new singlePartition 2 2 = (2 + 2) % singlePartition.meshz
      ∧ Element singlePartition 5 1 2 0 2 1 []
          = .ok (MatSetValues [] 5
              (Element.row_new singlePartition 1 0 * singlePartition.meshz
                + (2 + 2) % singlePartition.meshz) 1)) :=
  ⟨⟨by decide, by decide, by decide, by decide, by decide, by decide⟩,
    Element_col_new_wraps singlePartition 5 1 2 0 2 1 [] (by decide) (by decide)
      (by decide) (by decide) (by decide) (by decide)⟩

/-- C5 as stated fails for `meshz = 1`: with `z = 0` the single wrap of `Element` leaves
`col_new = 1` for `zshift = 2` and `col_new = -1` for `zshift = -2`, outside
`[0, meshz)` and different from `(z + zshift) mod meshz = 0`. -/
theorem Element_col_new_single_wrap_escapes :
    (1 ≤ oneZPoint.meshz ∧ (0 : Int) ≤ 0 ∧ (0 : Int) < oneZPoint.meshz
        ∧ (-2 : Int) ≤ 2 ∧ (2 : Int) ≤ 2)
      ∧ Element.col_new oneZPoint 0 2 = 1
      ∧ ¬ (Element.col_new oneZPoint 0 2 < oneZPoint.meshz)
      ∧ Element.col_new oneZPoint 0 2 ≠ (0 + 2) % oneZPoint.meshz
      ∧ Element.col_new oneZPoint 0 (-2) = -1
      ∧ ¬ (0 ≤ Element.col_new oneZPoint 0 (-2)) := by
  decide

/-! ## Stencil tables -/

theorem interiorStencil_vals_sum (fourth_order : Bool) (A0 A1 A2 A3 A4 A5 dx dz : ℚ) :
    ((interiorStencil fourth_order A0 A1 A2 A3 A4 A5 dx dz).map (fun e => e.2.2)).sum
      = A0 := by
  cases fourth_order
  · simp only [interiorStencil, Bool.false_eq_true, if_false, List.map_cons, List.map_nil,
      List.sum_cons, List.sum_nil]
    ring
  · simp only [interiorStencil, if_true, List.map_cons, List.map_nil,
      List.sum_cons, List.sum_nil]
    ring

/-- C7: for the second-order table (9 entries) and the fourth-order table (25 entries),
for all `A0..A5` and all `dx`, `dz` (nonzero or not), the weights passed to `Element`
for an interior row sum to `A0`. -/
theorem interiorStencil_row_sum (fourth_order : Bool) (A0 A1 A2 A3 A4 A5 dx dz : ℚ) :
    ((interiorStencil fourth_order A0 A1 A2 A3 A4 A5 dx dz).map (fun e => e.2.2)).sum = A0
      ∧ (interiorStencil fourth_order A0 A1 A2 A3 A4 A5 dx dz).length
          = if fourth_order then 25 else 9 := by
  refine ⟨interiorStencil_vals_sum _ _ _ _ _ _ _ _ _, ?_⟩
  cases fourth_order <;> rfl

theorem stencilApply_polyEval (tbl : List (Int × Int × ℚ)) (n : Nat) (c : Nat → Nat → ℚ)
    (x z dx dz : ℚ) :
    stencilApply tbl (polyEval n c) x z dx dz
      = ∑ i ∈ Finset.range (n + 1), ∑ j ∈ Finset.range (n + 1),
          c i j * stencilApply tbl (fun x z => x ^ i * z ^ j) x z dx dz := by
  induction tbl with
  | nil => simp [stencilApply]
  | cons e tbl ih =>
    have hcons : ∀ p : ℚ → ℚ → ℚ, stencilApply (e :: tbl) p x z dx dz
        = e.2.2 * p (x + (e.1 : ℚ) * dx) (z + (e.2.1 : ℚ) * dz)
          + stencilApply tbl p x z dx dz := by
      intro p; simp [stencilApply]
    rw [hcons, ih]
    simp only [hcons, polyEval, Finset.mul_sum, ← Finset.sum_add_distrib]
    refine Finset.sum_congr rfl (fun i _ => Finset.sum_congr rfl (fun j _ => ?_))
    ring

theorem interiorStencil_fourth_monomial (A0 A1 A2 A3 A4 A5 dx dz x z : ℚ) (i j : Nat) :
    stencilApply (interiorStencil true A0 A1 A2 A3 A4 A5 dx dz)
        (fun x z => x ^ i * z ^ j) x z dx dz
      = A0 * (x ^ i * z ^ j) + A1 * (d2Fourth x dx i * z ^ j)
        + A2 * (x ^ i * d2Fourth z dz j) + A3 * (d1Fourth x dx i * d1Fourth z dz j)
        + A4 * (d1Fourth x dx i * z ^ j) + A5 * (x ^ i * d1Fourth z dz j) := by
  simp only [stencilApply, interiorStencil, if_true, List.map_cons, List.map_nil,
    List.sum_cons, List.sum_nil, d1Fourth, d2Fourth]
  push_cast
  ring

theorem interiorStencil_second_monomial (A0 A1 A2 A3 A4 A5 dx dz x z : ℚ) (i j : Nat) :
    stencilApply (interiorStencil false A0 A1 A2 A3 A4 A5 dx dz)
        (fun x z => x ^ i * z ^ j) x z dx dz
      = A0 * (x ^ i * z ^ j) + A1 * (d2Second x dx i * z ^ j)
        + A2 * (x ^ i * d2Second z dz j) + A3 * (d1Second x dx i * d1Second z dz j)
        + A4 * (d1Second x dx i * z ^ j) + A5 * (x ^ i * d1Second z dz j) := by
  simp only [stencilApply, interiorStencil, Bool.false_eq_true, if_false, List.map_cons,
    List.map_nil, List.sum_cons, List.sum_nil, d1Second, d2Second]
  push_cast
  ring

theorem d1Fourth_exact (x dx : ℚ) (hdx : dx ≠ 0) (i : Nat) (hi : i < 5) :
    d1Fourth x dx i = (i : ℚ) * x ^ (i - 1) := by
  unfold d1Fourth
  interval_cases i <;> field_simp <;> ring

theorem d2Fourth_exact (x dx : ℚ) (hdx : dx ≠ 0) (i : Nat) (hi : i < 5) :
    d2Fourth x dx i = (i : ℚ) * ((i : ℚ) - 1) * x ^ (i - 2) := by
  unfold d2Fourth
  interval_cases i <;> field_simp <;> ring

theorem d1Second_exact (x dx : ℚ) (hdx : dx ≠ 0) (i : Nat) (hi : i < 3) :
    d1Second x dx i = (i : ℚ) * x ^ (i - 1) := by
  unfold d1Second
  interval_cases i <;> field_simp <;> ring

theorem d2Second_exact (x dx : ℚ) (hdx : dx ≠ 0) (i : Nat) (hi : i < 3) :
    d2Second x dx i = (i : ℚ) * ((i : ℚ) - 1) * x ^ (i - 2) := by
  unfold d2Second
  interval_cases i <;> field_simp <;> ring

/-- C9: the fourth-order interior table (25 entries) applied to a polynomial of degree
at most 4 in x and at most 4 in z, sampled on the uniform grid with nonzero spacings,
gives `A0*p + A1*p_xx + A2*p_zz + A3*p_xz + A4*p_x + A5*p_z` at `(x, z)` exactly. -/
theorem interiorStencil_fourth_order_exact (c : Nat → Nat → ℚ)
    (A0 A1 A2 A3 A4 A5 dx dz x z : ℚ) (hdx : dx ≠ 0) (hdz : dz ≠ 0) :
    stencilApply (interiorStencil true A0 A1 A2 A3 A4 A5 dx dz) (polyEval 4 c) x z dx dz
      = A0 * polyEval 4 c x z + A1 * polyEvalDxx 4 c x z + A2 * polyEvalDzz 4 c x z
        + A3 * polyEvalDxz 4 c x z + A4 * polyEvalDx 4 c x z + A5 * polyEvalDz 4 c x z := by
  rw [stencilApply_polyEval]
  simp only [polyEval, polyEvalDx, polyEvalDz, polyEvalDxx, polyEvalDzz, polyEvalDxz,
    Finset.mul_sum, ← Finset.sum_add_distrib]
  refine Finset.sum_congr rfl (fun i hi => Finset.sum_congr rfl (fun j hj => ?_))
  rw [interiorStencil_fourth_monomial,
    d1Fourth_exact x dx hdx i (Finset.mem_range.mp hi),
    d2Fourth_exact x dx hdx i (Finset.mem_range.mp hi),
    d1Fourth_exact z dz hdz j (Finset.mem_range.mp hj),
    d2Fourth_exact z dz hdz j (Finset.mem_range.mp hj)]
  ring

/-- C8: the second-order interior table (9 entries) applied to a polynomial of degree
at most 2 in x and at most 2 in z, sampled on the uniform grid with nonzero spacings,
gives `A0*p + A1*p_xx + A2*p_zz + A3*p_xz + A4*p_x + A5*p_z` at `(x, z)` exactly. -/
theorem interiorStencil_second_order_exact (c : Nat → Nat → ℚ)
    (A0 A1 A2 A3 A4 A5 dx dz x z : ℚ) (hdx : dx ≠ 0) (hdz : dz ≠ 0) :
    stencilApply (interiorStencil false A0 A1 A2 A3 A4 A5 dx dz) (polyEval 2 c) x z dx dz
      = A0 * polyEval 2 c x z + A1 * polyEvalDxx 2 c x z + A2 * polyEvalDzz 2 c x z
        + A3 * polyEvalDxz 2 c x z + A4 * polyEvalDx 2 c x z + A5 * polyEvalDz 2 c x z := by
  rw [stencilApply_polyEval]
  simp only [polyEval, polyEvalDx, polyEvalDz, polyEvalDxx, polyEvalDzz, polyEvalDxz,
    Finset.mul_sum, ← Finset.sum_add_distrib]
  refine Finset.sum_congr rfl (fun i hi => Finset.sum_congr rfl (fun j hj => ?_))
  rw [interiorStencil_second_monomial,
    d1Second_exact x dx hdx i (Finset.mem_range.mp hi),
    d2Second_exact x dx hdx i (Finset.mem_range.mp hi),
    d1Second_exact z dz hdz j (Finset.mem_range.mp hj),
    d2Second_exact z dz hdz j (Finset.mem_range.mp hj)]
  ring

/-- Witness for C9: `p = sum of x^i z^j`, unit spacings, all coefficients 1, at the
point (2, 3). -/
theorem interiorStencil_fourth_order_exact_witness :
    ((1 : ℚ) ≠ 0 ∧ (1 : ℚ) ≠ 0) ∧
    stencilApply (interiorStencil true 1 1 1 1 1 1 1 1) (polyEval 4 (fun _ _ => 1)) 2 3 1 1
      = 1 * polyEval 4 (fun _ _ => 1) 2 3 + 1 * polyEvalDxx 4 (fun _ _ => 1) 2 3
        + 1 * polyEvalDzz 4 (fun _ _ => 1) 2 3 + 1 * polyEvalDxz 4 (fun _ _ => 1) 2 3
        + 1 * polyEvalDx 4 (fun _ _ => 1) 2 3 + 1 * polyEvalDz 4 (fun _ _ => 1) 2 3 :=
  ⟨⟨one_ne_zero, one_ne_zero⟩,
    interiorStencil_fourth_order_exact (fun _ _ => 1) 1 1 1 1 1 1 1 1 2 3 one_ne_zero
      one_ne_zero⟩

/-- Witness for C8: `p = sum of x^i z^j`, unit spacings, all coefficients 1, at the
point (2, 3). -/
theorem interiorStencil_second_order_exact_witness :
    ((1 : ℚ) ≠ 0 ∧ (1 : ℚ) ≠ 0) ∧
    stencilApply (interiorStencil false 1 1 1 1 1 1 1 1) (polyEval 2 (fun _ _ => 1)) 2 3 1 1
      = 1 * polyEval 2 (fun _ _ => 1) 2 3 + 1 * polyEvalDxx 2 (fun _ _ => 1) 2 3
        + 1 * polyEvalDzz 2 (fun _ _ => 1) 2 3 + 1 * polyEvalDxz 2 (fun _ _ => 1) 2 3
        + 1 * polyEvalDx 2 (fun _ _ => 1) 2 3 + 1 * polyEvalDz 2 (fun _ _ => 1) 2 3 :=
  ⟨⟨one_ne_zero, one_ne_zero⟩,
    interiorStencil_second_order_exact (fun _ _ => 1) 1 1 1 1 1 1 1 1 2 3 one_ne_zero
      one_ne_zero⟩

theorem Mat.get_row (M : Mat) (i j : Int) : (M.row i).get i j = M.get i j := by
  unfold Mat.get Mat.row
  congr 1
  induction M with
  | nil => rfl
  | cons e M ih =>
    by_cases h : e.1 = i
    · by_cases h2 : e.2.1 = j
      · simp [List.filter_cons, h, h2]
      · simp [List.filter_cons, List.find?_cons, h, h2, ih]
    · simp [List.filter_cons, List.find?_cons, h, ih]

theorem Mat.row_row (M : Mat) (i : Int) : (M.row i).row i = M.row i := by
  unfold Mat.row
  simp [List.filter_filter]

theorem Mat.rowCols_row (M : Mat) (i : Int) : (M.row i).rowCols i = M.rowCols i := by
  unfold Mat.rowCols
  have := Mat.row_row M i
  unfold Mat.row at this
  rw [show (M.row i) = M.filter (fun e => decide (e.1 = i)) from rfl, this]

theorem Mat.mulVecRow_row (M : Mat) (i : Int) (v : Vec) :
    (M.row i).mulVecRow i v = M.mulVecRow i v := by
  unfold Mat.mulVecRow
  rw [Mat.rowCols_row]
  congr 1
  apply List.map_congr_left
  intro j _
  rw [Mat.get_row]

theorem Mat.mulVecRow_const_of_nodup (E : Mat) (i : Int) (k : ℚ)
    (hrow : ∀ e ∈ E, e.1 = i) (hnd : (E.map (fun e => e.2.1)).Nodup) :
    E.mulVecRow i (fun _ => k) = (E.map (fun e => e.2.2)).sum * k := by
  induction E with
  | nil => simp [Mat.mulVecRow, Mat.rowCols]
  | cons e E ih =>
    have hrowE : ∀ e' ∈ E, e'.1 = i := fun e' he' => hrow e' (List.mem_cons_of_mem _ he')
    have he : e.1 = i := hrow e (List.mem_cons_self _ _)
    simp only [List.map_cons, List.nodup_cons] at hnd
    have ih' := ih hrowE hnd.2
    have hfilt : ∀ L : Mat, (∀ e' ∈ L, e'.1 = i) →
        L.filter (fun e => decide (e.1 = i)) = L := by
      intro L hL
      apply List.filter_eq_self.mpr
      intro a ha
      simp [hL a ha]
    have hcols : ∀ L : Mat, (∀ e' ∈ L, e'.1 = i) → (L.map (fun e => e.2.1)).Nodup →
        L.rowCols i = L.map (fun e => e.2.1) := by
      intro L hL hLnd
      unfold Mat.rowCols
      rw [hfilt L hL]
      exact List.Nodup.dedup hLnd
    unfold Mat.mulVecRow at ih' ⊢
    rw [hcols (e :: E) hrow (by simp only [List.map_cons, List.nodup_cons]; exact hnd)]
    rw [hcols E hrowE hnd.2] at ih'
    simp only [List.map_cons, List.sum_cons]
    have hget0 : Mat.get (e :: E) i e.2.1 = some e.2.2 := by
      simp [Mat.get, List.find?_cons, he]
    have hrest : (E.map (fun e => e.2.1)).map
          (fun j => (Mat.get (e :: E) i j).getD 0 * k)
        = (E.map (fun e => e.2.1)).map (fun j => (Mat.get E i j).getD 0 * k) := by
      apply List.map_congr_left
      intro j hj
      have hne : e.2.1 ≠ j := fun h => hnd.1 (h ▸ hj)
      have : Mat.get (e :: E) i j = Mat.get E i j := by
        simp [Mat.get, List.find?_cons, hne]
      rw [this]
    rw [hget0, hrest, ih']
    simp only [Option.getD_some]
    ring

/-! ## The assembly when `Element` does not throw -/

theorem emitRow_ok (s : Solver) (i x z : Int) (tbl : List (Int × Int × ℚ))
    (hI : Int.tmod s.Istart s.meshz = 0) :
    ∀ M : Mat, emitRow s i x z tbl M = .ok (emitted s i x z tbl ++ M) := by
  unfold emitRow emitted
  induction tbl with
  | nil => intro M; rfl
  | cons e tbl ih =>
    intro M
    rw [List.foldlM_cons, Element_ok s _ _ _ _ _ _ _ hI]
    simp only [bind, Except.bind]
    rw [ih]
    simp [MatSetValues]

theorem foldlM_ok {α σ : Type} (f : σ → α → Except String σ) (g : σ → α → σ)
    (L : List α) (h : ∀ t, ∀ a ∈ L, f t a = .ok (g t a)) :
    ∀ t, L.foldlM f t = .ok (L.foldl g t) := by
  induction L with
  | nil => intro t; rfl
  | cons a L ih =>
    intro t
    simp only [List.foldlM_cons, List.foldl_cons, h t a (List.mem_cons_self _ _), bind,
      Except.bind]
    exact ih (fun t b hb => h t b (List.mem_cons_of_mem _ hb)) _

theorem innerBoundaryRow_ok (s : Solver) (y : Int) (b x0 : FieldPerp) (i x z : Int)
    (st : AsmState) (hI : Int.tmod s.Istart s.meshz = 0) :
    innerBoundaryRow s y b x0 i x z st
      = .ok (pureRow (fun i x z => emitted s i x z
            (innerBoundaryStencil (flagSet s.inner_boundary_flags s.bits.INVERT_AC_GRAD)
              s.fourth_order (s.mesh.dx x y)))
          (boundaryRhs s s.inner_boundary_flags b x0) x0 i x z st) := by
  simp [innerBoundaryRow, emitRow_ok s i x z _ hI, pureRow]

theorem interiorRow_ok (s : Solver) (y : Int) (b x0 : FieldPerp) (i x z : Int)
    (st : AsmState) (hI : Int.tmod s.Istart s.meshz = 0) :
    interiorRow s y b x0 i x z st
      = .ok (pureRow (fun i x z => emitted s i x z
            (interiorStencil s.fourth_order (s.A x y z) (Coeffs s x y z).1
              (Coeffs s x y z).2.1 (Coeffs s x y z).2.2.1 (Coeffs s x y z).2.2.2.1
              (Coeffs s x y z).2.2.2.2 (s.mesh.dx x y) s.mesh.dz))
          b x0 i x z st) := by
  simp [interiorRow, emitRow_ok s i x z _ hI, pureRow]

theorem outerBoundaryRow_ok (s : Solver) (y : Int) (b x0 : FieldPerp) (i x z : Int)
    (st : AsmState) (hI : Int.tmod s.Istart s.meshz = 0) :
    outerBoundaryRow s y b x0 i x z st
      = .ok (pureRow (fun i x z => emitted s i x z
            (outerBoundaryStencil (flagSet s.outer_boundary_flags s.bits.INVERT_AC_GRAD)
              s.fourth_order (s.mesh.dx x y)))
          (boundaryRhs s s.outer_boundary_flags b x0) x0 i x z st) := by
  simp [outerBoundaryRow, emitRow_ok s i x z _ hI, pureRow]

theorem Mat.row_append (A B : Mat) (i : Int) : (A ++ B).row i = A.row i ++ B.row i := by
  simp [Mat.row, List.filter_append]

theorem Mat.row_of_all (E : Mat) (i : Int) (h : ∀ e ∈ E, e.1 = i) : E.row i = E := by
  unfold Mat.row
  apply List.filter_eq_self.mpr
  intro a ha
  simp [h a ha]

theorem Mat.row_of_none (E : Mat) (i : Int) (h : ∀ e ∈ E, e.1 ≠ i) : E.row i = [] := by
  unfold Mat.row
  apply List.filter_eq_nil_iff.mpr
  intro a ha
  simp [h a ha]

theorem foldl_pureRow_other (E : Int → Int → Int → Mat) (β γ : Int → Int → ℚ)
    (hE : ∀ i x z, ∀ e ∈ E i x z, e.1 = i) (L : List (Int × Int × Int)) :
    ∀ (st : AsmState) (i : Int), i ∉ L.map (fun r => r.1) →
      (L.foldl (applyRow (pureRow E β γ)) st).MatA.row i = st.MatA.row i
        ∧ (L.foldl (applyRow (pureRow E β γ)) st).bs i = st.bs i := by
  induction L with
  | nil => intro st i _; exact ⟨rfl, rfl⟩
  | cons a L ih =>
    intro st i hi
    simp only [List.map_cons, List.mem_cons, not_or] at hi
    rw [List.foldl_cons]
    obtain ⟨h1, h2⟩ := ih (applyRow (pureRow E β γ) st a) i hi.2
    rw [h1, h2]
    constructor
    · simp only [applyRow, pureRow, Mat.row_append]
      rw [Mat.row_of_none _ i (fun e he => by rw [hE _ _ _ e he]; exact fun h => hi.1 h.symm)]
      rfl
    · simp [applyRow, pureRow, VecSetValues, hi.1]

theorem foldl_pureRow_mem (E : Int → Int → Int → Mat) (β γ : Int → Int → ℚ)
    (hE : ∀ i x z, ∀ e ∈ E i x z, e.1 = i) (L : List (Int × Int × Int)) :
    ∀ (st : AsmState), (L.map (fun r => r.1)).Nodup → ∀ r ∈ L,
      (L.foldl (applyRow (pureRow E β γ)) st).MatA.row r.1
          = E r.1 r.2.1 r.2.2 ++ st.MatA.row r.1
        ∧ (L.foldl (applyRow (pureRow E β γ)) st).bs r.1 = β r.2.1 r.2.2 := by
  induction L with
  | nil => intro st _ r hr; simp at hr
  | cons a L ih =>
    intro st hnd r hr
    simp only [List.map_cons, List.nodup_cons] at hnd
    rw [List.foldl_cons]
    rcases List.mem_cons.mp hr with h | h
    · subst h
      obtain ⟨h1, h2⟩ := foldl_pureRow_other E β γ hE L (applyRow (pureRow E β γ) st r) r.1 hnd.1
      rw [h1, h2]
      constructor
      · simp only [applyRow, pureRow, Mat.row_append]
        rw [Mat.row_of_all _ r.1 (hE _ _ _)]
      · simp [applyRow, pureRow, VecSetValues]
    · obtain ⟨h1, h2⟩ := ih (applyRow (pureRow E β γ) st a) hnd.2 r h
      rw [h1, h2]
      refine ⟨?_, rfl⟩
      have hne : a.1 ≠ r.1 := by
        intro heq
        exact hnd.1 (List.mem_map.mpr ⟨r, h, heq.symm⟩)
      simp only [applyRow, pureRow, Mat.row_append]
      rw [Mat.row_of_none _ r.1 (fun e he => by rw [hE _ _ _ e he]; exact hne)]
      rfl

theorem emitted_row (s : Solver) (i x z : Int) (tbl : List (Int × Int × ℚ)) :
    ∀ e ∈ emitted s i x z tbl, e.1 = i := by
  intro e he
  unfold emitted at he
  rw [List.mem_reverse, List.mem_map] at he
  obtain ⟨a, _, rfl⟩ := he
  rfl

theorem emitted_vals (s : Solver) (i x z : Int) (tbl : List (Int × Int × ℚ)) :
    ((emitted s i x z tbl).map (fun e => e.2.2)).sum = (tbl.map (fun e => e.2.2)).sum := by
  unfold emitted
  rw [List.map_reverse, List.sum_reverse, List.map_map]
  rfl

theorem col_inj (m R R' c c' : Int) (hc : 0 ≤ c ∧ c < m) (hc' : 0 ≤ c' ∧ c' < m)
    (h : R * m + c = R' * m + c') : R = R' ∧ c = c' := by
  have hm : 0 < m := by omega
  have h1 : (R - R') * m = c' - c := by linear_combination h
  have hR : R = R' := by
    by_contra hne
    rcases lt_or_gt_of_ne hne with hlt | hgt
    · have : (R - R') * m ≤ -1 * m := by
        apply mul_le_mul_of_nonneg_right _ (le_of_lt hm)
        omega
      omega
    · have : 1 * m ≤ (R - R') * m := by
        apply mul_le_mul_of_nonneg_right _ (le_of_lt hm)
        omega
      omega
  refine ⟨hR, ?_⟩
  subst hR
  omega

theorem col_new_range (s : Solver) (z b : Int)
    (hz : 0 ≤ z ∧ z < s.meshz) (hb : -s.meshz ≤ b ∧ b ≤ s.meshz) :
    0 ≤ Element.col_new s z b ∧ Element.col_new s z b < s.meshz := by
  unfold Element.col_new
  simp only []
  split_ifs <;> omega

theorem row_new_inj (s : Solver) (x a a' : Int)
    (h : Element.row_new s x a = Element.row_new s x a') : a = a' := by
  unfold Element.row_new at h
  simp only [] at h
  split_ifs at h <;> omega

theorem emitted_cols_nodup (s : Solver) (i x z : Int) (tbl : List (Int × Int × ℚ))
    (hz : 0 ≤ z ∧ z < s.meshz)
    (hoff : (tbl.map (fun e => (e.1, e.2.1))).Nodup)
    (hb : ∀ e ∈ tbl, -s.meshz ≤ e.2.1 ∧ e.2.1 ≤ s.meshz)
    (hinj : ∀ e ∈ tbl, ∀ e' ∈ tbl,
      Element.col_new s z e.2.1 = Element.col_new s z e'.2.1 → e.2.1 = e'.2.1) :
    ((emitted s i x z tbl).map (fun e => e.2.1)).Nodup := by
  unfold emitted
  rw [List.map_reverse, List.nodup_reverse, List.map_map]
  have hcomp : (fun e : Int × Int × ℚ => e.2.1) ∘ (fun e : Int × Int × ℚ =>
        (i, Element.row_new s x e.1 * s.meshz + Element.col_new s z e.2.1, e.2.2))
      = (fun p : Int × Int => Element.row_new s x p.1 * s.meshz + Element.col_new s z p.2)
        ∘ (fun e : Int × Int × ℚ => (e.1, e.2.1)) := rfl
  rw [hcomp, ← List.map_map]
  apply List.Nodup.map_on _ hoff
  intro p hp q hq hpq
  obtain ⟨e, he, rfl⟩ := List.mem_map.mp hp
  obtain ⟨e', he', rfl⟩ := List.mem_map.mp hq
  simp only at hpq
  obtain ⟨h1, h2⟩ := col_inj _ _ _ _ _ (col_new_range s z _ hz (hb e he))
    (col_new_range s z _ hz (hb e' he')) hpq
  simp only [Prod.mk.injEq]
  exact ⟨row_new_inj s x _ _ h1, hinj e he e' he' h2⟩

theorem mem_blockRows (i0 lo hi mz : Int) (r : Int × Int × Int)
    (h : r ∈ blockRows i0 lo hi mz) :
    (lo ≤ r.2.1 ∧ r.2.1 < hi) ∧ (0 ≤ r.2.2 ∧ r.2.2 < mz) := by
  unfold blockRows at h
  simp only [List.mem_flatMap, List.mem_map, mem_intRange] at h
  obtain ⟨x, hx, z, hz, rfl⟩ := h
  exact ⟨hx, hz⟩

theorem col_new_inj_of_three (s : Solver) (z b b' : Int) (hm : 3 ≤ s.meshz)
    (hz : 0 ≤ z ∧ z < s.meshz) (hb : -1 ≤ b ∧ b ≤ 1) (hb' : -1 ≤ b' ∧ b' ≤ 1)
    (h : Element.col_new s z b = Element.col_new s z b') : b = b' := by
  unfold Element.col_new at h
  simp only [] at h
  split_ifs at h <;> omega

theorem identity_row_cols_nodup (s : Solver) (i x z : Int) (tbl : List (Int × Int × ℚ))
    (hz : 0 ≤ z ∧ z < s.meshz)
    (hoff : (tbl.map (fun e => (e.1, e.2.1))).Nodup) (hzero : ∀ e ∈ tbl, e.2.1 = 0) :
    ((emitted s i x z tbl).map (fun e => e.2.1)).Nodup := by
  apply emitted_cols_nodup s i x z tbl hz hoff
  · intro e he
    rw [hzero e he]
    omega
  · intro e he e' he' _
    rw [hzero e he, hzero e' he']

theorem innerBoundaryStencil_identity (fo : Bool) (dx : ℚ) :
    ((innerBoundaryStencil false fo dx).map (fun e => (e.1, e.2.1))).Nodup
      ∧ (∀ e ∈ innerBoundaryStencil false fo dx, e.2.1 = 0)
      ∧ ((innerBoundaryStencil false fo dx).map (fun e => e.2.2)).sum = 1 := by
  refine ⟨?_, ?_, by simp [innerBoundaryStencil]⟩
  · rw [show (innerBoundaryStencil false fo dx).map (fun e => (e.1, e.2.1))
        = [(0, 0), (1, 0), (2, 0), (3, 0), (4, 0)] from rfl]
    decide
  · intro e he
    simp only [innerBoundaryStencil, Bool.false_eq_true, if_false, List.mem_cons,
      List.mem_singleton, List.not_mem_nil, or_false] at he
    rcases he with h | h | h | h | h <;> rw [h]

theorem outerBoundaryStencil_identity (fo : Bool) (dx : ℚ) :
    ((outerBoundaryStencil false fo dx).map (fun e => (e.1, e.2.1))).Nodup
      ∧ (∀ e ∈ outerBoundaryStencil false fo dx, e.2.1 = 0)
      ∧ ((outerBoundaryStencil false fo dx).map (fun e => e.2.2)).sum = 1 := by
  refine ⟨?_, ?_, by simp [outerBoundaryStencil]⟩
  · rw [show (outerBoundaryStencil false fo dx).map (fun e => (e.1, e.2.1))
        = [(0, 0), (-1, 0), (-2, 0), (-3, 0), (-4, 0)] from rfl]
    decide
  · intro e he
    simp only [outerBoundaryStencil, Bool.false_eq_true, if_false, List.mem_cons,
      List.mem_singleton, List.not_mem_nil, or_false] at he
    rcases he with h | h | h | h | h <;> rw [h]

theorem interiorStencil_second_offsets (A0 A1 A2 A3 A4 A5 dx dz : ℚ) :
    ((interiorStencil false A0 A1 A2 A3 A4 A5 dx dz).map (fun e => (e.1, e.2.1))).Nodup
      ∧ (∀ e ∈ interiorStencil false A0 A1 A2 A3 A4 A5 dx dz, -1 ≤ e.2.1 ∧ e.2.1 ≤ 1) := by
  refine ⟨?_, ?_⟩
  · rw [show (interiorStencil false A0 A1 A2 A3 A4 A5 dx dz).map (fun e => (e.1, e.2.1))
        = [(0, 0), (-1, -1), (-1, 0), (-1, 1), (0, -1), (0, 1), (1, -1), (1, 0), (1, 1)]
        from rfl]
    decide
  · intro e he
    simp only [interiorStencil, Bool.false_eq_true, if_false, List.mem_cons,
      List.mem_singleton, List.not_mem_nil, or_false] at he
    rcases he with h | h | h | h | h | h | h | h | h <;> rw [h] <;> simp

theorem boundaryRhs_set (s : Solver) (flags : Nat) (b x0 : FieldPerp) (x z : Int)
    (hr : flagSet flags s.bits.INVERT_RHS = false)
    (hs : flagSet flags s.bits.INVERT_SET = true) :
    boundaryRhs s flags b x0 x z = x0 x z := by
  simp [boundaryRhs, hr, hs]

/-- The constant vector satisfies the assembled rows, for an arbitrary metric and
arbitrary spacings (the first half of C6 in a more general setting): on a single
partition with `Istart = 0` and `Iend = localN`, second order, `A = 0`, boundary flags on
both sides that fix the boundary value (`INVERT_SET` without `INVERT_AC_GRAD` and
`INVERT_RHS`), `b = 0` everywhere and `x0 = k` on every boundary cell, the assembly of
`solve` into an empty matrix succeeds and the constant vector `k` satisfies every owned
row, for every `k` and every `meshz ≥ 3`. -/
theorem constant_satisfies_assembled_rows (s : Solver) (y : Int) (b x0 : FieldPerp)
    (k : ℚ) (st0 : AsmState)
    (hfirst : s.mesh.firstX = true) (hlast : s.mesh.lastX = true)
    (h0 : 0 ≤ s.mesh.xstart) (h1 : s.mesh.xstart ≤ s.mesh.xend + 1)
    (hx : s.mesh.ngx = s.mesh.xend + s.mesh.xstart + 1)
    (hm : 3 ≤ s.meshz)
    (hI : s.Istart = 0) (hN : s.Iend = localN s.mesh)
    (ho : s.fourth_order = false)
    (hig : flagSet s.inner_boundary_flags s.bits.INVERT_AC_GRAD = false)
    (hir : flagSet s.inner_boundary_flags s.bits.INVERT_RHS = false)
    (his : flagSet s.inner_boundary_flags s.bits.INVERT_SET = true)
    (hog : flagSet s.outer_boundary_flags s.bits.INVERT_AC_GRAD = false)
    (hor : flagSet s.outer_boundary_flags s.bits.INVERT_RHS = false)
    (hos : flagSet s.outer_boundary_flags s.bits.INVERT_SET = true)
    (hA : ∀ x z, s.A x y z = 0) (hb : ∀ x z, b x z = 0)
    (hx0 : ∀ x z, (x < s.mesh.xstart ∨ s.mesh.xend < x) → x0 x z = k)
    (hM : st0.MatA = []) :
    ∃ st, solveAssemble s y b x0 st0 = .ok st ∧
      ∀ i, s.Istart ≤ i → i < s.Iend → st.MatA.mulVecRow i (fun _ => k) = st.bs i := by
  have hItm : Int.tmod s.Istart s.meshz = 0 := by rw [hI]; simp
  have hz1 : 1 ≤ s.mesh.ngz := by unfold Solver.meshz at hm; omega
  have hend : indexAtEnd s = s.Iend := by
    rw [indexAtEnd_eq s h0 h1 hz1 (fun _ => hx), hI, hN]; ring
  -- the three row bodies, in the form that cannot throw
  let Ei : Int → Int → Int → Mat := fun i x z => emitted s i x z
    (innerBoundaryStencil (flagSet s.inner_boundary_flags s.bits.INVERT_AC_GRAD)
      s.fourth_order (s.mesh.dx x y))
  let En : Int → Int → Int → Mat := fun i x z => emitted s i x z
    (interiorStencil s.fourth_order (s.A x y z) (Coeffs s x y z).1
      (Coeffs s x y z).2.1 (Coeffs s x y z).2.2.1 (Coeffs s x y z).2.2.2.1
      (Coeffs s x y z).2.2.2.2 (s.mesh.dx x y) s.mesh.dz)
  let Eo : Int → Int → Int → Mat := fun i x z => emitted s i x z
    (outerBoundaryStencil (flagSet s.outer_boundary_flags s.bits.INVERT_AC_GRAD)
      s.fourth_order (s.mesh.dx x y))
  have hEi : ∀ i x z, ∀ e ∈ Ei i x z, e.1 = i := fun i x z => emitted_row s i x z _
  have hEn : ∀ i x z, ∀ e ∈ En i x z, e.1 = i := fun i x z => emitted_row s i x z _
  have hEo : ∀ i x z, ∀ e ∈ Eo i x z, e.1 = i := fun i x z => emitted_row s i x z _
  let bi := pureRow Ei (boundaryRhs s s.inner_boundary_flags b x0) x0
  let bn := pureRow En b x0
  let bo := pureRow Eo (boundaryRhs s s.outer_boundary_flags b x0) x0
  let st1 := (innerRows s).foldl (applyRow bi) st0
  let st2 := (interiorRows s).foldl (applyRow bn) st1
  let st3 := (outerRows s).foldl (applyRow bo) st2
  have hsolve : solveAssemble s y b x0 st0 = .ok st3 := by
    unfold solveAssemble
    have e1 := foldlM_ok (applyRowM (innerBoundaryRow s y b x0)) (applyRow bi) (innerRows s)
      (fun t a _ => innerBoundaryRow_ok s y b x0 a.1 a.2.1 a.2.2 t hItm) st0
    have e2 := foldlM_ok (applyRowM (interiorRow s y b x0)) (applyRow bn) (interiorRows s)
      (fun t a _ => interiorRow_ok s y b x0 a.1 a.2.1 a.2.2 t hItm) st1
    have e3 := foldlM_ok (applyRowM (outerBoundaryRow s y b x0)) (applyRow bo) (outerRows s)
      (fun t a _ => outerBoundaryRow_ok s y b x0 a.1 a.2.1 a.2.2 t hItm) st2
    rw [assemblyLoops_eq, e1]
    simp only []
    rw [e2]
    simp only []
    rw [e3]
    simp [hend, st3]
  refine ⟨st3, hsolve, ?_⟩
  intro i hi0 hi1
  -- the rows carry the indices Istart .. Iend-1, each once
  have hidx := rows_index s
  rw [hend] at hidx
  have hnd : ((innerRows s ++ interiorRows s ++ outerRows s).map (fun r => r.1)).Nodup := by
    rw [hidx]; exact nodup_intRange _ _
  have himem : i ∈ (innerRows s ++ interiorRows s ++ outerRows s).map (fun r => r.1) := by
    rw [hidx]; exact (mem_intRange _ _ _).mpr ⟨hi0, hi1⟩
  rw [List.map_append, List.map_append] at hnd himem
  obtain ⟨hnd12, hnd3, hdisj3⟩ := List.nodup_append.mp hnd
  obtain ⟨hnd1, hnd2, hdisj12⟩ := List.nodup_append.mp hnd12
  rw [← Mat.mulVecRow_row]
  rcases List.mem_append.mp himem with h12 | h3
  · rcases List.mem_append.mp h12 with h1' | h2'
    · -- an inner boundary row
      obtain ⟨r, hr, rfl⟩ := List.mem_map.mp h1'
      have hn2 : r.1 ∉ (interiorRows s).map (fun r => r.1) := fun h => hdisj12 h1' h
      have hn3 : r.1 ∉ (outerRows s).map (fun r => r.1) :=
        fun h => hdisj3 (List.mem_append_left _ h1') h
      obtain ⟨a3, b3⟩ := foldl_pureRow_other Eo _ x0 hEo (outerRows s) st2 r.1 hn3
      obtain ⟨a2, b2⟩ := foldl_pureRow_other En _ x0 hEn (interiorRows s) st1 r.1 hn2
      obtain ⟨a1, b1⟩ := foldl_pureRow_mem Ei _ x0 hEi (innerRows s) st0 hnd1 r hr
      have hrow : st3.MatA.row r.1 = Ei r.1 r.2.1 r.2.2 := by
        rw [a3, a2, a1, hM]; simp [Mat.row]
      have hbs : st3.bs r.1 = x0 r.2.1 r.2.2 := by
        rw [b3, b2, b1, boundaryRhs_set s _ b x0 _ _ hir his]
      have hcell := mem_blockRows s.Istart 0 s.mesh.xstart s.meshz r (by
        simpa [innerRows, hfirst] using hr)
      obtain ⟨t1, t2, t3⟩ := innerBoundaryStencil_identity s.fourth_order (s.mesh.dx r.2.1 y)
      rw [hrow, hbs, hx0 _ _ (Or.inl hcell.1.2)]
      rw [Mat.mulVecRow_const_of_nodup _ _ _ (hEi _ _ _)]
      · simp only [Ei]
        rw [emitted_vals, hig, t3, one_mul]
      · simp only [Ei]
        rw [hig]
        exact identity_row_cols_nodup s _ _ _ _ hcell.2 t1 t2
    · -- a main-domain row
      obtain ⟨r, hr, rfl⟩ := List.mem_map.mp h2'
      have hn1 : r.1 ∉ (innerRows s).map (fun r => r.1) := fun h => hdisj12 h h2'
      have hn3 : r.1 ∉ (outerRows s).map (fun r => r.1) :=
        fun h => hdisj3 (List.mem_append_right _ h2') h
      obtain ⟨a3, b3⟩ := foldl_pureRow_other Eo _ x0 hEo (outerRows s) st2 r.1 hn3
      obtain ⟨a2, b2⟩ := foldl_pureRow_mem En b x0 hEn (interiorRows s) st1 hnd2 r hr
      obtain ⟨a1, b1⟩ := foldl_pureRow_other Ei _ x0 hEi (innerRows s) st0 r.1 hn1
      have hrow : st3.MatA.row r.1 = En r.1 r.2.1 r.2.2 := by
        rw [a3, a2, a1, hM]; simp [Mat.row]
      have hbs : st3.bs r.1 = b r.2.1 r.2.2 := by
        rw [b3, b2]
      have hcell := mem_blockRows _ _ _ _ r hr
      rw [hrow, hbs, hb]
      rw [Mat.mulVecRow_const_of_nodup _ _ _ (hEn _ _ _)]
      · simp only [En]
        rw [emitted_vals, interiorStencil_vals_sum, hA, zero_mul]
      · simp only [En]
        rw [ho]
        obtain ⟨t1, t2⟩ := interiorStencil_second_offsets (s.A r.2.1 y r.2.2)
          (Coeffs s r.2.1 y r.2.2).1 (Coeffs s r.2.1 y r.2.2).2.1
          (Coeffs s r.2.1 y r.2.2).2.2.1 (Coeffs s r.2.1 y r.2.2).2.2.2.1
          (Coeffs s r.2.1 y r.2.2).2.2.2.2 (s.mesh.dx r.2.1 y) s.mesh.dz
        apply emitted_cols_nodup s _ _ _ _ hcell.2 t1
        · intro e he
          have := t2 e he
          omega
        · intro e he e' he' hcol
          exact col_new_inj_of_three s _ _ _ hm hcell.2 (t2 e he) (t2 e' he') hcol
  · -- an outer boundary row
    obtain ⟨r, hr, rfl⟩ := List.mem_map.mp h3
    have hn1 : r.1 ∉ (innerRows s).map (fun r => r.1) :=
      fun h => hdisj3 (List.mem_append_left _ h) h3
    have hn2 : r.1 ∉ (interiorRows s).map (fun r => r.1) :=
      fun h => hdisj3 (List.mem_append_right _ h) h3
    obtain ⟨a3, b3⟩ := foldl_pureRow_mem Eo _ x0 hEo (outerRows s) st2 hnd3 r hr
    obtain ⟨a2, b2⟩ := foldl_pureRow_other En b x0 hEn (interiorRows s) st1 r.1 hn2
    obtain ⟨a1, b1⟩ := foldl_pureRow_other Ei _ x0 hEi (innerRows s) st0 r.1 hn1
    have hrow : st3.MatA.row r.1 = Eo r.1 r.2.1 r.2.2 := by
      rw [a3, a2, a1, hM]; simp [Mat.row]
    have hbs : st3.bs r.1 = x0 r.2.1 r.2.2 := by
      rw [b3, boundaryRhs_set s _ b x0 _ _ hor hos]
    have hcell := mem_blockRows (indexAfterInterior s) (s.mesh.xend + 1) s.mesh.ngx
      s.meshz r (by simpa [outerRows, hlast] using hr)
    obtain ⟨t1, t2, t3⟩ := outerBoundaryStencil_identity s.fourth_order (s.mesh.dx r.2.1 y)
    rw [hrow, hbs, hx0 _ _ (Or.inr (by omega))]
    rw [Mat.mulVecRow_const_of_nodup _ _ _ (hEo _ _ _)]
    · simp only [Eo]
      rw [emitted_vals, hog, t3, one_mul]
    · simp only [Eo]
      rw [hog]
      exact identity_row_cols_nodup s _ _ _ _ hcell.2 t1 t2

/-- An instance of `constant_satisfies_assembled_rows`: the single partition with
`meshz = 3`, `b = 0`, `x0 = 7`. -/
theorem constant_satisfies_assembled_rows_witness :
    (singlePartition.mesh.firstX = true ∧ singlePartition.mesh.lastX = true
      ∧ 0 ≤ singlePartition.mesh.xstart
      ∧ singlePartition.mesh.xstart ≤ singlePartition.mesh.xend + 1
      ∧ singlePartition.mesh.ngx = singlePartition.mesh.xend + singlePartition.mesh.xstart + 1
      ∧ 3 ≤ singlePartition.meshz
      ∧ singlePartition.Istart = 0 ∧ singlePartition.Iend = localN singlePartition.mesh
      ∧ singlePartition.fourth_order = false
      ∧ flagSet singlePartition.inner_boundary_flags singlePartition.bits.INVERT_AC_GRAD = false
      ∧ flagSet singlePartition.inner_boundary_flags singlePartition.bits.INVERT_RHS = false
      ∧ flagSet singlePartition.inner_boundary_flags singlePartition.bits.INVERT_SET = true
      ∧ flagSet singlePartition.outer_boundary_flags singlePartition.bits.INVERT_AC_GRAD = false
      ∧ flagSet singlePartition.outer_boundary_flags singlePartition.bits.INVERT_RHS = false
      ∧ flagSet singlePartition.outer_boundary_flags singlePartition.bits.INVERT_SET = true
      ∧ AsmState.empty.MatA = []) ∧
    ∃ st, solveAssemble singlePartition 0 (fun _ _ => 0) (fun _ _ => 7) AsmState.empty
        = .ok st ∧
      ∀ i, singlePartition.Istart ≤ i → i < singlePartition.Iend →
        st.MatA.mulVecRow i (fun _ => 7) = st.bs i :=
  ⟨by decide,
    constant_satisfies_assembled_rows singlePartition 0 (fun _ _ => 0) (fun _ _ => 7) 7
      AsmState.empty (by decide) (by decide) (by decide) (by decide) (by decide) (by decide)
      (by decide) (by decide) (by decide) (by decide) (by decide) (by decide) (by decide)
      (by decide) (by decide) (fun _ _ => rfl) (fun _ _ => rfl) (fun _ _ _ => rfl) rfl⟩

/-- With `meshz = 1` and `meshz = 2` the constant vector does not satisfy the interior
rows: on a single partition with unit spacings, identity metric, second order,
`INVERT_SET` on both sides, `b = 0` and `x0 = 1`, z-offsets of an interior row share a
column, the later insertions overwrite the earlier ones, and the stored row applied to
the constant vector 1 gives 1 (`meshz = 1`, row 1) and -1 (`meshz = 2`, row 2) while the
right-hand side is 0. -/
theorem constant_fails_with_few_z_points :
    ((thinPartition.meshz = 1 ∧ thinPartition.mesh.firstX = true
        ∧ thinPartition.mesh.lastX = true ∧ thinPartition.Istart ≤ 1 ∧ 1 < thinPartition.Iend)
      ∧ ∃ st, solveAssemble thinPartition 0 (fun _ _ => 0) (fun _ _ => 1) AsmState.empty
            = .ok st
          ∧ st.MatA.mulVecRow 1 (fun _ => 1) = 1 ∧ st.bs 1 = 0
          ∧ st.MatA.mulVecRow 1 (fun _ => 1) ≠ st.bs 1)
    ∧ ((twoZPoints.meshz = 2 ∧ twoZPoints.mesh.firstX = true
        ∧ twoZPoints.mesh.lastX = true ∧ twoZPoints.Istart ≤ 2 ∧ 2 < twoZPoints.Iend)
      ∧ ∃ st, solveAssemble twoZPoints 0 (fun _ _ => 0) (fun _ _ => 1) AsmState.empty
            = .ok st
          ∧ st.MatA.mulVecRow 2 (fun _ => 1) = -1 ∧ st.bs 2 = 0
          ∧ st.MatA.mulVecRow 2 (fun _ => 1) ≠ st.bs 2) := by
  refine ⟨⟨by decide, _, rfl, ?_, ?_, ?_⟩, ⟨by decide, _, rfl, ?_, ?_, ?_⟩⟩
  · decide!
  · decide!
  · decide!
  · decide!
  · decide!
  · decide!

/-! ## The assembled state, row by row -/

theorem solveAssemble_eq_assembled (s : Solver) (y : Int) (b x0 : FieldPerp)
    (st0 : AsmState) (hI : Int.tmod s.Istart s.meshz = 0) (hend : indexAtEnd s = s.Iend) :
    solveAssemble s y b x0 st0 = .ok (assembled s y b x0 st0) := by
  have e1 := foldlM_ok (applyRowM (innerBoundaryRow s y b x0))
    (applyRow (pureRow (innerEmit s y) (boundaryRhs s s.inner_boundary_flags b x0) x0))
    (innerRows s) (fun t a _ => innerBoundaryRow_ok s y b x0 a.1 a.2.1 a.2.2 t hI) st0
  have e2 := fun t => foldlM_ok (applyRowM (interiorRow s y b x0))
    (applyRow (pureRow (interiorEmit s y) b x0)) (interiorRows s)
    (fun t a _ => interiorRow_ok s y b x0 a.1 a.2.1 a.2.2 t hI) t
  have e3 := fun t => foldlM_ok (applyRowM (outerBoundaryRow s y b x0))
    (applyRow (pureRow (outerEmit s y) (boundaryRhs s s.outer_boundary_flags b x0) x0))
    (outerRows s) (fun t a _ => outerBoundaryRow_ok s y b x0 a.1 a.2.1 a.2.2 t hI) t
  unfold solveAssemble
  rw [assemblyLoops_eq, e1]
  simp only []
  rw [e2]
  simp only []
  rw [e3]
  simp [hend, assembled]

theorem foldl_pureRow_MatA (E : Int → Int → Int → Mat) (β γ : Int → Int → ℚ)
    (L : List (Int × Int × Int)) :
    ∀ st : AsmState, (L.foldl (applyRow (pureRow E β γ)) st).MatA = rowsLog E L ++ st.MatA := by
  induction L with
  | nil => intro st; rfl
  | cons a L ih =>
    intro st
    rw [List.foldl_cons, ih]
    simp [rowsLog, applyRow, pureRow, List.flatMap_append]

theorem assembled_MatA (s : Solver) (y : Int) (b x0 : FieldPerp) (st0 : AsmState) :
    (assembled s y b x0 st0).MatA = assemblyLog s y ++ st0.MatA := by
  unfold assembled assemblyLog
  rw [foldl_pureRow_MatA, foldl_pureRow_MatA, foldl_pureRow_MatA]
  simp [List.append_assoc]

theorem mem_rowsLog (E : Int → Int → Int → Mat) (L : List (Int × Int × Int))
    (e : Int × Int × ℚ) :
    e ∈ rowsLog E L ↔ ∃ r ∈ L, e ∈ E r.1 r.2.1 r.2.2 := by
  simp [rowsLog, List.mem_flatMap]

theorem rowsLog_row_other (E : Int → Int → Int → Mat)
    (hE : ∀ i x z, ∀ e ∈ E i x z, e.1 = i) (L : List (Int × Int × Int)) (i : Int)
    (hi : i ∉ L.map (fun r => r.1)) : (rowsLog E L).row i = [] := by
  apply Mat.row_of_none
  intro e he
  obtain ⟨r, hr, her⟩ := (mem_rowsLog E L e).mp he
  rw [hE _ _ _ e her]
  intro h
  exact hi (List.mem_map.mpr ⟨r, hr, h⟩)

theorem rowsLog_row_mem (E : Int → Int → Int → Mat)
    (hE : ∀ i x z, ∀ e ∈ E i x z, e.1 = i) (L : List (Int × Int × Int))
    (hnd : (L.map (fun r => r.1)).Nodup) (r : Int × Int × Int) (hr : r ∈ L) :
    (rowsLog E L).row r.1 = E r.1 r.2.1 r.2.2 := by
  have h := (foldl_pureRow_mem E (fun _ _ => 0) (fun _ _ => 0) hE L
    ⟨[], fun _ => 0, fun _ => 0⟩ hnd r hr).1
  rw [foldl_pureRow_MatA] at h
  simpa [Mat.row_append, Mat.row] using h

theorem rows_nodup (s : Solver) :
    ((innerRows s).map (fun r => r.1)).Nodup ∧ ((interiorRows s).map (fun r => r.1)).Nodup
      ∧ ((outerRows s).map (fun r => r.1)).Nodup
      ∧ (∀ i, i ∈ (innerRows s).map (fun r => r.1) →
          i ∉ (interiorRows s).map (fun r => r.1) ∧ i ∉ (outerRows s).map (fun r => r.1))
      ∧ (∀ i, i ∈ (interiorRows s).map (fun r => r.1) →
          i ∉ (outerRows s).map (fun r => r.1)) := by
  have hnd : ((innerRows s ++ interiorRows s ++ outerRows s).map (fun r => r.1)).Nodup := by
    rw [rows_index]; exact nodup_intRange _ _
  rw [List.map_append, List.map_append] at hnd
  obtain ⟨hnd12, hnd3, hdisj3⟩ := List.nodup_append.mp hnd
  obtain ⟨hnd1, hnd2, hdisj12⟩ := List.nodup_append.mp hnd12
  refine ⟨hnd1, hnd2, hnd3, ?_, ?_⟩
  · intro i hi
    exact ⟨fun h => hdisj12 hi h, fun h => hdisj3 (List.mem_append_left _ hi) h⟩
  · intro i hi h
    exact hdisj3 (List.mem_append_right _ hi) h

theorem innerEmit_row (s : Solver) (y : Int) : ∀ i x z, ∀ e ∈ innerEmit s y i x z, e.1 = i :=
  fun i x z => emitted_row s i x z _

theorem interiorEmit_row (s : Solver) (y : Int) :
    ∀ i x z, ∀ e ∈ interiorEmit s y i x z, e.1 = i :=
  fun i x z => emitted_row s i x z _

theorem outerEmit_row (s : Solver) (y : Int) : ∀ i x z, ∀ e ∈ outerEmit s y i x z, e.1 = i :=
  fun i x z => emitted_row s i x z _

theorem assemblyLog_row_inner (s : Solver) (y : Int) (r : Int × Int × Int)
    (hr : r ∈ innerRows s) : (assemblyLog s y).row r.1 = innerEmit s y r.1 r.2.1 r.2.2 := by
  obtain ⟨n1, _, _, d1, _⟩ := rows_nodup s
  have hi : r.1 ∈ (innerRows s).map (fun r => r.1) := List.mem_map.mpr ⟨r, hr, rfl⟩
  unfold assemblyLog
  rw [Mat.row_append, Mat.row_append,
    rowsLog_row_other _ (outerEmit_row s y) _ _ (d1 _ hi).2,
    rowsLog_row_other _ (interiorEmit_row s y) _ _ (d1 _ hi).1,
    rowsLog_row_mem _ (innerEmit_row s y) _ n1 r hr]
  rfl

theorem assemblyLog_row_interior (s : Solver) (y : Int) (r : Int × Int × Int)
    (hr : r ∈ interiorRows s) :
    (assemblyLog s y).row r.1 = interiorEmit s y r.1 r.2.1 r.2.2 := by
  obtain ⟨_, n2, _, d1, d2⟩ := rows_nodup s
  have hi : r.1 ∈ (interiorRows s).map (fun r => r.1) := List.mem_map.mpr ⟨r, hr, rfl⟩
  have hn1 : r.1 ∉ (innerRows s).map (fun r => r.1) := fun h => (d1 _ h).1 hi
  unfold assemblyLog
  rw [Mat.row_append, Mat.row_append,
    rowsLog_row_other _ (outerEmit_row s y) _ _ (d2 _ hi),
    rowsLog_row_mem _ (interiorEmit_row s y) _ n2 r hr,
    rowsLog_row_other _ (innerEmit_row s y) _ _ hn1]
  simp

theorem assemblyLog_row_outer (s : Solver) (y : Int) (r : Int × Int × Int)
    (hr : r ∈ outerRows s) : (assemblyLog s y).row r.1 = outerEmit s y r.1 r.2.1 r.2.2 := by
  obtain ⟨_, _, n3, d1, d2⟩ := rows_nodup s
  have hi : r.1 ∈ (outerRows s).map (fun r => r.1) := List.mem_map.mpr ⟨r, hr, rfl⟩
  have hn1 : r.1 ∉ (innerRows s).map (fun r => r.1) := fun h => (d1 _ h).2 hi
  have hn2 : r.1 ∉ (interiorRows s).map (fun r => r.1) := fun h => d2 _ h hi
  unfold assemblyLog
  rw [Mat.row_append, Mat.row_append,
    rowsLog_row_mem _ (outerEmit_row s y) _ n3 r hr,
    rowsLog_row_other _ (interiorEmit_row s y) _ _ hn2,
    rowsLog_row_other _ (innerEmit_row s y) _ _ hn1]
  simp

theorem assembled_bs_inner (s : Solver) (y : Int) (b x0 : FieldPerp) (st0 : AsmState)
    (r : Int × Int × Int) (hr : r ∈ innerRows s) :
    (assembled s y b x0 st0).bs r.1 = boundaryRhs s s.inner_boundary_flags b x0 r.2.1 r.2.2 := by
  obtain ⟨n1, _, _, d1, _⟩ := rows_nodup s
  have hi : r.1 ∈ (innerRows s).map (fun r => r.1) := List.mem_map.mpr ⟨r, hr, rfl⟩
  unfold assembled
  rw [(foldl_pureRow_other _ _ _ (outerEmit_row s y) _ _ _ (d1 _ hi).2).2,
    (foldl_pureRow_other _ _ _ (interiorEmit_row s y) _ _ _ (d1 _ hi).1).2,
    (foldl_pureRow_mem _ _ _ (innerEmit_row s y) _ _ n1 r hr).2]

theorem assembled_bs_outer (s : Solver) (y : Int) (b x0 : FieldPerp) (st0 : AsmState)
    (r : Int × Int × Int) (hr : r ∈ outerRows s) :
    (assembled s y b x0 st0).bs r.1 = boundaryRhs s s.outer_boundary_flags b x0 r.2.1 r.2.2 := by
  obtain ⟨_, _, n3, _, _⟩ := rows_nodup s
  unfold assembled
  rw [(foldl_pureRow_mem _ _ _ (outerEmit_row s y) _ _ n3 r hr).2]

/-! ## Boundary rows of the assembled matrix -/

theorem tmod_of_partition (s : Solver) (hfirst : s.mesh.firstX = true → s.Istart = 0)
    (hrest : s.mesh.firstX = false → s.meshz ∣ s.Istart) :
    Int.tmod s.Istart s.meshz = 0 := by
  cases hf : s.mesh.firstX
  · obtain ⟨k, hk⟩ := hrest hf
    rw [hk, Int.mul_tmod_right]
  · rw [hfirst hf]; simp

theorem mem_innerRows_of_lt (s : Solver) (h1 : s.mesh.xstart ≤ s.mesh.xend + 1)
    (r : Int × Int × Int) (hr : r ∈ innerRows s ++ interiorRows s ++ outerRows s)
    (hx : r.2.1 < s.mesh.xstart) :
    r ∈ innerRows s ∧ s.mesh.firstX = true ∧ 0 ≤ r.2.1 ∧ (0 ≤ r.2.2 ∧ r.2.2 < s.meshz) := by
  rcases List.mem_append.mp hr with h12 | h3
  · rcases List.mem_append.mp h12 with hi | hn
    · refine ⟨hi, ?_⟩
      unfold innerRows at hi
      cases hf : s.mesh.firstX
      · simp [hf] at hi
      · rw [hf, if_pos rfl] at hi
        have := mem_blockRows _ _ _ _ r hi
        exact ⟨rfl, this.1.1, this.2⟩
    · have := mem_blockRows _ _ _ _ r hn
      omega
  · unfold outerRows at h3
    cases hl : s.mesh.lastX
    · simp [hl] at h3
    · rw [hl, if_pos rfl] at h3
      have := mem_blockRows _ _ _ _ r h3
      omega

theorem mem_outerRows_of_gt (s : Solver) (h1 : s.mesh.xstart ≤ s.mesh.xend + 1)
    (r : Int × Int × Int) (hr : r ∈ innerRows s ++ interiorRows s ++ outerRows s)
    (hx : s.mesh.xend < r.2.1) :
    r ∈ outerRows s ∧ s.mesh.lastX = true ∧ r.2.1 < s.mesh.ngx
      ∧ (0 ≤ r.2.2 ∧ r.2.2 < s.meshz) := by
  rcases List.mem_append.mp hr with h12 | h3
  · rcases List.mem_append.mp h12 with hi | hn
    · unfold innerRows at hi
      cases hf : s.mesh.firstX
      · simp [hf] at hi
      · rw [hf, if_pos rfl] at hi
        have := mem_blockRows _ _ _ _ r hi
        omega
    · have := mem_blockRows _ _ _ _ r hn
      omega
  · refine ⟨h3, ?_⟩
    unfold outerRows at h3
    cases hl : s.mesh.lastX
    · simp [hl] at h3
    · rw [hl, if_pos rfl] at h3
      have := mem_blockRows _ _ _ _ r h3
      exact ⟨rfl, this.1.2, this.2⟩

theorem row_diag_column (s : Solver) (h0 : 0 ≤ s.mesh.xstart)
    (h1 : s.mesh.xstart ≤ s.mesh.xend + 1)
    (hfirst : s.mesh.firstX = true → s.Istart = 0)
    (hI : Int.tmod s.Istart s.meshz = 0) (r : Int × Int × Int)
    (hr : r ∈ innerRows s ++ interiorRows s ++ outerRows s) :
    Element.row_new s r.2.1 0 * s.meshz + Element.col_new s r.2.2 0 = r.1 := by
  rw [rows_eq_rowSequence s h0 h1] at hr
  obtain ⟨c, hc, rfl⟩ := List.mem_map.mp hr
  obtain ⟨x, z⟩ := c
  have hz := mem_cellSequence_z s x z hc
  simp only [col_new_of_inside s z hz.1 hz.2]
  unfold Element.row_new xbase
  cases hf : s.mesh.firstX
  · simp only [Bool.not_false, if_true, Bool.false_eq_true, if_false, add_zero]
    have := tdiv_mul_of_tmod _ _ hI
    linear_combination this
  · simp only [Bool.not_true, Bool.false_eq_true, if_false, if_true, add_zero, hfirst hf]
    ring

theorem Mat.get_of_nodup (E : Mat) (i : Int) (hrow : ∀ e ∈ E, e.1 = i)
    (hnd : (E.map (fun e => e.2.1)).Nodup) :
    ∀ e ∈ E, E.get i e.2.1 = some e.2.2 := by
  induction E with
  | nil => intro e he; cases he
  | cons a E ih =>
    intro e he
    rw [List.map_cons, List.nodup_cons] at hnd
    have ha : a.1 = i := hrow a (List.mem_cons_self _ _)
    rcases List.mem_cons.mp he with rfl | he'
    · simp [Mat.get, List.find?_cons, ha]
    · have hne : a.2.1 ≠ e.2.1 := by
        intro h
        exact hnd.1 (List.mem_map.mpr ⟨e, he', h.symm⟩)
      have := ih (fun e he => hrow e (List.mem_cons_of_mem _ he)) hnd.2 e he'
      unfold Mat.get at this ⊢
      rw [List.find?_cons]
      simp only [ha, hne, true_and, decide_False]
      exact this

theorem Mat.rowCols_of_nodup (E : Mat) (i : Int) (hrow : ∀ e ∈ E, e.1 = i)
    (hnd : (E.map (fun e => e.2.1)).Nodup) :
    E.rowCols i = E.map (fun e => e.2.1) := by
  unfold Mat.rowCols
  have : E.filter (fun e => decide (e.1 = i)) = E := by
    apply List.filter_eq_self.mpr
    intro e he
    simp [hrow e he]
  rw [this, List.Nodup.dedup hnd]

theorem Mat.mem_rowCols (M : Mat) (i j : Int) :
    j ∈ M.rowCols i ↔ ∃ e ∈ M, e.1 = i ∧ e.2.1 = j := by
  unfold Mat.rowCols
  simp only [List.mem_dedup, List.mem_map, List.mem_filter, decide_eq_true_eq]
  constructor
  · rintro ⟨e, ⟨he, h1⟩, h2⟩; exact ⟨e, he, h1, h2⟩
  · rintro ⟨e, he, h1, h2⟩; exact ⟨e, ⟨he, h1⟩, h2⟩

theorem Mat.get_append_left (L M : Mat) (i j : Int) (h : j ∈ L.rowCols i) :
    (L ++ M).get i j = L.get i j := by
  obtain ⟨e, he, h1, h2⟩ := (Mat.mem_rowCols L i j).mp h
  unfold Mat.get
  rw [List.find?_append]
  have hs : (L.find? (fun e => decide (e.1 = i ∧ e.2.1 = j))).isSome = true := by
    rw [List.find?_isSome]
    exact ⟨e, he, by simp [h1, h2]⟩
  obtain ⟨v, hv⟩ := Option.isSome_iff_exists.mp hs
  rw [hv]; rfl

theorem mem_emitted (s : Solver) (i x z : Int) (tbl : List (Int × Int × ℚ))
    (e : Int × Int × ℚ) :
    e ∈ emitted s i x z tbl ↔
      ∃ t ∈ tbl, e = (i, Element.row_new s x t.1 * s.meshz + Element.col_new s z t.2.1,
        t.2.2) := by
  unfold emitted
  simp only [List.mem_reverse, List.mem_map]
  constructor
  · rintro ⟨t, ht, rfl⟩; exact ⟨t, ht, rfl⟩
  · rintro ⟨t, ht, rfl⟩; exact ⟨t, ht, rfl⟩

theorem identity_row_entries (s : Solver) (i x z : Int) (tbl : List (Int × Int × ℚ))
    (hz : 0 ≤ z ∧ z < s.meshz)
    (hoff : (tbl.map (fun e => (e.1, e.2.1))).Nodup) (hzero : ∀ e ∈ tbl, e.2.1 = 0)
    (hval : ∀ e ∈ tbl, e.2.2 = if e.1 = 0 then 1 else 0)
    (h00 : ∃ e ∈ tbl, e.1 = 0)
    (hdiag : Element.row_new s x 0 * s.meshz + Element.col_new s z 0 = i) :
    i ∈ (emitted s i x z tbl).rowCols i
      ∧ ∀ j ∈ (emitted s i x z tbl).rowCols i,
          (emitted s i x z tbl).get i j = some (if j = i then 1 else 0) := by
  have hnd := identity_row_cols_nodup s i x z tbl hz hoff hzero
  have hrow := emitted_row s i x z tbl
  have hc0 := col_new_range s z 0 hz (by omega)
  constructor
  · obtain ⟨t, ht, ht0⟩ := h00
    rw [Mat.mem_rowCols]
    refine ⟨_, (mem_emitted s i x z tbl _).mpr ⟨t, ht, rfl⟩, rfl, ?_⟩
    simp only [ht0, hzero t ht]
    exact hdiag
  · intro j hj
    obtain ⟨e, he, _, hej⟩ := (Mat.mem_rowCols _ i j).mp hj
    have hget := Mat.get_of_nodup _ i hrow hnd e he
    rw [hej] at hget
    rw [hget]
    obtain ⟨t, ht, rfl⟩ := (mem_emitted s i x z tbl e).mp he
    simp only [hzero t ht] at hej
    simp only [hval t ht]
    congr 1
    by_cases h0 : t.1 = 0
    · rw [if_pos h0, if_pos]
      rw [← hej, h0]; exact hdiag
    · rw [if_neg h0, if_neg]
      intro hji
      rw [← hdiag] at hji
      rw [← hej] at hji
      exact h0 (row_new_inj s x _ _ (col_inj s.meshz _ _ _ _ hc0 hc0 hji).1)

theorem innerBoundaryStencil_identity_vals (fo : Bool) (dx : ℚ) :
    (∀ e ∈ innerBoundaryStencil false fo dx, e.2.2 = if e.1 = 0 then 1 else 0)
      ∧ ∃ e ∈ innerBoundaryStencil false fo dx, e.1 = 0 := by
  constructor
  · intro e he
    simp only [innerBoundaryStencil, Bool.false_eq_true, if_false, List.mem_cons,
      List.mem_singleton, List.not_mem_nil, or_false] at he
    rcases he with rfl | rfl | rfl | rfl | rfl <;> simp
  · exact ⟨(0, 0, 1), by simp [innerBoundaryStencil], rfl⟩

theorem outerBoundaryStencil_identity_vals (fo : Bool) (dx : ℚ) :
    (∀ e ∈ outerBoundaryStencil false fo dx, e.2.2 = if e.1 = 0 then 1 else 0)
      ∧ ∃ e ∈ outerBoundaryStencil false fo dx, e.1 = 0 := by
  constructor
  · intro e he
    simp only [outerBoundaryStencil, Bool.false_eq_true, if_false, List.mem_cons,
      List.mem_singleton, List.not_mem_nil, or_false] at he
    rcases he with rfl | rfl | rfl | rfl | rfl <;> simp
  · exact ⟨(0, 0, 1), by simp [outerBoundaryStencil], rfl⟩

/-- C11: on a mesh with `0 ≤ xstart ≤ xend + 1`, `ngz ≥ 1`, `ngx = xend + xstart + 1` on
the last x-partition, `Iend - Istart = localN`, `Istart = 0` on the first x-partition and
`Istart` a multiple of `meshz` on the others, the assembly of `solve` succeeds, and for
both accuracy orders every inner boundary row (`x < xstart`) assembled while
`inner_boundary_flags` lacks `INVERT_AC_GRAD`, and every outer boundary row (`x > xend`)
assembled while `outer_boundary_flags` lacks `INVERT_AC_GRAD`, is the identity row: among
the entries `log` that the assembly writes, the row has its own column, and at every
column written for the row the stored weight is 1 on the row's own column and 0
elsewhere. -/
theorem boundary_rows_are_identity (s : Solver) (y : Int) (b x0 : FieldPerp)
    (st0 : AsmState)
    (h0 : 0 ≤ s.mesh.xstart) (h1 : s.mesh.xstart ≤ s.mesh.xend + 1)
    (hz : 1 ≤ s.mesh.ngz)
    (hx : s.mesh.lastX = true → s.mesh.ngx = s.mesh.xend + s.mesh.xstart + 1)
    (hN : s.Iend - s.Istart = localN s.mesh)
    (hfirst : s.mesh.firstX = true → s.Istart = 0)
    (hrest : s.mesh.firstX = false → s.meshz ∣ s.Istart) :
    ∃ st log rows, solveAssemble s y b x0 st0 = .ok st ∧ st.MatA = log ++ st0.MatA
      ∧ assemblyTrace s = .ok rows
      ∧ ∀ r ∈ rows,
          ((r.2.1 < s.mesh.xstart
              ∧ flagSet s.inner_boundary_flags s.bits.INVERT_AC_GRAD = false)
            ∨ (s.mesh.xend < r.2.1
              ∧ flagSet s.outer_boundary_flags s.bits.INVERT_AC_GRAD = false)) →
          r.1 ∈ log.rowCols r.1
            ∧ ∀ j ∈ log.rowCols r.1,
                st.MatA.get r.1 j = some (if j = r.1 then 1 else 0) := by
  have hI := tmod_of_partition s hfirst hrest
  have hend : indexAtEnd s = s.Iend := by
    rw [indexAtEnd_eq s h0 h1 hz hx]; omega
  refine ⟨assembled s y b x0 st0, assemblyLog s y, innerRows s ++ interiorRows s ++ outerRows s,
    solveAssemble_eq_assembled s y b x0 st0 hI hend, assembled_MatA s y b x0 st0, ?_, ?_⟩
  · rw [assemblyTrace, assemblyLoops_record]
  intro r hr hcase
  have hdiag := row_diag_column s h0 h1 hfirst hI r hr
  have key : ∀ E : Mat, (assemblyLog s y).row r.1 = E →
      (r.1 ∈ E.rowCols r.1 ∧ ∀ j ∈ E.rowCols r.1, E.get r.1 j = some (if j = r.1 then 1 else 0)) →
      r.1 ∈ (assemblyLog s y).rowCols r.1
        ∧ ∀ j ∈ (assemblyLog s y).rowCols r.1,
            (assembled s y b x0 st0).MatA.get r.1 j = some (if j = r.1 then 1 else 0) := by
    intro E hE hid
    have hcols : (assemblyLog s y).rowCols r.1 = E.rowCols r.1 := by
      rw [← Mat.rowCols_row, hE]
    have hget : ∀ j, (assemblyLog s y).get r.1 j = E.get r.1 j := by
      intro j
      rw [← Mat.get_row, hE]
    refine ⟨by rw [hcols]; exact hid.1, ?_⟩
    intro j hj
    rw [assembled_MatA, Mat.get_append_left _ _ _ _ hj, hget]
    rw [hcols] at hj
    exact hid.2 j hj
  rcases hcase with ⟨hlt, hg⟩ | ⟨hgt, hg⟩
  · obtain ⟨hmem, _, _, hzr⟩ := mem_innerRows_of_lt s h1 r hr hlt
    obtain ⟨t1, t2, _⟩ := innerBoundaryStencil_identity s.fourth_order (s.mesh.dx r.2.1 y)
    obtain ⟨t3, t4⟩ := innerBoundaryStencil_identity_vals s.fourth_order (s.mesh.dx r.2.1 y)
    apply key _ (assemblyLog_row_inner s y r hmem)
    unfold innerEmit
    rw [hg]
    exact identity_row_entries s _ _ _ _ hzr t1 t2 t3 t4 hdiag
  · obtain ⟨hmem, _, _, hzr⟩ := mem_outerRows_of_gt s h1 r hr hgt
    obtain ⟨t1, t2, _⟩ := outerBoundaryStencil_identity s.fourth_order (s.mesh.dx r.2.1 y)
    obtain ⟨t3, t4⟩ := outerBoundaryStencil_identity_vals s.fourth_order (s.mesh.dx r.2.1 y)
    apply key _ (assemblyLog_row_outer s y r hmem)
    unfold outerEmit
    rw [hg]
    exact identity_row_entries s _ _ _ _ hzr t1 t2 t3 t4 hdiag

/-- Witness for C11 on a single partition whose two boundaries fix the value. -/
theorem boundary_rows_are_identity_witness :
    (0 ≤ singlePartition.mesh.xstart
      ∧ singlePartition.mesh.xstart ≤ singlePartition.mesh.xend + 1
      ∧ 1 ≤ singlePartition.mesh.ngz
      ∧ (singlePartition.mesh.lastX = true → singlePartition.mesh.ngx
          = singlePartition.mesh.xend + singlePartition.mesh.xstart + 1)
      ∧ singlePartition.Iend - singlePartition.Istart = localN singlePartition.mesh
      ∧ (singlePartition.mesh.firstX = true → singlePartition.Istart = 0)
      ∧ (singlePartition.mesh.firstX = false →
          singlePartition.meshz ∣ singlePartition.Istart)) ∧
    ∃ st log rows, solveAssemble singlePartition 0 (fun _ _ => 0) (fun _ _ => 7)
        AsmState.empty = .ok st ∧ st.MatA = log ++ AsmState.empty.MatA
      ∧ assemblyTrace singlePartition = .ok rows
      ∧ ∀ r ∈ rows,
          ((r.2.1 < singlePartition.mesh.xstart
              ∧ flagSet singlePartition.inner_boundary_flags
                  singlePartition.bits.INVERT_AC_GRAD = false)
            ∨ (singlePartition.mesh.xend < r.2.1
              ∧ flagSet singlePartition.outer_boundary_flags
                  singlePartition.bits.INVERT_AC_GRAD = false)) →
          r.1 ∈ log.rowCols r.1
            ∧ ∀ j ∈ log.rowCols r.1,
                st.MatA.get r.1 j = some (if j = r.1 then 1 else 0) :=
  ⟨⟨by decide, by decide, by decide, by decide, by decide, by decide, by decide⟩,
    boundary_rows_are_identity singlePartition 0 (fun _ _ => 0) (fun _ _ => 7)
      AsmState.empty (by decide) (by decide) (by decide) (by decide) (by decide)
      (by decide) (by decide)⟩

theorem boundaryRhs_rows (s : Solver) (y : Int) (b x0 : FieldPerp) (st0 : AsmState)
    (h1 : s.mesh.xstart ≤ s.mesh.xend + 1) (r : Int × Int × Int)
    (hr : r ∈ innerRows s ++ interiorRows s ++ outerRows s) :
    (r.2.1 < s.mesh.xstart →
        (assembled s y b x0 st0).bs r.1
          = boundaryRhs s s.inner_boundary_flags b x0 r.2.1 r.2.2)
      ∧ (s.mesh.xend < r.2.1 →
        (assembled s y b x0 st0).bs r.1
          = boundaryRhs s s.outer_boundary_flags b x0 r.2.1 r.2.2) :=
  ⟨fun h => assembled_bs_inner s y b x0 st0 r (mem_innerRows_of_lt s h1 r hr h).1,
    fun h => assembled_bs_outer s y b x0 st0 r (mem_outerRows_of_gt s h1 r hr h).1⟩

/-- C12 (as amended): under the mesh and ownership conditions of C11, the assembly of
`solve` succeeds and the right-hand side entry of every boundary row is `b[x][z]` when
the boundary's flags have `INVERT_RHS`, otherwise `x0[x][z]` when they have
`INVERT_SET`, otherwise 0, whether or not `INVERT_AC_GRAD` is set. So the entry is the
prescribed value `x0[x][z]` exactly in the case `INVERT_SET` without `INVERT_RHS`. -/
theorem boundary_rhs_by_flags (s : Solver) (y : Int) (b x0 : FieldPerp)
    (st0 : AsmState)
    (h0 : 0 ≤ s.mesh.xstart) (h1 : s.mesh.xstart ≤ s.mesh.xend + 1)
    (hz : 1 ≤ s.mesh.ngz)
    (hx : s.mesh.lastX = true → s.mesh.ngx = s.mesh.xend + s.mesh.xstart + 1)
    (hN : s.Iend - s.Istart = localN s.mesh)
    (hfirst : s.mesh.firstX = true → s.Istart = 0)
    (hrest : s.mesh.firstX = false → s.meshz ∣ s.Istart) :
    ∃ st rows, solveAssemble s y b x0 st0 = .ok st ∧ assemblyTrace s = .ok rows
      ∧ ∀ r ∈ rows,
          (r.2.1 < s.mesh.xstart →
            st.bs r.1 =
              if flagSet s.inner_boundary_flags s.bits.INVERT_RHS then b r.2.1 r.2.2
              else if flagSet s.inner_boundary_flags s.bits.INVERT_SET then x0 r.2.1 r.2.2
              else 0)
          ∧ (s.mesh.xend < r.2.1 →
            st.bs r.1 =
              if flagSet s.outer_boundary_flags s.bits.INVERT_RHS then b r.2.1 r.2.2
              else if flagSet s.outer_boundary_flags s.bits.INVERT_SET then x0 r.2.1 r.2.2
              else 0) := by
  have hI := tmod_of_partition s hfirst hrest
  have hend : indexAtEnd s = s.Iend := by
    rw [indexAtEnd_eq s h0 h1 hz hx]; omega
  refine ⟨assembled s y b x0 st0, innerRows s ++ interiorRows s ++ outerRows s,
    solveAssemble_eq_assembled s y b x0 st0 hI hend, ?_, ?_⟩
  · rw [assemblyTrace, assemblyLoops_record]
  intro r hr
  exact boundaryRhs_rows s y b x0 st0 h1 r hr

/-- Witness for C12 on a single partition whose two boundaries fix the value. -/
theorem boundary_rhs_by_flags_witness :
    (0 ≤ singlePartition.mesh.xstart
      ∧ singlePartition.mesh.xstart ≤ singlePartition.mesh.xend + 1
      ∧ 1 ≤ singlePartition.mesh.ngz
      ∧ (singlePartition.mesh.lastX = true → singlePartition.mesh.ngx
          = singlePartition.mesh.xend + singlePartition.mesh.xstart + 1)
      ∧ singlePartition.Iend - singlePartition.Istart = localN singlePartition.mesh
      ∧ (singlePartition.mesh.firstX = true → singlePartition.Istart = 0)
      ∧ (singlePartition.mesh.firstX = false →
          singlePartition.meshz ∣ singlePartition.Istart)) ∧
    ∃ st rows, solveAssemble singlePartition 0 (fun _ _ => 0) (fun _ _ => 7)
        AsmState.empty = .ok st ∧ assemblyTrace singlePartition = .ok rows
      ∧ ∀ r ∈ rows,
          (r.2.1 < singlePartition.mesh.xstart →
            st.bs r.1 =
              if flagSet singlePartition.inner_boundary_flags
                  singlePartition.bits.INVERT_RHS then (fun _ _ => (0 : ℚ)) r.2.1 r.2.2
              else if flagSet singlePartition.inner_boundary_flags
                  singlePartition.bits.INVERT_SET then (fun _ _ => (7 : ℚ)) r.2.1 r.2.2
              else 0)
          ∧ (singlePartition.mesh.xend < r.2.1 →
            st.bs r.1 =
              if flagSet singlePartition.outer_boundary_flags
                  singlePartition.bits.INVERT_RHS then (fun _ _ => (0 : ℚ)) r.2.1 r.2.2
              else if flagSet singlePartition.outer_boundary_flags
                  singlePartition.bits.INVERT_SET then (fun _ _ => (7 : ℚ)) r.2.1 r.2.2
              else 0) :=
  ⟨⟨by decide, by decide, by decide, by decide, by decide, by decide, by decide⟩,
    boundary_rhs_by_flags singlePartition 0 (fun _ _ => 0) (fun _ _ => 7)
      AsmState.empty (by decide) (by decide) (by decide) (by decide) (by decide)
      (by decide) (by decide)⟩

/-- C12, counterexample to the claim as written: on the single partition `noFlags`,
whose boundary flags are all clear, with `b = 3` and `x0 = 7` everywhere, the assembly
succeeds and the right-hand side entry of the inner boundary row 0 (cell `(0, 0)`) is 0,
not `x0[0][0] = 7`; with the flags `INVERT_SET + INVERT_RHS` on the partition
`rhsFlags` it is `b[0][0] = 3`. -/
theorem boundary_rhs_is_not_always_x0 :
    (∃ st rows, solveAssemble noFlags 0 (fun _ _ => 3) (fun _ _ => 7) AsmState.empty = .ok st
      ∧ assemblyTrace noFlags = .ok rows ∧ (0, 0, 0) ∈ rows
      ∧ (0 : Int) < noFlags.mesh.xstart
      ∧ st.bs 0 = 0 ∧ st.bs 0 ≠ (fun _ _ => (7 : ℚ)) 0 0)
    ∧ (∃ st rows, solveAssemble rhsFlags 0 (fun _ _ => 3) (fun _ _ => 7) AsmState.empty
          = .ok st
      ∧ assemblyTrace rhsFlags = .ok rows ∧ (0, 0, 0) ∈ rows
      ∧ (0 : Int) < rhsFlags.mesh.xstart
      ∧ st.bs 0 = 3 ∧ st.bs 0 ≠ (fun _ _ => (7 : ℚ)) 0 0) := by
  have hmem1 : ((0 : Int), (0 : Int), (0 : Int)) ∈ innerRows noFlags := by decide
  have hmem2 : ((0 : Int), (0 : Int), (0 : Int)) ∈ innerRows rhsFlags := by decide
  have v1 : (assembled noFlags 0 (fun _ _ => 3) (fun _ _ => 7) AsmState.empty).bs 0 = 0 := by
    rw [assembled_bs_inner noFlags 0 _ _ _ (0, 0, 0) hmem1]
    decide!
  have v2 : (assembled rhsFlags 0 (fun _ _ => 3) (fun _ _ => 7) AsmState.empty).bs 0 = 3 := by
    rw [assembled_bs_inner rhsFlags 0 _ _ _ (0, 0, 0) hmem2]
    decide!
  refine ⟨⟨_, _, solveAssemble_eq_assembled noFlags 0 _ _ _ (by decide) (by decide),
      by rw [assemblyTrace, assemblyLoops_record],
      List.mem_append_left _ (List.mem_append_left _ hmem1), by decide, v1, ?_⟩,
    ⟨_, _, solveAssemble_eq_assembled rhsFlags 0 _ _ _ (by decide) (by decide),
      by rw [assemblyTrace, assemblyLoops_record],
      List.mem_append_left _ (List.mem_append_left _ hmem2), by decide, v2, ?_⟩⟩
  · rw [v1]; norm_num
  · rw [v2]; norm_num

/-! ## Re-assembly after a change of boundary flags -/

theorem Mat.getD_append_stale (L2 L1 : Mat)
    (h : ∀ e ∈ L1, (∃ e' ∈ L2, e'.1 = e.1 ∧ e'.2.1 = e.2.1) ∨ e.2.2 = 0) (i j : Int) :
    ((L2 ++ L1).get i j).getD 0 = (L2.get i j).getD 0 := by
  unfold Mat.get
  rw [List.find?_append]
  cases h2 : L2.find? (fun e => decide (e.1 = i ∧ e.2.1 = j)) with
  | some v => rfl
  | none =>
    simp only [Option.none_or, Option.map_none', Option.getD_none]
    cases h1 : L1.find? (fun e => decide (e.1 = i ∧ e.2.1 = j)) with
    | none => rfl
    | some e =>
      have hp := List.find?_some h1
      have he := List.mem_of_find?_eq_some h1
      simp only [decide_eq_true_eq] at hp
      rcases h e he with ⟨e', he', h1', h2'⟩ | hz
      · have := List.find?_eq_none.mp h2 e' he'
        simp [h1', h2', hp.1, hp.2] at this
      · simp [hz]

theorem innerBoundaryStencil_covered (g1 g2 fo : Bool) (dx : ℚ) :
    ∀ t ∈ innerBoundaryStencil g1 fo dx,
      (∃ t' ∈ innerBoundaryStencil g2 fo dx, t'.1 = t.1 ∧ t'.2.1 = t.2.1) ∨ t.2.2 = 0 := by
  intro t ht
  cases g1 <;> cases g2 <;> cases fo <;>
    simp only [innerBoundaryStencil, Bool.false_eq_true, if_false, if_true, List.mem_cons,
      List.mem_singleton, List.not_mem_nil, or_false] at ht ⊢ <;>
    rcases ht with rfl | rfl | rfl | rfl | rfl <;> simp

theorem outerBoundaryStencil_covered (g1 g2 fo : Bool) (dx : ℚ) :
    ∀ t ∈ outerBoundaryStencil g1 fo dx,
      (∃ t' ∈ outerBoundaryStencil g2 fo dx, t'.1 = t.1 ∧ t'.2.1 = t.2.1) ∨ t.2.2 = 0 := by
  intro t ht
  cases g1 <;> cases g2 <;> cases fo <;>
    simp only [outerBoundaryStencil, Bool.false_eq_true, if_false, if_true, List.mem_cons,
      List.mem_singleton, List.not_mem_nil, or_false] at ht ⊢ <;>
    rcases ht with rfl | rfl | rfl | rfl | rfl | rfl <;> simp

theorem emitted_covered (s s2 : Solver) (i x z : Int) (tbl tbl2 : List (Int × Int × ℚ))
    (hrow : ∀ a, Element.row_new s2 x a = Element.row_new s x a)
    (hm : s2.meshz = s.meshz)
    (h : ∀ t ∈ tbl, (∃ t' ∈ tbl2, t'.1 = t.1 ∧ t'.2.1 = t.2.1) ∨ t.2.2 = 0) :
    ∀ e ∈ emitted s i x z tbl,
      (∃ e' ∈ emitted s2 i x z tbl2, e'.1 = e.1 ∧ e'.2.1 = e.2.1) ∨ e.2.2 = 0 := by
  intro e he
  obtain ⟨t, ht, rfl⟩ := (mem_emitted s i x z tbl e).mp he
  rcases h t ht with ⟨t', ht', h1, h2⟩ | h0
  · left
    refine ⟨_, (mem_emitted s2 i x z tbl2 _).mpr ⟨t', ht', rfl⟩, rfl, ?_⟩
    simp only [hrow, hm, h1, h2, Element.col_new]
  · right; exact h0

theorem rowsLog_covered (E E2 : Int → Int → Int → Mat) (L : List (Int × Int × Int))
    (h : ∀ r ∈ L, ∀ e ∈ E r.1 r.2.1 r.2.2,
      (∃ e' ∈ E2 r.1 r.2.1 r.2.2, e'.1 = e.1 ∧ e'.2.1 = e.2.1) ∨ e.2.2 = 0) :
    ∀ e ∈ rowsLog E L, (∃ e' ∈ rowsLog E2 L, e'.1 = e.1 ∧ e'.2.1 = e.2.1) ∨ e.2.2 = 0 := by
  intro e he
  obtain ⟨r, hr, her⟩ := (mem_rowsLog E L e).mp he
  rcases h r hr e her with ⟨e', he', h12⟩ | h0
  · exact Or.inl ⟨e', (mem_rowsLog E2 L e').mpr ⟨r, hr, he'⟩, h12⟩
  · exact Or.inr h0

theorem assemblyLog_covered (s : Solver) (fi fo : Nat) (y : Int) :
    ∀ e ∈ assemblyLog s y,
      (∃ e' ∈ assemblyLog (s.withFlags fi fo) y, e'.1 = e.1 ∧ e'.2.1 = e.2.1)
        ∨ e.2.2 = 0 := by
  intro e he
  have hrow : ∀ x a, Element.row_new (s.withFlags fi fo) x a = Element.row_new s x a :=
    fun _ _ => rfl
  have hm : (s.withFlags fi fo).meshz = s.meshz := rfl
  unfold assemblyLog at he ⊢
  rcases List.mem_append.mp he with h12 | h3
  · rcases List.mem_append.mp h12 with ho | hn
    · rcases rowsLog_covered (outerEmit s y) (outerEmit (s.withFlags fi fo) y) (outerRows s)
          (fun r _ => emitted_covered s _ r.1 r.2.1 r.2.2 _ _ (hrow r.2.1) hm
            (outerBoundaryStencil_covered _ _ _ _)) e ho with ⟨e', he', h⟩ | h
      · exact Or.inl ⟨e', List.mem_append_left _ (List.mem_append_left _ he'), h⟩
      · exact Or.inr h
    · exact Or.inl ⟨e, List.mem_append_left _ (List.mem_append_right _ hn), rfl, rfl⟩
  · rcases rowsLog_covered (innerEmit s y) (innerEmit (s.withFlags fi fo) y) (innerRows s)
        (fun r _ => emitted_covered s _ r.1 r.2.1 r.2.2 _ _ (hrow r.2.1) hm
          (innerBoundaryStencil_covered _ _ _ _)) e h3 with ⟨e', he', h⟩ | h
    · exact Or.inl ⟨e', List.mem_append_right _ he', h⟩
    · exact Or.inr h

/-- C13: for a fixed accuracy order and any boundary flags `F1` (those of `s`) and `F2`
(`fi`, `fo`), under the mesh and ownership conditions of C11, assembling with `F1` into
an empty matrix and then with `F2` into the result succeeds and stores, reading absent
entries as 0, the same matrix as assembling with `F2` into the empty matrix; and every
offset of a gradient boundary table is also an offset of the identity table, with weight
0 off the diagonal. -/
theorem reassembly_leaves_no_stale_weight (s : Solver) (fi fo : Nat) (y : Int)
    (b1 x1 b2 x2 : FieldPerp) (st0 : AsmState)
    (h0 : 0 ≤ s.mesh.xstart) (h1 : s.mesh.xstart ≤ s.mesh.xend + 1)
    (hz : 1 ≤ s.mesh.ngz)
    (hx : s.mesh.lastX = true → s.mesh.ngx = s.mesh.xend + s.mesh.xstart + 1)
    (hN : s.Iend - s.Istart = localN s.mesh)
    (hfirst : s.mesh.firstX = true → s.Istart = 0)
    (hrest : s.mesh.firstX = false → s.meshz ∣ s.Istart)
    (hM : st0.MatA = []) :
    (∃ st1 st12 st2, solveAssemble s y b1 x1 st0 = .ok st1
      ∧ solveAssemble (s.withFlags fi fo) y b2 x2 st1 = .ok st12
      ∧ solveAssemble (s.withFlags fi fo) y b2 x2 st0 = .ok st2
      ∧ ∀ i j, (st12.MatA.get i j).getD 0 = (st2.MatA.get i j).getD 0)
    ∧ (∀ (order : Bool) (dx : ℚ),
        (∀ t ∈ innerBoundaryStencil true order dx,
          ∃ t' ∈ innerBoundaryStencil false order dx,
            t'.1 = t.1 ∧ t'.2.1 = t.2.1 ∧ (t.1 ≠ 0 → t'.2.2 = 0))
        ∧ (∀ t ∈ outerBoundaryStencil true order dx,
          ∃ t' ∈ outerBoundaryStencil false order dx,
            t'.1 = t.1 ∧ t'.2.1 = t.2.1 ∧ (t.1 ≠ 0 → t'.2.2 = 0))) := by
  have hI := tmod_of_partition s hfirst hrest
  have hend : indexAtEnd s = s.Iend := by
    rw [indexAtEnd_eq s h0 h1 hz hx]; omega
  have hI2 : Int.tmod (s.withFlags fi fo).Istart (s.withFlags fi fo).meshz = 0 := hI
  have hend2 : indexAtEnd (s.withFlags fi fo) = (s.withFlags fi fo).Iend := hend
  constructor
  · refine ⟨_, _, _, solveAssemble_eq_assembled s y b1 x1 st0 hI hend,
      solveAssemble_eq_assembled (s.withFlags fi fo) y b2 x2 _ hI2 hend2,
      solveAssemble_eq_assembled (s.withFlags fi fo) y b2 x2 st0 hI2 hend2, ?_⟩
    intro i j
    rw [assembled_MatA, assembled_MatA, assembled_MatA, hM, List.append_nil, List.append_nil]
    exact Mat.getD_append_stale _ _ (assemblyLog_covered s fi fo y) i j
  · intro order dx
    constructor
    · intro t ht
      cases order <;>
        simp only [innerBoundaryStencil, Bool.false_eq_true, if_false, if_true, List.mem_cons,
          List.mem_singleton, List.not_mem_nil, or_false] at ht ⊢ <;>
        rcases ht with rfl | rfl | rfl | rfl | rfl <;> simp
    · intro t ht
      cases order <;>
        simp only [outerBoundaryStencil, Bool.false_eq_true, if_false, if_true, List.mem_cons,
          List.mem_singleton, List.not_mem_nil, or_false] at ht ⊢ <;>
        rcases ht with rfl | rfl | rfl | rfl | rfl | rfl <;> simp

/-- Witness for C13: a fourth-order single partition assembled with the gradient flag on
both boundaries and then re-assembled with the value-fixing flag `INVERT_SET`. -/
theorem reassembly_leaves_no_stale_weight_witness :
    (0 ≤ gradientFlags.mesh.xstart
      ∧ gradientFlags.mesh.xstart ≤ gradientFlags.mesh.xend + 1
      ∧ 1 ≤ gradientFlags.mesh.ngz
      ∧ (gradientFlags.mesh.lastX = true → gradientFlags.mesh.ngx
          = gradientFlags.mesh.xend + gradientFlags.mesh.xstart + 1)
      ∧ gradientFlags.Iend - gradientFlags.Istart = localN gradientFlags.mesh
      ∧ (gradientFlags.mesh.firstX = true → gradientFlags.Istart = 0)
      ∧ (gradientFlags.mesh.firstX = false → gradientFlags.meshz ∣ gradientFlags.Istart)
      ∧ AsmState.empty.MatA = []) ∧
    ((∃ st1 st12 st2,
        solveAssemble gradientFlags 0 (fun _ _ => 0) (fun _ _ => 0) AsmState.empty = .ok st1
      ∧ solveAssemble (gradientFlags.withFlags 16 16) 0 (fun _ _ => 0) (fun _ _ => 7) st1
          = .ok st12
      ∧ solveAssemble (gradientFlags.withFlags 16 16) 0 (fun _ _ => 0) (fun _ _ => 7)
          AsmState.empty = .ok st2
      ∧ ∀ i j, (st12.MatA.get i j).getD 0 = (st2.MatA.get i j).getD 0)
    ∧ (∀ (order : Bool) (dx : ℚ),
        (∀ t ∈ innerBoundaryStencil true order dx,
          ∃ t' ∈ innerBoundaryStencil false order dx,
            t'.1 = t.1 ∧ t'.2.1 = t.2.1 ∧ (t.1 ≠ 0 → t'.2.2 = 0))
        ∧ (∀ t ∈ outerBoundaryStencil true order dx,
          ∃ t' ∈ outerBoundaryStencil false order dx,
            t'.1 = t.1 ∧ t'.2.1 = t.2.1 ∧ (t.1 ≠ 0 → t'.2.2 = 0)))) :=
  ⟨⟨by decide, by decide, by decide, by decide, by decide, by decide, by decide, rfl⟩,
    reassembly_leaves_no_stale_weight gradientFlags 16 16 0 (fun _ _ => 0) (fun _ _ => 0)
      (fun _ _ => 0) (fun _ _ => 7) AsmState.empty (by decide) (by decide) (by decide)
      (by decide) (by decide) (by decide) (by decide) rfl⟩

/-! ## The outcome of `solve` -/

theorem solveAssemble_ok_index (s : Solver) (y : Int) (b x0 : FieldPerp)
    (st0 st : AsmState) (h : solveAssemble s y b x0 st0 = .ok st) :
    indexAtEnd s = s.Iend := by
  unfold solveAssemble at h
  rw [assemblyLoops_eq] at h
  cases h1 : (innerRows s).foldlM (applyRowM (innerBoundaryRow s y b x0)) st0 with
  | error m => rw [h1] at h; cases h
  | ok t1 =>
    rw [h1] at h
    simp only [] at h
    cases h2 : (interiorRows s).foldlM (applyRowM (interiorRow s y b x0)) t1 with
    | error m => rw [h2] at h; cases h
    | ok t2 =>
      rw [h2] at h
      simp only [] at h
      cases h3 : (outerRows s).foldlM (applyRowM (outerBoundaryRow s y b x0)) t2 with
      | error m => rw [h3] at h; cases h
      | ok t3 =>
        rw [h3] at h
        simp only [] at h
        by_contra hne
        rw [if_pos hne] at h
        cases h

theorem solveExtract_eq (s : Solver) (xs : Vec) (hend : indexAtEnd s = s.Iend) :
    solveExtract s xs
      = .ok ((innerRows s ++ interiorRows s ++ outerRows s).foldl
          (applyRow (fun i x z g => FieldPerp.set g x z (xs i))) (fun _ _ => 0)) := by
  simp [solveExtract, extractLoops_eq, hend, List.foldl_append]

theorem solve_of_assembled (CHECK : Bool) (lib : PetscLib) (gbits : GlobalBits)
    (KSPSolve : KrylovKernel) (s : Solver) (cfg : SolverConfig) (global_flags : Nat)
    (y : Int) (b x0 : FieldPerp) (st0 st : AsmState)
    (hchk : solveChecks CHECK s cfg global_flags = .ok ())
    (hasm : solveAssemble s y b x0 st0 = .ok st) :
    solve CHECK lib gbits KSPSolve s cfg global_flags y b x0 st0
      = if (KSPSolve (configureSolver lib gbits global_flags cfg) st.MatA st.bs st.xs).2 = -3
        then .error (.BoutIterationFail "petsc_laplace: too many iterations")
        else if (KSPSolve (configureSolver lib gbits global_flags cfg)
            st.MatA st.bs st.xs).2 ≤ 0
        then .error (.BoutException "petsc_laplace: inversion failed to converge.")
        else .ok ((innerRows s ++ interiorRows s ++ outerRows s).foldl
          (applyRow (fun i x z g => FieldPerp.set g x z
            ((KSPSolve (configureSolver lib gbits global_flags cfg)
              st.MatA st.bs st.xs).1 i)))
          (fun _ _ => 0)) := by
  unfold solve
  rw [hchk]
  simp only []
  rw [hasm]
  simp only []
  rw [solveExtract_eq s _ (solveAssemble_ok_index s y b x0 st0 st hasm)]

theorem solveChecks_default (s : Solver)
    (hi : andNot s.inner_boundary_flags 50 = 0) (ho : andNot s.outer_boundary_flags 50 = 0) :
    solveChecks true s defaultConfig 0 = .ok () := by
  simp [solveChecks, defaultConfig, hi, ho]

/-- C14: when the entry checks of `solve` pass and the assembly succeeds with the state
`st`, the outcome of `solve` is decided by the reason code the Krylov kernel reports for
`st`: `BoutIterationFail` is raised if and only if the reason is -3, `BoutException` is
raised if and only if the reason is at most 0 and not -3, and the solution field is
returned if and only if the reason is positive. -/
theorem solve_outcome_by_reason (CHECK : Bool) (lib : PetscLib) (gbits : GlobalBits)
    (KSPSolve : KrylovKernel) (s : Solver) (cfg : SolverConfig) (global_flags : Nat)
    (y : Int) (b x0 : FieldPerp) (st0 st : AsmState)
    (hchk : solveChecks CHECK s cfg global_flags = .ok ())
    (hasm : solveAssemble s y b x0 st0 = .ok st) :
    ((∃ m, solve CHECK lib gbits KSPSolve s cfg global_flags y b x0 st0
          = .error (.BoutIterationFail m))
        ↔ (KSPSolve (configureSolver lib gbits global_flags cfg) st.MatA st.bs st.xs).2 = -3)
    ∧ ((∃ m, solve CHECK lib gbits KSPSolve s cfg global_flags y b x0 st0
          = .error (.BoutException m))
        ↔ (KSPSolve (configureSolver lib gbits global_flags cfg) st.MatA st.bs st.xs).2 ≤ 0
          ∧ (KSPSolve (configureSolver lib gbits global_flags cfg) st.MatA st.bs st.xs).2
              ≠ -3)
    ∧ ((∃ sol, solve CHECK lib gbits KSPSolve s cfg global_flags y b x0 st0 = .ok sol)
        ↔ 0 < (KSPSolve (configureSolver lib gbits global_flags cfg)
            st.MatA st.bs st.xs).2) := by
  rw [solve_of_assembled CHECK lib gbits KSPSolve s cfg global_flags y b x0 st0 st hchk hasm]
  generalize (KSPSolve (configureSolver lib gbits global_flags cfg) st.MatA st.bs st.xs).2
    = reason
  by_cases h3 : reason = -3
  · subst h3
    simp
  · by_cases hle : reason ≤ 0
    · simp [h3, hle]
    · have hpos : 0 < reason := by omega
      simp [h3, hle, hpos]

/-- Witness for C14: the single partition with the settings of an empty options section
and a kernel that reports convergence. -/
theorem solve_outcome_by_reason_witness :
    (solveChecks true singlePartition defaultConfig 0 = .ok ()
      ∧ solveAssemble singlePartition 0 (fun _ _ => 0) (fun _ _ => 7) AsmState.empty
          = .ok (assembled singlePartition 0 (fun _ _ => 0) (fun _ _ => 7) AsmState.empty)) ∧
    (((∃ m, solve true PetscLib.full GlobalBits.standard constantKernel singlePartition
          defaultConfig 0 0 (fun _ _ => 0) (fun _ _ => 7) AsmState.empty
            = .error (.BoutIterationFail m))
        ↔ (constantKernel (configureSolver PetscLib.full GlobalBits.standard 0 defaultConfig)
            (assembled singlePartition 0 (fun _ _ => 0) (fun _ _ => 7) AsmState.empty).MatA
            (assembled singlePartition 0 (fun _ _ => 0) (fun _ _ => 7) AsmState.empty).bs
            (assembled singlePartition 0 (fun _ _ => 0) (fun _ _ => 7) AsmState.empty).xs).2
            = -3)
    ∧ ((∃ m, solve true PetscLib.full GlobalBits.standard constantKernel singlePartition
          defaultConfig 0 0 (fun _ _ => 0) (fun _ _ => 7) AsmState.empty
            = .error (.BoutException m))
        ↔ (constantKernel (configureSolver PetscLib.full GlobalBits.standard 0 defaultConfig)
            (assembled singlePartition 0 (fun _ _ => 0) (fun _ _ => 7) AsmState.empty).MatA
            (assembled singlePartition 0 (fun _ _ => 0) (fun _ _ => 7) AsmState.empty).bs
            (assembled singlePartition 0 (fun _ _ => 0) (fun _ _ => 7) AsmState.empty).xs).2
            ≤ 0
          ∧ (constantKernel
              (configureSolver PetscLib.full GlobalBits.standard 0 defaultConfig)
            (assembled singlePartition 0 (fun _ _ => 0) (fun _ _ => 7) AsmState.empty).MatA
            (assembled singlePartition 0 (fun _ _ => 0) (fun _ _ => 7) AsmState.empty).bs
            (assembled singlePartition 0 (fun _ _ => 0) (fun _ _ => 7) AsmState.empty).xs).2
              ≠ -3)
    ∧ ((∃ sol, solve true PetscLib.full GlobalBits.standard constantKernel singlePartition
          defaultConfig 0 0 (fun _ _ => 0) (fun _ _ => 7) AsmState.empty = .ok sol)
        ↔ 0 < (constantKernel
              (configureSolver PetscLib.full GlobalBits.standard 0 defaultConfig)
            (assembled singlePartition 0 (fun _ _ => 0) (fun _ _ => 7) AsmState.empty).MatA
            (assembled singlePartition 0 (fun _ _ => 0) (fun _ _ => 7) AsmState.empty).bs
            (assembled singlePartition 0 (fun _ _ => 0) (fun _ _ => 7)
              AsmState.empty).xs).2)) :=
  ⟨⟨solveChecks_default singlePartition (by decide!) (by decide!),
      solveAssemble_eq_assembled singlePartition 0 _ _ _ (by decide) (by decide)⟩,
    solve_outcome_by_reason true PetscLib.full GlobalBits.standard constantKernel
      singlePartition defaultConfig 0 0 (fun _ _ => 0) (fun _ _ => 7) AsmState.empty _
      (solveChecks_default singlePartition (by decide!) (by decide!))
      (solveAssemble_eq_assembled singlePartition 0 _ _ _ (by decide) (by decide))⟩

/-- C20 (as amended): under the mesh and ownership conditions of C11, when the entry
checks pass and the kernel reports a positive reason, `solve` returns a field that holds,
at every cell the traversal visits (all `z` in `[0, ngz-1)` and all `x` from 0 on the
first x-partition, or `xstart` otherwise, up to `ngx-1` on the last x-partition, or
`xend` otherwise), the solution-vector entry of that cell's row, and 0 at every other
cell. -/
theorem solve_fills_visited_cells (CHECK : Bool) (lib : PetscLib) (gbits : GlobalBits)
    (KSPSolve : KrylovKernel) (s : Solver) (cfg : SolverConfig) (global_flags : Nat)
    (y : Int) (b x0 : FieldPerp) (st0 : AsmState)
    (h0 : 0 ≤ s.mesh.xstart) (h1 : s.mesh.xstart ≤ s.mesh.xend + 1)
    (hz : 1 ≤ s.mesh.ngz)
    (hx : s.mesh.lastX = true → s.mesh.ngx = s.mesh.xend + s.mesh.xstart + 1)
    (hN : s.Iend - s.Istart = localN s.mesh)
    (hfirst : s.mesh.firstX = true → s.Istart = 0)
    (hrest : s.mesh.firstX = false → s.meshz ∣ s.Istart)
    (hchk : solveChecks CHECK s cfg global_flags = .ok ())
    (hconv : ∀ st, solveAssemble s y b x0 st0 = .ok st →
      0 < (KSPSolve (configureSolver lib gbits global_flags cfg) st.MatA st.bs st.xs).2) :
    ∃ st sol, solveAssemble s y b x0 st0 = .ok st
      ∧ solve CHECK lib gbits KSPSolve s cfg global_flags y b x0 st0 = .ok sol
      ∧ ∀ x z, sol x z =
          if (xbase s ≤ x ∧ x < (if s.mesh.lastX then s.mesh.ngx else s.mesh.xend + 1))
              ∧ (0 ≤ z ∧ z < s.mesh.ngz - 1)
          then (KSPSolve (configureSolver lib gbits global_flags cfg)
            st.MatA st.bs st.xs).1 (s.Istart + (x - xbase s) * s.meshz + z)
          else 0 := by
  have hI := tmod_of_partition s hfirst hrest
  have hend : indexAtEnd s = s.Iend := by
    rw [indexAtEnd_eq s h0 h1 hz hx]; omega
  have hasm := solveAssemble_eq_assembled s y b x0 st0 hI hend
  have hpos := hconv _ hasm
  refine ⟨_, (innerRows s ++ interiorRows s ++ outerRows s).foldl
      (applyRow (fun i x z g => FieldPerp.set g x z
        ((KSPSolve (configureSolver lib gbits global_flags cfg)
          (assembled s y b x0 st0).MatA (assembled s y b x0 st0).bs
          (assembled s y b x0 st0).xs).1 i)))
      (fun _ _ => 0), hasm, ?_, ?_⟩
  · rw [solve_of_assembled CHECK lib gbits KSPSolve s cfg global_flags y b x0 st0 _ hchk hasm,
      if_neg (by omega), if_neg (by omega)]
  intro x z
  rw [foldl_fieldSet _ (fun x z => (KSPSolve (configureSolver lib gbits global_flags cfg)
      (assembled s y b x0 st0).MatA (assembled s y b x0 st0).bs
      (assembled s y b x0 st0).xs).1 (s.Istart + (x - xbase s) * s.meshz + z))]
  · have hcells : (innerRows s ++ interiorRows s ++ outerRows s).map
        (fun r => (r.2.1, r.2.2)) = cellSequence s := by
      rw [rows_eq_rowSequence s h0 h1, rowSequence, List.map_map]
      simp [Function.comp_def]
    rw [hcells]
    have hx2 : s.mesh.lastX = true → s.mesh.xend + 1 ≤ s.mesh.ngx := by
      intro h; have := hx h; omega
    by_cases hc : (x, z) ∈ cellSequence s
    · rw [if_pos hc, if_pos ((mem_cellSequence s h0 h1 hx2 x z).mp hc)]
    · rw [if_neg hc, if_neg (fun h => hc ((mem_cellSequence s h0 h1 hx2 x z).mpr h))]
  · intro r hr
    rw [rows_eq_rowSequence s h0 h1] at hr
    obtain ⟨c, _, rfl⟩ := List.mem_map.mp hr
    rfl

/-- Witness for C20 on a middle x-partition with a kernel that reports convergence. -/
theorem solve_fills_visited_cells_witness :
    (0 ≤ middlePartition.mesh.xstart
      ∧ middlePartition.mesh.xstart ≤ middlePartition.mesh.xend + 1
      ∧ 1 ≤ middlePartition.mesh.ngz
      ∧ (middlePartition.mesh.lastX = true → middlePartition.mesh.ngx
          = middlePartition.mesh.xend + middlePartition.mesh.xstart + 1)
      ∧ middlePartition.Iend - middlePartition.Istart = localN middlePartition.mesh
      ∧ (middlePartition.mesh.firstX = true → middlePartition.Istart = 0)
      ∧ (middlePartition.mesh.firstX = false →
          middlePartition.meshz ∣ middlePartition.Istart)
      ∧ solveChecks true middlePartition defaultConfig 0 = .ok ()
      ∧ (∀ st, solveAssemble middlePartition 0 (fun _ _ => 0) (fun _ _ => 0) AsmState.empty
            = .ok st →
          0 < (constantKernel
            (configureSolver PetscLib.full GlobalBits.standard 0 defaultConfig)
            st.MatA st.bs st.xs).2)) ∧
    ∃ st sol, solveAssemble middlePartition 0 (fun _ _ => 0) (fun _ _ => 0) AsmState.empty
          = .ok st
      ∧ solve true PetscLib.full GlobalBits.standard constantKernel middlePartition
          defaultConfig 0 0 (fun _ _ => 0) (fun _ _ => 0) AsmState.empty = .ok sol
      ∧ ∀ x z, sol x z =
          if (xbase middlePartition ≤ x
                ∧ x < (if middlePartition.mesh.lastX then middlePartition.mesh.ngx
                  else middlePartition.mesh.xend + 1))
              ∧ (0 ≤ z ∧ z < middlePartition.mesh.ngz - 1)
          then (constantKernel
            (configureSolver PetscLib.full GlobalBits.standard 0 defaultConfig)
            st.MatA st.bs st.xs).1
              (middlePartition.Istart + (x - xbase middlePartition) * middlePartition.meshz
                + z)
          else 0 :=
  ⟨⟨by decide, by decide, by decide, by decide, by decide, by decide, by decide,
      solveChecks_default middlePartition (by decide!) (by decide!), fun _ _ => (by decide : (0 : Int) < 2)⟩,
    solve_fills_visited_cells true PetscLib.full GlobalBits.standard constantKernel
      middlePartition defaultConfig 0 0 (fun _ _ => 0) (fun _ _ => 0) AsmState.empty
      (by decide) (by decide) (by decide) (by decide) (by decide) (by decide) (by decide)
      (solveChecks_default middlePartition (by decide!) (by decide!))
      (fun _ _ => (by decide : (0 : Int) < 2))⟩

/-- C20, counterexample to the claim as written: on the middle x-partition
`middlePartition` (`xstart = 1`, `ngx = 4`) with a kernel that reports convergence and
the solution 5 in every entry, `solve` returns a field whose guard cell `(0, 0)` holds
0, not the solution value 5. -/
theorem solve_leaves_guard_cell_zero :
    ∃ sol, solve true PetscLib.full GlobalBits.standard constantKernel middlePartition
        defaultConfig 0 0 (fun _ _ => 0) (fun _ _ => 0) AsmState.empty = .ok sol
      ∧ (0 ≤ (0 : Int) ∧ (0 : Int) < middlePartition.mesh.ngx)
      ∧ (∀ M bv xv i, (constantKernel
          (configureSolver PetscLib.full GlobalBits.standard 0 defaultConfig) M bv xv).1 i = 5)
      ∧ sol 0 0 = 0 := by
  have hasm := solveAssemble_eq_assembled middlePartition 0 (fun _ _ => 0) (fun _ _ => 0)
    AsmState.empty (by decide) (by decide)
  refine ⟨(innerRows middlePartition ++ interiorRows middlePartition
      ++ outerRows middlePartition).foldl
      (applyRow (fun i x z g => FieldPerp.set g x z ((fun _ => (5 : ℚ)) i)))
      (fun _ _ => 0), ?_, by decide, fun _ _ _ _ => rfl, ?_⟩
  · rw [solve_of_assembled true PetscLib.full GlobalBits.standard constantKernel
      middlePartition defaultConfig 0 0 _ _ _ _
      (solveChecks_default middlePartition (by decide!) (by decide!)) hasm]
    rfl
  · rw [foldl_fieldSet _ (fun _ _ => 5) _ _ (fun _ _ => rfl)]
    rw [if_neg (by decide)]

/-! ## The flag checks of the constructor and of `solve` -/

theorem two_pow_add_lor (i b : Nat) (h : b < 2 ^ i) : 2 ^ i + b = 2 ^ i ||| b := by
  have := Nat.mul_add_lt_is_or h 1
  simpa using this

theorem two_pow_sorted_sum (a b c : Nat) (hab : b < a) (hbc : c < b) :
    2 ^ a + 2 ^ b + 2 ^ c = 2 ^ a ||| 2 ^ b ||| 2 ^ c := by
  have h1 : 2 ^ c < 2 ^ b := Nat.pow_lt_pow_right (by decide) hbc
  have h2 : 2 ^ (b + 1) ≤ 2 ^ a := Nat.pow_le_pow_right (by decide) hab
  have h3 : 2 ^ b + 2 ^ c < 2 ^ a := by
    have : 2 ^ (b + 1) = 2 ^ b + 2 ^ b := by rw [Nat.pow_succ]; omega
    omega
  rw [Nat.add_assoc, two_pow_add_lor _ _ h3, two_pow_add_lor _ _ h1, Nat.lor_assoc]

theorem two_pow_sum (a b c : Nat) (hab : a ≠ b) (hac : a ≠ c) (hbc : b ≠ c) :
    2 ^ a + 2 ^ b + 2 ^ c = 2 ^ a ||| 2 ^ b ||| 2 ^ c := by
  apply Nat.eq_of_testBit_eq
  intro i
  rcases Nat.lt_or_gt_of_ne hab with h1 | h1 <;> rcases Nat.lt_or_gt_of_ne hac with h2 | h2 <;>
    rcases Nat.lt_or_gt_of_ne hbc with h3 | h3
  · rw [show 2 ^ a + 2 ^ b + 2 ^ c = 2 ^ c + 2 ^ b + 2 ^ a by omega,
      two_pow_sorted_sum c b a h3 h1]
    simp only [Nat.testBit_or]
    cases Nat.testBit (2 ^ a) i <;> cases Nat.testBit (2 ^ b) i <;>
      cases Nat.testBit (2 ^ c) i <;> rfl
  · rw [show 2 ^ a + 2 ^ b + 2 ^ c = 2 ^ b + 2 ^ c + 2 ^ a by omega,
      two_pow_sorted_sum b c a h3 h2]
    simp only [Nat.testBit_or]
    cases Nat.testBit (2 ^ a) i <;> cases Nat.testBit (2 ^ b) i <;>
      cases Nat.testBit (2 ^ c) i <;> rfl
  · omega
  · rw [show 2 ^ a + 2 ^ b + 2 ^ c = 2 ^ b + 2 ^ a + 2 ^ c by omega,
      two_pow_sorted_sum b a c h1 h2]
    simp only [Nat.testBit_or]
    cases Nat.testBit (2 ^ a) i <;> cases Nat.testBit (2 ^ b) i <;>
      cases Nat.testBit (2 ^ c) i <;> rfl
  · rw [show 2 ^ a + 2 ^ b + 2 ^ c = 2 ^ c + 2 ^ a + 2 ^ b by omega,
      two_pow_sorted_sum c a b h2 h1]
    simp only [Nat.testBit_or]
    cases Nat.testBit (2 ^ a) i <;> cases Nat.testBit (2 ^ b) i <;>
      cases Nat.testBit (2 ^ c) i <;> rfl
  · omega
  · rw [show 2 ^ a + 2 ^ b + 2 ^ c = 2 ^ a + 2 ^ c + 2 ^ b by omega,
      two_pow_sorted_sum a c b h2 h3]
    simp only [Nat.testBit_or]
    cases Nat.testBit (2 ^ a) i <;> cases Nat.testBit (2 ^ b) i <;>
      cases Nat.testBit (2 ^ c) i <;> rfl
  · rw [two_pow_sorted_sum a b c h1 h3]

theorem andNot_ne_zero_iff (f mask : Nat) :
    andNot f mask ≠ 0 ↔ ∃ k, f.testBit k = true ∧ mask.testBit k = false := by
  unfold andNot
  constructor
  · intro h
    obtain ⟨k, hk⟩ := Nat.ne_zero_implies_bit_true h
    rw [Nat.testBit_ldiff] at hk
    refine ⟨k, ?_, ?_⟩
    · cases hf : f.testBit k <;> simp [hf] at hk ⊢
    · cases hm : mask.testBit k <;> simp [hm] at hk ⊢
  · rintro ⟨k, hf, hm⟩ h0
    have := Nat.testBit_ldiff f mask k
    rw [h0, hf, hm] at this
    simp at this

theorem solveAssemble_error_msg (s : Solver) (y : Int) (b x0 : FieldPerp)
    (st0 : AsmState) (m : String) (h : solveAssemble s y b x0 st0 = .error m) :
    m = "Petsc index sanity check 3 failed" ∨ m = "Petsc index sanity check failed" := by
  unfold solveAssemble at h
  rw [assemblyLoops_eq] at h
  cases h1 : (innerRows s).foldlM (applyRowM (innerBoundaryRow s y b x0)) st0 with
  | error m1 =>
    rw [h1] at h
    have := foldlM_error (fun m => m = "Petsc index sanity check 3 failed") _
      (fun t a m hm => innerBoundaryRow_error s y b x0 a.1 a.2.1 a.2.2 t m hm) _ _ _ h1
    left; rw [← Except.error.inj h]; exact this
  | ok t1 =>
    rw [h1] at h
    simp only [] at h
    cases h2 : (interiorRows s).foldlM (applyRowM (interiorRow s y b x0)) t1 with
    | error m2 =>
      rw [h2] at h
      have := foldlM_error (fun m => m = "Petsc index sanity check 3 failed") _
        (fun t a m hm => interiorRow_error s y b x0 a.1 a.2.1 a.2.2 t m hm) _ _ _ h2
      left; rw [← Except.error.inj h]; exact this
    | ok t2 =>
      rw [h2] at h
      simp only [] at h
      cases h3 : (outerRows s).foldlM (applyRowM (outerBoundaryRow s y b x0)) t2 with
      | error m3 =>
        rw [h3] at h
        have := foldlM_error (fun m => m = "Petsc index sanity check 3 failed") _
          (fun t a m hm => outerBoundaryRow_error s y b x0 a.1 a.2.1 a.2.2 t m hm) _ _ _ h3
        left; rw [← Except.error.inj h]; exact this
      | ok t3 =>
        rw [h3] at h
        simp only [] at h
        split_ifs at h
        right; exact (Except.error.inj h).symm

theorem solveExtract_error_msg (s : Solver) (xs : Vec) (m : String)
    (h : solveExtract s xs = .error m) : m = "Petsc index sanity check 2 failed" := by
  unfold solveExtract at h
  simp only [] at h
  split_ifs at h
  exact (Except.error.inj h).symm

theorem unknown_ksp_msg_ne (t : String) :
    BoutError.BoutException ("Unknown Krylov solver type '" ++ t ++ "'")
      ≠ BoutError.BoutException boundaryFlagMessage := by
  intro h
  have h2 := congrArg String.data (BoutError.BoutException.inj h)
  simp only [String.data_append] at h2
  have h3 := congrArg List.head? h2
  simp only [List.cons_append, List.head?_cons] at h3
  revert h3
  decide

theorem unknown_pc_msg_ne (t : String) :
    BoutError.BoutException ("Unknown KSP preconditioner type '" ++ t ++ "'")
      ≠ BoutError.BoutException boundaryFlagMessage := by
  intro h
  have h2 := congrArg String.data (BoutError.BoutException.inj h)
  simp only [String.data_append] at h2
  have h3 := congrArg List.head? h2
  simp only [List.cons_append, List.head?_cons] at h3
  revert h3
  decide

theorem LaplacePetsc_default :
    LaplacePetsc true PetscLib.full GlobalBits.standard FlagBits.standard identitySolver
      0 16 16 Options.unset = .ok defaultConfig := by
  have h1 : andNot 0 2 = 0 := by decide!
  have h2 : andNot 16 50 = 0 := by decide!
  have hk : resolveKsp PetscLib.full "gmres" = .ok KSPType.KSPGMRES := by
    unfold resolveKsp
    rw [show (kspChain PetscLib.full).lookup "gmres" = some KSPType.KSPGMRES by decide]
  have hp : resolvePc PetscLib.full "none" = .ok PCType.PCNONE := by
    unfold resolvePc
    rw [show (pcChain PetscLib.full).lookup "none" = some PCType.PCNONE by decide]
  simp [LaplacePetsc, constructorChecks, GlobalBits.standard, FlagBits.standard,
    Options.unset, h1, h2, hk, hp, defaultConfig, TypeStr.ptrEq]

/-- C15, at the failing input: with CHECK defined and `INVERT_START_NEW = 2`, the
constructor called with `global_flags = 8` raises the global-flag error, the constructor
called with `global_flags = 0` gives the settings `defaultConfig`, and `solve` called on
these settings with `global_flags = 8` does not raise: it assembles, solves and returns
a field. -/
theorem solve_accepts_unimplemented_global_flag :
    andNot 8 GlobalBits.standard.INVERT_START_NEW ≠ 0
    ∧ LaplacePetsc true PetscLib.full GlobalBits.standard FlagBits.standard identitySolver
        8 16 16 Options.unset = .error (.BoutException flagMessage)
    ∧ LaplacePetsc true PetscLib.full GlobalBits.standard FlagBits.standard identitySolver
        0 16 16 Options.unset = .ok defaultConfig
    ∧ solveChecks true singlePartition defaultConfig 8 = .ok ()
    ∧ ∃ sol, solve true PetscLib.full GlobalBits.standard constantKernel singlePartition
        defaultConfig 8 0 (fun _ _ => 0) (fun _ _ => 0) AsmState.empty = .ok sol := by
  have h1 : andNot 8 2 ≠ 0 := by decide!
  have h2 : andNot 16 50 = 0 := by decide!
  have hchk : solveChecks true singlePartition defaultConfig 8 = .ok () := by
    have h3 : andNot singlePartition.inner_boundary_flags 50 = 0 := h2
    have h4 : andNot singlePartition.outer_boundary_flags 50 = 0 := h2
    have h5 : (8 &&& logicalNot 2) = 0 := by decide
    simp [solveChecks, defaultConfig, h3, h4, h5]
  refine ⟨h1, ?_, LaplacePetsc_default, hchk, ?_⟩
  · simp [LaplacePetsc, constructorChecks, GlobalBits.standard, h1]
  · have hasm := solveAssemble_eq_assembled singlePartition 0 (fun _ _ => 0) (fun _ _ => 0)
      AsmState.empty (by decide) (by decide)
    rw [solve_of_assembled true PetscLib.full GlobalBits.standard constantKernel
      singlePartition defaultConfig 8 0 _ _ _ _ hchk hasm]
    exact ⟨_, rfl⟩

theorem constructor_boundary_error_iff (lib : PetscLib) (gbits : GlobalBits)
    (bits : FlagBits) (create : String → InnerSolver) (gf fi fo : Nat) (opts : Options)
    (hg : andNot gf gbits.INVERT_START_NEW = 0) :
    LaplacePetsc true lib gbits bits create gf fi fo opts
        = .error (.BoutException boundaryFlagMessage)
      ↔ andNot fi (bits.INVERT_AC_GRAD + bits.INVERT_SET + bits.INVERT_RHS) ≠ 0
        ∨ andNot fo (bits.INVERT_AC_GRAD + bits.INVERT_SET + bits.INVERT_RHS) ≠ 0 := by
  unfold LaplacePetsc constructorChecks
  simp only [if_true, Bool.true_and, hg, bne_self_eq_false, Bool.false_eq_true, if_false]
  by_cases h1 : andNot fi (bits.INVERT_AC_GRAD + bits.INVERT_SET + bits.INVERT_RHS) = 0
  · by_cases h2 : andNot fo (bits.INVERT_AC_GRAD + bits.INVERT_SET + bits.INVERT_RHS) = 0
    · simp only [h1, h2, bne_self_eq_false, Bool.false_eq_true, if_false, ne_eq,
        not_true_eq_false, or_self, iff_false]
      cases hk : resolveKsp lib (opts.ksptype.getD "gmres") with
      | error e =>
        simp only [resolveKsp] at hk
        split at hk
        · cases hk
        · rw [← Except.error.inj hk]
          intro h
          exact unknown_ksp_msg_ne _ (Except.error.inj h)
      | ok c =>
        simp only []
        cases hp : resolvePc lib (opts.pctype.getD "none") with
        | error e =>
          simp only [resolvePc] at hp
          split at hp
          · cases hp
          · rw [← Except.error.inj hp]
            intro h
            exact unknown_pc_msg_ne _ (Except.error.inj h)
        | ok c => simp
    · have : (andNot fo (bits.INVERT_AC_GRAD + bits.INVERT_SET + bits.INVERT_RHS) != 0)
          = true := by simpa using h2
      simp [h1, this, h2]
  · have : (andNot fi (bits.INVERT_AC_GRAD + bits.INVERT_SET + bits.INVERT_RHS) != 0)
        = true := by simpa using h1
    simp [this, h1]

theorem solve_boundary_error_iff (lib : PetscLib) (gbits : GlobalBits)
    (KSPSolve : KrylovKernel) (s : Solver) (cfg : SolverConfig) (gf : Nat) (y : Int)
    (b x0 : FieldPerp) (st0 : AsmState)
    (hg : andNot gf gbits.INVERT_START_NEW = 0)
    (hcfg : cfg.implemented_flags = gbits.INVERT_START_NEW) :
    solve true lib gbits KSPSolve s cfg gf y b x0 st0
        = .error (.BoutException boundaryFlagMessage)
      ↔ andNot s.inner_boundary_flags cfg.implemented_boundary_flags ≠ 0
        ∨ andNot s.outer_boundary_flags cfg.implemented_boundary_flags ≠ 0 := by
  have hglob : (gf &&& logicalNot cfg.implemented_flags) = 0 := by
    unfold logicalNot
    by_cases h0 : cfg.implemented_flags = 0
    · rw [if_pos h0]
      rw [← hcfg, h0] at hg
      have : gf = 0 := by
        rw [← hg]
        apply Nat.eq_of_testBit_eq
        intro n
        simp [andNot, Nat.testBit_ldiff]
      rw [this]; simp
    · rw [if_neg h0]; simp
  have hm1 : ("Petsc index sanity check 3 failed" : String) ≠ boundaryFlagMessage := by decide
  have hm2 : ("Petsc index sanity check failed" : String) ≠ boundaryFlagMessage := by decide
  have hm3 : ("Petsc index sanity check 2 failed" : String) ≠ boundaryFlagMessage := by decide
  have hm4 : ("petsc_laplace: inversion failed to converge." : String)
      ≠ boundaryFlagMessage := by decide
  unfold solve solveChecks
  simp only [Bool.true_and, hglob, bne_self_eq_false, Bool.false_eq_true, if_false]
  by_cases h1 : andNot s.inner_boundary_flags cfg.implemented_boundary_flags = 0
  · by_cases h2 : andNot s.outer_boundary_flags cfg.implemented_boundary_flags = 0
    · simp only [h1, h2, bne_self_eq_false, Bool.false_eq_true, if_false, ne_eq,
        not_true_eq_false, or_self, iff_false]
      cases ha : solveAssemble s y b x0 st0 with
      | error m =>
        simp only []
        intro h
        have hm := BoutError.BoutException.inj (Except.error.inj h)
        rcases solveAssemble_error_msg s y b x0 st0 m ha with h3 | h3
        · exact hm1 (h3 ▸ hm)
        · exact hm2 (h3 ▸ hm)
      | ok st =>
        simp only []
        split_ifs
        · intro h; cases Except.error.inj h
        · intro h; exact hm4 (BoutError.BoutException.inj (Except.error.inj h))
        · cases he : solveExtract s
            (KSPSolve (configureSolver lib gbits gf cfg) st.MatA st.bs st.xs).1 with
          | error m =>
            simp only []
            intro h
            have hm := BoutError.BoutException.inj (Except.error.inj h)
            exact hm3 (solveExtract_error_msg s _ m he ▸ hm)
          | ok sol => simp
    · have : (andNot s.outer_boundary_flags cfg.implemented_boundary_flags != 0)
          = true := by simpa using h2
      simp [h1, this, h2]
  · have : (andNot s.inner_boundary_flags cfg.implemented_boundary_flags != 0)
        = true := by simpa using h1
    simp [this, h1]

/-- C16: with CHECK defined, `INVERT_AC_GRAD`, `INVERT_SET`, `INVERT_RHS` three distinct
single bits and valid global flags, the constructor raises the boundary-flag error if
and only if `inner_boundary_flags` or `outer_boundary_flags` has a bit outside
`INVERT_AC_GRAD | INVERT_SET | INVERT_RHS`, and so does `solve` on settings that carry
the constructor's two masks; in particular neither raises it when both flag words are
subsets of the three bits. -/
theorem boundary_flag_error_iff (lib : PetscLib) (gbits : GlobalBits) (bits : FlagBits)
    (create : String → InnerSolver) (gf fi fo : Nat) (opts : Options)
    (KSPSolve : KrylovKernel) (s : Solver) (cfg : SolverConfig) (y : Int)
    (b x0 : FieldPerp) (st0 : AsmState) (i j k : Nat)
    (hij : i ≠ j) (hik : i ≠ k) (hjk : j ≠ k)
    (hA : bits.INVERT_AC_GRAD = 2 ^ i) (hS : bits.INVERT_SET = 2 ^ j)
    (hR : bits.INVERT_RHS = 2 ^ k)
    (hg : andNot gf gbits.INVERT_START_NEW = 0)
    (hcfg : cfg.implemented_flags = gbits.INVERT_START_NEW)
    (hcfgb : cfg.implemented_boundary_flags
      = bits.INVERT_AC_GRAD + bits.INVERT_SET + bits.INVERT_RHS)
    (hsi : s.inner_boundary_flags = fi) (hso : s.outer_boundary_flags = fo) :
    (LaplacePetsc true lib gbits bits create gf fi fo opts
        = .error (.BoutException boundaryFlagMessage)
      ↔ (∃ n, fi.testBit n = true
            ∧ (bits.INVERT_AC_GRAD ||| bits.INVERT_SET ||| bits.INVERT_RHS).testBit n = false)
        ∨ (∃ n, fo.testBit n = true
            ∧ (bits.INVERT_AC_GRAD ||| bits.INVERT_SET ||| bits.INVERT_RHS).testBit n
                = false))
    ∧ (solve true lib gbits KSPSolve s cfg gf y b x0 st0
        = .error (.BoutException boundaryFlagMessage)
      ↔ (∃ n, fi.testBit n = true
            ∧ (bits.INVERT_AC_GRAD ||| bits.INVERT_SET ||| bits.INVERT_RHS).testBit n = false)
        ∨ (∃ n, fo.testBit n = true
            ∧ (bits.INVERT_AC_GRAD ||| bits.INVERT_SET ||| bits.INVERT_RHS).testBit n
                = false)) := by
  have hmask : bits.INVERT_AC_GRAD + bits.INVERT_SET + bits.INVERT_RHS
      = bits.INVERT_AC_GRAD ||| bits.INVERT_SET ||| bits.INVERT_RHS := by
    rw [hA, hS, hR]; exact two_pow_sum i j k hij hik hjk
  constructor
  · rw [constructor_boundary_error_iff lib gbits bits create gf fi fo opts hg,
      andNot_ne_zero_iff, andNot_ne_zero_iff, hmask]
  · rw [solve_boundary_error_iff lib gbits KSPSolve s cfg gf y b x0 st0 hg hcfg,
      andNot_ne_zero_iff, andNot_ne_zero_iff, hcfgb, hmask, hsi, hso]

/-- Witness for C16: the flag bits 2, 16, 32, valid global flags and the inner flag word
`INVERT_SET` on both boundaries. -/
theorem boundary_flag_error_iff_witness :
    ((1 : Nat) ≠ 4 ∧ (1 : Nat) ≠ 5 ∧ (4 : Nat) ≠ 5
      ∧ FlagBits.standard.INVERT_AC_GRAD = 2 ^ 1 ∧ FlagBits.standard.INVERT_SET = 2 ^ 4
      ∧ FlagBits.standard.INVERT_RHS = 2 ^ 5
      ∧ andNot 0 GlobalBits.standard.INVERT_START_NEW = 0
      ∧ defaultConfig.implemented_flags = GlobalBits.standard.INVERT_START_NEW
      ∧ defaultConfig.implemented_boundary_flags
          = FlagBits.standard.INVERT_AC_GRAD + FlagBits.standard.INVERT_SET
            + FlagBits.standard.INVERT_RHS
      ∧ singlePartition.inner_boundary_flags = 16
      ∧ singlePartition.outer_boundary_flags = 16) ∧
    ((LaplacePetsc true PetscLib.full GlobalBits.standard FlagBits.standard identitySolver
          0 16 16 Options.unset = .error (.BoutException boundaryFlagMessage)
      ↔ (∃ n, (16 : Nat).testBit n = true
            ∧ (FlagBits.standard.INVERT_AC_GRAD ||| FlagBits.standard.INVERT_SET
                ||| FlagBits.standard.INVERT_RHS).testBit n = false)
        ∨ (∃ n, (16 : Nat).testBit n = true
            ∧ (FlagBits.standard.INVERT_AC_GRAD ||| FlagBits.standard.INVERT_SET
                ||| FlagBits.standard.INVERT_RHS).testBit n = false))
    ∧ (solve true PetscLib.full GlobalBits.standard constantKernel singlePartition
          defaultConfig 0 0 (fun _ _ => 0) (fun _ _ => 0) AsmState.empty
        = .error (.BoutException boundaryFlagMessage)
      ↔ (∃ n, (16 : Nat).testBit n = true
            ∧ (FlagBits.standard.INVERT_AC_GRAD ||| FlagBits.standard.INVERT_SET
                ||| FlagBits.standard.INVERT_RHS).testBit n = false)
        ∨ (∃ n, (16 : Nat).testBit n = true
            ∧ (FlagBits.standard.INVERT_AC_GRAD ||| FlagBits.standard.INVERT_SET
                ||| FlagBits.standard.INVERT_RHS).testBit n = false))) :=
  ⟨⟨by decide, by decide, by decide, by decide, by decide, by decide, by decide!, by decide,
      by decide, by decide, by decide⟩,
    boundary_flag_error_iff PetscLib.full GlobalBits.standard FlagBits.standard
      identitySolver 0 16 16 Options.unset constantKernel singlePartition defaultConfig 0
      (fun _ _ => 0) (fun _ _ => 0) AsmState.empty 1 4 5 (by decide) (by decide) (by decide)
      (by decide) (by decide) (by decide) (by decide!) (by decide) (by decide) (by decide)
      (by decide)⟩

/-! ## The solver and preconditioner names -/

theorem lookup_isSome_iff {β : Type} (L : List (String × β)) (t : String) :
    (∃ c, L.lookup t = some c) ↔ t ∈ L.map (fun e => e.1) := by
  induction L with
  | nil => simp
  | cons a L ih =>
    obtain ⟨k, v⟩ := a
    by_cases h : t = k
    · subst h
      simp [List.lookup]
    · have hb : (t == k) = false := by simpa using h
      simp only [List.lookup, hb, List.map_cons, List.mem_cons, h, false_or]
      exact ih

theorem resolveKsp_ok_iff (lib : PetscLib) (t : String) :
    (∃ c, resolveKsp lib t = .ok c) ↔ t ∈ (kspChain lib).map (fun e => e.1) := by
  rw [← lookup_isSome_iff]
  unfold resolveKsp
  cases (kspChain lib).lookup t <;> simp

theorem resolvePc_ok_iff (lib : PetscLib) (t : String) :
    (∃ c, resolvePc lib t = .ok c) ↔ t ∈ pcNames lib := by
  unfold pcNames
  rw [← lookup_isSome_iff]
  unfold resolvePc
  cases (pcChain lib).lookup t <;> simp

theorem kspChain_names (lib : PetscLib) (t : String) :
    t ∈ (kspChain lib).map (fun e => e.1) ↔ t ∈ specKrylovNames lib := by
  have h : (kspChain lib).map (fun e => e.1) ⊆ specKrylovNames lib
      ∧ specKrylovNames lib ⊆ (kspChain lib).map (fun e => e.1) := by
    obtain ⟨c1, c2, c3, c4⟩ := lib
    cases c1 <;> cases c2 <;> cases c3 <;> cases c4 <;> exact ⟨by decide, by decide⟩
  exact ⟨fun ht => h.1 ht, fun ht => h.2 ht⟩

theorem resolve_error_is_exception (lib : PetscLib) (t : String) :
    (∀ e, resolveKsp lib t = .error e → ∃ m, e = .BoutException m)
      ∧ (∀ e, resolvePc lib t = .error e → ∃ m, e = .BoutException m) := by
  constructor
  · intro e h
    unfold resolveKsp at h
    split at h
    · cases h
    · exact ⟨_, (Except.error.inj h).symm⟩
  · intro e h
    unfold resolvePc at h
    split at h
    · cases h
    · exact ⟨_, (Except.error.inj h).symm⟩

theorem constructorChecks_ok (CHECK : Bool) (f g gf fi fo : Nat)
    (h : CHECK = true → andNot gf f = 0 ∧ andNot fi g = 0 ∧ andNot fo g = 0) :
    constructorChecks CHECK f g gf fi fo = .ok () := by
  cases CHECK
  · simp [constructorChecks]
  · obtain ⟨h1, h2, h3⟩ := h rfl
    simp [constructorChecks, h1, h2, h3]

/-- C17: when the flag checks of the constructor pass, construction raises a
`BoutException` if and only if the `ksptype` option (default `"gmres"`) is not one of the
Krylov names the specification lists or the `pctype` option (default `"none"`) is not a
name of the preconditioner table; the two defaults are in the lists, construction with
no option set succeeds, and every listed name resolves to exactly one type. -/
theorem construction_error_iff_unknown_name (CHECK : Bool) (lib : PetscLib)
    (gbits : GlobalBits) (bits : FlagBits) (create : String → InnerSolver)
    (gf fi fo : Nat) (opts : Options)
    (hflags : CHECK = true → andNot gf gbits.INVERT_START_NEW = 0
      ∧ andNot fi (bits.INVERT_AC_GRAD + bits.INVERT_SET + bits.INVERT_RHS) = 0
      ∧ andNot fo (bits.INVERT_AC_GRAD + bits.INVERT_SET + bits.INVERT_RHS) = 0) :
    ((∃ m, LaplacePetsc CHECK lib gbits bits create gf fi fo opts
          = .error (.BoutException m))
        ↔ (opts.ksptype.getD "gmres" ∉ specKrylovNames lib
            ∨ opts.pctype.getD "none" ∉ pcNames lib))
    ∧ ((∃ cfg, LaplacePetsc CHECK lib gbits bits create gf fi fo opts = .ok cfg)
        ↔ (opts.ksptype.getD "gmres" ∈ specKrylovNames lib
            ∧ opts.pctype.getD "none" ∈ pcNames lib))
    ∧ ("gmres" ∈ specKrylovNames lib ∧ "none" ∈ pcNames lib)
    ∧ (∃ cfg, LaplacePetsc CHECK lib gbits bits create gf fi fo Options.unset = .ok cfg)
    ∧ (∀ t ∈ specKrylovNames lib, ∃! c, resolveKsp lib t = .ok c)
    ∧ (∀ t ∈ pcNames lib, ∃! c, resolvePc lib t = .ok c) := by
  have hdef : "gmres" ∈ specKrylovNames lib ∧ "none" ∈ pcNames lib := by
    constructor
    · simp [specKrylovNames]
    · simp [pcNames, pcChain]
  have key : ∀ o : Options,
      ((∃ m, LaplacePetsc CHECK lib gbits bits create gf fi fo o
          = .error (.BoutException m))
        ↔ (o.ksptype.getD "gmres" ∉ specKrylovNames lib
            ∨ o.pctype.getD "none" ∉ pcNames lib))
      ∧ ((∃ cfg, LaplacePetsc CHECK lib gbits bits create gf fi fo o = .ok cfg)
        ↔ (o.ksptype.getD "gmres" ∈ specKrylovNames lib
            ∧ o.pctype.getD "none" ∈ pcNames lib)) := by
    intro o
    have hk := resolveKsp_ok_iff lib (o.ksptype.getD "gmres")
    rw [kspChain_names] at hk
    have hp := resolvePc_ok_iff lib (o.pctype.getD "none")
    have he := resolve_error_is_exception lib
    unfold LaplacePetsc
    simp only []
    rw [constructorChecks_ok CHECK _ _ gf fi fo (by
      intro hc
      obtain ⟨h1, h2, h3⟩ := hflags hc
      simp only [hc, if_true]
      exact ⟨h1, h2, h3⟩)]
    simp only []
    cases hrk : resolveKsp lib (o.ksptype.getD "gmres") with
    | error e =>
      obtain ⟨m, rfl⟩ := (he _).1 e hrk
      have hnk : o.ksptype.getD "gmres" ∉ specKrylovNames lib := by
        intro hmem
        obtain ⟨c, hc⟩ := hk.mpr hmem
        rw [hrk] at hc; cases hc
      simp [hnk]
    | ok c =>
      have hmk : o.ksptype.getD "gmres" ∈ specKrylovNames lib := hk.mp ⟨c, hrk⟩
      simp only []
      cases hrp : resolvePc lib (o.pctype.getD "none") with
      | error e =>
        obtain ⟨m, rfl⟩ := (he _).2 e hrp
        have hnp : o.pctype.getD "none" ∉ pcNames lib := by
          intro hmem
          obtain ⟨c, hc⟩ := hp.mpr hmem
          rw [hrp] at hc; cases hc
        simp [hnp]
      | ok c2 =>
        have hmp : o.pctype.getD "none" ∈ pcNames lib := hp.mp ⟨c2, hrp⟩
        simp [hmk, hmp]
  refine ⟨(key opts).1, (key opts).2, hdef, (key Options.unset).2.mpr hdef, ?_, ?_⟩
  · intro t ht
    obtain ⟨c, hc⟩ := (resolveKsp_ok_iff lib t).mpr ((kspChain_names lib t).mpr ht)
    refine ⟨c, hc, ?_⟩
    intro c2 hc2
    rw [hc] at hc2
    exact (Except.ok.inj hc2).symm
  · intro t ht
    obtain ⟨c, hc⟩ := (resolvePc_ok_iff lib t).mpr ht
    refine ⟨c, hc, ?_⟩
    intro c2 hc2
    rw [hc] at hc2
    exact (Except.ok.inj hc2).symm

/-- Witness for C17: the full library, the flag bits of the examples, valid flags and
an options section that names the Richardson method. -/
theorem construction_error_iff_unknown_name_witness :
    ((true = true → andNot 0 GlobalBits.standard.INVERT_START_NEW = 0
      ∧ andNot 16 (FlagBits.standard.INVERT_AC_GRAD + FlagBits.standard.INVERT_SET
          + FlagBits.standard.INVERT_RHS) = 0
      ∧ andNot 16 (FlagBits.standard.INVERT_AC_GRAD + FlagBits.standard.INVERT_SET
          + FlagBits.standard.INVERT_RHS) = 0)) ∧
    (((∃ m, LaplacePetsc true PetscLib.full GlobalBits.standard FlagBits.standard
          identitySolver 0 16 16 Options.richardson = .error (.BoutException m))
        ↔ (Options.richardson.ksptype.getD "gmres" ∉ specKrylovNames PetscLib.full
            ∨ Options.richardson.pctype.getD "none" ∉ pcNames PetscLib.full))
    ∧ ((∃ cfg, LaplacePetsc true PetscLib.full GlobalBits.standard FlagBits.standard
          identitySolver 0 16 16 Options.richardson = .ok cfg)
        ↔ (Options.richardson.ksptype.getD "gmres" ∈ specKrylovNames PetscLib.full
            ∧ Options.richardson.pctype.getD "none" ∈ pcNames PetscLib.full))
    ∧ ("gmres" ∈ specKrylovNames PetscLib.full ∧ "none" ∈ pcNames PetscLib.full)
    ∧ (∃ cfg, LaplacePetsc true PetscLib.full GlobalBits.standard FlagBits.standard
          identitySolver 0 16 16 Options.unset = .ok cfg)
    ∧ (∀ t ∈ specKrylovNames PetscLib.full, ∃! c, resolveKsp PetscLib.full t = .ok c)
    ∧ (∀ t ∈ pcNames PetscLib.full, ∃! c, resolvePc PetscLib.full t = .ok c)) :=
  ⟨fun _ => ⟨by decide!, by decide!, by decide!⟩,
    construction_error_iff_unknown_name true PetscLib.full GlobalBits.standard
      FlagBits.standard identitySolver 0 16 16 Options.richardson
      (fun _ => ⟨by decide!, by decide!, by decide!⟩)⟩

/-- The settings the constructor stores when only `pctype = user` is set. -/
theorem LaplacePetsc_userPrecon :
    LaplacePetsc true PetscLib.full GlobalBits.standard FlagBits.standard identitySolver
      0 16 16 Options.userPrecon
        = .ok { defaultConfig with pctype := .buffer 1 PCType.PCSHELL } := by
  have h1 : andNot 0 2 = 0 := by decide!
  have h2 : andNot 16 50 = 0 := by decide!
  have hk : resolveKsp PetscLib.full "gmres" = .ok KSPType.KSPGMRES := by
    unfold resolveKsp
    rw [show (kspChain PetscLib.full).lookup "gmres" = some KSPType.KSPGMRES by decide]
  have hp : resolvePc PetscLib.full "user" = .ok PCType.PCSHELL := by
    unfold resolvePc
    rw [show (pcChain PetscLib.full).lookup "user" = some PCType.PCSHELL by decide]
  simp [LaplacePetsc, constructorChecks, GlobalBits.standard, FlagBits.standard,
    Options.userPrecon, Options.unset, h1, h2, hk, hp, defaultConfig, TypeStr.ptrEq]

/-- C18, at the failing input: with the option `pctype = user` the constructor succeeds
and stores the characters of `PCSHELL` in `pctype`, but `pcsolve` is left null and
`rightprec` is not read; the following non-direct configuration in `solve` sets the
preconditioner type `PCSHELL` and makes none of the calls `PCShellSetApply`,
`PCShellSetContext`, `KSPSetPCSide`. -/
theorem user_preconditioner_is_never_set_up :
    ∃ cfg, LaplacePetsc true PetscLib.full GlobalBits.standard FlagBits.standard
        identitySolver 0 16 16 Options.userPrecon = .ok cfg
      ∧ cfg.pctype.chars = PCType.PCSHELL
      ∧ cfg.pcsolve.isNone = true ∧ cfg.rightprec = none ∧ cfg.direct = false
      ∧ PetscCall.PCSetType PCType.PCSHELL
          ∈ configureSolver PetscLib.full GlobalBits.standard 0 cfg
      ∧ PetscCall.PCShellSetApply ∉ configureSolver PetscLib.full GlobalBits.standard 0 cfg
      ∧ PetscCall.PCShellSetContext
          ∉ configureSolver PetscLib.full GlobalBits.standard 0 cfg
      ∧ ∀ side, PetscCall.KSPSetPCSide side
          ∉ configureSolver PetscLib.full GlobalBits.standard 0 cfg := by
  refine ⟨_, LaplacePetsc_userPrecon, rfl, rfl, rfl, rfl, ?_, ?_, ?_, ?_⟩ <;>
    simp [configureSolver, methodCalls, shellCalls, defaultConfig, TypeStr.ptrEq,
      TypeStr.chars]

/-- The settings the constructor stores when only `ksptype = richardson` is set. -/
theorem LaplacePetsc_richardson :
    LaplacePetsc true PetscLib.full GlobalBits.standard FlagBits.standard identitySolver
      0 16 16 Options.richardson
        = .ok { defaultConfig with ksptype := .buffer 0 KSPType.KSPRICHARDSON } := by
  have h1 : andNot 0 2 = 0 := by decide!
  have h2 : andNot 16 50 = 0 := by decide!
  have hk : resolveKsp PetscLib.full "richardson" = .ok KSPType.KSPRICHARDSON := by
    unfold resolveKsp
    rw [show (kspChain PetscLib.full).lookup "richardson" = some KSPType.KSPRICHARDSON
      by decide]
  have hp : resolvePc PetscLib.full "none" = .ok PCType.PCNONE := by
    unfold resolvePc
    rw [show (pcChain PetscLib.full).lookup "none" = some PCType.PCNONE by decide]
  simp [LaplacePetsc, constructorChecks, GlobalBits.standard, FlagBits.standard,
    Options.richardson, Options.unset, h1, h2, hk, hp, defaultConfig, TypeStr.ptrEq]

/-- C19, at the failing input: with no option set the constructor stores the characters
of `KSPGMRES` and `direct = false`, and the configuration in `solve` sets the type
`KSPGMRES` but never calls `KSPGMRESSetRestart`; with `ksptype = richardson` it sets the
type `KSPRICHARDSON` but never calls `KSPRichardsonSetScale`. -/
theorem method_parameter_is_never_applied :
    (∃ cfg, LaplacePetsc true PetscLib.full GlobalBits.standard FlagBits.standard
        identitySolver 0 16 16 Options.unset = .ok cfg
      ∧ cfg.direct = false ∧ cfg.gmres_max_steps = 30
      ∧ PetscCall.KSPSetType KSPType.KSPGMRES
          ∈ configureSolver PetscLib.full GlobalBits.standard 0 cfg
      ∧ ∀ n, PetscCall.KSPGMRESSetRestart n
          ∉ configureSolver PetscLib.full GlobalBits.standard 0 cfg)
    ∧ (∃ cfg, LaplacePetsc true PetscLib.full GlobalBits.standard FlagBits.standard
        identitySolver 0 16 16 Options.richardson = .ok cfg
      ∧ cfg.direct = false
      ∧ PetscCall.KSPSetType KSPType.KSPRICHARDSON
          ∈ configureSolver PetscLib.full GlobalBits.standard 0 cfg
      ∧ ∀ q, PetscCall.KSPRichardsonSetScale q
          ∉ configureSolver PetscLib.full GlobalBits.standard 0 cfg) := by
  refine ⟨⟨_, LaplacePetsc_default, rfl, rfl, ?_, ?_⟩,
    ⟨_, LaplacePetsc_richardson, rfl, ?_, ?_⟩⟩ <;>
    simp [configureSolver, methodCalls, shellCalls, defaultConfig, TypeStr.ptrEq,
      TypeStr.chars]

/-! ## The coefficients returned by `Coeffs` -/

theorem Coeffs_unfold (s : Solver) (x y z : Int) :
    Coeffs s x y z =
      ((if s.issetD then s.mesh.g11 x y * s.D x y z else s.mesh.g11 x y),
       (if s.issetD then Coeffs.base2 s x y * s.D x y z else Coeffs.base2 s x y),
       (if s.issetD then Coeffs.base3 s x y * s.D x y z else Coeffs.base3 s x y),
       (if s.issetE then
          (if (s.issetC && decide (x > 1 ∧ x < s.mesh.ngx - 2)) = true then
            (if s.issetD then Coeffs.base4 s x y * s.D x y z else Coeffs.base4 s x y)
              + (s.mesh.g11 x y * Coeffs.ddx_C s x y z
                  + s.mesh.g13 x y * Coeffs.ddz_C s x y z)
           else (if s.issetD then Coeffs.base4 s x y * s.D x y z else Coeffs.base4 s x y))
            + s.Ex x y z
        else
          (if (s.issetC && decide (x > 1 ∧ x < s.mesh.ngx - 2)) = true then
            (if s.issetD then Coeffs.base4 s x y * s.D x y z else Coeffs.base4 s x y)
              + (s.mesh.g11 x y * Coeffs.ddx_C s x y z
                  + s.mesh.g13 x y * Coeffs.ddz_C s x y z)
           else (if s.issetD then Coeffs.base4 s x y * s.D x y z else Coeffs.base4 s x y))),
       (if s.issetE then
          (if (s.issetC && decide (x > 1 ∧ x < s.mesh.ngx - 2)) = true then
            (if s.issetD then Coeffs.base5 s x y * s.D x y z else Coeffs.base5 s x y)
              + (s.mesh.g13 x y * Coeffs.ddx_C s x y z
                  + s.mesh.g33 x y * Coeffs.ddz_C s x y z)
           else (if s.issetD then Coeffs.base5 s x y * s.D x y z else Coeffs.base5 s x y))
            + s.Ez x y z
        else
          (if (s.issetC && decide (x > 1 ∧ x < s.mesh.ngx - 2)) = true then
            (if s.issetD then Coeffs.base5 s x y * s.D x y z else Coeffs.base5 s x y)
              + (s.mesh.g13 x y * Coeffs.ddx_C s x y z
                  + s.mesh.g33 x y * Coeffs.ddz_C s x y z)
           else
            (if s.issetD then Coeffs.base5 s x y * s.D x y z else Coeffs.base5 s x y)))) :=
  rfl

theorem Coeffs_eq (s : Solver) (x y z : Int) :
    Coeffs s x y z =
      (s.mesh.g11 x y * Coeffs.scale s x y z,
       Coeffs.base2 s x y * Coeffs.scale s x y z,
       Coeffs.base3 s x y * Coeffs.scale s x y z,
       Coeffs.base4 s x y * Coeffs.scale s x y z + Coeffs.extra4 s x y z,
       Coeffs.base5 s x y * Coeffs.scale s x y z + Coeffs.extra5 s x y z) := by
  have hrange : (x > 1 ∧ x < s.mesh.ngx - 2) ↔ (2 ≤ x ∧ x ≤ s.mesh.ngx - 3) := by
    constructor <;> intro h <;> constructor <;> omega
  rw [Coeffs_unfold]
  unfold Coeffs.scale Coeffs.extra4 Coeffs.extra5
  by_cases hr : 2 ≤ x ∧ x ≤ s.mesh.ngx - 3
  · have hr2 : x > 1 ∧ x < s.mesh.ngx - 2 := hrange.mpr hr
    cases s.issetD <;> cases s.issetC <;> cases s.issetE <;> simp [hr, hr2, add_assoc]
  · have hr2 : ¬ (x > 1 ∧ x < s.mesh.ngx - 2) := fun h => hr (hrange.mp h)
    cases s.issetD <;> cases s.issetC <;> cases s.issetE <;> simp [hr, hr2, add_assoc]

theorem Coeffs_base4_eq (s : Solver) (x y : Int) :
    Coeffs.base4 s x y =
      (if s.all_terms then s.mesh.G1 x y else 0)
        + (if s.nonuniform ∧ x ≠ 0 ∧ x ≠ s.mesh.ngx - 1 then legacyCorrection s.mesh x y
            else 0) := by
  unfold Coeffs.base4 legacyCorrection
  split_ifs <;> ring

/-- C23 (as amended): when `all_terms` is false the metric terms `G1` and `G3` do not
enter: `coef4` is the non-uniform grid correction (where `nonuniform` applies it) times
the `D` factor, plus the `C1`/`C2` term (where applied) and `Ex` (when set), and `coef5`
is the `C1`/`C2` term plus `Ez`; both are zero when moreover `nonuniform` is off and
`C1`/`C2` and `Ex`/`Ez` are unset, whatever `D` is. -/
theorem Coeffs_without_all_terms (s : Solver) (x y z : Int)
    (hall : s.all_terms = false) :
    (Coeffs s x y z).2.2.2.1
        = (if s.nonuniform ∧ x ≠ 0 ∧ x ≠ s.mesh.ngx - 1 then legacyCorrection s.mesh x y
            else 0) * Coeffs.scale s x y z + Coeffs.extra4 s x y z
      ∧ (Coeffs s x y z).2.2.2.2 = Coeffs.extra5 s x y z
      ∧ (s.nonuniform = false → s.issetC = false → s.issetE = false →
          (Coeffs s x y z).2.2.2.1 = 0 ∧ (Coeffs s x y z).2.2.2.2 = 0) := by
  rw [Coeffs_eq, Coeffs_base4_eq]
  simp only [Coeffs.base5, hall, Bool.false_eq_true, if_false, zero_add, zero_mul]
  refine ⟨trivial, trivial, ?_⟩
  intro hn hC hE
  simp [Coeffs.extra4, Coeffs.extra5, hn, hC, hE]

/-- Witness for C23 on the single partition of the examples, where `all_terms` is off. -/
theorem Coeffs_without_all_terms_witness :
    singlePartition.all_terms = false ∧
    ((Coeffs singlePartition 1 0 0).2.2.2.1
        = (if singlePartition.nonuniform ∧ (1 : Int) ≠ 0 ∧ (1 : Int) ≠ singlePartition.mesh.ngx - 1
            then legacyCorrection singlePartition.mesh 1 0 else 0)
            * Coeffs.scale singlePartition 1 0 0 + Coeffs.extra4 singlePartition 1 0 0
      ∧ (Coeffs singlePartition 1 0 0).2.2.2.2 = Coeffs.extra5 singlePartition 1 0 0
      ∧ (singlePartition.nonuniform = false → singlePartition.issetC = false →
          singlePartition.issetE = false →
          (Coeffs singlePartition 1 0 0).2.2.2.1 = 0
            ∧ (Coeffs singlePartition 1 0 0).2.2.2.2 = 0)) :=
  ⟨rfl, Coeffs_without_all_terms singlePartition 1 0 0 rfl⟩

/-- C23, counterexample to the claim as written: on `withExD`, where `all_terms` is
false and `Ex = 1` is set, `Coeffs` returns `coef4 = 1` at the cell `(1, 0, 0)`. -/
theorem Coeffs_first_derivative_not_forced_to_zero :
    withExD.all_terms = false ∧ (Coeffs withExD 1 0 0).2.2.2.1 = 1
      ∧ (Coeffs withExD 1 0 0).2.2.2.1 ≠ 0 := by
  refine ⟨rfl, ?_, ?_⟩ <;> decide!

/-- C24 (as amended): when `D` is set, `coef1`, `coef2` and `coef3` are `D[x][y][z]`
times the values returned with `D` unset; in `coef4` and `coef5` only the part computed
before the scaling (metric term and non-uniform grid correction) is multiplied by `D`,
and the `C1`/`C2` term and `Ex`, `Ez` are added unscaled. So all five coefficients scale
by `D` when the `C1`/`C2` term is not applied and `Ex`, `Ez` are unset. -/
theorem Coeffs_scaled_by_D (s : Solver) (x y z : Int) (hD : s.issetD = true) :
    (Coeffs s x y z).1 = s.D x y z * (Coeffs { s with issetD := false } x y z).1
      ∧ (Coeffs s x y z).2.1 = s.D x y z * (Coeffs { s with issetD := false } x y z).2.1
      ∧ (Coeffs s x y z).2.2.1 = s.D x y z * (Coeffs { s with issetD := false } x y z).2.2.1
      ∧ (Coeffs s x y z).2.2.2.1
          = s.D x y z * ((Coeffs { s with issetD := false } x y z).2.2.2.1
              - Coeffs.extra4 s x y z) + Coeffs.extra4 s x y z
      ∧ (Coeffs s x y z).2.2.2.2
          = s.D x y z * ((Coeffs { s with issetD := false } x y z).2.2.2.2
              - Coeffs.extra5 s x y z) + Coeffs.extra5 s x y z
      ∧ (Coeffs.extra4 s x y z = 0 → Coeffs.extra5 s x y z = 0 →
          (Coeffs s x y z).2.2.2.1
              = s.D x y z * (Coeffs { s with issetD := false } x y z).2.2.2.1
            ∧ (Coeffs s x y z).2.2.2.2
              = s.D x y z * (Coeffs { s with issetD := false } x y z).2.2.2.2) := by
  have e1 : Coeffs.scale s x y z = s.D x y z := by simp [Coeffs.scale, hD]
  have e2 : Coeffs.scale { s with issetD := false } x y z = 1 := by simp [Coeffs.scale]
  have e3 : Coeffs.extra4 { s with issetD := false } x y z = Coeffs.extra4 s x y z := rfl
  have e4 : Coeffs.extra5 { s with issetD := false } x y z = Coeffs.extra5 s x y z := rfl
  have e5 : Coeffs.base2 { s with issetD := false } x y = Coeffs.base2 s x y := rfl
  have e6 : Coeffs.base3 { s with issetD := false } x y = Coeffs.base3 s x y := rfl
  have e7 : Coeffs.base4 { s with issetD := false } x y = Coeffs.base4 s x y := rfl
  have e8 : Coeffs.base5 { s with issetD := false } x y = Coeffs.base5 s x y := rfl
  rw [Coeffs_eq s, Coeffs_eq { s with issetD := false }]
  simp only [e1, e2, e3, e4, e5, e6, e7, e8, mul_one]
  refine ⟨by ring, by ring, by ring, by ring, by ring, ?_⟩
  intro h4 h5
  rw [h4, h5]
  constructor <;> ring

/-- Witness for C24 on `withExD`, where `D = 2` is set. -/
theorem Coeffs_scaled_by_D_witness :
    withExD.issetD = true ∧
    ((Coeffs withExD 1 0 0).1
        = withExD.D 1 0 0 * (Coeffs { withExD with issetD := false } 1 0 0).1
      ∧ (Coeffs withExD 1 0 0).2.1
        = withExD.D 1 0 0 * (Coeffs { withExD with issetD := false } 1 0 0).2.1
      ∧ (Coeffs withExD 1 0 0).2.2.1
        = withExD.D 1 0 0 * (Coeffs { withExD with issetD := false } 1 0 0).2.2.1
      ∧ (Coeffs withExD 1 0 0).2.2.2.1
          = withExD.D 1 0 0 * ((Coeffs { withExD with issetD := false } 1 0 0).2.2.2.1
              - Coeffs.extra4 withExD 1 0 0) + Coeffs.extra4 withExD 1 0 0
      ∧ (Coeffs withExD 1 0 0).2.2.2.2
          = withExD.D 1 0 0 * ((Coeffs { withExD with issetD := false } 1 0 0).2.2.2.2
              - Coeffs.extra5 withExD 1 0 0) + Coeffs.extra5 withExD 1 0 0
      ∧ (Coeffs.extra4 withExD 1 0 0 = 0 → Coeffs.extra5 withExD 1 0 0 = 0 →
          (Coeffs withExD 1 0 0).2.2.2.1
              = withExD.D 1 0 0 * (Coeffs { withExD with issetD := false } 1 0 0).2.2.2.1
            ∧ (Coeffs withExD 1 0 0).2.2.2.2
              = withExD.D 1 0 0
                * (Coeffs { withExD with issetD := false } 1 0 0).2.2.2.2)) :=
  ⟨rfl, Coeffs_scaled_by_D withExD 1 0 0 rfl⟩

/-- C24, counterexample to the claim as written: on `withExD` (`D = 2` and `Ex = 1`
set) `Coeffs` returns `coef4 = 1` at the cell `(1, 0, 0)`, and with `D` unset it also
returns `coef4 = 1`, so `coef4` is not `D` times the unscaled value, which is 2. -/
theorem Coeffs_first_derivative_not_scaled_by_D :
    withExD.issetD = true ∧ (Coeffs withExD 1 0 0).2.2.2.1 = 1
      ∧ (Coeffs { withExD with issetD := false } 1 0 0).2.2.2.1 = 1
      ∧ (Coeffs withExD 1 0 0).2.2.2.1
          ≠ withExD.D 1 0 0 * (Coeffs { withExD with issetD := false } 1 0 0).2.2.2.1 := by
  refine ⟨rfl, ?_, ?_, ?_⟩ <;> decide!

/-- C25: with `C1`/`C2` set, for `2 ≤ x ≤ ngx-3` the coefficients are those returned
with `C1`/`C2` unset plus the terms `g11*ddx_C + g13*ddz_C` in `coef4` and
`g13*ddx_C + g33*ddz_C` in `coef5`; for every other `x` the five coefficients are
exactly those returned with `C1`/`C2` unset, and they do not depend on the contents of
`C1` and `C2`. `Coeffs` is a total function: it raises nothing. -/
theorem Coeffs_C_correction_range (s : Solver) (x y z : Int) (hC : s.issetC = true) :
    ((2 ≤ x ∧ x ≤ s.mesh.ngx - 3) →
        Coeffs s x y z =
          ((Coeffs { s with issetC := false } x y z).1,
           (Coeffs { s with issetC := false } x y z).2.1,
           (Coeffs { s with issetC := false } x y z).2.2.1,
           (Coeffs { s with issetC := false } x y z).2.2.2.1
             + (s.mesh.g11 x y * Coeffs.ddx_C s x y z
                 + s.mesh.g13 x y * Coeffs.ddz_C s x y z),
           (Coeffs { s with issetC := false } x y z).2.2.2.2
             + (s.mesh.g13 x y * Coeffs.ddx_C s x y z
                 + s.mesh.g33 x y * Coeffs.ddz_C s x y z)))
      ∧ (¬ (2 ≤ x ∧ x ≤ s.mesh.ngx - 3) →
          Coeffs s x y z = Coeffs { s with issetC := false } x y z
            ∧ ∀ C1 C2 : Field3D,
                Coeffs { s with C1 := C1, C2 := C2 } x y z = Coeffs s x y z) := by
  have e1 : Coeffs.scale { s with issetC := false } x y z = Coeffs.scale s x y z := rfl
  have e2 : Coeffs.base2 { s with issetC := false } x y = Coeffs.base2 s x y := rfl
  have e3 : Coeffs.base3 { s with issetC := false } x y = Coeffs.base3 s x y := rfl
  have e4 : Coeffs.base4 { s with issetC := false } x y = Coeffs.base4 s x y := rfl
  have e5 : Coeffs.base5 { s with issetC := false } x y = Coeffs.base5 s x y := rfl
  constructor
  · intro hr
    rw [Coeffs_eq s, Coeffs_eq { s with issetC := false }]
    simp only [e1, e2, e3, e4, e5, Coeffs.extra4, Coeffs.extra5, hC, hr, and_self, if_true,
      Bool.false_eq_true, false_and, if_false, zero_add]
    refine Prod.ext rfl (Prod.ext rfl (Prod.ext rfl (Prod.ext ?_ ?_))) <;> simp only [] <;>
      ring
  · intro hr
    constructor
    · rw [Coeffs_eq s, Coeffs_eq { s with issetC := false }]
      simp only [e1, e2, e3, e4, e5, Coeffs.extra4, Coeffs.extra5, hr, and_false,
        Bool.false_eq_true, false_and, if_false]
    · intro C1 C2
      rw [Coeffs_eq s, Coeffs_eq { s with C1 := C1, C2 := C2 }]
      have f1 : Coeffs.scale { s with C1 := C1, C2 := C2 } x y z = Coeffs.scale s x y z :=
        rfl
      have f2 : Coeffs.base2 { s with C1 := C1, C2 := C2 } x y = Coeffs.base2 s x y := rfl
      have f3 : Coeffs.base3 { s with C1 := C1, C2 := C2 } x y = Coeffs.base3 s x y := rfl
      have f4 : Coeffs.base4 { s with C1 := C1, C2 := C2 } x y = Coeffs.base4 s x y := rfl
      have f5 : Coeffs.base5 { s with C1 := C1, C2 := C2 } x y = Coeffs.base5 s x y := rfl
      simp only [f1, f2, f3, f4, f5, Coeffs.extra4, Coeffs.extra5, hr, and_false, if_false]

/-- Witness for C25 on `withC`, where `C1`/`C2` are set. -/
theorem Coeffs_C_correction_range_witness :
    withC.issetC = true ∧
    (((2 ≤ (2 : Int) ∧ (2 : Int) ≤ withC.mesh.ngx - 3) →
        Coeffs withC 2 0 0 =
          ((Coeffs { withC with issetC := false } 2 0 0).1,
           (Coeffs { withC with issetC := false } 2 0 0).2.1,
           (Coeffs { withC with issetC := false } 2 0 0).2.2.1,
           (Coeffs { withC with issetC := false } 2 0 0).2.2.2.1
             + (withC.mesh.g11 2 0 * Coeffs.ddx_C withC 2 0 0
                 + withC.mesh.g13 2 0 * Coeffs.ddz_C withC 2 0 0),
           (Coeffs { withC with issetC := false } 2 0 0).2.2.2.2
             + (withC.mesh.g13 2 0 * Coeffs.ddx_C withC 2 0 0
                 + withC.mesh.g33 2 0 * Coeffs.ddz_C withC 2 0 0)))
      ∧ (¬ (2 ≤ (2 : Int) ∧ (2 : Int) ≤ withC.mesh.ngx - 3) →
          Coeffs withC 2 0 0 = Coeffs { withC with issetC := false } 2 0 0
            ∧ ∀ C1 C2 : Field3D,
                Coeffs { withC with C1 := C1, C2 := C2 } 2 0 0 = Coeffs withC 2 0 0)) :=
  ⟨rfl, Coeffs_C_correction_range withC 2 0 0 rfl⟩

/-- C26: with `nonuniform` set, for `0 < x < ngx-1` the coefficients are those returned
with `nonuniform` off except that `coef4` has in addition the legacy correction
`-(1/2) * (dx[x+1][y] - dx[x-1][y]) / dx[x][y]^2 * g11[x][y]`, which enters before the
scaling and so carries the factor `D[x][y][z]` when `D` is set; for `x = 0` and
`x = ngx-1` the coefficients are exactly those returned with `nonuniform` off and do not
depend on `dx` away from `x`. The legacy formula is not the alternative one: on the
stretched mesh the two differ. -/
theorem Coeffs_nonuniform_correction (s : Solver) (x y z : Int)
    (hn : s.nonuniform = true) :
    ((0 < x ∧ x < s.mesh.ngx - 1) →
        Coeffs s x y z =
          ((Coeffs { s with nonuniform := false } x y z).1,
           (Coeffs { s with nonuniform := false } x y z).2.1,
           (Coeffs { s with nonuniform := false } x y z).2.2.1,
           (Coeffs { s with nonuniform := false } x y z).2.2.2.1
             + legacyCorrection s.mesh x y * Coeffs.scale s x y z,
           (Coeffs { s with nonuniform := false } x y z).2.2.2.2))
      ∧ ((x = 0 ∨ x = s.mesh.ngx - 1) →
          Coeffs s x y z = Coeffs { s with nonuniform := false } x y z
            ∧ ∀ dx : Int → Int → ℚ, dx x y = s.mesh.dx x y →
                Coeffs { s with mesh := { s.mesh with dx := dx } } x y z = Coeffs s x y z)
      ∧ legacyCorrection stretchedMesh 1 0 ≠ shouldBeCorrection stretchedMesh 1 0 := by
  have e1 : Coeffs.scale { s with nonuniform := false } x y z = Coeffs.scale s x y z := rfl
  have e2 : Coeffs.base2 { s with nonuniform := false } x y = Coeffs.base2 s x y := rfl
  have e3 : Coeffs.base3 { s with nonuniform := false } x y = Coeffs.base3 s x y := rfl
  have e5 : Coeffs.base5 { s with nonuniform := false } x y = Coeffs.base5 s x y := rfl
  have e6 : Coeffs.extra4 { s with nonuniform := false } x y z = Coeffs.extra4 s x y z := rfl
  have e7 : Coeffs.extra5 { s with nonuniform := false } x y z = Coeffs.extra5 s x y z := rfl
  refine ⟨?_, ?_, by decide!⟩
  · intro hr
    have hc : s.nonuniform = true ∧ x ≠ 0 ∧ x ≠ s.mesh.ngx - 1 := ⟨hn, by omega, by omega⟩
    rw [Coeffs_eq s, Coeffs_eq { s with nonuniform := false }, Coeffs_base4_eq s,
      Coeffs_base4_eq { s with nonuniform := false }]
    simp only [e1, e2, e3, e5, e6, e7, hc, and_self, if_true, Bool.false_eq_true, false_and,
      if_false, add_zero, ne_eq, not_false_eq_true]
    refine Prod.ext rfl (Prod.ext rfl (Prod.ext rfl (Prod.ext ?_ rfl)))
    simp only []
    ring
  · intro hx
    have hc : ¬ (x ≠ 0 ∧ x ≠ s.mesh.ngx - 1) := by
      rcases hx with h | h
      · exact fun hh => hh.1 h
      · exact fun hh => hh.2 h
    have hb : ∀ t : Solver, t.mesh.ngx = s.mesh.ngx → Coeffs.base4 t x y
        = (if t.all_terms then t.mesh.G1 x y else 0) := by
      intro t ht
      unfold Coeffs.base4
      rw [ht, if_neg (fun hh => hc hh.2)]
    constructor
    · rw [Coeffs_eq s, Coeffs_eq { s with nonuniform := false }, hb s rfl,
        hb { s with nonuniform := false } rfl]
      simp only [e1, e2, e3, e5, e6, e7]
    · intro dx hdx
      rw [Coeffs_eq s, Coeffs_eq { s with mesh := { s.mesh with dx := dx } }, hb s rfl,
        hb { s with mesh := { s.mesh with dx := dx } } rfl]
      have g1 : Coeffs.scale { s with mesh := { s.mesh with dx := dx } } x y z
          = Coeffs.scale s x y z := rfl
      have g2 : Coeffs.base2 { s with mesh := { s.mesh with dx := dx } } x y
          = Coeffs.base2 s x y := rfl
      have g3 : Coeffs.base3 { s with mesh := { s.mesh with dx := dx } } x y
          = Coeffs.base3 s x y := rfl
      have g5 : Coeffs.base5 { s with mesh := { s.mesh with dx := dx } } x y
          = Coeffs.base5 s x y := rfl
      have g6 : Coeffs.extra4 { s with mesh := { s.mesh with dx := dx } } x y z
          = Coeffs.extra4 s x y z := by
        simp only [Coeffs.extra4, Coeffs.ddx_C, Coeffs.ddz_C, hdx]
        rfl
      have g7 : Coeffs.extra5 { s with mesh := { s.mesh with dx := dx } } x y z
          = Coeffs.extra5 s x y z := by
        simp only [Coeffs.extra5, Coeffs.ddx_C, Coeffs.ddz_C, hdx]
        rfl
      simp only [g1, g2, g3, g5, g6, g7]

/-- Witness for C26 on the stretched mesh (`dx[x] = x + 1`) with `nonuniform` set. -/
theorem Coeffs_nonuniform_correction_witness :
    nonuniformPartition.nonuniform = true ∧
    (((0 < (1 : Int) ∧ (1 : Int) < nonuniformPartition.mesh.ngx - 1) →
        Coeffs nonuniformPartition 1 0 0 =
          ((Coeffs { nonuniformPartition with nonuniform := false } 1 0 0).1,
           (Coeffs { nonuniformPartition with nonuniform := false } 1 0 0).2.1,
           (Coeffs { nonuniformPartition with nonuniform := false } 1 0 0).2.2.1,
           (Coeffs { nonuniformPartition with nonuniform := false } 1 0 0).2.2.2.1
             + legacyCorrection nonuniformPartition.mesh 1 0
                 * Coeffs.scale nonuniformPartition 1 0 0,
           (Coeffs { nonuniformPartition with nonuniform := false } 1 0 0).2.2.2.2))
      ∧ (((1 : Int) = 0 ∨ (1 : Int) = nonuniformPartition.mesh.ngx - 1) →
          Coeffs nonuniformPartition 1 0 0
              = Coeffs { nonuniformPartition with nonuniform := false } 1 0 0
            ∧ ∀ dx : Int → Int → ℚ, dx 1 0 = nonuniformPartition.mesh.dx 1 0 →
                Coeffs { nonuniformPartition with
                    mesh := { nonuniformPartition.mesh with dx := dx } } 1 0 0
                  = Coeffs nonuniformPartition 1 0 0)
      ∧ legacyCorrection stretchedMesh 1 0 ≠ shouldBeCorrection stretchedMesh 1 0) :=
  ⟨rfl, Coeffs_nonuniform_correction nonuniformPartition 1 0 0 rfl⟩

/-! ## The pattern of the interior stencil -/

theorem interiorStencil_fourth_offsets (A0 A1 A2 A3 A4 A5 dx dz : ℚ) :
    ((interiorStencil true A0 A1 A2 A3 A4 A5 dx dz).map (fun e => (e.1, e.2.1))).Nodup
      ∧ (∀ e ∈ interiorStencil true A0 A1 A2 A3 A4 A5 dx dz,
          (-2 ≤ e.1 ∧ e.1 ≤ 2) ∧ (-2 ≤ e.2.1 ∧ e.2.1 ≤ 2)) := by
  refine ⟨?_, ?_⟩
  · rw [show (interiorStencil true A0 A1 A2 A3 A4 A5 dx dz).map (fun e => (e.1, e.2.1))
        = [(0, 0), (-2, -2), (-2, -1), (-2, 0), (-2, 1), (-2, 2), (-1, -2), (-1, -1),
           (-1, 0), (-1, 1), (-1, 2), (0, -2), (0, -1), (0, 1), (0, 2), (1, -2), (1, -1),
           (1, 0), (1, 1), (1, 2), (2, -2), (2, -1), (2, 0), (2, 1), (2, 2)] from rfl]
    decide
  · intro e he
    simp only [interiorStencil, if_true, List.mem_cons, List.mem_singleton,
      List.not_mem_nil, or_false] at he
    rcases he with h | h | h | h | h | h | h | h | h | h | h | h | h | h | h | h | h | h
      | h | h | h | h | h | h | h <;> rw [h] <;> simp

/-- C22 (as amended): the pattern of the fourth-order interior stencil is the full 5x5
block of offsets: an entry is emitted at `(xshift, zshift)` exactly when `|xshift| ≤ 2`
and `|zshift| ≤ 2`, once for each of the 25 offsets, and the four outermost corners
carry the weights `± A3 / (144 dx dz)` of the mixed-derivative formula. -/
theorem interiorStencil_fourth_pattern (A0 A1 A2 A3 A4 A5 dx dz : ℚ) :
    (∀ a b : Int, (a, b) ∈ (interiorStencil true A0 A1 A2 A3 A4 A5 dx dz).map
          (fun e => (e.1, e.2.1))
        ↔ (-2 ≤ a ∧ a ≤ 2) ∧ (-2 ≤ b ∧ b ≤ 2))
      ∧ ((interiorStencil true A0 A1 A2 A3 A4 A5 dx dz).map (fun e => (e.1, e.2.1))).Nodup
      ∧ (interiorStencil true A0 A1 A2 A3 A4 A5 dx dz).length = 25
      ∧ (-2, -2, A3 / (144 * (dx * dz))) ∈ interiorStencil true A0 A1 A2 A3 A4 A5 dx dz
      ∧ (-2, 2, -1 * A3 / (144 * (dx * dz))) ∈ interiorStencil true A0 A1 A2 A3 A4 A5 dx dz
      ∧ (2, -2, -1 * A3 / (144 * (dx * dz))) ∈ interiorStencil true A0 A1 A2 A3 A4 A5 dx dz
      ∧ (2, 2, A3 / (144 * (dx * dz))) ∈ interiorStencil true A0 A1 A2 A3 A4 A5 dx dz := by
  refine ⟨?_, (interiorStencil_fourth_offsets A0 A1 A2 A3 A4 A5 dx dz).1, rfl, ?_, ?_, ?_, ?_⟩
  · intro a b
    rw [show (interiorStencil true A0 A1 A2 A3 A4 A5 dx dz).map (fun e => (e.1, e.2.1))
        = [(0, 0), (-2, -2), (-2, -1), (-2, 0), (-2, 1), (-2, 2), (-1, -2), (-1, -1),
           (-1, 0), (-1, 1), (-1, 2), (0, -2), (0, -1), (0, 1), (0, 2), (1, -2), (1, -1),
           (1, 0), (1, 1), (1, 2), (2, -2), (2, -1), (2, 0), (2, 1), (2, 2)] from rfl]
    constructor
    · intro h
      simp only [List.mem_cons, List.mem_singleton, List.not_mem_nil, or_false,
        Prod.mk.injEq] at h
      omega
    · rintro ⟨⟨ha1, ha2⟩, hb1, hb2⟩
      interval_cases a <;> interval_cases b <;> decide
  all_goals simp [interiorStencil]

/-- C22, counterexample to the claim as written: on the fourth-order partition
`shearedFourth` (`g13 = 1/2`, so `A3 = 1`; `dx = dz = 1`) the body of the main-domain
loop for the row 10 of the cell `(2, 0)` succeeds and inserts the weight `1/144` at the
column 22, the column of the offset `(2, 2)`. -/
theorem interior_row_emits_outermost_corner :
    shearedFourth.fourth_order = true
      ∧ entryCol shearedFourth 2 0 (2, 2, 1 / 144) = 22
      ∧ ∃ st, interiorRow shearedFourth 0 (fun _ _ => 0) (fun _ _ => 0) 10 2 0
            AsmState.empty = .ok st
          ∧ (10, 22, 1 / 144) ∈ st.MatA := by
  refine ⟨rfl, by decide, _, interiorRow_ok shearedFourth 0 _ _ 10 2 0 _ (by decide), ?_⟩
  decide!

/-! ## Distinct columns and overwriting in an interior row -/

theorem emitted_cols (s : Solver) (i x z : Int) (tbl : List (Int × Int × ℚ)) :
    (emitted s i x z tbl).map (fun e => e.2.1) = (tbl.map (entryCol s x z)).reverse := by
  unfold emitted entryCol
  rw [List.map_reverse, List.map_map]
  rfl

theorem Mat.get_emitted_last (s : Solver) (i x z : Int) (tbl : List (Int × Int × ℚ))
    (c : Int) :
    (emitted s i x z tbl).get i c
      = (tbl.reverse.find? (fun t => decide (entryCol s x z t = c))).map (fun t => t.2.2) := by
  unfold Mat.get emitted
  rw [← List.map_reverse, List.find?_map, Option.map_map]
  congr 1
  · congr 1
    funext t
    simp [entryCol]

theorem col_new_inj_of_five (s : Solver) (z b b' : Int) (hm : 5 ≤ s.meshz)
    (hz : 0 ≤ z ∧ z < s.meshz) (hb : -2 ≤ b ∧ b ≤ 2) (hb' : -2 ≤ b' ∧ b' ≤ 2)
    (h : Element.col_new s z b = Element.col_new s z b') : b = b' := by
  unfold Element.col_new at h
  simp only [] at h
  split_ifs at h <;> omega

theorem not_nodup_of_same_col (s : Solver) (x z : Int) (tbl : List (Int × Int × ℚ))
    (t1 t2 : Int × Int × ℚ) (h1 : t1 ∈ tbl) (h2 : t2 ∈ tbl) (hne : t1.2.1 ≠ t2.2.1)
    (hcol : entryCol s x z t1 = entryCol s x z t2) :
    ¬ (tbl.map (entryCol s x z)).Nodup := by
  intro hnd
  have := List.inj_on_of_nodup_map hnd h1 h2 hcol
  exact hne (by rw [this])

theorem overwritten_of_not_nodup {α β : Type} (f : α → β) (l : List α)
    (h : ¬ (l.map f).Nodup) :
    ∃ (k1 k2 : Nat) (t1 t2 : _), k1 < k2 ∧ l[k1]? = some t1 ∧ l[k2]? = some t2 ∧ f t1 = f t2 := by
  induction l with
  | nil => simp at h
  | cons a l ih =>
    rw [List.map_cons, List.nodup_cons, not_and_or, not_not] at h
    rcases h with h | h
    · obtain ⟨t, ht, hft⟩ := List.mem_map.mp h
      obtain ⟨k, hk, hkt⟩ := List.getElem_of_mem ht
      refine ⟨0, k + 1, a, t, by omega, by simp, ?_, hft.symm⟩
      rw [List.getElem?_cons_succ, List.getElem?_eq_getElem hk, hkt]
    · obtain ⟨k1, k2, t1, t2, hlt, h1, h2, hf⟩ := ih h
      exact ⟨k1 + 1, k2 + 1, t1, t2, by omega, by rw [List.getElem?_cons_succ]; exact h1,
        by rw [List.getElem?_cons_succ]; exact h2, hf⟩

theorem second_cols_nodup_iff (s : Solver) (i x z : Int) (A0 A1 A2 A3 A4 A5 dx dz : ℚ)
    (hz : 0 ≤ z ∧ z < s.meshz) :
    ((emitted s i x z (interiorStencil false A0 A1 A2 A3 A4 A5 dx dz)).map
        (fun e => e.2.1)).Nodup ↔ 3 ≤ s.meshz := by
  constructor
  · intro hnd
    by_contra hm
    rw [emitted_cols, List.nodup_reverse] at hnd
    refine not_nodup_of_same_col s x z _ (0, -1, (A2 / dz ^ 2) - (A5 / (2 * dz)))
      (0, 1, (A2 / dz ^ 2) + (A5 / (2 * dz))) (by simp [interiorStencil])
      (by simp [interiorStencil]) (by simp) ?_ hnd
    unfold entryCol Element.col_new
    simp only []
    split_ifs <;> omega
  · intro hm
    obtain ⟨t1, t2⟩ := interiorStencil_second_offsets A0 A1 A2 A3 A4 A5 dx dz
    apply emitted_cols_nodup s i x z _ hz t1
    · intro e he
      have := t2 e he
      omega
    · intro e he e' he' h
      exact col_new_inj_of_three s z _ _ hm hz (t2 e he) (t2 e' he') h

theorem fourth_cols_nodup_iff (s : Solver) (i x z : Int) (A0 A1 A2 A3 A4 A5 dx dz : ℚ)
    (hz : 0 ≤ z ∧ z < s.meshz) :
    ((emitted s i x z (interiorStencil true A0 A1 A2 A3 A4 A5 dx dz)).map
        (fun e => e.2.1)).Nodup ↔ 5 ≤ s.meshz := by
  constructor
  · intro hnd
    by_contra hm
    rw [emitted_cols, List.nodup_reverse] at hnd
    have hm2 : s.meshz ≤ 2 ∨ s.meshz = 3 ∨ s.meshz = 4 := by omega
    rcases hm2 with h | h | h
    · refine not_nodup_of_same_col s x z _
        (0, -1, (4 * A2 / (3 * dz ^ 2)) - (2 * A5 / (3 * dz)))
        (0, 1, (4 * A2 / (3 * dz ^ 2)) + (2 * A5 / (3 * dz))) (by simp [interiorStencil])
        (by simp [interiorStencil]) (by simp) ?_ hnd
      unfold entryCol Element.col_new
      simp only []
      split_ifs <;> omega
    · refine not_nodup_of_same_col s x z _
        (0, -2, (1 / 12) * ((-1 * A2 / dz ^ 2) + (A5 / dz)))
        (0, 1, (4 * A2 / (3 * dz ^ 2)) + (2 * A5 / (3 * dz))) (by simp [interiorStencil])
        (by simp [interiorStencil]) (by simp) ?_ hnd
      unfold entryCol Element.col_new
      simp only []
      split_ifs <;> omega
    · refine not_nodup_of_same_col s x z _
        (0, -2, (1 / 12) * ((-1 * A2 / dz ^ 2) + (A5 / dz)))
        (0, 2, (-1 / 12) * ((A2 / dz ^ 2) + (A5 / dz))) (by simp [interiorStencil])
        (by simp [interiorStencil]) (by simp) ?_ hnd
      unfold entryCol Element.col_new
      simp only []
      split_ifs <;> omega
  · intro hm
    obtain ⟨t1, t2⟩ := interiorStencil_fourth_offsets A0 A1 A2 A3 A4 A5 dx dz
    apply emitted_cols_nodup s i x z _ hz t1
    · intro e he
      have := (t2 e he).2
      omega
    · intro e he e' he' h
      exact col_new_inj_of_five s z _ _ hm hz (t2 e he).2 (t2 e' he').2 h

/-- C28: for the main-domain row `i` of a cell `(x, z)` with `0 ≤ z < meshz`, when
`Istart` is a multiple of `meshz` the loop body succeeds and logs the entries of the
table; their column indices are pairwise distinct if and only if `meshz ≥ 3` in
second-order mode and `meshz ≥ 5` in fourth-order mode; when they are distinct the
stored row holds the weight of every table entry at that entry's column; in every case
the stored weight of a column is that of the last table entry written there, and when
the columns are not distinct two entries of the table, an earlier and a later one, are
written at the same column. -/
theorem interior_columns_distinct_iff (s : Solver) (y i x z : Int)
    (hz : 0 ≤ z ∧ z < s.meshz) (hI : Int.tmod s.Istart s.meshz = 0) :
    (∀ (b x0 : FieldPerp) (st : AsmState),
        interiorRow s y b x0 i x z st = .ok (pureRow (interiorEmit s y) b x0 i x z st))
      ∧ (((interiorEmit s y i x z).map (fun e => e.2.1)).Nodup
          ↔ (if s.fourth_order then 5 else 3) ≤ s.meshz)
      ∧ (((interiorEmit s y i x z).map (fun e => e.2.1)).Nodup →
          ∀ t ∈ interiorTable s y x z,
            (interiorEmit s y i x z).get i (entryCol s x z t) = some t.2.2)
      ∧ (∀ c, (interiorEmit s y i x z).get i c
          = ((interiorTable s y x z).reverse.find?
              (fun t => decide (entryCol s x z t = c))).map (fun t => t.2.2))
      ∧ (¬ ((interiorEmit s y i x z).map (fun e => e.2.1)).Nodup →
          ∃ (k1 k2 : Nat) (t1 t2 : _), k1 < k2 ∧ (interiorTable s y x z)[k1]? = some t1
            ∧ (interiorTable s y x z)[k2]? = some t2
            ∧ entryCol s x z t1 = entryCol s x z t2) := by
  have hemit : interiorEmit s y i x z = emitted s i x z (interiorTable s y x z) := rfl
  refine ⟨fun b x0 st => interiorRow_ok s y b x0 i x z st hI, ?_, ?_, ?_, ?_⟩
  · rw [hemit]
    unfold interiorTable
    cases s.fourth_order
    · simp only [Bool.false_eq_true, if_false]
      exact second_cols_nodup_iff s i x z _ _ _ _ _ _ _ _ hz
    · simp only [if_true]
      exact fourth_cols_nodup_iff s i x z _ _ _ _ _ _ _ _ hz
  · intro hnd t ht
    rw [hemit] at hnd ⊢
    exact Mat.get_of_nodup _ i (emitted_row s i x z _) hnd
      (i, entryCol s x z t, t.2.2) ((mem_emitted s i x z _ _).mpr ⟨t, ht, rfl⟩)
  · intro c
    rw [hemit]
    exact Mat.get_emitted_last s i x z _ c
  · intro hnd
    rw [hemit, emitted_cols, List.nodup_reverse] at hnd
    exact overwritten_of_not_nodup _ _ hnd

/-- Witness for C28 on the fourth-order partition `shearedFourth` (`meshz = 5`). -/
theorem interior_columns_distinct_iff_witness :
    ((0 ≤ (0 : Int) ∧ (0 : Int) < shearedFourth.meshz)
      ∧ Int.tmod shearedFourth.Istart shearedFourth.meshz = 0) ∧
    ((∀ (b x0 : FieldPerp) (st : AsmState),
        interiorRow shearedFourth 0 b x0 10 2 0 st
          = .ok (pureRow (interiorEmit shearedFourth 0) b x0 10 2 0 st))
      ∧ (((interiorEmit shearedFourth 0 10 2 0).map (fun e => e.2.1)).Nodup
          ↔ (if shearedFourth.fourth_order then 5 else 3) ≤ shearedFourth.meshz)
      ∧ (((interiorEmit shearedFourth 0 10 2 0).map (fun e => e.2.1)).Nodup →
          ∀ t ∈ interiorTable shearedFourth 0 2 0,
            (interiorEmit shearedFourth 0 10 2 0).get 10 (entryCol shearedFourth 2 0 t)
              = some t.2.2)
      ∧ (∀ c, (interiorEmit shearedFourth 0 10 2 0).get 10 c
          = ((interiorTable shearedFourth 0 2 0).reverse.find?
              (fun t => decide (entryCol shearedFourth 2 0 t = c))).map (fun t => t.2.2))
      ∧ (¬ ((interiorEmit shearedFourth 0 10 2 0).map (fun e => e.2.1)).Nodup →
          ∃ (k1 k2 : Nat) (t1 t2 : _), k1 < k2 ∧ (interiorTable shearedFourth 0 2 0)[k1]? = some t1
            ∧ (interiorTable shearedFourth 0 2 0)[k2]? = some t2
            ∧ entryCol shearedFourth 2 0 t1 = entryCol shearedFourth 2 0 t2)) :=
  ⟨⟨by decide, by decide⟩,
    interior_columns_distinct_iff shearedFourth 0 10 2 0 (by decide) (by decide)⟩

/-! ## The round trip from a vector, and the layout of the ownership ranges -/

theorem indexAtEnd_ge (s : Solver) : s.Istart ≤ indexAtEnd s := by
  have hnn : ∀ a b : Nat, (0 : Int) ≤ (a : Int) * (b : Int) := fun a b =>
    mul_nonneg (Int.ofNat_nonneg a) (Int.ofNat_nonneg b)
  have hA := hnn s.mesh.xstart.toNat s.meshz.toNat
  have hB := hnn (s.mesh.xend + 1 - s.mesh.xstart).toNat s.meshz.toNat
  have hC := hnn (s.mesh.ngx - (s.mesh.xend + 1)).toNat s.meshz.toNat
  unfold indexAtEnd indexAfterInterior indexAfterInner
  split_ifs <;> omega

theorem rows_length (s : Solver) :
    ((innerRows s ++ interiorRows s ++ outerRows s).length : Int)
      = indexAtEnd s - s.Istart := by
  have h := congrArg List.length (rows_index s)
  rw [List.length_map] at h
  rw [h]
  unfold intRange
  rw [List.length_map, List.length_range]
  have := indexAtEnd_ge s
  omega

theorem roundtrip_from_vec (s : Solver) (h0 : 0 ≤ s.mesh.xstart)
    (h1 : s.mesh.xstart ≤ s.mesh.xend + 1) (hend : indexAtEnd s = s.Iend)
    (v : Vec) (f0 : FieldPerp) (w0 : Vec) :
    ∃ g w, vecToField s v f0 = .ok g ∧ fieldToVec s g w0 = .ok w
      ∧ ∀ i, s.Istart ≤ i → i < s.Iend → w i = v i := by
  have hfv : ∀ f v0, fieldToVec s f v0
      = .ok ((innerRows s ++ interiorRows s ++ outerRows s).foldl
          (applyRow (fun i x z v => VecSetValues v i (f x z))) v0) := by
    intro f v0
    simp [fieldToVec, fieldToVecLoops_eq, hend, ASSERT1, List.foldl_append]
  have hvf : ∀ v g0, vecToField s v g0
      = .ok ((innerRows s ++ interiorRows s ++ outerRows s).foldl
          (applyRow (fun i x z g => FieldPerp.set g x z (v i))) g0) := by
    intro v g0
    simp [vecToField, vecToFieldLoops_eq, hend, ASSERT1, List.foldl_append]
  refine ⟨_, _, hvf v f0, hfv _ w0, ?_⟩
  intro i hi0 hi1
  have hidx := rows_index s
  rw [hend] at hidx
  have hnd : ((innerRows s ++ interiorRows s ++ outerRows s).map (fun r => r.1)).Nodup := by
    rw [hidx]; exact nodup_intRange _ _
  have himem : i ∈ (innerRows s ++ interiorRows s ++ outerRows s).map (fun r => r.1) := by
    rw [hidx]; exact (mem_intRange _ _ _).mpr ⟨hi0, hi1⟩
  obtain ⟨r, hr, rfl⟩ := List.mem_map.mp himem
  rw [foldl_vecSet_get _ _ w0 hnd r hr]
  have hform : ∀ r' ∈ innerRows s ++ interiorRows s ++ outerRows s,
      v r'.1 = (fun x z => v (s.Istart + (x - xbase s) * s.meshz + z)) r'.2.1 r'.2.2 := by
    intro r' hr'
    rw [rows_eq_rowSequence s h0 h1] at hr'
    obtain ⟨c, _, rfl⟩ := List.mem_map.mp hr'
    rfl
  rw [foldl_fieldSet v (fun x z => v (s.Istart + (x - xbase s) * s.meshz + z)) _ f0 hform,
    if_pos (List.mem_map.mpr ⟨r, hr, rfl⟩)]
  exact (hform r hr).symm

/-- C29: on a mesh with `0 ≤ xstart ≤ xend + 1`, for every partition kind, when
`Iend - Istart` is the number of cells the traversal visits, `vecToField` followed by
`fieldToVec` succeeds and gives back `v` at every owned row; and when the nested solver
returns its input field unchanged, `precon(x, y)` succeeds, returns 0 and leaves in `y`
the value of `x` at every owned row. -/
theorem fieldToVec_vecToField (s : Solver) (h0 : 0 ≤ s.mesh.xstart)
    (h1 : s.mesh.xstart ≤ s.mesh.xend + 1)
    (hcount : s.Iend - s.Istart = ((vecToFieldTrace s).length : Int)) :
    (∀ (v : Vec) (f0 : FieldPerp) (w0 : Vec),
        ∃ g w, vecToField s v f0 = .ok g ∧ fieldToVec s g w0 = .ok w
          ∧ ∀ i, s.Istart ≤ i → i < s.Iend → w i = v i)
      ∧ (∀ (pcsolve : InnerSolver) (x y : Vec) (f0 : FieldPerp),
          (∀ f, pcsolve f = .ok f) →
          ∃ ynew, precon s pcsolve x y f0 = .ok (ynew, 0)
            ∧ ∀ i, s.Istart ≤ i → i < s.Iend → ynew i = x i) := by
  have hend : indexAtEnd s = s.Iend := by
    rw [vecToFieldTrace_eq, rows_length] at hcount
    omega
  refine ⟨roundtrip_from_vec s h0 h1 hend, ?_⟩
  intro pcsolve x y f0 hid
  obtain ⟨g, w, hg, hw, hval⟩ := roundtrip_from_vec s h0 h1 hend x f0 y
  refine ⟨w, ?_, hval⟩
  unfold precon
  rw [hg]
  simp only []
  rw [hid g]
  simp only []
  rw [hw]

/-- Witness for C29 on a middle x-partition (`Istart = 9`, `Iend = 15`). -/
theorem fieldToVec_vecToField_witness :
    (0 ≤ middlePartition.mesh.xstart
      ∧ middlePartition.mesh.xstart ≤ middlePartition.mesh.xend + 1
      ∧ middlePartition.Iend - middlePartition.Istart
          = ((vecToFieldTrace middlePartition).length : Int)) ∧
    ((∀ (v : Vec) (f0 : FieldPerp) (w0 : Vec),
        ∃ g w, vecToField middlePartition v f0 = .ok g
          ∧ fieldToVec middlePartition g w0 = .ok w
          ∧ ∀ i, middlePartition.Istart ≤ i → i < middlePartition.Iend → w i = v i)
      ∧ (∀ (pcsolve : InnerSolver) (x y : Vec) (f0 : FieldPerp),
          (∀ f, pcsolve f = .ok f) →
          ∃ ynew, precon middlePartition pcsolve x y f0 = .ok (ynew, 0)
            ∧ ∀ i, middlePartition.Istart ≤ i → i < middlePartition.Iend →
                ynew i = x i)) :=
  ⟨⟨by decide, by decide, by decide⟩,
    fieldToVec_vecToField middlePartition (by decide) (by decide) (by decide)⟩

theorem localN_multiple (m : Mesh) : (m.ngz - 1) ∣ localN m := by
  unfold localN
  simp only []
  split_ifs
  · exact ⟨(m.xend - m.xstart + 1) + m.xstart + m.xstart, by ring⟩
  · exact ⟨(m.xend - m.xstart + 1) + m.xstart, by ring⟩
  · exact ⟨(m.xend - m.xstart + 1) + m.xstart, by ring⟩
  · exact ⟨(m.xend - m.xstart + 1), by ring⟩

theorem sum_localN_multiple (ngz : Int) (ms : List Mesh) (hall : ∀ m ∈ ms, m.ngz = ngz) :
    (ngz - 1) ∣ (ms.map localN).sum := by
  apply List.dvd_sum
  intro a ha
  obtain ⟨m, hm, rfl⟩ := List.mem_map.mp ha
  rw [← hall m hm]
  exact localN_multiple m

theorem Element_error_iff (s : Solver) (i x z a b : Int) (e : ℚ) (M : Mat) :
    (∃ m, Element s i x z a b e M = .error m) ↔ Int.tmod s.Istart s.meshz ≠ 0 := by
  unfold Element
  by_cases h : Int.tmod s.Istart s.meshz = 0
  · simp [h]
  · simp [h]

/-- C30: when the x-partitions share `ngz`, each has the local size `localN` of the
constructor and each `Istart` is the sum of the `localN` of the partitions before it,
then `size` is a multiple of `meshz = ngz - 1` (so `meshx * meshz = size`), `Istart` is
a multiple of `meshz` on every partition, and on every partition `Element` does not
raise; `Element` raises if and only if `Istart mod meshz` is not 0. -/
theorem ownership_ranges_aligned (ms : List Mesh) (ngz : Int)
    (hall : ∀ m ∈ ms, m.ngz = ngz) :
    (ngz - 1) ∣ globalSize ms
      ∧ meshx (globalSize ms) (ngz - 1) * (ngz - 1) = globalSize ms
      ∧ (∀ k, Int.tmod (ownershipStart ms k) (ngz - 1) = 0)
      ∧ (∀ (s : Solver) (k : Nat), s.mesh.ngz = ngz → s.Istart = ownershipStart ms k →
          ∀ (i x z a b : Int) (e : ℚ) (M : Mat),
            Element s i x z a b e M
              = .ok (MatSetValues M i
                  (Element.row_new s x a * s.meshz + Element.col_new s z b) e))
      ∧ (∀ (s : Solver) (i x z a b : Int) (e : ℚ) (M : Mat),
          (∃ m, Element s i x z a b e M = .error m) ↔ Int.tmod s.Istart s.meshz ≠ 0) := by
  have hsize := sum_localN_multiple ngz ms hall
  have hstart : ∀ k, Int.tmod (ownershipStart ms k) (ngz - 1) = 0 := by
    intro k
    obtain ⟨c, hc⟩ := sum_localN_multiple ngz (ms.take k)
      (fun m hm => hall m (List.mem_of_mem_take hm))
    unfold ownershipStart
    rw [hc, Int.mul_tmod_right]
  refine ⟨hsize, ?_, hstart, ?_, fun s i x z a b e M => Element_error_iff s i x z a b e M⟩
  · obtain ⟨c, hc⟩ := hsize
    unfold meshx globalSize
    rw [hc]
    exact tdiv_mul_of_tmod _ _ (Int.mul_tmod_right _ _)
  · intro s k hs hk i x z a b e M
    apply Element_ok
    rw [hk]
    unfold Solver.meshz
    rw [hs]
    exact hstart k

/-- Witness for C30 on three x-partitions with `ngz = 4`. -/
theorem ownership_ranges_aligned_witness :
    (∀ m ∈ threePartitions, m.ngz = 4) ∧
    ((4 - 1 : Int) ∣ globalSize threePartitions
      ∧ meshx (globalSize threePartitions) (4 - 1) * (4 - 1) = globalSize threePartitions
      ∧ (∀ k, Int.tmod (ownershipStart threePartitions k) (4 - 1) = 0)
      ∧ (∀ (s : Solver) (k : Nat), s.mesh.ngz = 4 →
          s.Istart = ownershipStart threePartitions k →
          ∀ (i x z a b : Int) (e : ℚ) (M : Mat),
            Element s i x z a b e M
              = .ok (MatSetValues M i
                  (Element.row_new s x a * s.meshz + Element.col_new s z b) e))
      ∧ (∀ (s : Solver) (i x z a b : Int) (e : ℚ) (M : Mat),
          (∃ m, Element s i x z a b e M = .error m) ↔ Int.tmod s.Istart s.meshz ≠ 0)) :=
  ⟨by decide, ownership_ranges_aligned threePartitions 4 (by decide)⟩

/-! ## Symmetry of the second-order matrix -/

theorem entryCol_eq_iff (s : Solver) (x z xt zt a b : Int) (v : ℚ)
    (hz : 0 ≤ z ∧ z < s.meshz) (hzt : 0 ≤ zt ∧ zt < s.meshz) (hb : -1 ≤ b ∧ b ≤ 1) :
    entryCol s x z (a, b, v) = Element.row_new s xt 0 * s.meshz + zt
      ↔ x + a = xt ∧ Element.col_new s z b = zt := by
  have hc := col_new_range s z b hz (by omega)
  unfold entryCol
  simp only []
  constructor
  · intro h
    obtain ⟨h1, h2⟩ := col_inj s.meshz _ _ _ _ hc hzt h
    refine ⟨?_, h2⟩
    unfold Element.row_new at h1
    simp only [] at h1
    split_ifs at h1 <;> omega
  · rintro ⟨h1, h2⟩
    rw [← h1, h2]
    unfold Element.row_new
    simp only []
    split_ifs <;> ring

theorem find_cons_ite {α : Type} (p : α → Bool) (a : α) (l : List α) :
    (a :: l).find? p = if p a = true then some a else l.find? p := by
  cases h : p a <;> simp [h]

theorem stored_second (s : Solver) (i x z xt zt : Int) (A0 A1 A2 dx dz : ℚ)
    (hz : 0 ≤ z ∧ z < s.meshz) (hzt : 0 ≤ zt ∧ zt < s.meshz) :
    (emitted s i x z (interiorStencil false A0 A1 A2 0 0 0 dx dz)).get i
        (Element.row_new s xt 0 * s.meshz + zt)
      = if x + 1 = xt ∧ Element.col_new s z 1 = zt then some 0
        else if x + 1 = xt ∧ Element.col_new s z 0 = zt then some (A1 / dx ^ 2)
        else if x + 1 = xt ∧ Element.col_new s z (-1) = zt then some 0
        else if x + 0 = xt ∧ Element.col_new s z 1 = zt then some (A2 / dz ^ 2)
        else if x + 0 = xt ∧ Element.col_new s z (-1) = zt then some (A2 / dz ^ 2)
        else if x + -1 = xt ∧ Element.col_new s z 1 = zt then some 0
        else if x + -1 = xt ∧ Element.col_new s z 0 = zt then some (A1 / dx ^ 2)
        else if x + -1 = xt ∧ Element.col_new s z (-1) = zt then some 0
        else if x + 0 = xt ∧ Element.col_new s z 0 = zt then
          some (A0 - 2 * (A1 / dx ^ 2 + A2 / dz ^ 2))
        else none := by
  rw [Mat.get_emitted_last]
  have e := fun a b v hb => entryCol_eq_iff s x z xt zt a b v hz hzt hb
  simp only [interiorStencil, Bool.false_eq_true, if_false, List.reverse_cons,
    List.reverse_nil, List.nil_append, List.cons_append, find_cons_ite, List.find?_nil]
  simp only [e _ _ _ (by decide : (-1 : Int) ≤ 1 ∧ (1 : Int) ≤ 1),
    e _ _ _ (by decide : (-1 : Int) ≤ 0 ∧ (0 : Int) ≤ 1),
    e _ _ _ (by decide : (-1 : Int) ≤ -1 ∧ (-1 : Int) ≤ 1)]
  simp only [apply_ite (Option.map (fun t : Int × Int × ℚ => t.2.2)), Option.map_some',
    Option.map_none', decide_eq_true_eq, mul_zero, zero_div, sub_zero, add_zero]

theorem col_new_swap (s : Solver) (z zt : Int) (hz : 0 ≤ z ∧ z < s.meshz)
    (hzt : 0 ≤ zt ∧ zt < s.meshz) :
    (Element.col_new s zt 1 = z ↔ Element.col_new s z (-1) = zt)
      ∧ (Element.col_new s zt (-1) = z ↔ Element.col_new s z 1 = zt)
      ∧ (Element.col_new s z 1 = z ↔ Element.col_new s z (-1) = z) := by
  unfold Element.col_new
  simp only []
  refine ⟨?_, ?_, ?_⟩ <;> constructor <;> intro h <;> split_ifs at h ⊢ <;> omega

theorem stored_second_symmetric (s : Solver) (i j x z xt zt : Int)
    (A0 B0 A1 A2 dx dz : ℚ)
    (hz : 0 ≤ z ∧ z < s.meshz) (hzt : 0 ≤ zt ∧ zt < s.meshz)
    (hx : xt = x + 1 ∨ xt = x ∨ xt = x - 1)
    (hzn : Element.col_new s z 1 = zt ∨ z = zt ∨ Element.col_new s z (-1) = zt)
    (hne : ¬ (xt = x ∧ z = zt)) :
    ∃ w, (emitted s i x z (interiorStencil false A0 A1 A2 0 0 0 dx dz)).get i
            (Element.row_new s xt 0 * s.meshz + zt) = some w
      ∧ (emitted s j xt zt (interiorStencil false B0 A1 A2 0 0 0 dx dz)).get j
            (Element.row_new s x 0 * s.meshz + z) = some w := by
  obtain ⟨sw1, sw2, sw3⟩ := col_new_swap s z zt hz hzt
  rw [stored_second s i x z xt zt A0 A1 A2 dx dz hz hzt,
    stored_second s j xt zt x z B0 A1 A2 dx dz hzt hz]
  simp only [col_new_of_inside s z hz.1 hz.2, col_new_of_inside s zt hzt.1 hzt.2, sw1, sw2,
    add_zero]
  have hq : zt = z ↔ z = zt := ⟨fun h => h.symm, fun h => h.symm⟩
  simp only [hq]
  by_cases hQ : z = zt
  · subst hQ
    have hxn : ¬ xt = x := fun h => hne ⟨h, rfl⟩
    by_cases hP : Element.col_new s z 1 = z
    · have hR := sw3.mp hP
      rcases hx with h | h | h
      · simp only [h, hP, hR, show ¬ (x + 1 + 1 = x) by omega, show ¬ (x + 1 = x) by omega,
          show (x + 1 + -1 = x) by omega, show ¬ (x + -1 = x + 1) by omega,
          show ¬ (x = x + 1) by omega, if_false, if_true, and_self, and_true, and_false]
        first | exact ⟨_, rfl, rfl⟩ | exact ⟨_, rfl⟩
      · exact absurd h hxn
      · simp only [h, hP, hR, show ¬ (x - 1 + 1 + 1 = x) by omega,
          show (x - 1 + 1 = x) by omega, show ¬ (x - 1 = x) by omega,
          show ¬ (x - 1 + -1 = x) by omega, show ¬ (x + 1 = x - 1) by omega,
          show ¬ (x = x - 1) by omega, show (x + -1 = x - 1) by omega, if_false, if_true,
          and_self, and_true, and_false]
        first | exact ⟨_, rfl, rfl⟩ | exact ⟨_, rfl⟩
    · have hR : ¬ Element.col_new s z (-1) = z := fun h => hP (sw3.mpr h)
      rcases hx with h | h | h
      · simp only [h, hP, hR, show ¬ (x + 1 + 1 = x) by omega, show ¬ (x + 1 = x) by omega,
          show (x + 1 + -1 = x) by omega, show ¬ (x + -1 = x + 1) by omega,
          show ¬ (x = x + 1) by omega, if_false, if_true, and_self, and_true, and_false]
        first | exact ⟨_, rfl, rfl⟩ | exact ⟨_, rfl⟩
      · exact absurd h hxn
      · simp only [h, hP, hR, show ¬ (x - 1 + 1 + 1 = x) by omega,
          show (x - 1 + 1 = x) by omega, show ¬ (x - 1 = x) by omega,
          show ¬ (x - 1 + -1 = x) by omega, show ¬ (x + 1 = x - 1) by omega,
          show ¬ (x = x - 1) by omega, show (x + -1 = x - 1) by omega, if_false, if_true,
          and_self, and_true, and_false]
        first | exact ⟨_, rfl, rfl⟩ | exact ⟨_, rfl⟩
  · have hzn2 : Element.col_new s z 1 = zt ∨ Element.col_new s z (-1) = zt := by
      rcases hzn with h | h | h
      · exact Or.inl h
      · exact absurd h hQ
      · exact Or.inr h
    have key : ∀ (P R : Prop) [Decidable P] [Decidable R] (u v : Option ℚ), (P ∨ R) →
        (u.isSome = true) →
        ∃ w, (if P then u else if R then u else v) = some w
          ∧ (if R then u else if P then u else v) = some w := by
      intro P R _ _ u v hPR hu
      obtain ⟨w, hw⟩ := Option.isSome_iff_exists.mp hu
      refine ⟨w, ?_, ?_⟩ <;> by_cases hP : P <;> by_cases hR : R <;>
        simp only [hP, hR, if_true, if_false, hw]
      all_goals exact absurd hPR (by simp [hP, hR])
    rcases hx with h | h | h
    · simp only [h, hQ, show ¬ (x + 1 + 1 = x) by omega, show ¬ (x + 1 = x) by omega,
        show (x + 1 + -1 = x) by omega, show ¬ (x + -1 = x + 1) by omega,
        show ¬ (x = x + 1) by omega, if_false, if_true, and_self, and_true, and_false,
        true_and, false_and]
      exact key _ _ (some 0) none hzn2 rfl
    · simp only [h, hQ, show ¬ (x + 1 = x) by omega, show ¬ (x + -1 = x) by omega,
        if_false, if_true, and_self, and_true, and_false, true_and, false_and]
      exact key _ _ (some (A2 / dz ^ 2)) none hzn2 rfl
    · simp only [h, hQ, show ¬ (x - 1 + 1 + 1 = x) by omega,
        show (x - 1 + 1 = x) by omega, show ¬ (x - 1 = x) by omega,
        show ¬ (x - 1 + -1 = x) by omega, show ¬ (x + 1 = x - 1) by omega,
        show ¬ (x = x - 1) by omega, show (x + -1 = x - 1) by omega, if_false, if_true,
        and_self, and_true, and_false, true_and, false_and]
      exact key _ _ (some 0) none hzn2 rfl

theorem mem_interiorRows_of_mid (s : Solver) (r : Int × Int × Int)
    (hr : r ∈ innerRows s ++ interiorRows s ++ outerRows s)
    (hx : s.mesh.xstart ≤ r.2.1 ∧ r.2.1 ≤ s.mesh.xend) :
    r ∈ interiorRows s ∧ (0 ≤ r.2.2 ∧ r.2.2 < s.meshz) := by
  rcases List.mem_append.mp hr with h12 | h3
  · rcases List.mem_append.mp h12 with hi | hn
    · unfold innerRows at hi
      cases hf : s.mesh.firstX
      · simp [hf] at hi
      · rw [hf, if_pos rfl] at hi
        have := mem_blockRows _ _ _ _ r hi
        omega
    · exact ⟨hn, (mem_blockRows _ _ _ _ r hn).2⟩
  · unfold outerRows at h3
    cases hl : s.mesh.lastX
    · simp [hl] at h3
    · rw [hl, if_pos rfl] at h3
      have := mem_blockRows _ _ _ _ r h3
      omega

theorem Mat.get_append_of_some (L M : Mat) (i j : Int) (w : ℚ) (h : L.get i j = some w) :
    (L ++ M).get i j = some w := by
  unfold Mat.get at h ⊢
  rw [List.find?_append]
  cases hf : L.find? (fun e => decide (e.1 = i ∧ e.2.1 = j)) with
  | none => rw [hf] at h; cases h
  | some e => rw [hf] at h; exact h

theorem Mat.get_some_of_mem (M : Mat) (i j : Int) (e : Int × Int × ℚ) (he : e ∈ M)
    (h1 : e.1 = i) (h2 : e.2.1 = j) : ∃ w, M.get i j = some w := by
  unfold Mat.get
  have hs : (M.find? (fun e => decide (e.1 = i ∧ e.2.1 = j))).isSome = true := by
    rw [List.find?_isSome]
    exact ⟨e, he, by simp [h1, h2]⟩
  obtain ⟨v, hv⟩ := Option.isSome_iff_exists.mp hs
  exact ⟨v.2.2, by rw [hv]; rfl⟩

/-- C21: in second-order mode, on a grid with cell-independent `dx` and with
cell-independent `A1`, `A2` and `A3 = A4 = A5 = 0` on the interior cells, under the mesh
and ownership conditions of C11 the assembly succeeds and, for every pair of interior
rows `r`, `r'` of which one is a stencil neighbour of the other, the matrix stores a
weight at `(r, r')` and at `(r', r)` and the two weights are equal; and the interior
table has the same weight at the offsets `(a, b)` and `(-a, -b)`. -/
theorem second_order_matrix_symmetric (s : Solver) (y : Int) (b x0 : FieldPerp)
    (st0 : AsmState) (A1 A2 dx0 : ℚ)
    (h0 : 0 ≤ s.mesh.xstart) (h1 : s.mesh.xstart ≤ s.mesh.xend + 1)
    (hz : 1 ≤ s.mesh.ngz)
    (hx : s.mesh.lastX = true → s.mesh.ngx = s.mesh.xend + s.mesh.xstart + 1)
    (hN : s.Iend - s.Istart = localN s.mesh)
    (hfirst : s.mesh.firstX = true → s.Istart = 0)
    (hrest : s.mesh.firstX = false → s.meshz ∣ s.Istart)
    (ho : s.fourth_order = false)
    (hdx : ∀ x, s.mesh.xstart ≤ x → x ≤ s.mesh.xend → s.mesh.dx x y = dx0)
    (hco : ∀ x z, s.mesh.xstart ≤ x → x ≤ s.mesh.xend →
      Coeffs s x y z = (A1, A2, 0, 0, 0)) :
    (∃ st rows, solveAssemble s y b x0 st0 = .ok st ∧ assemblyTrace s = .ok rows
      ∧ ∀ r ∈ rows, ∀ r' ∈ rows,
          (s.mesh.xstart ≤ r.2.1 ∧ r.2.1 ≤ s.mesh.xend) →
          (s.mesh.xstart ≤ r'.2.1 ∧ r'.2.1 ≤ s.mesh.xend) →
          (r'.2.1 = r.2.1 + 1 ∨ r'.2.1 = r.2.1 ∨ r'.2.1 = r.2.1 - 1) →
          (Element.col_new s r.2.2 1 = r'.2.2 ∨ r.2.2 = r'.2.2
            ∨ Element.col_new s r.2.2 (-1) = r'.2.2) →
          ∃ w, st.MatA.get r.1 r'.1 = some w ∧ st.MatA.get r'.1 r.1 = some w)
      ∧ (∀ (A0 : ℚ) (a c : Int) (v : ℚ),
          (a, c, v) ∈ interiorStencil false A0 A1 A2 0 0 0 dx0 s.mesh.dz →
          (-a, -c, v) ∈ interiorStencil false A0 A1 A2 0 0 0 dx0 s.mesh.dz) := by
  have hI := tmod_of_partition s hfirst hrest
  have hend : indexAtEnd s = s.Iend := by
    rw [indexAtEnd_eq s h0 h1 hz hx]; omega
  constructor
  · refine ⟨assembled s y b x0 st0, innerRows s ++ interiorRows s ++ outerRows s,
      solveAssemble_eq_assembled s y b x0 st0 hI hend, ?_, ?_⟩
    · rw [assemblyTrace, assemblyLoops_record]
    intro r hr r' hr' hrx hrx' hxn hzn
    obtain ⟨hm, hzr⟩ := mem_interiorRows_of_mid s r hr hrx
    obtain ⟨hm', hzr'⟩ := mem_interiorRows_of_mid s r' hr' hrx'
    have hd := row_diag_column s h0 h1 hfirst hI r hr
    have hd' := row_diag_column s h0 h1 hfirst hI r' hr'
    rw [col_new_of_inside s _ hzr.1 hzr.2] at hd
    rw [col_new_of_inside s _ hzr'.1 hzr'.2] at hd'
    have hemit : ∀ q : Int × Int × Int, q ∈ interiorRows s →
        (s.mesh.xstart ≤ q.2.1 ∧ q.2.1 ≤ s.mesh.xend) → ∀ j,
        (assemblyLog s y).get q.1 j
          = (emitted s q.1 q.2.1 q.2.2
              (interiorStencil false (s.A q.2.1 y q.2.2) A1 A2 0 0 0 dx0 s.mesh.dz)).get
              q.1 j := by
      intro q hq hqx j
      rw [← Mat.get_row, assemblyLog_row_interior s y q hq]
      unfold interiorEmit
      rw [ho, hco _ _ hqx.1 hqx.2, hdx _ hqx.1 hqx.2]
    rw [assembled_MatA]
    by_cases hsame : r'.2.1 = r.2.1 ∧ r.2.2 = r'.2.2
    · have hidx : r'.1 = r.1 := by rw [← hd, ← hd', hsame.1, hsame.2]
      rw [hidx]
      obtain ⟨w, hw⟩ := Mat.get_some_of_mem (assemblyLog s y ++ st0.MatA) r.1 r.1
        (r.1, r.1, s.A r.2.1 y r.2.2 - 2 * ((A1 / dx0 ^ 2) + (A2 / s.mesh.dz ^ 2)))
        (by
          apply List.mem_append_left
          have : (r.1, r.1, s.A r.2.1 y r.2.2 - 2 * ((A1 / dx0 ^ 2) + (A2 / s.mesh.dz ^ 2)))
              ∈ (assemblyLog s y).row r.1 := by
            rw [assemblyLog_row_interior s y r hm]
            unfold interiorEmit
            rw [ho, hco _ _ hrx.1 hrx.2, hdx _ hrx.1 hrx.2, mem_emitted]
            refine ⟨(0, 0, s.A r.2.1 y r.2.2 - 2 * ((A1 / dx0 ^ 2) + (A2 / s.mesh.dz ^ 2))),
              by simp [interiorStencil], ?_⟩
            simp only []
            rw [col_new_of_inside s _ hzr.1 hzr.2, hd]
          exact (List.mem_filter.mp this).1) rfl rfl
      exact ⟨w, hw, hw⟩
    · obtain ⟨w, hw1, hw2⟩ := stored_second_symmetric s r.1 r'.1 r.2.1 r.2.2 r'.2.1 r'.2.2
        (s.A r.2.1 y r.2.2) (s.A r'.2.1 y r'.2.2) A1 A2 dx0 s.mesh.dz hzr hzr' hxn hzn hsame
      rw [hd'] at hw1
      rw [hd] at hw2
      refine ⟨w, Mat.get_append_of_some _ _ _ _ _ ?_, Mat.get_append_of_some _ _ _ _ _ ?_⟩
      · rw [hemit r hm hrx]; exact hw1
      · rw [hemit r' hm' hrx']; exact hw2
  · intro A0 a c v hmem
    simp only [interiorStencil, Bool.false_eq_true, if_false, List.mem_cons,
      List.mem_singleton, List.not_mem_nil, or_false, Prod.mk.injEq] at hmem ⊢
    rcases hmem with ⟨ha, hc, hv⟩ | ⟨ha, hc, hv⟩ | ⟨ha, hc, hv⟩ | ⟨ha, hc, hv⟩
      | ⟨ha, hc, hv⟩ | ⟨ha, hc, hv⟩ | ⟨ha, hc, hv⟩ | ⟨ha, hc, hv⟩ | ⟨ha, hc, hv⟩ <;>
      subst ha hc hv <;> simp

theorem Coeffs_singlePartition (x z : Int) :
    Coeffs singlePartition x 0 z = (1, 1, 0, 0, 0) := by
  rw [Coeffs_unfold]
  simp [singlePartition, Solver.plain, Mesh.flat, Coeffs.base2, Coeffs.base3, Coeffs.base4,
    Coeffs.base5]

/-- Witness for C21 on the single partition of the examples (unit spacings, identity
metric). -/
theorem second_order_matrix_symmetric_witness :
    (0 ≤ singlePartition.mesh.xstart
      ∧ singlePartition.mesh.xstart ≤ singlePartition.mesh.xend + 1
      ∧ 1 ≤ singlePartition.mesh.ngz
      ∧ (singlePartition.mesh.lastX = true → singlePartition.mesh.ngx
          = singlePartition.mesh.xend + singlePartition.mesh.xstart + 1)
      ∧ singlePartition.Iend - singlePartition.Istart = localN singlePartition.mesh
      ∧ (singlePartition.mesh.firstX = true → singlePartition.Istart = 0)
      ∧ (singlePartition.mesh.firstX = false →
          singlePartition.meshz ∣ singlePartition.Istart)
      ∧ singlePartition.fourth_order = false
      ∧ (∀ x, singlePartition.mesh.xstart ≤ x → x ≤ singlePartition.mesh.xend →
          singlePartition.mesh.dx x 0 = 1)
      ∧ (∀ x z, singlePartition.mesh.xstart ≤ x → x ≤ singlePartition.mesh.xend →
          Coeffs singlePartition x 0 z = (1, 1, 0, 0, 0))) ∧
    ((∃ st rows, solveAssemble singlePartition 0 (fun _ _ => 0) (fun _ _ => 0)
          AsmState.empty = .ok st ∧ assemblyTrace singlePartition = .ok rows
      ∧ ∀ r ∈ rows, ∀ r' ∈ rows,
          (singlePartition.mesh.xstart ≤ r.2.1 ∧ r.2.1 ≤ singlePartition.mesh.xend) →
          (singlePartition.mesh.xstart ≤ r'.2.1 ∧ r'.2.1 ≤ singlePartition.mesh.xend) →
          (r'.2.1 = r.2.1 + 1 ∨ r'.2.1 = r.2.1 ∨ r'.2.1 = r.2.1 - 1) →
          (Element.col_new singlePartition r.2.2 1 = r'.2.2 ∨ r.2.2 = r'.2.2
            ∨ Element.col_new singlePartition r.2.2 (-1) = r'.2.2) →
          ∃ w, st.MatA.get r.1 r'.1 = some w ∧ st.MatA.get r'.1 r.1 = some w)
      ∧ (∀ (A0 : ℚ) (a c : Int) (v : ℚ),
          (a, c, v) ∈ interiorStencil false A0 1 1 0 0 0 1 singlePartition.mesh.dz →
          (-a, -c, v) ∈ interiorStencil false A0 1 1 0 0 0 1 singlePartition.mesh.dz)) :=
  ⟨⟨by decide, by decide, by decide, by decide, by decide, by decide, by decide, rfl,
      fun _ _ _ => rfl, fun x z _ _ => Coeffs_singlePartition x z⟩,
    second_order_matrix_symmetric singlePartition 0 (fun _ _ => 0) (fun _ _ => 0)
      AsmState.empty 1 1 1 (by decide) (by decide) (by decide) (by decide) (by decide)
      (by decide) (by decide) rfl (fun _ _ _ => rfl)
      (fun x z _ _ => Coeffs_singlePartition x z)⟩

/-! ## The range of the indices written by the assembly -/

theorem innerBoundaryStencil_offsets (g fo : Bool) (dx : ℚ) :
    ∀ t ∈ innerBoundaryStencil g fo dx, (0 ≤ t.1 ∧ t.1 ≤ 4) ∧ t.2.1 = 0 := by
  intro t ht
  cases g <;> cases fo <;>
    simp only [innerBoundaryStencil, Bool.false_eq_true, if_false, if_true, List.mem_cons,
      List.mem_singleton, List.not_mem_nil, or_false] at ht <;>
    rcases ht with rfl | rfl | rfl | rfl | rfl <;> simp

theorem outerBoundaryStencil_offsets (g fo : Bool) (dx : ℚ) :
    ∀ t ∈ outerBoundaryStencil g fo dx, (-4 ≤ t.1 ∧ t.1 ≤ 0) ∧ t.2.1 = 0 := by
  intro t ht
  cases g <;> cases fo <;>
    simp only [outerBoundaryStencil, Bool.false_eq_true, if_false, if_true, List.mem_cons,
      List.mem_singleton, List.not_mem_nil, or_false] at ht <;>
    rcases ht with rfl | rfl | rfl | rfl | rfl | rfl <;> simp

theorem interiorStencil_second_bounds (A0 A1 A2 A3 A4 A5 dx dz : ℚ) :
    ∀ e ∈ interiorStencil false A0 A1 A2 A3 A4 A5 dx dz,
      (-1 ≤ e.1 ∧ e.1 ≤ 1) ∧ (-1 ≤ e.2.1 ∧ e.2.1 ≤ 1) := by
  intro e he
  simp only [interiorStencil, Bool.false_eq_true, if_false, List.mem_cons,
    List.mem_singleton, List.not_mem_nil, or_false] at he
  rcases he with h | h | h | h | h | h | h | h | h <;> rw [h] <;> simp

theorem localN_eq (m : Mesh) :
    localN m = ((m.xend - m.xstart + 1) + (if m.firstX then m.xstart else 0)
      + (if m.lastX then m.xstart else 0)) * (m.ngz - 1) := by
  unfold localN
  simp only []
  split_ifs <;> ring

theorem layout_numbers (s : Solver) (size : Int) (hm : 1 ≤ s.meshz)
    (hN : s.Iend - s.Istart = localN s.mesh)
    (hfirst : s.mesh.firstX = true → s.Istart = 0)
    (hrest : s.mesh.firstX = false →
      ∃ nb, 0 ≤ nb ∧ s.Istart = (s.mesh.xstart + nb) * s.meshz)
    (hlast : s.mesh.lastX = true → size = s.Iend)
    (hmore : s.mesh.lastX = false →
      ∃ na, 0 ≤ na ∧ size = s.Iend + (na + s.mesh.xstart) * s.meshz) :
    ∃ K G : Int, Int.tdiv s.Istart s.meshz = K ∧ Int.tmod s.Istart s.meshz = 0
      ∧ meshx size s.meshz
          = K + (s.mesh.xend - s.mesh.xstart + 1)
              + (if s.mesh.firstX then s.mesh.xstart else 0) + G
      ∧ meshx size s.meshz * s.meshz = size
      ∧ s.mesh.xstart ≤ G ∧ (s.mesh.lastX = true → G = s.mesh.xstart)
      ∧ (s.mesh.firstX = true → K = 0) ∧ (s.mesh.firstX = false → s.mesh.xstart ≤ K) := by
  have hmz : s.meshz ≠ 0 := by omega
  have hK : ∃ K : Int, s.Istart = K * s.meshz ∧ (s.mesh.firstX = true → K = 0)
      ∧ (s.mesh.firstX = false → s.mesh.xstart ≤ K) := by
    cases hf : s.mesh.firstX
    · obtain ⟨nb, hnb, h⟩ := hrest hf
      exact ⟨s.mesh.xstart + nb, h, by simp, fun _ => by omega⟩
    · exact ⟨0, by rw [hfirst hf]; ring, fun _ => rfl, by simp⟩
  obtain ⟨K, hK, hK0, hK1⟩ := hK
  have hG : ∃ G : Int, size = s.Iend + (G - (if s.mesh.lastX then s.mesh.xstart else 0))
        * s.meshz
      ∧ s.mesh.xstart ≤ G ∧ (s.mesh.lastX = true → G = s.mesh.xstart) := by
    cases hl : s.mesh.lastX
    · obtain ⟨na, hna, h⟩ := hmore hl
      refine ⟨na + s.mesh.xstart, ?_, by omega, by simp⟩
      rw [h]; simp
    · refine ⟨s.mesh.xstart, ?_, le_refl _, fun _ => rfl⟩
      rw [hlast hl]; simp
  obtain ⟨G, hG, hG1, hG2⟩ := hG
  have hloc := localN_eq s.mesh
  have hsize : size = (K + (s.mesh.xend - s.mesh.xstart + 1)
      + (if s.mesh.firstX then s.mesh.xstart else 0) + G) * s.meshz := by
    have hIend : s.Iend = s.Istart + localN s.mesh := by omega
    rw [hG, hIend, hloc, hK]
    unfold Solver.meshz
    ring
  have hX : meshx size s.meshz = K + (s.mesh.xend - s.mesh.xstart + 1)
      + (if s.mesh.firstX then s.mesh.xstart else 0) + G := by
    unfold meshx
    rw [hsize, Int.mul_tdiv_cancel _ hmz]
  refine ⟨K, G, ?_, ?_, hX, ?_, hG1, hG2, hK0, hK1⟩
  · rw [hK, Int.mul_tdiv_cancel _ hmz]
  · rw [hK, Int.mul_tmod_left]
  · rw [hX]; exact hsize.symm

theorem index_in_range (R c X m : Int) (hR : 0 ≤ R ∧ R < X) (hc : 0 ≤ c ∧ c < m) :
    0 ≤ R * m + c ∧ R * m + c < X * m := by
  have hm : 0 ≤ m := by omega
  have h1 : 0 ≤ R * m := mul_nonneg hR.1 hm
  have h2 : R * m ≤ (X - 1) * m := mul_le_mul_of_nonneg_right (by omega) hm
  have h3 : (X - 1) * m = X * m - m := by ring
  constructor <;> omega

theorem rowTable_cases (s : Solver) (y : Int) (hxe : s.mesh.xstart ≤ s.mesh.xend)
    (r : Int × Int × Int) (hr : r ∈ innerRows s ++ interiorRows s ++ outerRows s) :
    (0 ≤ r.2.2 ∧ r.2.2 < s.meshz)
      ∧ ((r ∈ innerRows s ∧ s.mesh.firstX = true ∧ (0 ≤ r.2.1 ∧ r.2.1 < s.mesh.xstart)
            ∧ rowTable s y r.2.1 r.2.2
              = innerBoundaryStencil
                  (flagSet s.inner_boundary_flags s.bits.INVERT_AC_GRAD)
                  s.fourth_order (s.mesh.dx r.2.1 y))
        ∨ (r ∈ interiorRows s ∧ (s.mesh.xstart ≤ r.2.1 ∧ r.2.1 ≤ s.mesh.xend)
            ∧ rowTable s y r.2.1 r.2.2 = interiorTable s y r.2.1 r.2.2)
        ∨ (r ∈ outerRows s ∧ s.mesh.lastX = true
            ∧ (s.mesh.xend < r.2.1 ∧ r.2.1 < s.mesh.ngx)
            ∧ rowTable s y r.2.1 r.2.2
              = outerBoundaryStencil
                  (flagSet s.outer_boundary_flags s.bits.INVERT_AC_GRAD)
                  s.fourth_order (s.mesh.dx r.2.1 y))) := by
  rcases List.mem_append.mp hr with h12 | h3
  · rcases List.mem_append.mp h12 with hi | hn
    · have hi2 := hi
      unfold innerRows at hi2
      cases hf : s.mesh.firstX
      · simp [hf] at hi2
      · rw [hf, if_pos rfl] at hi2
        have hb := mem_blockRows _ _ _ _ r hi2
        refine ⟨hb.2, Or.inl ⟨hi, rfl, hb.1, ?_⟩⟩
        unfold rowTable
        rw [if_pos hb.1.2]
    · have hb := mem_blockRows _ _ _ _ r hn
      refine ⟨hb.2, Or.inr (Or.inl ⟨hn, ⟨hb.1.1, by omega⟩, ?_⟩)⟩
      unfold rowTable
      rw [if_neg (by omega), if_pos (by omega)]
  · have h32 := h3
    unfold outerRows at h32
    cases hl : s.mesh.lastX
    · simp [hl] at h32
    · rw [hl, if_pos rfl] at h32
      have hb := mem_blockRows _ _ _ _ r h32
      refine ⟨hb.2, Or.inr (Or.inr ⟨h3, rfl, ⟨by omega, hb.1.2⟩, ?_⟩)⟩
      unfold rowTable
      rw [if_neg (by omega), if_neg (by omega)]

theorem table_entry_in_range (s : Solver) (y size : Int)
    (hxs : 1 ≤ s.mesh.xstart) (hxe : s.mesh.xstart ≤ s.mesh.xend)
    (hngx : s.mesh.ngx = s.mesh.xend + s.mesh.xstart + 1) (hm : 1 ≤ s.meshz)
    (hfo : s.fourth_order = true → 2 ≤ s.mesh.xstart ∧ 2 ≤ s.meshz)
    (hN : s.Iend - s.Istart = localN s.mesh)
    (hfirst : s.mesh.firstX = true → s.Istart = 0)
    (hrest : s.mesh.firstX = false →
      ∃ nb, 0 ≤ nb ∧ s.Istart = (s.mesh.xstart + nb) * s.meshz)
    (hlast : s.mesh.lastX = true → size = s.Iend)
    (hmore : s.mesh.lastX = false →
      ∃ na, 0 ≤ na ∧ size = s.Iend + (na + s.mesh.xstart) * s.meshz)
    (hbig : s.mesh.xstart + 4 ≤ meshx size s.meshz)
    (r : Int × Int × Int) (hr : r ∈ innerRows s ++ interiorRows s ++ outerRows s)
    (t : Int × Int × ℚ) (ht : t ∈ rowTable s y r.2.1 r.2.2) :
    (0 ≤ Element.row_new s r.2.1 t.1 ∧ Element.row_new s r.2.1 t.1 < meshx size s.meshz)
      ∧ (0 ≤ entryCol s r.2.1 r.2.2 t ∧ entryCol s r.2.1 r.2.2 t < size) := by
  obtain ⟨K, G, hKd, _, hX, hXm, hG1, hG2, hK0, hK1⟩ :=
    layout_numbers s size hm hN hfirst hrest hlast hmore
  obtain ⟨hzr, hcase⟩ := rowTable_cases s y hxe r hr
  have hoff : (0 ≤ Element.row_new s r.2.1 t.1
        ∧ Element.row_new s r.2.1 t.1 < meshx size s.meshz)
      ∧ (-s.meshz ≤ t.2.1 ∧ t.2.1 ≤ s.meshz) := by
    rw [hX] at hbig ⊢
    unfold Element.row_new
    rw [hKd]
    simp only []
    rcases hcase with ⟨_, hf, hx, htab⟩ | ⟨_, hx, htab⟩ | ⟨_, hl, hx, htab⟩
    · rw [htab] at ht
      obtain ⟨ha, hb⟩ := innerBoundaryStencil_offsets _ _ _ t ht
      have := hK0 hf
      simp only [hf, Bool.not_true, Bool.false_eq_true, if_false, if_true] at hbig ⊢
      omega
    · rw [htab] at ht
      unfold interiorTable at ht
      cases hfo4 : s.fourth_order
      · rw [hfo4] at ht
        obtain ⟨ha, hb⟩ := interiorStencil_second_bounds _ _ _ _ _ _ _ _ t ht
        cases hf : s.mesh.firstX
        · have := hK1 hf
          simp only [hf, Bool.not_false, Bool.false_eq_true, if_false, if_true] at hbig ⊢
          omega
        · have := hK0 hf
          simp only [hf, Bool.not_true, Bool.false_eq_true, if_false, if_true] at hbig ⊢
          omega
      · rw [hfo4] at ht
        obtain ⟨ha, hb⟩ := interiorStencil_fourth_offsets _ _ _ _ _ _ _ _ |>.2 t ht
        obtain ⟨hx2, hm2⟩ := hfo hfo4
        cases hf : s.mesh.firstX
        · have := hK1 hf
          simp only [hf, Bool.not_false, Bool.false_eq_true, if_false, if_true] at hbig ⊢
          omega
        · have := hK0 hf
          simp only [hf, Bool.not_true, Bool.false_eq_true, if_false, if_true] at hbig ⊢
          omega
    · rw [htab] at ht
      obtain ⟨ha, hb⟩ := outerBoundaryStencil_offsets _ _ _ t ht
      have hGl := hG2 hl
      cases hf : s.mesh.firstX
      · have := hK1 hf
        simp only [hf, Bool.not_false, Bool.false_eq_true, if_false, if_true] at hbig ⊢
        omega
      · have := hK0 hf
        simp only [hf, Bool.not_true, Bool.false_eq_true, if_false, if_true] at hbig ⊢
        omega
  refine ⟨hoff.1, ?_⟩
  have hc := col_new_range s r.2.2 t.2.1 hzr hoff.2
  have := index_in_range _ _ _ _ hoff.1 hc
  rw [hXm] at this
  exact this

theorem assemblyLog_entry (s : Solver) (y : Int) (hxe : s.mesh.xstart ≤ s.mesh.xend)
    (e : Int × Int × ℚ) (he : e ∈ assemblyLog s y) :
    ∃ r ∈ innerRows s ++ interiorRows s ++ outerRows s, ∃ t ∈ rowTable s y r.2.1 r.2.2,
      e = (r.1, entryCol s r.2.1 r.2.2 t, t.2.2) := by
  have key : ∀ (E : Int → Int → Int → Mat) (L : List (Int × Int × Int)),
      (∀ r ∈ L, r ∈ innerRows s ++ interiorRows s ++ outerRows s
        ∧ E r.1 r.2.1 r.2.2 = emitted s r.1 r.2.1 r.2.2 (rowTable s y r.2.1 r.2.2)) →
      e ∈ rowsLog E L →
      ∃ r ∈ innerRows s ++ interiorRows s ++ outerRows s, ∃ t ∈ rowTable s y r.2.1 r.2.2,
        e = (r.1, entryCol s r.2.1 r.2.2 t, t.2.2) := by
    intro E L hL hmem
    obtain ⟨r, hr, her⟩ := (mem_rowsLog E L e).mp hmem
    obtain ⟨hrows, hE⟩ := hL r hr
    rw [hE] at her
    obtain ⟨t, ht, rfl⟩ := (mem_emitted s _ _ _ _ e).mp her
    exact ⟨r, hrows, t, ht, rfl⟩
  have hcases := fun r hr => rowTable_cases s y hxe r hr
  unfold assemblyLog at he
  rcases List.mem_append.mp he with h12 | h3
  · rcases List.mem_append.mp h12 with ho | hn
    · refine key _ _ ?_ ho
      intro r hr
      have hrows : r ∈ innerRows s ++ interiorRows s ++ outerRows s :=
        List.mem_append_right _ hr
      refine ⟨hrows, ?_⟩
      rcases (hcases r hrows).2 with ⟨_, _, hx, _⟩ | ⟨_, hx, _⟩ | ⟨_, _, _, htab⟩
      · exfalso
        have hb : s.mesh.xend < r.2.1 := by
          unfold outerRows at hr
          cases hl : s.mesh.lastX
          · simp [hl] at hr
          · rw [hl, if_pos rfl] at hr
            have := mem_blockRows _ _ _ _ r hr
            omega
        omega
      · exfalso
        have hb : s.mesh.xend < r.2.1 := by
          unfold outerRows at hr
          cases hl : s.mesh.lastX
          · simp [hl] at hr
          · rw [hl, if_pos rfl] at hr
            have := mem_blockRows _ _ _ _ r hr
            omega
        omega
      · rw [htab]; rfl
    · refine key _ _ ?_ hn
      intro r hr
      have hrows : r ∈ innerRows s ++ interiorRows s ++ outerRows s :=
        List.mem_append_left _ (List.mem_append_right _ hr)
      refine ⟨hrows, ?_⟩
      have hb := mem_blockRows _ _ _ _ r hr
      rcases (hcases r hrows).2 with ⟨_, _, hx, _⟩ | ⟨_, _, htab⟩ | ⟨_, _, hx, _⟩
      · omega
      · rw [htab]; rfl
      · omega
  · refine key _ _ ?_ h3
    intro r hr
    have hrows : r ∈ innerRows s ++ interiorRows s ++ outerRows s :=
      List.mem_append_left _ (List.mem_append_left _ hr)
    refine ⟨hrows, ?_⟩
    have hb : r.2.1 < s.mesh.xstart := by
      unfold innerRows at hr
      cases hf : s.mesh.firstX
      · simp [hf] at hr
      · rw [hf, if_pos rfl] at hr
        have := mem_blockRows _ _ _ _ r hr
        omega
    rcases (hcases r hrows).2 with ⟨_, _, _, htab⟩ | ⟨_, hx, _⟩ | ⟨_, _, hx, _⟩
    · rw [htab]; rfl
    · omega
    · omega

/-- Where the assembly stays in range (the grids on which the statement of C27 holds):
on a mesh with `1 ≤ xstart ≤ xend`, `ngx = xend + xstart + 1`, `meshz ≥ 1`, and in
fourth-order mode `xstart ≥ 2` and `meshz ≥ 2`, on every partition kind of a grid laid
out in x (`Istart = 0` on the first partition and `(xstart + nb) * meshz` otherwise;
`size = Iend` on the last partition and `Iend + (na + xstart) * meshz` otherwise;
`Iend - Istart = localN`), if the grid has at least `xstart + 4` columns
(`meshx ≥ xstart + 4`) then the assembly succeeds and for every entry of every row the
global x index `row_new` lies in `[0, meshx)` and the column written lies in `[0, size)`,
with `meshx * meshz = size`. -/
theorem emitted_indices_in_range (s : Solver) (y : Int) (b x0 : FieldPerp)
    (st0 : AsmState) (size : Int)
    (hxs : 1 ≤ s.mesh.xstart) (hxe : s.mesh.xstart ≤ s.mesh.xend)
    (hngx : s.mesh.ngx = s.mesh.xend + s.mesh.xstart + 1) (hm : 1 ≤ s.meshz)
    (hfo : s.fourth_order = true → 2 ≤ s.mesh.xstart ∧ 2 ≤ s.meshz)
    (hN : s.Iend - s.Istart = localN s.mesh)
    (hfirst : s.mesh.firstX = true → s.Istart = 0)
    (hrest : s.mesh.firstX = false →
      ∃ nb, 0 ≤ nb ∧ s.Istart = (s.mesh.xstart + nb) * s.meshz)
    (hlast : s.mesh.lastX = true → size = s.Iend)
    (hmore : s.mesh.lastX = false →
      ∃ na, 0 ≤ na ∧ size = s.Iend + (na + s.mesh.xstart) * s.meshz)
    (hbig : s.mesh.xstart + 4 ≤ meshx size s.meshz) :
    ∃ st log rows, solveAssemble s y b x0 st0 = .ok st ∧ st.MatA = log ++ st0.MatA
      ∧ assemblyTrace s = .ok rows
      ∧ (∀ r ∈ rows, ∀ t ∈ rowTable s y r.2.1 r.2.2,
          (0 ≤ Element.row_new s r.2.1 t.1
              ∧ Element.row_new s r.2.1 t.1 < meshx size s.meshz)
            ∧ (0 ≤ entryCol s r.2.1 r.2.2 t ∧ entryCol s r.2.1 r.2.2 t < size))
      ∧ (∀ e ∈ log, 0 ≤ e.2.1 ∧ e.2.1 < size)
      ∧ meshx size s.meshz * s.meshz = size := by
  obtain ⟨K, G, _, hI, _, hXm, _⟩ := layout_numbers s size hm hN hfirst hrest hlast hmore
  have hz1 : 1 ≤ s.mesh.ngz := by unfold Solver.meshz at hm; omega
  have hend : indexAtEnd s = s.Iend := by
    rw [indexAtEnd_eq s (by omega) (by omega) hz1 (fun _ => hngx)]; omega
  have hrange := table_entry_in_range s y size hxs hxe hngx hm hfo hN hfirst hrest hlast
    hmore hbig
  refine ⟨assembled s y b x0 st0, assemblyLog s y,
    innerRows s ++ interiorRows s ++ outerRows s,
    solveAssemble_eq_assembled s y b x0 st0 hI hend, assembled_MatA s y b x0 st0, ?_,
    hrange, ?_, hXm⟩
  · rw [assemblyTrace, assemblyLoops_record]
  · intro e he
    obtain ⟨r, hr, t, ht, rfl⟩ := assemblyLog_entry s y hxe e he
    exact (hrange r hr t ht).2

/-- An instance of `emitted_indices_in_range`: the middle one of three x-partitions with
four interior columns each (`meshx = 14`, `size = 42`). -/
theorem emitted_indices_in_range_witness :
    (1 ≤ wideMiddle.mesh.xstart ∧ wideMiddle.mesh.xstart ≤ wideMiddle.mesh.xend
      ∧ wideMiddle.mesh.ngx = wideMiddle.mesh.xend + wideMiddle.mesh.xstart + 1
      ∧ 1 ≤ wideMiddle.meshz
      ∧ (wideMiddle.fourth_order = true →
          2 ≤ wideMiddle.mesh.xstart ∧ 2 ≤ wideMiddle.meshz)
      ∧ wideMiddle.Iend - wideMiddle.Istart = localN wideMiddle.mesh
      ∧ (wideMiddle.mesh.firstX = true → wideMiddle.Istart = 0)
      ∧ (wideMiddle.mesh.firstX = false →
          ∃ nb, 0 ≤ nb ∧ wideMiddle.Istart = (wideMiddle.mesh.xstart + nb) * wideMiddle.meshz)
      ∧ (wideMiddle.mesh.lastX = true → (42 : Int) = wideMiddle.Iend)
      ∧ (wideMiddle.mesh.lastX = false →
          ∃ na, 0 ≤ na
            ∧ (42 : Int) = wideMiddle.Iend + (na + wideMiddle.mesh.xstart) * wideMiddle.meshz)
      ∧ wideMiddle.mesh.xstart + 4 ≤ meshx 42 wideMiddle.meshz) ∧
    ∃ st log rows, solveAssemble wideMiddle 0 (fun _ _ => 0) (fun _ _ => 0) AsmState.empty
          = .ok st ∧ st.MatA = log ++ AsmState.empty.MatA
      ∧ assemblyTrace wideMiddle = .ok rows
      ∧ (∀ r ∈ rows, ∀ t ∈ rowTable wideMiddle 0 r.2.1 r.2.2,
          (0 ≤ Element.row_new wideMiddle r.2.1 t.1
              ∧ Element.row_new wideMiddle r.2.1 t.1 < meshx 42 wideMiddle.meshz)
            ∧ (0 ≤ entryCol wideMiddle r.2.1 r.2.2 t
              ∧ entryCol wideMiddle r.2.1 r.2.2 t < 42))
      ∧ (∀ e ∈ log, 0 ≤ e.2.1 ∧ e.2.1 < 42)
      ∧ meshx 42 wideMiddle.meshz * wideMiddle.meshz = 42 :=
  ⟨⟨by decide, by decide, by decide, by decide, by decide, by decide, by decide,
      fun _ => ⟨4, by decide, by decide⟩, by decide, fun _ => ⟨4, by decide, by decide⟩,
      by decide⟩,
    emitted_indices_in_range wideMiddle 0 (fun _ _ => 0) (fun _ _ => 0) AsmState.empty 42
      (by decide) (by decide) (by decide) (by decide) (by decide) (by decide) (by decide)
      (fun _ => ⟨4, by decide, by decide⟩) (by decide)
      (fun _ => ⟨4, by decide, by decide⟩) (by decide)⟩

/-- C27, at the failing input: the single partition of the examples (`xstart = 1`,
`xend = 2`, `ngx = 4 = xend + xstart + 1`, `meshz = 3`, second order, `size = 12`,
`meshx = 4`) is well-formed in the sense of the claim, yet the identity row 0 of the inner
boundary cell `(0, 0)` has the table entry `(4, 0, 0)`, for which `row_new = 4` is not
below `meshx` (the source comments `row_new` with "should never be out of range"), and the
assembly writes row 0 at the column 12, which is not below `size`. -/
theorem identity_row_writes_beyond_size :
    (1 ≤ singlePartition.mesh.xstart ∧ singlePartition.mesh.xstart ≤ singlePartition.mesh.xend
      ∧ singlePartition.mesh.ngx
          = singlePartition.mesh.xend + singlePartition.mesh.xstart + 1
      ∧ 1 ≤ singlePartition.meshz ∧ singlePartition.fourth_order = false
      ∧ singlePartition.Iend = 12 ∧ localN singlePartition.mesh = 12)
      ∧ meshx 12 singlePartition.meshz = 4
      ∧ (4, 0, 0) ∈ rowTable singlePartition 0 0 0
      ∧ Element.row_new singlePartition 0 4 = 4
      ∧ entryCol singlePartition 0 0 (4, 0, 0) = 12
      ∧ ∃ st, solveAssemble singlePartition 0 (fun _ _ => 0) (fun _ _ => 0) AsmState.empty
            = .ok st
          ∧ (0, 12, 0) ∈ st.MatA := by
  refine ⟨⟨by decide, by decide, by decide, by decide, rfl, rfl, by decide⟩, by decide,
    by decide!, by decide, by decide, _,
    solveAssemble_eq_assembled singlePartition 0 _ _ _ (by decide) (by decide), ?_⟩
  rw [assembled_MatA]
  apply List.mem_append_left
  unfold assemblyLog
  apply List.mem_append_right
  rw [mem_rowsLog]
  refine ⟨(0, 0, 0), by decide, ?_⟩
  unfold innerEmit
  rw [mem_emitted]
  exact ⟨(4, 0, 0), by decide!, by decide⟩

/-! ## The preallocation arrays -/

theorem foldl_nnzBody_d (L dv oL oH : Int) (l : List Int) (p : Nnz) (j : Int) :
    (l.foldl (fun acc x => nnzBody L dv oL oH x acc) p).d_nnz j
      = if j ∈ l ∨ L - 1 - j ∈ l then some dv else p.d_nnz j := by
  induction l generalizing p with
  | nil => simp
  | cons a l ih =>
    rw [List.foldl_cons, ih]
    simp only [nnzBody, setEntry, List.mem_cons]
    by_cases h1 : j ∈ l ∨ L - 1 - j ∈ l
    · rw [if_pos h1, if_pos (by tauto)]
    · rw [if_neg h1]
      by_cases h2 : j = L - 1 - a
      · rw [if_pos h2, if_pos (Or.inr (Or.inl (by omega)))]
      · rw [if_neg h2]
        by_cases h3 : j = a
        · rw [if_pos h3, if_pos (Or.inl (Or.inl h3))]
        · rw [if_neg h3, if_neg]
          rintro (h | h) <;> rcases h with h | h
          · exact h3 h
          · exact h1 (Or.inl h)
          · exact h2 (by omega)
          · exact h1 (Or.inr h)

theorem foldl_nnzBody_o_same (L dv v : Int) (l : List Int) (p : Nnz) (j : Int) :
    (l.foldl (fun acc x => nnzBody L dv v v x acc) p).o_nnz j
      = if j ∈ l ∨ L - 1 - j ∈ l then some v else p.o_nnz j := by
  induction l generalizing p with
  | nil => simp
  | cons a l ih =>
    rw [List.foldl_cons, ih]
    simp only [nnzBody, setEntry, List.mem_cons]
    by_cases h1 : j ∈ l ∨ L - 1 - j ∈ l
    · rw [if_pos h1, if_pos (by tauto)]
    · rw [if_neg h1]
      by_cases h2 : j = L - 1 - a
      · rw [if_pos h2, if_pos (Or.inr (Or.inl (by omega)))]
      · rw [if_neg h2]
        by_cases h3 : j = a
        · rw [if_pos h3, if_pos (Or.inl (Or.inl h3))]
        · rw [if_neg h3, if_neg]
          rintro (h | h) <;> rcases h with h | h
          · exact h3 h
          · exact h1 (Or.inl h)
          · exact h2 (by omega)
          · exact h1 (Or.inr h)

theorem foldl_nnzBody_o (L dv oL oH : Int) (l : List Int)
    (hdis : ∀ a ∈ l, ∀ a2 ∈ l, a ≠ L - 1 - a2) (p : Nnz) (j : Int) :
    (l.foldl (fun acc x => nnzBody L dv oL oH x acc) p).o_nnz j
      = if j ∈ l then some oL else if L - 1 - j ∈ l then some oH else p.o_nnz j := by
  induction l generalizing p with
  | nil => simp
  | cons a l ih =>
    have hdis2 : ∀ b ∈ l, ∀ b2 ∈ l, b ≠ L - 1 - b2 := fun b hb b2 hb2 =>
      hdis b (List.mem_cons_of_mem _ hb) b2 (List.mem_cons_of_mem _ hb2)
    rw [List.foldl_cons, ih hdis2]
    simp only [nnzBody, setEntry, List.mem_cons]
    by_cases h1 : j ∈ l
    · rw [if_pos h1, if_pos (Or.inr h1)]
    · rw [if_neg h1]
      by_cases h3 : j = a
      · have hna : ¬ (L - 1 - j ∈ l) := fun h =>
          hdis a (List.mem_cons_self _ _) (L - 1 - j) (List.mem_cons_of_mem _ h) (by omega)
        have hne : ¬ (j = L - 1 - a) := fun h =>
          hdis a (List.mem_cons_self _ _) a (List.mem_cons_self _ _) (by omega)
        rw [if_neg hna, if_neg hne, if_pos h3, if_pos (Or.inl h3)]
      · rw [if_neg (by tauto : ¬ (j = a ∨ j ∈ l))]
        by_cases h2 : L - 1 - j ∈ l
        · rw [if_pos h2, if_pos (Or.inr h2)]
        · rw [if_neg h2]
          by_cases h4 : j = L - 1 - a
          · rw [if_pos h4, if_pos (Or.inl (by omega))]
          · rw [if_neg h4, if_neg h3, if_neg]
            rintro (h | h)
            · exact h4 (by omega)
            · exact h2 h

theorem forLoop_nnzBody_d (L dv oL oH lo hi : Int) (p : Nnz) (j : Int) :
    (forLoop lo hi (nnzBody L dv oL oH) p).d_nnz j
      = if (lo ≤ j ∧ j < hi) ∨ (L - hi ≤ j ∧ j < L - lo) then some dv else p.d_nnz j := by
  unfold forLoop
  rw [foldl_nnzBody_d]
  simp only [mem_intRange]
  apply if_congr _ rfl rfl
  constructor <;> rintro (h | h) <;> first | exact Or.inl h | (right; omega)

theorem forLoop_nnzBody_o_same (L dv v lo hi : Int) (p : Nnz) (j : Int) :
    (forLoop lo hi (nnzBody L dv v v) p).o_nnz j
      = if (lo ≤ j ∧ j < hi) ∨ (L - hi ≤ j ∧ j < L - lo) then some v else p.o_nnz j := by
  unfold forLoop
  rw [foldl_nnzBody_o_same]
  simp only [mem_intRange]
  apply if_congr _ rfl rfl
  constructor <;> rintro (h | h) <;> first | exact Or.inl h | (right; omega)

theorem forLoop_nnzBody_o (L dv oL oH lo hi : Int) (hL : 2 * hi ≤ L)
    (p : Nnz) (j : Int) :
    (forLoop lo hi (nnzBody L dv oL oH) p).o_nnz j
      = if lo ≤ j ∧ j < hi then some oL
        else if L - hi ≤ j ∧ j < L - lo then some oH else p.o_nnz j := by
  unfold forLoop
  rw [foldl_nnzBody_o]
  · simp only [mem_intRange]
    apply if_congr Iff.rfl rfl
    apply if_congr _ rfl rfl
    constructor <;> intro h <;> omega
  · intro a ha a2 ha2
    rw [mem_intRange] at ha ha2
    omega

theorem block_lt_iff (g k c m : Int) (hc : 0 ≤ c ∧ c < m) : g * m + c < k * m ↔ g < k := by
  have hm : 0 ≤ m := by omega
  constructor
  · intro h
    by_contra hn
    have : k * m ≤ g * m := mul_le_mul_of_nonneg_right (by omega) hm
    omega
  · intro h
    have h1 : g * m ≤ (k - 1) * m := mul_le_mul_of_nonneg_right (by omega) hm
    have h2 : (k - 1) * m = k * m - m := by ring
    omega

theorem preallocate_second (m : Mesh) (hL : 2 * (m.ngz - 1) ≤ localN m) (j : Int) :
    (preallocate m false).d_nnz j
        = (if (m.ngz - 1 ≤ j ∧ j < localN m - (m.ngz - 1)) then some 9
           else if (0 ≤ j ∧ j < m.ngz - 1) ∨ (localN m - (m.ngz - 1) ≤ j ∧ j < localN m)
             then some 6 else none)
      ∧ (preallocate m false).o_nnz j
        = (if (m.ngz - 1 ≤ j ∧ j < localN m - (m.ngz - 1)) then some 0
           else if 0 ≤ j ∧ j < m.ngz - 1 then some (if m.firstX then 0 else 3)
           else if localN m - (m.ngz - 1) ≤ j ∧ j < localN m
             then some (if m.lastX then 0 else 3) else none) := by
  have hmid : ((m.ngz - 1 ≤ j ∧ j < localN m - (m.ngz - 1))
        ∨ (localN m - (localN m - (m.ngz - 1)) ≤ j ∧ j < localN m - (m.ngz - 1)))
      ↔ (m.ngz - 1 ≤ j ∧ j < localN m - (m.ngz - 1)) := by
    constructor
    · rintro (h | h) <;> omega
    · exact Or.inl
  unfold preallocate
  simp only [Bool.false_eq_true, if_false]
  rw [forLoop_nnzBody_d, forLoop_nnzBody_o_same, if_congr hmid rfl rfl,
    if_congr hmid rfl rfl]
  cases hf : m.firstX <;> cases hl : m.lastX <;>
    simp only [Bool.and_true, Bool.and_false, Bool.false_eq_true, if_false, if_true] <;>
    rw [forLoop_nnzBody_d, forLoop_nnzBody_o _ _ _ _ _ _ (by omega)] <;>
    simp only [sub_zero, Nnz.fresh] <;> refine ⟨?_, ?_⟩ <;> trivial

theorem preallocate_fourth (m : Mesh) (hm : 0 ≤ m.ngz - 1)
    (hL : 4 * (m.ngz - 1) ≤ localN m) (j : Int) :
    (preallocate m true).d_nnz j
        = (if (2 * (m.ngz - 1) ≤ j ∧ j < localN m - 2 * (m.ngz - 1)) then some 25
           else if (m.ngz - 1 ≤ j ∧ j < 2 * (m.ngz - 1))
               ∨ (localN m - 2 * (m.ngz - 1) ≤ j ∧ j < localN m - (m.ngz - 1))
             then some 20
           else if (0 ≤ j ∧ j < m.ngz - 1) ∨ (localN m - (m.ngz - 1) ≤ j ∧ j < localN m)
             then some 15 else none)
      ∧ (preallocate m true).o_nnz j
        = (if (2 * (m.ngz - 1) ≤ j ∧ j < localN m - 2 * (m.ngz - 1)) then some 0
           else if m.ngz - 1 ≤ j ∧ j < 2 * (m.ngz - 1)
             then some (if m.firstX then 0 else 5)
           else if localN m - 2 * (m.ngz - 1) ≤ j ∧ j < localN m - (m.ngz - 1)
             then some (if m.lastX then 0 else 5)
           else if 0 ≤ j ∧ j < m.ngz - 1 then some (if m.firstX then 0 else 10)
           else if localN m - (m.ngz - 1) ≤ j ∧ j < localN m
             then some (if m.lastX then 0 else 10) else none) := by
  have hmid : ((2 * (m.ngz - 1) ≤ j ∧ j < localN m - 2 * (m.ngz - 1))
        ∨ (localN m - (localN m - 2 * (m.ngz - 1)) ≤ j ∧ j < localN m - 2 * (m.ngz - 1)))
      ↔ (2 * (m.ngz - 1) ≤ j ∧ j < localN m - 2 * (m.ngz - 1)) := by
    constructor
    · rintro (h | h) <;> omega
    · exact Or.inl
  unfold preallocate
  simp only [if_true]
  rw [forLoop_nnzBody_d, forLoop_nnzBody_o_same, if_congr hmid rfl rfl,
    if_congr hmid rfl rfl]
  cases hf : m.firstX <;> cases hl : m.lastX <;>
    simp only [Bool.and_true, Bool.and_false, Bool.false_eq_true, if_false, if_true] <;>
    rw [forLoop_nnzBody_d, forLoop_nnzBody_o _ _ _ _ _ _ (by omega), forLoop_nnzBody_d,
      forLoop_nnzBody_o _ _ _ _ _ _ (by omega)] <;>
    simp only [sub_zero, Nnz.fresh] <;> refine ⟨?_, ?_⟩ <;> trivial

theorem preallocate_assigned (m : Mesh) (fo : Bool) (hm : 0 ≤ m.ngz - 1)
    (hL : (if fo then 4 else 2) * (m.ngz - 1) ≤ localN m) (j : Int) :
    ((preallocate m fo).d_nnz j ≠ none ↔ 0 ≤ j ∧ j < localN m)
      ∧ ((preallocate m fo).o_nnz j ≠ none ↔ 0 ≤ j ∧ j < localN m) := by
  cases fo
  · simp only [Bool.false_eq_true, if_false] at hL
    obtain ⟨hd, ho⟩ := preallocate_second m hL j
    rw [hd, ho]
    constructor
    · split_ifs <;> simp <;> omega
    · split_ifs <;> simp <;> omega
  · simp only [if_true] at hL
    obtain ⟨hd, ho⟩ := preallocate_fourth m hm hL j
    rw [hd, ho]
    constructor
    · split_ifs <;> simp <;> omega
    · split_ifs <;> simp <;> omega

theorem preallocate_at (m : Mesh) (fo : Bool) (Lc g z : Int)
    (hL : localN m = Lc * (m.ngz - 1)) (hLc : (if fo then 4 else 2) ≤ Lc)
    (hg : 0 ≤ g ∧ g < Lc) (hz : 0 ≤ z ∧ z < m.ngz - 1) :
    (preallocate m fo).d_nnz (g * (m.ngz - 1) + z) = some (dValue fo g (Lc - 1 - g))
      ∧ (preallocate m fo).o_nnz (g * (m.ngz - 1) + z)
          = some (oValue fo m.firstX m.lastX g (Lc - 1 - g)) := by
  have hm : 0 ≤ m.ngz - 1 := by omega
  have e0 : 0 ≤ g * (m.ngz - 1) + z := by
    have := mul_nonneg hg.1 hm
    omega
  have e1 := block_lt_iff g 1 z (m.ngz - 1) hz
  have e2 := block_lt_iff g 2 z (m.ngz - 1) hz
  have e3 := block_lt_iff g (Lc - 1) z (m.ngz - 1) hz
  have e4 := block_lt_iff g (Lc - 2) z (m.ngz - 1) hz
  have e5 := block_lt_iff g Lc z (m.ngz - 1) hz
  have r1 : 1 * (m.ngz - 1) = m.ngz - 1 := by ring
  have r3 : (Lc - 1) * (m.ngz - 1) = localN m - (m.ngz - 1) := by rw [hL]; ring
  have r4 : (Lc - 2) * (m.ngz - 1) = localN m - 2 * (m.ngz - 1) := by rw [hL]; ring
  rw [r1] at e1
  rw [r3] at e3
  rw [r4] at e4
  rw [← hL] at e5
  generalize g * (m.ngz - 1) + z = j at e0 e1 e2 e3 e4 e5 ⊢
  have f1 := (not_congr e1).trans not_lt
  have f2 := (not_congr e2).trans not_lt
  have f3 := (not_congr e3).trans not_lt
  have f4 := (not_congr e4).trans not_lt
  rw [not_lt] at f1 f2 f3 f4
  have t0 : (0 ≤ j) ↔ True := iff_true_intro e0
  cases fo
  · simp only [Bool.false_eq_true, if_false] at hLc
    have hL2 : 2 * (m.ngz - 1) ≤ localN m := by
      have := mul_le_mul_of_nonneg_right hLc hm
      omega
    obtain ⟨hd, ho⟩ := preallocate_second m hL2 j
    rw [hd, ho]
    simp only [dValue, oValue, Bool.false_eq_true, if_false, e1, e3, e5, f1, f3, t0,
      true_and]
    clear hd ho e0 e1 e2 e3 e4 e5 f1 f2 f3 f4 t0 r1 r3 r4 hL2 hL hz hm
    constructor
    · split_ifs <;> first | rfl | (exfalso; omega)
    · split_ifs <;> first | rfl | (exfalso; omega)
  · simp only [if_true] at hLc
    have hL4 : 4 * (m.ngz - 1) ≤ localN m := by
      have := mul_le_mul_of_nonneg_right hLc hm
      omega
    obtain ⟨hd, ho⟩ := preallocate_fourth m hm hL4 j
    rw [hd, ho]
    simp only [dValue, oValue, if_true, e1, e2, e3, e4, e5, f1, f2, f3, f4, t0, true_and]
    clear hd ho e0 e1 e2 e3 e4 e5 f1 f2 f3 f4 t0 r1 r3 r4 hL4 hL hz hm
    constructor
    · split_ifs <;> first | rfl | (exfalso; omega)
    · split_ifs <;> first | rfl | (exfalso; omega)

/-! ## Columns inside and outside the ownership range -/

theorem row_index_local (s : Solver) (h0 : 0 ≤ s.mesh.xstart)
    (h1 : s.mesh.xstart ≤ s.mesh.xend + 1) (r : Int × Int × Int)
    (hr : r ∈ innerRows s ++ interiorRows s ++ outerRows s) :
    r.1 = s.Istart + (r.2.1 - xbase s) * s.meshz + r.2.2 := by
  rw [rows_eq_rowSequence s h0 h1] at hr
  unfold rowSequence at hr
  rw [List.mem_map] at hr
  obtain ⟨c, _, rfl⟩ := hr
  rfl

theorem entryCol_inside_iff (s : Solver) (x z : Int) (t : Int × Int × ℚ)
    (hm : 1 ≤ s.meshz) (hngx : s.mesh.ngx = s.mesh.xend + s.mesh.xstart + 1)
    (hN : s.Iend - s.Istart = localN s.mesh)
    (hfirst : s.mesh.firstX = true → s.Istart = 0)
    (hrest : s.mesh.firstX = false → s.meshz ∣ s.Istart)
    (hz : 0 ≤ z ∧ z < s.meshz) (hb : -s.meshz ≤ t.2.1 ∧ t.2.1 ≤ s.meshz) :
    (s.Istart ≤ entryCol s x z t ∧ entryCol s x z t < s.Iend)
      ↔ (xbase s ≤ x + t.1 ∧ x + t.1 ≤ xtop s) := by
  have hc := col_new_range s z t.2.1 hz hb
  have hm0 : s.meshz ≠ 0 := by omega
  obtain ⟨K, hK, hR⟩ : ∃ K, s.Istart = K * s.meshz
      ∧ Element.row_new s x t.1 = x + t.1 - xbase s + K := by
    cases hf : s.mesh.firstX
    · obtain ⟨K, hK⟩ := hrest hf
      refine ⟨K, by rw [hK]; ring, ?_⟩
      unfold Element.row_new xbase
      rw [hK, Int.mul_tdiv_cancel_left _ hm0]
      simp only [hf, Bool.not_false, if_true, Bool.false_eq_true, if_false]
      ring
    · refine ⟨0, by rw [hfirst hf]; ring, ?_⟩
      unfold Element.row_new xbase
      simp only [hf, Bool.not_true, Bool.false_eq_true, if_false, if_true]
      ring
  have hLc : s.Iend = (K + (xtop s - xbase s + 1)) * s.meshz := by
    have : s.Iend = s.Istart + localN s.mesh := by omega
    rw [this, hK, localN_eq]
    unfold xtop xbase Solver.meshz
    cases hf : s.mesh.firstX <;> cases hl : s.mesh.lastX <;>
      simp only [if_true, if_false, Bool.false_eq_true, hngx] <;> ring
  unfold entryCol
  rw [hR, hLc, hK]
  have e1 := block_lt_iff (x + t.1 - xbase s + K) K _ s.meshz hc
  have e2 := block_lt_iff (x + t.1 - xbase s + K) (K + (xtop s - xbase s + 1)) _ s.meshz hc
  rw [e2, ← not_lt, e1]
  constructor <;> intro h <;> constructor <;> omega

theorem rowCols_filter_length (s : Solver) (M : Mat) (i x z : Int)
    (T : List (Int × Int × ℚ)) (hrow : M.row i = emitted s i x z T) (p : Int → Bool) :
    ((M.rowCols i).filter p).length ≤ (T.filter (fun t => p (entryCol s x z t))).length := by
  have hE : (emitted s i x z T).filter (fun e => decide (e.1 = i)) = emitted s i x z T :=
    List.filter_eq_self.mpr (fun e he => by simpa using emitted_row s i x z T e he)
  rw [← Mat.rowCols_row, hrow]
  unfold Mat.rowCols
  rw [hE, emitted_cols]
  refine le_trans ((List.dedup_sublist _).filter p).length_le ?_
  rw [List.filter_reverse, List.length_reverse, List.filter_map, List.length_map]
  rfl

theorem interiorStencil_xoffsets (fo : Bool) (A0 A1 A2 A3 A4 A5 dx dz : ℚ) :
    (interiorStencil fo A0 A1 A2 A3 A4 A5 dx dz).map (fun t => t.1) = interiorOffsets fo := by
  cases fo <;> rfl

theorem interiorOffsets_bounds (fo : Bool) :
    ∀ a ∈ interiorOffsets fo, -reach fo ≤ a ∧ a ≤ reach fo := by
  cases fo <;> decide

theorem dValue_clamp (fo : Bool) (g h : Int) (hg : 0 ≤ g) (hh : 0 ≤ h) :
    dValue fo g h = dValue fo (min g (reach fo)) (min h (reach fo)) := by
  cases fo <;> simp only [dValue, reach, Bool.false_eq_true, if_false, if_true] <;>
    split_ifs <;> first | rfl | (exfalso; omega)

theorem oValue_clamp (fo first last : Bool) (g h : Int) (hg : 0 ≤ g) (hh : 0 ≤ h) :
    oValue fo first last g h = oValue fo first last (min g (reach fo)) (min h (reach fo)) := by
  cases fo <;> cases first <;> cases last <;>
    simp only [oValue, reach, Bool.false_eq_true, if_false, if_true] <;>
    split_ifs <;> first | rfl | (exfalso; omega)

theorem clamped_sufficient (fo first last : Bool) (g h : Int)
    (hg : 0 ≤ g ∧ g ≤ reach fo) (hh : 0 ≤ h ∧ h ≤ reach fo)
    (hgh : g = reach fo ∨ h = reach fo)
    (hf : first = true → g = reach fo) (hl : last = true → h = reach fo) :
    (((interiorOffsets fo).filter (fun a => decide (-g ≤ a ∧ a ≤ h))).length : Int)
        ≤ dValue fo g h
      ∧ (((interiorOffsets fo).filter (fun a => !decide (-g ≤ a ∧ a ≤ h))).length : Int)
        ≤ oValue fo first last g h := by
  obtain ⟨hg0, hg1⟩ := hg
  obtain ⟨hh0, hh1⟩ := hh
  cases fo <;> simp only [reach, Bool.false_eq_true, if_false, if_true] at hg1 hh1 hgh hf hl <;>
    interval_cases g <;> interval_cases h <;> cases first <;> cases last <;>
    revert hgh hf hl <;> decide

theorem interior_sufficient (fo first last : Bool) (A0 A1 A2 A3 A4 A5 dx dz : ℚ)
    (g h : Int) (hg : 0 ≤ g) (hh : 0 ≤ h) (hgh : reach fo ≤ g ∨ reach fo ≤ h)
    (hf : first = true → reach fo ≤ g) (hl : last = true → reach fo ≤ h) :
    (((interiorStencil fo A0 A1 A2 A3 A4 A5 dx dz).filter
          (fun t => decide (-g ≤ t.1 ∧ t.1 ≤ h))).length : Int) ≤ dValue fo g h
      ∧ (((interiorStencil fo A0 A1 A2 A3 A4 A5 dx dz).filter
          (fun t => !decide (-g ≤ t.1 ∧ t.1 ≤ h))).length : Int)
        ≤ oValue fo first last g h := by
  have key : ∀ q : Int → Bool,
      ((interiorStencil fo A0 A1 A2 A3 A4 A5 dx dz).filter (fun t => q t.1)).length
        = ((interiorOffsets fo).filter q).length := by
    intro q
    rw [← interiorStencil_xoffsets fo A0 A1 A2 A3 A4 A5 dx dz, List.filter_map,
      List.length_map]
    rfl
  have hr : 1 ≤ reach fo := by cases fo <;> decide
  have hcl : ∀ a ∈ interiorOffsets fo,
      (-g ≤ a ∧ a ≤ h) ↔ (-(min g (reach fo)) ≤ a ∧ a ≤ min h (reach fo)) := by
    intro a ha
    have := interiorOffsets_bounds fo a ha
    omega
  rw [key (fun a => decide (-g ≤ a ∧ a ≤ h)), key (fun a => !decide (-g ≤ a ∧ a ≤ h)),
    List.filter_congr (fun a ha => decide_eq_decide.mpr (hcl a ha)),
    List.filter_congr (fun a ha => congrArg (fun b => !b) (decide_eq_decide.mpr (hcl a ha))),
    dValue_clamp fo g h hg hh, oValue_clamp fo first last g h hg hh]
  apply clamped_sufficient
  · omega
  · omega
  · omega
  · intro h1
    have := hf h1
    omega
  · intro h1
    have := hl h1
    omega

theorem dValue_ge (fo : Bool) (g h : Int) : 6 ≤ dValue fo g h := by
  cases fo <;> simp only [dValue, Bool.false_eq_true, if_false, if_true] <;>
    split_ifs <;> decide

theorem oValue_nonneg (fo first last : Bool) (g h : Int) : 0 ≤ oValue fo first last g h := by
  cases fo <;> cases first <;> cases last <;>
    simp only [oValue, Bool.false_eq_true, if_false, if_true] <;> split_ifs <;> decide

theorem boundary_table_length (g fo : Bool) (dx : ℚ) :
    (innerBoundaryStencil g fo dx).length ≤ 6 ∧ (outerBoundaryStencil g fo dx).length ≤ 6 := by
  cases g <;> cases fo <;> simp [innerBoundaryStencil, outerBoundaryStencil]

theorem localN_columns (s : Solver)
    (hngx : s.mesh.ngx = s.mesh.xend + s.mesh.xstart + 1) :
    localN s.mesh = (xtop s - xbase s + 1) * (s.mesh.ngz - 1) := by
  rw [localN_eq]
  unfold xtop xbase
  cases hf : s.mesh.firstX <;> cases hl : s.mesh.lastX <;>
    simp only [if_true, if_false, Bool.false_eq_true, hngx] <;> ring

theorem row_counts_le (s : Solver) (M : Mat) (i x z : Int) (T : List (Int × Int × ℚ))
    (hrow : M.row i = emitted s i x z T) (P : Int × Int × ℚ → Prop) [DecidablePred P]
    (hin : ∀ t ∈ T,
      (s.Istart ≤ entryCol s x z t ∧ entryCol s x z t < s.Iend) ↔ P t) :
    (diagCols s M i).length ≤ (T.filter (fun t => decide (P t))).length
      ∧ (offDiagCols s M i).length ≤ (T.filter (fun t => !decide (P t))).length := by
  constructor
  · unfold diagCols
    refine le_trans (rowCols_filter_length s M i x z T hrow _) (le_of_eq ?_)
    rw [List.filter_congr (fun t ht => decide_eq_decide.mpr (hin t ht))]
  · unfold offDiagCols
    refine le_trans (rowCols_filter_length s M i x z T hrow _) (le_of_eq ?_)
    rw [List.filter_congr
      (fun t ht => congrArg (fun b => !b) (decide_eq_decide.mpr (hin t ht)))]

theorem all_inside_counts (T : List (Int × Int × ℚ)) (P : Int × Int × ℚ → Prop)
    [DecidablePred P] (hall : ∀ t ∈ T, P t) :
    (T.filter (fun t => decide (P t))).length ≤ T.length
      ∧ (T.filter (fun t => !decide (P t))).length = 0 := by
  refine ⟨List.length_filter_le _ _, ?_⟩
  rw [List.length_eq_zero, List.filter_eq_nil_iff]
  intro t ht
  simp [hall t ht]

theorem owned_columns_ge (s : Solver)
    (hxs : 1 ≤ s.mesh.xstart)
    (hngx : s.mesh.ngx = s.mesh.xend + s.mesh.xstart + 1)
    (hinner : s.mesh.firstX = true → s.mesh.xstart + 3 ≤ xtop s)
    (houter : s.mesh.lastX = true → xbase s + 3 ≤ s.mesh.xend)
    (hmid : s.mesh.firstX = false → s.mesh.lastX = false →
      s.mesh.xstart + (if s.fourth_order then 3 else 1) ≤ s.mesh.xend) :
    (if s.fourth_order then (4 : Int) else 2) ≤ xtop s - xbase s + 1 := by
  have hbase : (s.mesh.firstX = true ∧ xbase s = 0)
      ∨ (s.mesh.firstX = false ∧ xbase s = s.mesh.xstart) := by
    unfold xbase
    cases s.mesh.firstX <;> simp
  have htop : (s.mesh.lastX = true ∧ xtop s = s.mesh.xend + s.mesh.xstart)
      ∨ (s.mesh.lastX = false ∧ xtop s = s.mesh.xend) := by
    unfold xtop
    cases s.mesh.lastX <;> simp [hngx]
  have h42 : (if s.fourth_order then (4 : Int) else 2) ≤ 4
      ∧ (if s.fourth_order then (4 : Int) else 2)
        = (if s.fourth_order then (3 : Int) else 1) + 1 := by
    cases s.fourth_order <;> simp
  rcases hbase with ⟨hf, hb⟩ | ⟨hf, hb⟩ <;> rcases htop with ⟨hl, ht⟩ | ⟨hl, ht⟩
  · have := hinner hf; omega
  · have := hinner hf; omega
  · have := houter hl; omega
  · have := hmid hf hl; omega

theorem preallocation_row (s : Solver) (y : Int)
    (hxs : 1 ≤ s.mesh.xstart) (hxe : s.mesh.xstart ≤ s.mesh.xend)
    (hngx : s.mesh.ngx = s.mesh.xend + s.mesh.xstart + 1) (hm : 1 ≤ s.meshz)
    (hfo : s.fourth_order = true → 2 ≤ s.mesh.xstart ∧ 2 ≤ s.meshz)
    (hN : s.Iend - s.Istart = localN s.mesh)
    (hfirst : s.mesh.firstX = true → s.Istart = 0)
    (hrest : s.mesh.firstX = false → s.meshz ∣ s.Istart)
    (hinner : s.mesh.firstX = true → s.mesh.xstart + 3 ≤ xtop s)
    (houter : s.mesh.lastX = true → xbase s + 3 ≤ s.mesh.xend)
    (hmid : s.mesh.firstX = false → s.mesh.lastX = false →
      s.mesh.xstart + (if s.fourth_order then 3 else 1) ≤ s.mesh.xend)
    (r : Int × Int × Int) (hr : r ∈ innerRows s ++ interiorRows s ++ outerRows s) :
    (preallocate s.mesh s.fourth_order).d_nnz (r.1 - s.Istart)
        = some (dValue s.fourth_order (r.2.1 - xbase s) (xtop s - r.2.1))
      ∧ (preallocate s.mesh s.fourth_order).o_nnz (r.1 - s.Istart)
        = some (oValue s.fourth_order s.mesh.firstX s.mesh.lastX
            (r.2.1 - xbase s) (xtop s - r.2.1))
      ∧ ((diagCols s (assemblyLog s y) r.1).length : Int)
        ≤ dValue s.fourth_order (r.2.1 - xbase s) (xtop s - r.2.1)
      ∧ ((offDiagCols s (assemblyLog s y) r.1).length : Int)
        ≤ oValue s.fourth_order s.mesh.firstX s.mesh.lastX
            (r.2.1 - xbase s) (xtop s - r.2.1) := by
  obtain ⟨hzr, hcase⟩ := rowTable_cases s y hxe r hr
  have hidx := row_index_local s (by omega) (by omega) r hr
  have hLN := localN_columns s hngx
  have hrch : reach s.fourth_order ≤ s.mesh.xstart
      ∧ (if s.fourth_order then (4 : Int) else 2) = 2 * reach s.fourth_order
      ∧ (if s.fourth_order then (3 : Int) else 1) = 2 * reach s.fourth_order - 1
      ∧ 1 ≤ reach s.fourth_order ∧ reach s.fourth_order ≤ s.meshz := by
    unfold reach
    cases h4 : s.fourth_order
    · simp only [Bool.false_eq_true, if_false]; omega
    · have := hfo h4
      simp only [if_true]; omega
  obtain ⟨hr1, hr2, hr3, hr4, hr5⟩ := hrch
  have hbase : (s.mesh.firstX = true ∧ xbase s = 0)
      ∨ (s.mesh.firstX = false ∧ xbase s = s.mesh.xstart) := by
    unfold xbase
    cases s.mesh.firstX <;> simp
  have htop : (s.mesh.lastX = true ∧ xtop s = s.mesh.xend + s.mesh.xstart)
      ∨ (s.mesh.lastX = false ∧ xtop s = s.mesh.xend) := by
    unfold xtop
    cases s.mesh.lastX <;> simp [hngx]
  have hLc := owned_columns_ge s hxs hngx hinner houter hmid
  have hxr : xbase s ≤ r.2.1 ∧ r.2.1 ≤ xtop s := by
    rcases hcase with ⟨_, hf, hx, _⟩ | ⟨_, hx, _⟩ | ⟨_, hl, hx, _⟩
    · rcases hbase with ⟨hf2, hb⟩ | ⟨hf2, hb⟩
      · rcases htop with ⟨_, ht⟩ | ⟨_, ht⟩ <;> omega
      · rw [hf] at hf2; cases hf2
    · rcases hbase with ⟨_, hb⟩ | ⟨_, hb⟩ <;> rcases htop with ⟨_, ht⟩ | ⟨_, ht⟩ <;> omega
    · rcases htop with ⟨hl2, ht⟩ | ⟨hl2, ht⟩
      · rcases hbase with ⟨_, hb⟩ | ⟨_, hb⟩ <;> omega
      · rw [hl] at hl2; cases hl2
  have hzr2 : 0 ≤ r.2.2 ∧ r.2.2 < s.mesh.ngz - 1 := hzr
  obtain ⟨hd, ho⟩ := preallocate_at s.mesh s.fourth_order (xtop s - xbase s + 1)
    (r.2.1 - xbase s) r.2.2 hLN hLc ⟨by omega, by omega⟩ hzr2
  have hj : r.1 - s.Istart = (r.2.1 - xbase s) * (s.mesh.ngz - 1) + r.2.2 := by
    rw [hidx]; unfold Solver.meshz; ring
  have hh : xtop s - xbase s + 1 - 1 - (r.2.1 - xbase s) = xtop s - r.2.1 := by ring
  rw [hh] at hd ho
  rw [hj]
  refine ⟨hd, ho, ?_⟩
  have hin : ∀ t ∈ rowTable s y r.2.1 r.2.2, (-s.meshz ≤ t.2.1 ∧ t.2.1 ≤ s.meshz) →
      ((s.Istart ≤ entryCol s r.2.1 r.2.2 t ∧ entryCol s r.2.1 r.2.2 t < s.Iend)
        ↔ (-(r.2.1 - xbase s) ≤ t.1 ∧ t.1 ≤ xtop s - r.2.1)) := by
    intro t _ hb
    rw [entryCol_inside_iff s r.2.1 r.2.2 t hm hngx hN hfirst hrest hzr hb]
    constructor <;> intro h <;> constructor <;> omega
  have hrow : (assemblyLog s y).row r.1
      = emitted s r.1 r.2.1 r.2.2 (rowTable s y r.2.1 r.2.2) := by
    rcases hcase with ⟨hi, _, _, htab⟩ | ⟨hi, _, htab⟩ | ⟨hi, _, _, htab⟩
    · rw [assemblyLog_row_inner s y r hi, htab]; rfl
    · rw [assemblyLog_row_interior s y r hi, htab]; rfl
    · rw [assemblyLog_row_outer s y r hi, htab]; rfl
  have hboundary : (∀ t ∈ rowTable s y r.2.1 r.2.2,
        (-(r.2.1 - xbase s) ≤ t.1 ∧ t.1 ≤ xtop s - r.2.1) ∧ t.2.1 = 0) →
      (rowTable s y r.2.1 r.2.2).length ≤ 6 →
      ((diagCols s (assemblyLog s y) r.1).length : Int)
        ≤ dValue s.fourth_order (r.2.1 - xbase s) (xtop s - r.2.1)
      ∧ ((offDiagCols s (assemblyLog s y) r.1).length : Int)
        ≤ oValue s.fourth_order s.mesh.firstX s.mesh.lastX
            (r.2.1 - xbase s) (xtop s - r.2.1) := by
    intro hall hlen
    obtain ⟨c1, c2⟩ := row_counts_le s (assemblyLog s y) r.1 r.2.1 r.2.2 _ hrow
      (fun t => -(r.2.1 - xbase s) ≤ t.1 ∧ t.1 ≤ xtop s - r.2.1)
      (fun t ht => hin t ht (by rw [(hall t ht).2]; omega))
    obtain ⟨a1, a2⟩ := all_inside_counts (rowTable s y r.2.1 r.2.2)
      (fun t => -(r.2.1 - xbase s) ≤ t.1 ∧ t.1 ≤ xtop s - r.2.1) (fun t ht => (hall t ht).1)
    have := dValue_ge s.fourth_order (r.2.1 - xbase s) (xtop s - r.2.1)
    have := oValue_nonneg s.fourth_order s.mesh.firstX s.mesh.lastX
      (r.2.1 - xbase s) (xtop s - r.2.1)
    constructor <;> omega
  rcases hcase with ⟨_, hf, hx, htab⟩ | ⟨_, hx, htab⟩ | ⟨_, hl, hx, htab⟩
  · apply hboundary
    · intro t ht
      rw [htab] at ht
      obtain ⟨ha, hb⟩ := innerBoundaryStencil_offsets _ _ _ t ht
      have := hinner hf
      refine ⟨?_, hb⟩
      rcases hbase with ⟨_, hb⟩ | ⟨hf2, _⟩
      · omega
      · rw [hf] at hf2; cases hf2
    · rw [htab]; exact (boundary_table_length _ _ _).1
  · have hbt : ∀ t ∈ rowTable s y r.2.1 r.2.2, -s.meshz ≤ t.2.1 ∧ t.2.1 ≤ s.meshz := by
      intro t ht
      rw [htab] at ht
      unfold interiorTable at ht
      cases h4 : s.fourth_order
      · rw [h4] at ht
        have := (interiorStencil_second_bounds _ _ _ _ _ _ _ _ t ht).2
        omega
      · rw [h4] at ht
        have := ((interiorStencil_fourth_offsets _ _ _ _ _ _ _ _).2 t ht).2
        have := (hfo h4).2
        omega
    obtain ⟨c1, c2⟩ := row_counts_le s (assemblyLog s y) r.1 r.2.1 r.2.2 _ hrow
      (fun t => -(r.2.1 - xbase s) ≤ t.1 ∧ t.1 ≤ xtop s - r.2.1)
      (fun t ht => hin t ht (hbt t ht))
    rw [htab] at c1 c2
    unfold interiorTable at c1 c2
    obtain ⟨k1, k2⟩ := interior_sufficient s.fourth_order s.mesh.firstX s.mesh.lastX
      (s.A r.2.1 y r.2.2) (Coeffs s r.2.1 y r.2.2).1 (Coeffs s r.2.1 y r.2.2).2.1
      (Coeffs s r.2.1 y r.2.2).2.2.1 (Coeffs s r.2.1 y r.2.2).2.2.2.1
      (Coeffs s r.2.1 y r.2.2).2.2.2.2 (s.mesh.dx r.2.1 y) s.mesh.dz
      (r.2.1 - xbase s) (xtop s - r.2.1) (by omega) (by omega)
      (by rw [hr2] at hLc; omega)
      (fun hf => by
        rcases hbase with ⟨_, hb⟩ | ⟨hf2, _⟩
        · omega
        · rw [hf] at hf2; cases hf2)
      (fun hl => by
        rcases htop with ⟨_, ht⟩ | ⟨hl2, _⟩
        · omega
        · rw [hl] at hl2; cases hl2)
    constructor <;> omega
  · apply hboundary
    · intro t ht
      rw [htab] at ht
      obtain ⟨ha, hb⟩ := outerBoundaryStencil_offsets _ _ _ t ht
      have := houter hl
      refine ⟨?_, hb⟩
      rcases htop with ⟨_, ht⟩ | ⟨hl2, _⟩
      · omega
      · rw [hl] at hl2; cases hl2
    · rw [htab]; exact (boundary_table_length _ _ _).2

/-- Where the preallocation is right (the partitions on which the statement of C31
holds): on a mesh with `1 ≤ xstart ≤ xend`, `ngx = xend + xstart + 1`, `meshz ≥ 1`, and in
fourth-order mode `xstart ≥ 2` and `meshz ≥ 2`, on a partition of any kind (`Istart = 0`
on the first one, `Istart` a multiple of `meshz` on the others, `Iend - Istart = localN`)
that is wide enough (a first partition owns the columns up to `xstart + 3`, a last
partition owns the columns from `xend - 3`, a middle partition has at least 2 interior
columns in second-order mode and 4 in fourth-order mode) the preallocation of the
constructor, in either order, assigns `d_nnz` and `o_nnz` only at indices in
`[0, localN)`, assigns both arrays at every index in `[0, localN)`, and is sufficient for
the assembly of `solve`: the assembly succeeds, and for every row it visits, the number
of distinct columns it emits inside `[Istart, Iend)` is at most `d_nnz[row - Istart]` and
the number it emits outside is at most `o_nnz[row - Istart]`. -/
theorem preallocation_sufficient (s : Solver) (y : Int) (b x0 : FieldPerp) (st0 : AsmState)
    (hxs : 1 ≤ s.mesh.xstart) (hxe : s.mesh.xstart ≤ s.mesh.xend)
    (hngx : s.mesh.ngx = s.mesh.xend + s.mesh.xstart + 1) (hm : 1 ≤ s.meshz)
    (hfo : s.fourth_order = true → 2 ≤ s.mesh.xstart ∧ 2 ≤ s.meshz)
    (hN : s.Iend - s.Istart = localN s.mesh)
    (hfirst : s.mesh.firstX = true → s.Istart = 0)
    (hrest : s.mesh.firstX = false → s.meshz ∣ s.Istart)
    (hinner : s.mesh.firstX = true → s.mesh.xstart + 3 ≤ xtop s)
    (houter : s.mesh.lastX = true → xbase s + 3 ≤ s.mesh.xend)
    (hmid : s.mesh.firstX = false → s.mesh.lastX = false →
      s.mesh.xstart + (if s.fourth_order then 3 else 1) ≤ s.mesh.xend) :
    (∀ j, ((preallocate s.mesh s.fourth_order).d_nnz j ≠ none
          ∨ (preallocate s.mesh s.fourth_order).o_nnz j ≠ none) →
        0 ≤ j ∧ j < localN s.mesh)
      ∧ (∀ j, 0 ≤ j → j < localN s.mesh →
          (preallocate s.mesh s.fourth_order).d_nnz j ≠ none
            ∧ (preallocate s.mesh s.fourth_order).o_nnz j ≠ none)
      ∧ ∃ st log rows, solveAssemble s y b x0 st0 = .ok st ∧ st.MatA = log ++ st0.MatA
          ∧ assemblyTrace s = .ok rows
          ∧ ∀ r ∈ rows, ∃ d o,
              (preallocate s.mesh s.fourth_order).d_nnz (r.1 - s.Istart) = some d
                ∧ (preallocate s.mesh s.fourth_order).o_nnz (r.1 - s.Istart) = some o
                ∧ ((diagCols s log r.1).length : Int) ≤ d
                ∧ ((offDiagCols s log r.1).length : Int) ≤ o := by
  have hz1 : 1 ≤ s.mesh.ngz := by unfold Solver.meshz at hm; omega
  have hmz : 0 ≤ s.mesh.ngz - 1 := by omega
  have hend : indexAtEnd s = s.Iend := by
    rw [indexAtEnd_eq s (by omega) (by omega) hz1 (fun _ => hngx)]; omega
  have hI := tmod_of_partition s hfirst hrest
  have hLc := owned_columns_ge s hxs hngx hinner houter hmid
  have hL : (if s.fourth_order then 4 else 2) * (s.mesh.ngz - 1) ≤ localN s.mesh := by
    rw [localN_columns s hngx]
    exact mul_le_mul_of_nonneg_right hLc hmz
  have hasg := preallocate_assigned s.mesh s.fourth_order hmz hL
  refine ⟨?_, ?_, assembled s y b x0 st0, assemblyLog s y,
    innerRows s ++ interiorRows s ++ outerRows s,
    solveAssemble_eq_assembled s y b x0 st0 hI hend, assembled_MatA s y b x0 st0, ?_, ?_⟩
  · rintro j (h | h)
    · exact (hasg j).1.mp h
    · exact (hasg j).2.mp h
  · intro j h0 h1
    exact ⟨(hasg j).1.mpr ⟨h0, h1⟩, (hasg j).2.mpr ⟨h0, h1⟩⟩
  · rw [assemblyTrace, assemblyLoops_record]
  · intro r hr
    obtain ⟨hd, ho, hin, hout⟩ := preallocation_row s y hxs hxe hngx hm hfo hN hfirst hrest
      hinner houter hmid r hr
    exact ⟨_, _, hd, ho, hin, hout⟩

/-- An instance of `preallocation_sufficient`: the middle one of three x-partitions with
four interior columns each, second order. -/
theorem preallocation_sufficient_witness :
    (1 ≤ wideMiddle.mesh.xstart ∧ wideMiddle.mesh.xstart ≤ wideMiddle.mesh.xend
      ∧ wideMiddle.mesh.ngx = wideMiddle.mesh.xend + wideMiddle.mesh.xstart + 1
      ∧ 1 ≤ wideMiddle.meshz
      ∧ (wideMiddle.fourth_order = true →
          2 ≤ wideMiddle.mesh.xstart ∧ 2 ≤ wideMiddle.meshz)
      ∧ wideMiddle.Iend - wideMiddle.Istart = localN wideMiddle.mesh
      ∧ (wideMiddle.mesh.firstX = true → wideMiddle.Istart = 0)
      ∧ (wideMiddle.mesh.firstX = false → wideMiddle.meshz ∣ wideMiddle.Istart)
      ∧ (wideMiddle.mesh.firstX = true → wideMiddle.mesh.xstart + 3 ≤ xtop wideMiddle)
      ∧ (wideMiddle.mesh.lastX = true → xbase wideMiddle + 3 ≤ wideMiddle.mesh.xend)
      ∧ (wideMiddle.mesh.firstX = false → wideMiddle.mesh.lastX = false →
          wideMiddle.mesh.xstart + (if wideMiddle.fourth_order then 3 else 1)
            ≤ wideMiddle.mesh.xend)) ∧
    ((∀ j, ((preallocate wideMiddle.mesh wideMiddle.fourth_order).d_nnz j ≠ none
          ∨ (preallocate wideMiddle.mesh wideMiddle.fourth_order).o_nnz j ≠ none) →
        0 ≤ j ∧ j < localN wideMiddle.mesh)
      ∧ (∀ j, 0 ≤ j → j < localN wideMiddle.mesh →
          (preallocate wideMiddle.mesh wideMiddle.fourth_order).d_nnz j ≠ none
            ∧ (preallocate wideMiddle.mesh wideMiddle.fourth_order).o_nnz j ≠ none)
      ∧ ∃ st log rows,
          solveAssemble wideMiddle 0 (fun _ _ => 0) (fun _ _ => 0) AsmState.empty = .ok st
          ∧ st.MatA = log ++ AsmState.empty.MatA
          ∧ assemblyTrace wideMiddle = .ok rows
          ∧ ∀ r ∈ rows, ∃ d o,
              (preallocate wideMiddle.mesh wideMiddle.fourth_order).d_nnz
                  (r.1 - wideMiddle.Istart) = some d
                ∧ (preallocate wideMiddle.mesh wideMiddle.fourth_order).o_nnz
                  (r.1 - wideMiddle.Istart) = some o
                ∧ ((diagCols wideMiddle log r.1).length : Int) ≤ d
                ∧ ((offDiagCols wideMiddle log r.1).length : Int) ≤ o) :=
  ⟨⟨by decide, by decide, by decide, by decide, by decide, by decide, by decide,
      fun _ => ⟨5, by decide⟩, by decide, by decide, fun _ _ => by decide⟩,
    preallocation_sufficient wideMiddle 0 (fun _ _ => 0) (fun _ _ => 0) AsmState.empty
      (by decide) (by decide) (by decide) (by decide) (by decide) (by decide) (by decide)
      (fun _ => ⟨5, by decide⟩) (by decide) (by decide) (fun _ _ => by decide)⟩

/-- C31, at the failing inputs: two middle x-partitions with a single interior column,
both well-formed in the sense of the claim. In fourth-order mode (`xstart = xend = 2`,
`ngx = 5`, `meshz = 5`, `localN = 5`) the second edge loop of the constructor runs over
`5 ≤ i < 10` and assigns `d_nnz[5]` and `d_nnz[-1]`, outside the `localN` entries that
were allocated. In second-order mode (`xstart = xend = 1`, `ngx = 3`, `meshz = 3`, rows
9..11) the assembly emits, for row 9, six distinct columns outside `[9, 12)`, while
`o_nnz[0] = 3`. -/
theorem preallocation_fails_on_one_column :
    (1 ≤ oneColumnFourth.mesh.xstart ∧ oneColumnFourth.mesh.xstart ≤ oneColumnFourth.mesh.xend
      ∧ oneColumnFourth.mesh.ngx
          = oneColumnFourth.mesh.xend + oneColumnFourth.mesh.xstart + 1
      ∧ 1 ≤ oneColumnFourth.meshz ∧ oneColumnFourth.fourth_order = true
      ∧ localN oneColumnFourth.mesh = 5
      ∧ (preallocate oneColumnFourth.mesh oneColumnFourth.fourth_order).d_nnz 5 = some 20
      ∧ (preallocate oneColumnFourth.mesh oneColumnFourth.fourth_order).d_nnz (-1) = some 20)
      ∧ (1 ≤ oneColumnMiddle.mesh.xstart
        ∧ oneColumnMiddle.mesh.xstart ≤ oneColumnMiddle.mesh.xend
        ∧ oneColumnMiddle.mesh.ngx
            = oneColumnMiddle.mesh.xend + oneColumnMiddle.mesh.xstart + 1
        ∧ 1 ≤ oneColumnMiddle.meshz ∧ oneColumnMiddle.fourth_order = false
        ∧ oneColumnMiddle.Istart = 9 ∧ oneColumnMiddle.Iend = 12
        ∧ localN oneColumnMiddle.mesh = 3
        ∧ (preallocate oneColumnMiddle.mesh oneColumnMiddle.fourth_order).o_nnz (9 - 9)
            = some 3
        ∧ ∃ st, solveAssemble oneColumnMiddle 0 (fun _ _ => 0) (fun _ _ => 0)
              AsmState.empty = .ok st
            ∧ offDiagCols oneColumnMiddle st.MatA 9 = [13, 12, 14, 7, 6, 8]) := by
  refine ⟨⟨by decide, by decide, by decide, by decide, rfl, by decide, by decide,
      by decide⟩,
    by decide, by decide, by decide, by decide, rfl, rfl, rfl, by decide, by decide, _,
    solveAssemble_eq_assembled oneColumnMiddle 0 _ _ _ (by decide) (by decide), ?_⟩
  rw [assembled_MatA]
  decide

/-! ## Uniqueness of the discrete harmonic extension -/

theorem harmonic_le_boundary (ngx m xstart xend : Int) (U : Int → Int → ℚ) (k : ℚ)
    (a1 a2 : Int → Int → ℚ) (zm zp : Int → Int)
    (hxs : 1 ≤ xstart) (hxe : xend + 1 < ngx)
    (ha1 : ∀ x z, 0 < a1 x z) (ha2 : ∀ x z, 0 < a2 x z)
    (hzm : ∀ z, 0 ≤ z → z < m → 0 ≤ zm z ∧ zm z < m)
    (hzp : ∀ z, 0 ≤ z → z < m → 0 ≤ zp z ∧ zp z < m)
    (hB : ∀ x z, 0 ≤ x → x < ngx → 0 ≤ z → z < m → (x < xstart ∨ xend < x) → U x z = k)
    (hI : ∀ x z, xstart ≤ x → x ≤ xend → 0 ≤ z → z < m →
      a1 x z * (U (x - 1) z + U (x + 1) z - 2 * U x z)
        + a2 x z * (U x (zm z) + U x (zp z) - 2 * U x z) = 0) :
    ∀ x z, 0 ≤ x → x < ngx → 0 ≤ z → z < m → U x z ≤ k := by
  have key : ∀ n : Nat, ∀ x z, x.toNat = n → 0 ≤ x → x < ngx → 0 ≤ z → z < m →
      (∀ x2 z2, 0 ≤ x2 → x2 < ngx → 0 ≤ z2 → z2 < m → U x2 z2 ≤ U x z) → U x z ≤ k := by
    intro n
    induction n with
    | zero =>
      intro x z hn hx0 hx1 hz0 hz1 _
      rw [hB x z hx0 hx1 hz0 hz1 (Or.inl (by omega))]
    | succ n ih =>
      intro x z hn hx0 hx1 hz0 hz1 hmax
      by_cases hbd : x < xstart ∨ xend < x
      · rw [hB x z hx0 hx1 hz0 hz1 hbd]
      · have hxi : xstart ≤ x ∧ x ≤ xend := by omega
        have e := hI x z hxi.1 hxi.2 hz0 hz1
        have n1 := hmax (x - 1) z (by omega) (by omega) hz0 hz1
        have n2 := hmax (x + 1) z (by omega) (by omega) hz0 hz1
        have n3 := hmax x (zm z) hx0 hx1 (hzm z hz0 hz1).1 (hzm z hz0 hz1).2
        have n4 := hmax x (zp z) hx0 hx1 (hzp z hz0 hz1).1 (hzp z hz0 hz1).2
        have p1 : a1 x z * (U (x - 1) z + U (x + 1) z - 2 * U x z) ≤ 0 :=
          mul_nonpos_of_nonneg_of_nonpos (le_of_lt (ha1 x z)) (by linarith)
        have p2 : a2 x z * (U x (zm z) + U x (zp z) - 2 * U x z) ≤ 0 :=
          mul_nonpos_of_nonneg_of_nonpos (le_of_lt (ha2 x z)) (by linarith)
        have q1 : a1 x z * (U (x - 1) z + U (x + 1) z - 2 * U x z) = 0 := by linarith
        have q2 : U (x - 1) z + U (x + 1) z - 2 * U x z = 0 := by
          rcases mul_eq_zero.mp q1 with h | h
          · exact absurd h (ne_of_gt (ha1 x z))
          · exact h
        have q3 : U (x - 1) z = U x z := by linarith
        rw [← q3]
        apply ih (x - 1) z (by omega) (by omega) (by omega) hz0 hz1
        intro x2 z2 a b c d
        rw [q3]
        exact hmax x2 z2 a b c d
  intro x z hx0 hx1 hz0 hz1
  obtain ⟨c, hc, hmax⟩ := Finset.exists_max_image
    (Finset.Ico (0 : Int) ngx ×ˢ Finset.Ico (0 : Int) m) (fun c => U c.1 c.2)
    ⟨(x, z), by simp [hx0, hx1, hz0, hz1]⟩
  simp only [Finset.mem_product, Finset.mem_Ico] at hc
  have hmax2 : ∀ x2 z2, 0 ≤ x2 → x2 < ngx → 0 ≤ z2 → z2 < m → U x2 z2 ≤ U c.1 c.2 := by
    intro x2 z2 a b c2 d
    exact hmax (x2, z2) (by simp [a, b, c2, d])
  exact le_trans (hmax2 x z hx0 hx1 hz0 hz1)
    (key c.1.toNat c.1 c.2 rfl hc.1.1 hc.1.2 hc.2.1 hc.2.2 hmax2)

theorem harmonic_eq_boundary (ngx m xstart xend : Int) (U : Int → Int → ℚ) (k : ℚ)
    (a1 a2 : Int → Int → ℚ) (zm zp : Int → Int)
    (hxs : 1 ≤ xstart) (hxe : xend + 1 < ngx)
    (ha1 : ∀ x z, 0 < a1 x z) (ha2 : ∀ x z, 0 < a2 x z)
    (hzm : ∀ z, 0 ≤ z → z < m → 0 ≤ zm z ∧ zm z < m)
    (hzp : ∀ z, 0 ≤ z → z < m → 0 ≤ zp z ∧ zp z < m)
    (hB : ∀ x z, 0 ≤ x → x < ngx → 0 ≤ z → z < m → (x < xstart ∨ xend < x) → U x z = k)
    (hI : ∀ x z, xstart ≤ x → x ≤ xend → 0 ≤ z → z < m →
      a1 x z * (U (x - 1) z + U (x + 1) z - 2 * U x z)
        + a2 x z * (U x (zm z) + U x (zp z) - 2 * U x z) = 0) :
    ∀ x z, 0 ≤ x → x < ngx → 0 ≤ z → z < m → U x z = k := by
  intro x z hx0 hx1 hz0 hz1
  apply le_antisymm
  · exact harmonic_le_boundary ngx m xstart xend U k a1 a2 zm zp hxs hxe ha1 ha2 hzm hzp hB hI
      x z hx0 hx1 hz0 hz1
  · have h := harmonic_le_boundary ngx m xstart xend (fun x z => -U x z) (-k) a1 a2 zm zp
      hxs hxe ha1 ha2 hzm hzp
      (fun x z a b c d e => by simp only []; rw [hB x z a b c d e])
      (fun x z a b c d => by
        have := hI x z a b c d
        simp only []
        linarith)
      x z hx0 hx1 hz0 hz1
    simp only [] at h
    linarith

/-! ## The stored matrix applied to a vector -/

theorem Mat.mulVecRow_of_nodup (E : Mat) (i : Int) (v : Vec)
    (hrow : ∀ e ∈ E, e.1 = i) (hnd : (E.map (fun e => e.2.1)).Nodup) :
    E.mulVecRow i v = (E.map (fun e => e.2.2 * v e.2.1)).sum := by
  have hcols : E.rowCols i = E.map (fun e => e.2.1) := Mat.rowCols_of_nodup E i hrow hnd
  unfold Mat.mulVecRow
  rw [hcols, List.map_map]
  congr 1
  apply List.map_congr_left
  intro e he
  simp only [Function.comp]
  have hg : E.get i e.2.1 = some e.2.2 := by
    unfold Mat.get
    have hin : ∀ a ∈ E, a.2.1 = e.2.1 → a = e := by
      intro a ha hcol
      exact List.inj_on_of_nodup_map hnd ha he hcol
    cases hf : E.find? (fun a => decide (a.1 = i ∧ a.2.1 = e.2.1)) with
    | none =>
      rw [List.find?_eq_none] at hf
      exact absurd (by simp [hrow e he]) (hf e he)
    | some a =>
      have hp := List.find?_some hf
      have ha := List.mem_of_find?_eq_some hf
      simp only [decide_eq_true_eq] at hp
      rw [hin a ha hp.2]
      rfl
  rw [hg]
  rfl

theorem Mat.mulVecRow_append_covered (L M0 : Mat) (i : Int) (v : Vec)
    (hcov : ∀ e ∈ M0, ∃ e2 ∈ L, e2.1 = e.1 ∧ e2.2.1 = e.2.1) :
    (L ++ M0).mulVecRow i v = L.mulVecRow i v := by
  have hmem : ∀ j, j ∈ (L ++ M0).rowCols i ↔ j ∈ L.rowCols i := by
    intro j
    rw [Mat.mem_rowCols, Mat.mem_rowCols]
    constructor
    · rintro ⟨e, he, h1, h2⟩
      rcases List.mem_append.mp he with h | h
      · exact ⟨e, h, h1, h2⟩
      · obtain ⟨e2, he2, a, b⟩ := hcov e h
        exact ⟨e2, he2, by rw [a, h1], by rw [b, h2]⟩
    · rintro ⟨e, he, h1, h2⟩
      exact ⟨e, List.mem_append_left _ he, h1, h2⟩
  have hperm : ((L ++ M0).rowCols i).Perm (L.rowCols i) :=
    (List.perm_ext_iff_of_nodup (List.nodup_dedup _) (List.nodup_dedup _)).mpr hmem
  unfold Mat.mulVecRow
  rw [(hperm.map _).sum_eq]
  congr 1
  apply List.map_congr_left
  intro j hj
  rw [Mat.get_append_left L M0 i j hj]

theorem emitted_mulVecRow (s : Solver) (i x z : Int) (tbl : List (Int × Int × ℚ)) (v : Vec)
    (hnd : ((emitted s i x z tbl).map (fun e => e.2.1)).Nodup) :
    (emitted s i x z tbl).mulVecRow i v
      = (tbl.map (fun t => t.2.2 * v (entryCol s x z t))).sum := by
  rw [Mat.mulVecRow_of_nodup _ i v (emitted_row s i x z tbl) hnd]
  unfold emitted
  rw [List.map_reverse, List.sum_reverse, List.map_map]
  rfl

/-! ## The matrix left by earlier calls -/

theorem rows_of_same_object (s s2 : Solver) (hmesh : s2.mesh = s.mesh)
    (hI : s2.Istart = s.Istart) :
    innerRows s2 = innerRows s ∧ interiorRows s2 = interiorRows s
      ∧ outerRows s2 = outerRows s := by
  simp only [innerRows, interiorRows, outerRows, indexAfterInterior, indexAfterInner,
    Solver.meshz, hmesh, hI, and_self]

theorem col_of_same_object (s s2 : Solver) (hmesh : s2.mesh = s.mesh)
    (hI : s2.Istart = s.Istart) (x z a b : Int) :
    Element.row_new s2 x a * s2.meshz + Element.col_new s2 z b
      = Element.row_new s x a * s.meshz + Element.col_new s z b := by
  simp only [Element.row_new, Element.col_new, Solver.meshz, hmesh, hI]

theorem identity_inner_has_offset (fo : Bool) (dx : ℚ) (a : Int) (ha : 0 ≤ a ∧ a ≤ 4) :
    ∃ t ∈ innerBoundaryStencil false fo dx, t.1 = a ∧ t.2.1 = 0 := by
  obtain ⟨h0, h4⟩ := ha
  interval_cases a <;> simp [innerBoundaryStencil]

theorem identity_outer_has_offset (fo : Bool) (dx : ℚ) (a : Int) (ha : -4 ≤ a ∧ a ≤ 0) :
    ∃ t ∈ outerBoundaryStencil false fo dx, t.1 = a ∧ t.2.1 = 0 := by
  obtain ⟨h0, h4⟩ := ha
  interval_cases a <;> simp [outerBoundaryStencil]

theorem interiorStencil_same_offsets (fo : Bool) (A0 A1 A2 A3 A4 A5 dx dz : ℚ)
    (B0 B1 B2 B3 B4 B5 ex ez : ℚ) :
    ∀ t ∈ interiorStencil fo A0 A1 A2 A3 A4 A5 dx dz,
      ∃ t2 ∈ interiorStencil fo B0 B1 B2 B3 B4 B5 ex ez, t2.1 = t.1 ∧ t2.2.1 = t.2.1 := by
  intro t ht
  have hoff : (interiorStencil fo A0 A1 A2 A3 A4 A5 dx dz).map (fun e => (e.1, e.2.1))
      = (interiorStencil fo B0 B1 B2 B3 B4 B5 ex ez).map (fun e => (e.1, e.2.1)) := by
    cases fo <;> rfl
  have hm : (t.1, t.2.1)
      ∈ (interiorStencil fo A0 A1 A2 A3 A4 A5 dx dz).map (fun e => (e.1, e.2.1)) :=
    List.mem_map.mpr ⟨t, ht, rfl⟩
  rw [hoff] at hm
  obtain ⟨t2, ht2, h⟩ := List.mem_map.mp hm
  simp only [Prod.mk.injEq] at h
  exact ⟨t2, ht2, h.1, h.2⟩

theorem emitted_positions (s s2 : Solver) (hmesh : s2.mesh = s.mesh)
    (hI : s2.Istart = s.Istart) (i x z : Int) (tbl tbl2 : List (Int × Int × ℚ))
    (h : ∀ t ∈ tbl2, ∃ t1 ∈ tbl, t1.1 = t.1 ∧ t1.2.1 = t.2.1) :
    ∀ e ∈ emitted s2 i x z tbl2, ∃ e1 ∈ emitted s i x z tbl, e1.1 = e.1 ∧ e1.2.1 = e.2.1 := by
  intro e he
  obtain ⟨t, ht, rfl⟩ := (mem_emitted s2 i x z tbl2 e).mp he
  obtain ⟨t1, ht1, h1, h2⟩ := h t ht
  refine ⟨_, (mem_emitted s i x z tbl _).mpr ⟨t1, ht1, rfl⟩, rfl, ?_⟩
  simp only [h1, h2]
  exact (col_of_same_object s s2 hmesh hI x z t.1 t.2.1).symm

theorem assemblyLog_positions (s s2 : Solver) (y y2 : Int) (hmesh : s2.mesh = s.mesh)
    (hI : s2.Istart = s.Istart) (hfo : s2.fourth_order = s.fourth_order)
    (hig : flagSet s.inner_boundary_flags s.bits.INVERT_AC_GRAD = false)
    (hog : flagSet s.outer_boundary_flags s.bits.INVERT_AC_GRAD = false) :
    ∀ e ∈ assemblyLog s2 y2, ∃ e1 ∈ assemblyLog s y, e1.1 = e.1 ∧ e1.2.1 = e.2.1 := by
  obtain ⟨r1, r2, r3⟩ := rows_of_same_object s s2 hmesh hI
  intro e he
  unfold assemblyLog at he ⊢
  rw [r1, r2, r3] at he
  rcases List.mem_append.mp he with h12 | h3
  · rcases List.mem_append.mp h12 with ho | hn
    · obtain ⟨r, hr, her⟩ := (mem_rowsLog _ _ e).mp ho
      obtain ⟨e1, he1, hp⟩ := emitted_positions s s2 hmesh hI r.1 r.2.1 r.2.2
        (outerBoundaryStencil (flagSet s.outer_boundary_flags s.bits.INVERT_AC_GRAD)
          s.fourth_order (s.mesh.dx r.2.1 y)) _
        (fun t ht => by
          rw [hog]
          exact identity_outer_has_offset _ _ t.1
            (outerBoundaryStencil_offsets _ _ _ t ht).1 |>.imp
            (fun t1 h => ⟨h.1, h.2.1, by rw [h.2.2, (outerBoundaryStencil_offsets _ _ _ t ht).2]⟩))
        e her
      exact ⟨e1, List.mem_append_left _ (List.mem_append_left _
        ((mem_rowsLog _ _ e1).mpr ⟨r, hr, he1⟩)), hp⟩
    · obtain ⟨r, hr, her⟩ := (mem_rowsLog _ _ e).mp hn
      obtain ⟨e1, he1, hp⟩ := emitted_positions s s2 hmesh hI r.1 r.2.1 r.2.2
        (interiorStencil s.fourth_order (s.A r.2.1 y r.2.2) (Coeffs s r.2.1 y r.2.2).1
          (Coeffs s r.2.1 y r.2.2).2.1 (Coeffs s r.2.1 y r.2.2).2.2.1
          (Coeffs s r.2.1 y r.2.2).2.2.2.1 (Coeffs s r.2.1 y r.2.2).2.2.2.2
          (s.mesh.dx r.2.1 y) s.mesh.dz) _
        (fun t ht => by
          rw [hfo] at ht
          exact interiorStencil_same_offsets _ _ _ _ _ _ _ _ _ _ _ _ _ _ _ _ _ t ht)
        e her
      exact ⟨e1, List.mem_append_left _ (List.mem_append_right _
        ((mem_rowsLog _ _ e1).mpr ⟨r, hr, he1⟩)), hp⟩
  · obtain ⟨r, hr, her⟩ := (mem_rowsLog _ _ e).mp h3
    obtain ⟨e1, he1, hp⟩ := emitted_positions s s2 hmesh hI r.1 r.2.1 r.2.2
      (innerBoundaryStencil (flagSet s.inner_boundary_flags s.bits.INVERT_AC_GRAD)
        s.fourth_order (s.mesh.dx r.2.1 y)) _
      (fun t ht => by
        rw [hig]
        exact identity_inner_has_offset _ _ t.1
          (innerBoundaryStencil_offsets _ _ _ t ht).1 |>.imp
          (fun t1 h => ⟨h.1, h.2.1, by rw [h.2.2, (innerBoundaryStencil_offsets _ _ _ t ht).2]⟩))
      e her
    exact ⟨e1, List.mem_append_right _ ((mem_rowsLog _ _ e1).mpr ⟨r, hr, he1⟩), hp⟩

theorem matrixHistory_positions (s : Solver) (y : Int) (calls : List (Solver × Int))
    (hcalls : ∀ c ∈ calls, c.1.mesh = s.mesh ∧ c.1.Istart = s.Istart
      ∧ c.1.fourth_order = s.fourth_order)
    (hig : flagSet s.inner_boundary_flags s.bits.INVERT_AC_GRAD = false)
    (hog : flagSet s.outer_boundary_flags s.bits.INVERT_AC_GRAD = false) :
    ∀ e ∈ matrixHistory calls, ∃ e1 ∈ assemblyLog s y, e1.1 = e.1 ∧ e1.2.1 = e.2.1 := by
  induction calls with
  | nil => intro e he; simp [matrixHistory] at he
  | cons c cs ih =>
    intro e he
    have hc := hcalls c (List.mem_cons_self _ _)
    rcases List.mem_append.mp (by simpa [matrixHistory] using he) with h | h
    · exact assemblyLog_positions s c.1 y c.2 hc.1 hc.2.1 hc.2.2 hig hog e h
    · exact ih (fun d hd => hcalls d (List.mem_cons_of_mem _ hd)) e h

theorem rowTable_cases_z (s : Solver) (r : Int × Int × Int)
    (hr : r ∈ innerRows s ++ interiorRows s ++ outerRows s) :
    0 ≤ r.2.2 ∧ r.2.2 < s.meshz := by
  rcases List.mem_append.mp hr with h12 | h3
  · rcases List.mem_append.mp h12 with hi | hn
    · unfold innerRows at hi
      split at hi
      · exact (mem_blockRows _ _ _ _ r hi).2
      · simp at hi
    · exact (mem_blockRows _ _ _ _ r hn).2
  · unfold outerRows at h3
    split at h3
    · exact (mem_blockRows _ _ _ _ r h3).2
    · simp at h3

/-! ## The rows of the constant-boundary problem -/

theorem assembled_bs_interior (s : Solver) (y : Int) (b x0 : FieldPerp) (st0 : AsmState)
    (r : Int × Int × Int) (hr : r ∈ interiorRows s) :
    (assembled s y b x0 st0).bs r.1 = b r.2.1 r.2.2 := by
  obtain ⟨_, n2, _, _, d2⟩ := rows_nodup s
  have hi : r.1 ∈ (interiorRows s).map (fun r => r.1) := List.mem_map.mpr ⟨r, hr, rfl⟩
  unfold assembled
  rw [(foldl_pureRow_other _ _ _ (outerEmit_row s y) _ _ _ (d2 _ hi)).2,
    (foldl_pureRow_mem _ _ _ (interiorEmit_row s y) _ _ n2 r hr).2]

theorem Coeffs_plain (s : Solver) (x y z : Int)
    (hg13 : s.mesh.g13 x y = 0) (hall : s.all_terms = false) (hnon : s.nonuniform = false)
    (hD : s.issetD = false) (hC : s.issetC = false) (hE : s.issetE = false) :
    Coeffs s x y z = (s.mesh.g11 x y, Coeffs.base2 s x y, 0, 0, 0) := by
  rw [Coeffs_eq]
  simp [Coeffs.scale, Coeffs.base3, Coeffs.base4, Coeffs.base5, Coeffs.extra4,
    Coeffs.extra5, hall, hnon, hD, hC, hE, hg13]

theorem Coeffs_base2_pos (s : Solver) (x y : Int) (h11 : 0 < s.mesh.g11 x y)
    (h33 : 0 < s.mesh.g33 x y) : 0 < Coeffs.base2 s x y := by
  unfold Coeffs.base2
  split_ifs
  · have := mul_nonneg (le_of_lt h11) (mul_self_nonneg (s.mesh.IntShiftTorsion x y))
    have e : s.mesh.g11 x y * s.mesh.IntShiftTorsion x y * s.mesh.IntShiftTorsion x y
        = s.mesh.g11 x y * (s.mesh.IntShiftTorsion x y * s.mesh.IntShiftTorsion x y) := by
      ring
    rw [e]
    linarith
  · exact h33

theorem identity_inner_row_apply (s : Solver) (y : Int) (v : Vec)
    (h0 : 0 ≤ s.mesh.xstart) (h1 : s.mesh.xstart ≤ s.mesh.xend + 1)
    (hfirst : s.mesh.firstX = true → s.Istart = 0)
    (hI : Int.tmod s.Istart s.meshz = 0)
    (hig : flagSet s.inner_boundary_flags s.bits.INVERT_AC_GRAD = false)
    (r : Int × Int × Int) (hr : r ∈ innerRows s) :
    (assemblyLog s y).mulVecRow r.1 v = v r.1 := by
  have hrows : r ∈ innerRows s ++ interiorRows s ++ outerRows s :=
    List.mem_append_left _ (List.mem_append_left _ hr)
  have hz : 0 ≤ r.2.2 ∧ r.2.2 < s.meshz := (rowTable_cases_z s r hrows)
  obtain ⟨t1, t2, _⟩ := innerBoundaryStencil_identity s.fourth_order (s.mesh.dx r.2.1 y)
  rw [← Mat.mulVecRow_row, assemblyLog_row_inner s y r hr]
  unfold innerEmit
  rw [hig, emitted_mulVecRow _ _ _ _ _ _ (identity_row_cols_nodup s _ _ _ _ hz t1 t2)]
  have hd := row_diag_column s h0 h1 hfirst hI r hrows
  simp [innerBoundaryStencil, entryCol, hd]

theorem identity_outer_row_apply (s : Solver) (y : Int) (v : Vec)
    (h0 : 0 ≤ s.mesh.xstart) (h1 : s.mesh.xstart ≤ s.mesh.xend + 1)
    (hfirst : s.mesh.firstX = true → s.Istart = 0)
    (hI : Int.tmod s.Istart s.meshz = 0)
    (hog : flagSet s.outer_boundary_flags s.bits.INVERT_AC_GRAD = false)
    (r : Int × Int × Int) (hr : r ∈ outerRows s) :
    (assemblyLog s y).mulVecRow r.1 v = v r.1 := by
  have hrows : r ∈ innerRows s ++ interiorRows s ++ outerRows s :=
    List.mem_append_right _ hr
  have hz : 0 ≤ r.2.2 ∧ r.2.2 < s.meshz := (rowTable_cases_z s r hrows)
  obtain ⟨t1, t2, _⟩ := outerBoundaryStencil_identity s.fourth_order (s.mesh.dx r.2.1 y)
  rw [← Mat.mulVecRow_row, assemblyLog_row_outer s y r hr]
  unfold outerEmit
  rw [hog, emitted_mulVecRow _ _ _ _ _ _ (identity_row_cols_nodup s _ _ _ _ hz t1 t2)]
  have hd := row_diag_column s h0 h1 hfirst hI r hrows
  simp [outerBoundaryStencil, entryCol, hd]

theorem interior_row_apply (s : Solver) (y : Int) (v : Vec)
    (hfirst : s.mesh.firstX = true) (hm : 3 ≤ s.meshz) (ho : s.fourth_order = false)
    (r : Int × Int × Int) (hr : r ∈ interiorRows s)
    (hA : s.A r.2.1 y r.2.2 = 0)
    (hg13 : s.mesh.g13 r.2.1 y = 0) (hall : s.all_terms = false)
    (hnon : s.nonuniform = false)
    (hD : s.issetD = false) (hC : s.issetC = false) (hE : s.issetE = false) :
    (assemblyLog s y).mulVecRow r.1 v
      = s.mesh.g11 r.2.1 y / (s.mesh.dx r.2.1 y) ^ 2
          * (v ((r.2.1 - 1) * s.meshz + r.2.2) + v ((r.2.1 + 1) * s.meshz + r.2.2)
              - 2 * v (r.2.1 * s.meshz + r.2.2))
        + Coeffs.base2 s r.2.1 y / s.mesh.dz ^ 2
          * (v (r.2.1 * s.meshz + Element.col_new s r.2.2 (-1))
              + v (r.2.1 * s.meshz + Element.col_new s r.2.2 1)
              - 2 * v (r.2.1 * s.meshz + r.2.2)) := by
  have hz : 0 ≤ r.2.2 ∧ r.2.2 < s.meshz := (mem_blockRows _ _ _ _ r hr).2
  obtain ⟨t1, t2⟩ := interiorStencil_second_offsets (s.A r.2.1 y r.2.2)
    (Coeffs s r.2.1 y r.2.2).1 (Coeffs s r.2.1 y r.2.2).2.1
    (Coeffs s r.2.1 y r.2.2).2.2.1 (Coeffs s r.2.1 y r.2.2).2.2.2.1
    (Coeffs s r.2.1 y r.2.2).2.2.2.2 (s.mesh.dx r.2.1 y) s.mesh.dz
  have hnd : ((interiorEmit s y r.1 r.2.1 r.2.2).map (fun e => e.2.1)).Nodup := by
    unfold interiorEmit
    rw [ho]
    apply emitted_cols_nodup s _ _ _ _ hz t1
    · intro e he
      have := t2 e he
      omega
    · intro e he e2 he2 hcol
      exact col_new_inj_of_three s _ _ _ hm hz (t2 e he) (t2 e2 he2) hcol
  have hc0 := col_new_of_inside s r.2.2 hz.1 hz.2
  rw [← Mat.mulVecRow_row, assemblyLog_row_interior s y r hr]
  unfold interiorEmit at hnd ⊢
  rw [emitted_mulVecRow _ _ _ _ _ _ hnd, ho,
    Coeffs_plain s r.2.1 y r.2.2 hg13 hall hnon hD hC hE, hA]
  simp only [interiorStencil, Bool.false_eq_true, if_false, List.map_cons, List.map_nil,
    List.sum_cons, List.sum_nil, entryCol, Element.row_new, hfirst, Bool.not_true, hc0,
    add_zero]
  have e : r.2.1 + -1 = r.2.1 - 1 := rfl
  rw [e]
  ring

theorem solve_value_at_cells (CHECK : Bool) (lib : PetscLib) (gbits : GlobalBits)
    (KSPSolve : KrylovKernel) (s : Solver) (cfg : SolverConfig) (global_flags : Nat)
    (y : Int) (b x0 : FieldPerp) (st0 st : AsmState)
    (h0 : 0 ≤ s.mesh.xstart) (h1 : s.mesh.xstart ≤ s.mesh.xend + 1)
    (hchk : solveChecks CHECK s cfg global_flags = .ok ())
    (hasm : solveAssemble s y b x0 st0 = .ok st)
    (hpos : 0 < (KSPSolve (configureSolver lib gbits global_flags cfg)
      st.MatA st.bs st.xs).2) :
    ∃ sol, solve CHECK lib gbits KSPSolve s cfg global_flags y b x0 st0 = .ok sol
      ∧ ∀ x z, (x, z) ∈ cellSequence s →
          sol x z = (KSPSolve (configureSolver lib gbits global_flags cfg)
            st.MatA st.bs st.xs).1 (s.Istart + (x - xbase s) * s.meshz + z) := by
  refine ⟨(innerRows s ++ interiorRows s ++ outerRows s).foldl
      (applyRow (fun i x z g => FieldPerp.set g x z
        ((KSPSolve (configureSolver lib gbits global_flags cfg) st.MatA st.bs st.xs).1 i)))
      (fun _ _ => 0), ?_, ?_⟩
  · rw [solve_of_assembled CHECK lib gbits KSPSolve s cfg global_flags y b x0 st0 _ hchk hasm,
      if_neg (by omega), if_neg (by omega)]
  · intro x z hc
    rw [foldl_fieldSet _ (fun x z => (KSPSolve (configureSolver lib gbits global_flags cfg)
        st.MatA st.bs st.xs).1 (s.Istart + (x - xbase s) * s.meshz + z))]
    · have hcells : (innerRows s ++ interiorRows s ++ outerRows s).map
          (fun r => (r.2.1, r.2.2)) = cellSequence s := by
        rw [rows_eq_rowSequence s h0 h1, rowSequence, List.map_map]
        simp [Function.comp_def]
      rw [hcells, if_pos hc]
    · intro r hr
      rw [rows_eq_rowSequence s h0 h1] at hr
      obtain ⟨c, _, rfl⟩ := List.mem_map.mp hr
      rfl

theorem constant_boundary_system (s : Solver) (y : Int) (b x0 : FieldPerp) (k : ℚ)
    (st0 : AsmState) (calls : List (Solver × Int))
    (hfirst : s.mesh.firstX = true) (hlast : s.mesh.lastX = true)
    (h0 : 1 ≤ s.mesh.xstart) (h1 : s.mesh.xstart ≤ s.mesh.xend + 1)
    (hx : s.mesh.ngx = s.mesh.xend + s.mesh.xstart + 1)
    (hm : 3 ≤ s.meshz)
    (hI : s.Istart = 0) (hN : s.Iend = localN s.mesh)
    (ho : s.fourth_order = false)
    (hig : flagSet s.inner_boundary_flags s.bits.INVERT_AC_GRAD = false)
    (hir : flagSet s.inner_boundary_flags s.bits.INVERT_RHS = false)
    (his : flagSet s.inner_boundary_flags s.bits.INVERT_SET = true)
    (hog : flagSet s.outer_boundary_flags s.bits.INVERT_AC_GRAD = false)
    (hor : flagSet s.outer_boundary_flags s.bits.INVERT_RHS = false)
    (hos : flagSet s.outer_boundary_flags s.bits.INVERT_SET = true)
    (hdx : ∀ x, s.mesh.dx x y ≠ 0) (hdz : s.mesh.dz ≠ 0)
    (hg11 : ∀ x, 0 < s.mesh.g11 x y) (hg33 : ∀ x, 0 < s.mesh.g33 x y)
    (hg13 : ∀ x, s.mesh.g13 x y = 0)
    (hall : s.all_terms = false) (hnon : s.nonuniform = false)
    (hD : s.issetD = false) (hC : s.issetC = false) (hE : s.issetE = false)
    (hA : ∀ x z, s.A x y z = 0) (hb : ∀ x z, b x z = 0)
    (hx0 : ∀ x z, (x < s.mesh.xstart ∨ s.mesh.xend < x) → x0 x z = k)
    (hhist : st0.MatA = matrixHistory calls)
    (hcalls : ∀ c ∈ calls, c.1.mesh = s.mesh ∧ c.1.Istart = s.Istart
      ∧ c.1.fourth_order = s.fourth_order) :
    solveAssemble s y b x0 st0 = .ok (assembled s y b x0 st0)
      ∧ solvesRows s (assembled s y b x0 st0) (fun _ => k)
      ∧ ∀ u : Vec, solvesRows s (assembled s y b x0 st0) u →
          ∀ x z, (x, z) ∈ cellSequence s →
            u (s.Istart + (x - xbase s) * s.meshz + z) = k := by
  have hItm : Int.tmod s.Istart s.meshz = 0 := by rw [hI]; simp
  have hz1 : 1 ≤ s.mesh.ngz := by unfold Solver.meshz at hm; omega
  have hend : indexAtEnd s = s.Iend := by
    rw [indexAtEnd_eq s (by omega) h1 hz1 (fun _ => hx), hI, hN]; ring
  have hf0 : s.mesh.firstX = true → s.Istart = 0 := fun _ => hI
  have hmul : ∀ (i : Int) (v : Vec),
      (assembled s y b x0 st0).MatA.mulVecRow i v = (assemblyLog s y).mulVecRow i v := by
    intro i v
    rw [assembled_MatA, hhist]
    exact Mat.mulVecRow_append_covered _ _ i v
      (matrixHistory_positions s y calls hcalls hig hog)
  have hrowmem : ∀ i, s.Istart ≤ i → i < s.Iend →
      ∃ r ∈ innerRows s ++ interiorRows s ++ outerRows s, r.1 = i := by
    intro i hi0 hi1
    have himem : i ∈ (innerRows s ++ interiorRows s ++ outerRows s).map (fun r => r.1) := by
      rw [rows_index, hend]; exact (mem_intRange _ _ _).mpr ⟨hi0, hi1⟩
    obtain ⟨r, hr, rfl⟩ := List.mem_map.mp himem
    exact ⟨r, hr, rfl⟩
  have hrowrange : ∀ r ∈ innerRows s ++ interiorRows s ++ outerRows s,
      s.Istart ≤ r.1 ∧ r.1 < s.Iend := by
    intro r hr
    have : r.1 ∈ (innerRows s ++ interiorRows s ++ outerRows s).map (fun r => r.1) :=
      List.mem_map.mpr ⟨r, hr, rfl⟩
    rw [rows_index, hend] at this
    exact (mem_intRange _ _ _).mp this
  -- the three kinds of rows, applied to any vector
  have hinner : ∀ (v : Vec), ∀ r ∈ innerRows s,
      (assembled s y b x0 st0).MatA.mulVecRow r.1 v = v r.1
        ∧ (assembled s y b x0 st0).bs r.1 = k := by
    intro v r hr
    have hc := mem_blockRows s.Istart 0 s.mesh.xstart s.meshz r (by
      simpa [innerRows, hfirst] using hr)
    refine ⟨?_, ?_⟩
    · rw [hmul, identity_inner_row_apply s y v (by omega) h1 hf0 hItm hig r hr]
    · rw [assembled_bs_inner s y b x0 st0 r hr, boundaryRhs_set s _ b x0 _ _ hir his,
        hx0 _ _ (Or.inl hc.1.2)]
  have houter : ∀ (v : Vec), ∀ r ∈ outerRows s,
      (assembled s y b x0 st0).MatA.mulVecRow r.1 v = v r.1
        ∧ (assembled s y b x0 st0).bs r.1 = k := by
    intro v r hr
    have hc := mem_blockRows (indexAfterInterior s) (s.mesh.xend + 1) s.mesh.ngx
      s.meshz r (by simpa [outerRows, hlast] using hr)
    refine ⟨?_, ?_⟩
    · rw [hmul, identity_outer_row_apply s y v (by omega) h1 hf0 hItm hog r hr]
    · rw [assembled_bs_outer s y b x0 st0 r hr, boundaryRhs_set s _ b x0 _ _ hor hos,
        hx0 _ _ (Or.inr (by omega))]
  have hinterior : ∀ (v : Vec), ∀ r ∈ interiorRows s,
      (assembled s y b x0 st0).MatA.mulVecRow r.1 v
          = s.mesh.g11 r.2.1 y / (s.mesh.dx r.2.1 y) ^ 2
              * (v ((r.2.1 - 1) * s.meshz + r.2.2) + v ((r.2.1 + 1) * s.meshz + r.2.2)
                  - 2 * v (r.2.1 * s.meshz + r.2.2))
            + Coeffs.base2 s r.2.1 y / s.mesh.dz ^ 2
              * (v (r.2.1 * s.meshz + Element.col_new s r.2.2 (-1))
                  + v (r.2.1 * s.meshz + Element.col_new s r.2.2 1)
                  - 2 * v (r.2.1 * s.meshz + r.2.2))
        ∧ (assembled s y b x0 st0).bs r.1 = 0 := by
    intro v r hr
    refine ⟨?_, ?_⟩
    · rw [hmul, interior_row_apply s y v hfirst hm ho r hr (hA _ _) (hg13 _) hall hnon
        hD hC hE]
    · rw [assembled_bs_interior s y b x0 st0 r hr, hb]
  refine ⟨solveAssemble_eq_assembled s y b x0 st0 hItm hend, ?_, ?_⟩
  · intro i hi0 hi1
    obtain ⟨r, hr, rfl⟩ := hrowmem i hi0 hi1
    rcases List.mem_append.mp hr with h12 | h3
    · rcases List.mem_append.mp h12 with hi | hn
      · obtain ⟨e1, e2⟩ := hinner (fun _ => k) r hi
        rw [e1, e2]
      · obtain ⟨e1, e2⟩ := hinterior (fun _ => k) r hn
        rw [e1, e2]
        ring
    · obtain ⟨e1, e2⟩ := houter (fun _ => k) r h3
      rw [e1, e2]
  · intro u hu
    have hxb : xbase s = 0 := by unfold xbase; rw [hfirst]; rfl
    have hcellrow : ∀ x z, 0 ≤ x → x < s.mesh.ngx → 0 ≤ z → z < s.meshz →
        (x * s.meshz + z, x, z) ∈ innerRows s ++ interiorRows s ++ outerRows s := by
      intro x z a1 a2 a3 a4
      rw [rows_eq_rowSequence s (by omega) h1]
      unfold rowSequence
      refine List.mem_map.mpr ⟨(x, z), ?_, ?_⟩
      · rw [mem_cellSequence s (by omega) h1 (fun _ => by omega)]
        rw [hxb, hlast]
        exact ⟨⟨a1, a2⟩, a3, a4⟩
      · simp only [hI, hxb, sub_zero, zero_add]
    have hU := harmonic_eq_boundary s.mesh.ngx s.meshz s.mesh.xstart s.mesh.xend
      (fun x z => u (x * s.meshz + z)) k
      (fun x _ => s.mesh.g11 x y / (s.mesh.dx x y) ^ 2)
      (fun x _ => Coeffs.base2 s x y / s.mesh.dz ^ 2)
      (fun z => Element.col_new s z (-1)) (fun z => Element.col_new s z 1)
      h0 (by omega)
      (fun x _ => div_pos (hg11 x)
        (lt_of_le_of_ne (sq_nonneg _) (Ne.symm (pow_ne_zero 2 (hdx x)))))
      (fun x _ => div_pos (Coeffs_base2_pos s x y (hg11 x) (hg33 x))
        (lt_of_le_of_ne (sq_nonneg _) (Ne.symm (pow_ne_zero 2 hdz))))
      (fun z a b => col_new_range s z (-1) ⟨a, b⟩ (by omega))
      (fun z a b => col_new_range s z 1 ⟨a, b⟩ (by omega))
      (by
        intro x z a1 a2 a3 a4 hbd
        have hr := hcellrow x z a1 a2 a3 a4
        have hrg := hrowrange _ hr
        have hsol := hu _ hrg.1 hrg.2
        rcases hbd with hlt | hgt
        · obtain ⟨hi, _⟩ := mem_innerRows_of_lt s h1 _ hr hlt
          obtain ⟨e1, e2⟩ := hinner u _ hi
          rw [e1, e2] at hsol
          exact hsol
        · obtain ⟨hi, _⟩ := mem_outerRows_of_gt s h1 _ hr hgt
          obtain ⟨e1, e2⟩ := houter u _ hi
          rw [e1, e2] at hsol
          exact hsol)
      (by
        intro x z a1 a2 a3 a4
        have hr := hcellrow x z (by omega) (by omega) a3 a4
        have hrg := hrowrange _ hr
        have hsol := hu _ hrg.1 hrg.2
        obtain ⟨hi, _⟩ := mem_interiorRows_of_mid s _ hr ⟨a1, a2⟩
        obtain ⟨e1, e2⟩ := hinterior u _ hi
        rw [e1, e2] at hsol
        exact hsol)
    intro x z hc
    have hcell := (mem_cellSequence s (by omega) h1 (fun _ => by omega) x z).mp hc
    rw [hxb, hlast] at hcell
    have := hU x z hcell.1.1 hcell.1.2 hcell.2.1 hcell.2.2
    simp only [] at this
    rw [hI, hxb, sub_zero, zero_add]
    exact this

/-- C6 (as amended): on a single partition (`firstX` and `lastX`, `Istart = 0`,
`Iend = localN`) of a mesh with `1 ≤ xstart ≤ xend + 1` and `ngx = xend + xstart + 1`,
with second order, nonzero grid spacings, `g11 > 0`, `g33 > 0`, `g13 = 0` (in particular
uniform `dx`, `dz` and `g11 = g33 = 1`), `all_terms` and `nonuniform` off, no `D`, `C`,
`E` coefficient set, `A = 0`, boundary flags on both sides that fix the boundary value
(`INVERT_SET` without `INVERT_AC_GRAD` and `INVERT_RHS`), `b = 0` everywhere and
`x0 = k` on every boundary cell, whatever earlier calls of `solve` on the same object
left in the matrix, for every `k` and every `meshz ≥ 3`: the assembly of `solve`
succeeds, the constant vector `k` satisfies every owned row of the assembled system
(stored row, insert-overwrite semantics, applied to the vector equals the assembled
right-hand side), and hence, when the entry checks pass, an exact solve (a kernel that
reports convergence and returns a vector satisfying every owned row) makes `solve`
return a field equal to `k` at every cell `0 ≤ x < ngx`, `0 ≤ z < meshz`. -/
theorem exact_solve_returns_constant (CHECK : Bool) (lib : PetscLib) (gbits : GlobalBits)
    (KSPSolve : KrylovKernel) (s : Solver) (cfg : SolverConfig) (global_flags : Nat)
    (y : Int) (b x0 : FieldPerp) (k : ℚ) (st0 : AsmState) (calls : List (Solver × Int))
    (hfirst : s.mesh.firstX = true) (hlast : s.mesh.lastX = true)
    (h0 : 1 ≤ s.mesh.xstart) (h1 : s.mesh.xstart ≤ s.mesh.xend + 1)
    (hx : s.mesh.ngx = s.mesh.xend + s.mesh.xstart + 1)
    (hm : 3 ≤ s.meshz)
    (hI : s.Istart = 0) (hN : s.Iend = localN s.mesh)
    (ho : s.fourth_order = false)
    (hig : flagSet s.inner_boundary_flags s.bits.INVERT_AC_GRAD = false)
    (hir : flagSet s.inner_boundary_flags s.bits.INVERT_RHS = false)
    (his : flagSet s.inner_boundary_flags s.bits.INVERT_SET = true)
    (hog : flagSet s.outer_boundary_flags s.bits.INVERT_AC_GRAD = false)
    (hor : flagSet s.outer_boundary_flags s.bits.INVERT_RHS = false)
    (hos : flagSet s.outer_boundary_flags s.bits.INVERT_SET = true)
    (hdx : ∀ x, s.mesh.dx x y ≠ 0) (hdz : s.mesh.dz ≠ 0)
    (hg11 : ∀ x, 0 < s.mesh.g11 x y) (hg33 : ∀ x, 0 < s.mesh.g33 x y)
    (hg13 : ∀ x, s.mesh.g13 x y = 0)
    (hall : s.all_terms = false) (hnon : s.nonuniform = false)
    (hD : s.issetD = false) (hC : s.issetC = false) (hE : s.issetE = false)
    (hA : ∀ x z, s.A x y z = 0) (hb : ∀ x z, b x z = 0)
    (hx0 : ∀ x z, (x < s.mesh.xstart ∨ s.mesh.xend < x) → x0 x z = k)
    (hhist : st0.MatA = matrixHistory calls)
    (hcalls : ∀ c ∈ calls, c.1.mesh = s.mesh ∧ c.1.Istart = s.Istart
      ∧ c.1.fourth_order = s.fourth_order)
    (hchk : solveChecks CHECK s cfg global_flags = .ok ())
    (hexact : ∀ st, solveAssemble s y b x0 st0 = .ok st →
      0 < (KSPSolve (configureSolver lib gbits global_flags cfg) st.MatA st.bs st.xs).2
        ∧ solvesRows s st
            (KSPSolve (configureSolver lib gbits global_flags cfg) st.MatA st.bs st.xs).1) :
    ∃ st sol, solveAssemble s y b x0 st0 = .ok st
      ∧ solvesRows s st (fun _ => k)
      ∧ solve CHECK lib gbits KSPSolve s cfg global_flags y b x0 st0 = .ok sol
      ∧ ∀ x z, 0 ≤ x → x < s.mesh.ngx → 0 ≤ z → z < s.meshz → sol x z = k := by
  obtain ⟨hasm, hconst, huniq⟩ := constant_boundary_system s y b x0 k st0 calls hfirst hlast
    h0 h1 hx hm hI hN ho hig hir his hog hor hos hdx hdz hg11 hg33 hg13 hall hnon hD hC hE
    hA hb hx0 hhist hcalls
  obtain ⟨hpos, hsol⟩ := hexact _ hasm
  obtain ⟨sol, hsolve, hval⟩ := solve_value_at_cells CHECK lib gbits KSPSolve s cfg
    global_flags y b x0 st0 _ (by omega) h1 hchk hasm hpos
  refine ⟨_, sol, hasm, hconst, hsolve, ?_⟩
  intro x z a1 a2 a3 a4
  have hxb : xbase s = 0 := by unfold xbase; rw [hfirst]; rfl
  have hc : (x, z) ∈ cellSequence s := by
    rw [mem_cellSequence s (by omega) h1 (fun _ => by omega), hxb, hlast]
    exact ⟨⟨a1, a2⟩, a3, a4⟩
  rw [hval x z hc]
  exact huniq _ hsol x z hc

/-- Witness for C6: the single partition `fiveColumns` (`meshz = 3`), first call after
the constructor, `b = 0`, `x0 = 5`, with the kernel that returns 5 in every entry. -/
theorem exact_solve_returns_constant_witness :
    (fiveColumns.mesh.firstX = true ∧ fiveColumns.mesh.lastX = true
      ∧ 1 ≤ fiveColumns.mesh.xstart
      ∧ fiveColumns.mesh.xstart ≤ fiveColumns.mesh.xend + 1
      ∧ fiveColumns.mesh.ngx = fiveColumns.mesh.xend + fiveColumns.mesh.xstart + 1
      ∧ 3 ≤ fiveColumns.meshz
      ∧ fiveColumns.Istart = 0 ∧ fiveColumns.Iend = localN fiveColumns.mesh
      ∧ fiveColumns.fourth_order = false
      ∧ flagSet fiveColumns.inner_boundary_flags fiveColumns.bits.INVERT_AC_GRAD = false
      ∧ flagSet fiveColumns.inner_boundary_flags fiveColumns.bits.INVERT_RHS = false
      ∧ flagSet fiveColumns.inner_boundary_flags fiveColumns.bits.INVERT_SET = true
      ∧ flagSet fiveColumns.outer_boundary_flags fiveColumns.bits.INVERT_AC_GRAD = false
      ∧ flagSet fiveColumns.outer_boundary_flags fiveColumns.bits.INVERT_RHS = false
      ∧ flagSet fiveColumns.outer_boundary_flags fiveColumns.bits.INVERT_SET = true
      ∧ (∀ x, fiveColumns.mesh.dx x 0 ≠ 0) ∧ fiveColumns.mesh.dz ≠ 0
      ∧ (∀ x, 0 < fiveColumns.mesh.g11 x 0) ∧ (∀ x, 0 < fiveColumns.mesh.g33 x 0)
      ∧ (∀ x, fiveColumns.mesh.g13 x 0 = 0)
      ∧ fiveColumns.all_terms = false ∧ fiveColumns.nonuniform = false
      ∧ fiveColumns.issetD = false ∧ fiveColumns.issetC = false
      ∧ fiveColumns.issetE = false
      ∧ (∀ x z, fiveColumns.A x 0 z = 0)
      ∧ (∀ x z : Int, (fun _ _ => (0 : ℚ)) x z = 0)
      ∧ (∀ x z : Int, (x < fiveColumns.mesh.xstart ∨ fiveColumns.mesh.xend < x) →
          (fun _ _ => (5 : ℚ)) x z = 5)
      ∧ AsmState.empty.MatA = matrixHistory []
      ∧ (∀ c ∈ ([] : List (Solver × Int)), c.1.mesh = fiveColumns.mesh
          ∧ c.1.Istart = fiveColumns.Istart
          ∧ c.1.fourth_order = fiveColumns.fourth_order)
      ∧ solveChecks true fiveColumns defaultConfig 0 = .ok ()
      ∧ (∀ st, solveAssemble fiveColumns 0 (fun _ _ => 0) (fun _ _ => 5) AsmState.empty
            = .ok st →
          0 < (constantKernel (configureSolver PetscLib.full GlobalBits.standard 0
              defaultConfig) st.MatA st.bs st.xs).2
            ∧ solvesRows fiveColumns st
                (constantKernel (configureSolver PetscLib.full GlobalBits.standard 0
                  defaultConfig) st.MatA st.bs st.xs).1)) ∧
    ∃ st sol, solveAssemble fiveColumns 0 (fun _ _ => 0) (fun _ _ => 5) AsmState.empty
          = .ok st
      ∧ solvesRows fiveColumns st (fun _ => 5)
      ∧ solve true PetscLib.full GlobalBits.standard constantKernel fiveColumns
          defaultConfig 0 0 (fun _ _ => 0) (fun _ _ => 5) AsmState.empty = .ok sol
      ∧ ∀ x z, 0 ≤ x → x < fiveColumns.mesh.ngx → 0 ≤ z → z < fiveColumns.meshz →
          sol x z = 5 := by
  have hex : ∀ st, solveAssemble fiveColumns 0 (fun _ _ => 0) (fun _ _ => 5)
        AsmState.empty = .ok st →
      0 < (constantKernel (configureSolver PetscLib.full GlobalBits.standard 0
          defaultConfig) st.MatA st.bs st.xs).2
        ∧ solvesRows fiveColumns st
            (constantKernel (configureSolver PetscLib.full GlobalBits.standard 0
              defaultConfig) st.MatA st.bs st.xs).1 := by
    intro st hst
    obtain ⟨hasm, hconst, _⟩ := constant_boundary_system fiveColumns 0 (fun _ _ => 0)
      (fun _ _ => 5) 5 AsmState.empty [] (by decide) (by decide) (by decide) (by decide)
      (by decide) (by decide) (by decide) (by decide) (by decide) (by decide) (by decide)
      (by decide) (by decide) (by decide) (by decide) (fun _ => one_ne_zero) one_ne_zero
      (fun _ => zero_lt_one) (fun _ => zero_lt_one) (fun _ => rfl) rfl rfl rfl rfl rfl
      (fun _ _ => rfl) (fun _ _ => rfl) (fun _ _ _ => rfl) rfl
      (fun c hc => absurd hc (List.not_mem_nil c))
    rw [Except.ok.inj (hst.symm.trans hasm)]
    exact ⟨by decide, hconst⟩
  exact ⟨⟨by decide, by decide, by decide, by decide, by decide, by decide, by decide,
      by decide, by decide, by decide, by decide, by decide, by decide, by decide,
      by decide, fun _ => one_ne_zero, one_ne_zero, fun _ => zero_lt_one,
      fun _ => zero_lt_one, fun _ => rfl, rfl, rfl, rfl, rfl, rfl, fun _ _ => rfl,
      fun _ _ => rfl, fun _ _ _ => rfl, rfl, fun c hc => absurd hc (List.not_mem_nil c),
      solveChecks_default fiveColumns (by decide!) (by decide!), hex⟩,
    exact_solve_returns_constant true PetscLib.full GlobalBits.standard constantKernel
      fiveColumns defaultConfig 0 0 (fun _ _ => 0) (fun _ _ => 5) 5 AsmState.empty []
      (by decide) (by decide) (by decide) (by decide) (by decide) (by decide) (by decide)
      (by decide) (by decide) (by decide) (by decide) (by decide) (by decide) (by decide)
      (by decide) (fun _ => one_ne_zero) one_ne_zero (fun _ => zero_lt_one)
      (fun _ => zero_lt_one) (fun _ => rfl) rfl rfl rfl rfl rfl (fun _ _ => rfl)
      (fun _ _ => rfl) (fun _ _ _ => rfl) rfl (fun c hc => absurd hc (List.not_mem_nil c))
      (solveChecks_default fiveColumns (by decide!) (by decide!)) hex⟩

/-- C6, counterexample to the claim as written. First, with `meshz = 1` and `meshz = 2`
(single partition, unit spacings, identity metric, second order, `INVERT_SET` on both
sides, `b = 0`, `x0 = 1`) z-offsets of an interior row share a column, the later
insertions overwrite the earlier ones, and the stored row applied to the constant vector
1 gives 1 (`meshz = 1`, row 1) and -1 (`meshz = 2`, row 2) while the right-hand side
is 0. Second, with `meshz = 3` (`fiveColumns`, `x0 = 5`) and the kernel that returns 5 in
every entry, which solves every owned row and reports convergence, `solve` returns a
field whose entry `(0, 3)`, with `3 = ngz - 1` inside the field, is 0 and not 5. -/
theorem constant_solution_fails_as_stated :
    (((thinPartition.meshz = 1 ∧ thinPartition.mesh.firstX = true
        ∧ thinPartition.mesh.lastX = true ∧ thinPartition.Istart ≤ 1 ∧ 1 < thinPartition.Iend)
      ∧ ∃ st, solveAssemble thinPartition 0 (fun _ _ => 0) (fun _ _ => 1) AsmState.empty
            = .ok st
          ∧ st.MatA.mulVecRow 1 (fun _ => 1) = 1 ∧ st.bs 1 = 0
          ∧ st.MatA.mulVecRow 1 (fun _ => 1) ≠ st.bs 1)
    ∧ ((twoZPoints.meshz = 2 ∧ twoZPoints.mesh.firstX = true
        ∧ twoZPoints.mesh.lastX = true ∧ twoZPoints.Istart ≤ 2 ∧ 2 < twoZPoints.Iend)
      ∧ ∃ st, solveAssemble twoZPoints 0 (fun _ _ => 0) (fun _ _ => 1) AsmState.empty
            = .ok st
          ∧ st.MatA.mulVecRow 2 (fun _ => 1) = -1 ∧ st.bs 2 = 0
          ∧ st.MatA.mulVecRow 2 (fun _ => 1) ≠ st.bs 2))
    ∧ ((fiveColumns.meshz = 3 ∧ fiveColumns.mesh.ngz = 4
        ∧ fiveColumns.mesh.firstX = true ∧ fiveColumns.mesh.lastX = true)
      ∧ ∃ st sol, solveAssemble fiveColumns 0 (fun _ _ => 0) (fun _ _ => 5) AsmState.empty
            = .ok st
          ∧ 0 < (constantKernel (configureSolver PetscLib.full GlobalBits.standard 0
              defaultConfig) st.MatA st.bs st.xs).2
          ∧ solvesRows fiveColumns st
              (constantKernel (configureSolver PetscLib.full GlobalBits.standard 0
                defaultConfig) st.MatA st.bs st.xs).1
          ∧ solve true PetscLib.full GlobalBits.standard constantKernel fiveColumns
              defaultConfig 0 0 (fun _ _ => 0) (fun _ _ => 5) AsmState.empty = .ok sol
          ∧ sol 0 3 = 0 ∧ sol 0 3 ≠ 5) := by
  refine ⟨constant_fails_with_few_z_points, ⟨by decide, by decide, rfl, rfl⟩, ?_⟩
  obtain ⟨hasm, hconst, _⟩ := constant_boundary_system fiveColumns 0 (fun _ _ => 0)
    (fun _ _ => 5) 5 AsmState.empty [] (by decide) (by decide) (by decide) (by decide)
    (by decide) (by decide) (by decide) (by decide) (by decide) (by decide) (by decide)
    (by decide) (by decide) (by decide) (by decide) (fun _ => one_ne_zero) one_ne_zero
    (fun _ => zero_lt_one) (fun _ => zero_lt_one) (fun _ => rfl) rfl rfl rfl rfl rfl
    (fun _ _ => rfl) (fun _ _ => rfl) (fun _ _ _ => rfl) rfl
    (fun c hc => absurd hc (List.not_mem_nil c))
  have hzero : ((innerRows fiveColumns ++ interiorRows fiveColumns
      ++ outerRows fiveColumns).foldl
      (applyRow (fun i x z g => FieldPerp.set g x z ((fun _ => (5 : ℚ)) i)))
      (fun _ _ => 0)) 0 3 = 0 := by
    rw [foldl_fieldSet _ (fun _ _ => 5) _ _ (fun _ _ => rfl)]
    rw [if_neg (by decide)]
  refine ⟨_, (innerRows fiveColumns ++ interiorRows fiveColumns
      ++ outerRows fiveColumns).foldl
      (applyRow (fun i x z g => FieldPerp.set g x z ((fun _ => (5 : ℚ)) i)))
      (fun _ _ => 0), hasm, by decide, hconst, ?_, hzero, ?_⟩
  · rw [solve_of_assembled true PetscLib.full GlobalBits.standard constantKernel
      fiveColumns defaultConfig 0 0 _ _ _ _
      (solveChecks_default fiveColumns (by decide!) (by decide!)) hasm]
    rfl
  · rw [hzero]
    decide

end LaplacePetsc
